import Mathlib

/-!
# Precursor OS: physical memory manager

A shallow embedding of the physical-memory-manager core of the Precursor
kernel (32-bit x86 target) together with the properties established for it.

* `Kernel/Architecture/x86/MM/MMImpl.h`, `Kernel/MM/MM.h`: address constants
  and frame arithmetic.
* `Kernel/KCommon/KMem.h`: single-bit helpers.
* `Kernel/MM/PmmRegion.c`: the closed-interval region algebra.
* `Kernel/MM/PmmBitmapAllocator.c`: the one-bit-per-frame allocator.
* `Kernel/MM/PmmWatermarkAllocator.c`: the sliding-window bootstrap allocator.

Conventions of the embedding.

* `phys_addr_t`, `phys_size_t`, `size_t` and `uintptr_t` are 32 bits wide on
  the target; they are natural numbers here and every operation that can
  leave the 32-bit range is reduced with `u32`.
* The code is embedded as a free build (`NDEBUG`): `KDebug_assert` and
  `KDebug_assertArg` expand to nothing.
* Execution is sequential, so an `Atomic_compareAndSwap` whose compare value
  was just read from the target always succeeds, and `Lock_acquire` /
  `Lock_release` have no effect on the modelled state.
* The bitmap backing store (`size_t*`) is the list of its words.
* An `IPmmRegionList` is the finite list of regions that it yields after each
  `reset`.
* Loops are given explicit fuel; `none` means that the fuel ran out, and the
  totality lemmas show that this does not happen.
-/

namespace Precursor

/-! ## Machine words -/

/-- Reduction of a natural number to an unsigned 32-bit word. -/
def u32 (x : Nat) : Nat := x % 4294967296

/-- Conversion of a C `int` to `uint8_t`. -/
def u8OfInt (x : Int) : Nat := (x % 256).toNat

/-! ## Constants (`MMImpl.h`, `PmmBitmapAllocator.h`, `PmmWatermarkAllocator.h`) -/

/-- Maximum physical address. -/
abbrev MAX_PHYS_ADDR : Nat := 0xFFFFFFFF

/-- Page size in bytes. -/
abbrev PAGE_SIZE : Nat := 4 * 1024

/-- Number of bits for an offset within a page. -/
abbrev PAGE_BITS : Nat := 12

/-- Masks out frame number from byte offset. -/
abbrev FRAME_OFFSET_MASK : Nat := 0x00000FFF

/-- NULL constant for physical addresses. -/
abbrev PHYS_NULL : Nat := 0x00000000

/-- Number of bits per byte. -/
abbrev BITS_PER_BYTE : Nat := 8

/-- Number of bits in an element of the bitmap array (`sizeof( size_t )` is 4). -/
abbrev BITS_PER_BLOCK : Nat := BITS_PER_BYTE * 4

/-- Number of blocks per region. -/
abbrev NUM_BLOCKS : Nat := 128

/-- Size of the watermark "window" in bytes. -/
abbrev REGION_SIZE_IN_BYTES : Nat := NUM_BLOCKS * BITS_PER_BLOCK * PAGE_SIZE

/-! ## Frame arithmetic (`MM.h`) -/

/-- The nearest frame-aligned physical address at or below `paddr`:
`paddr & ~(FRAME_OFFSET_MASK)`. -/
def MM_alignToFrame (paddr : Nat) : Nat := paddr &&& (4294967295 ^^^ FRAME_OFFSET_MASK)

/-- The physical address of the frame with the given number:
`(phys_addr_t) (frameNumber << PAGE_BITS)`. -/
def MM_getFrameAddress (frameNumber : Nat) : Nat := u32 (frameNumber <<< PAGE_BITS)

/-- The number of the frame containing `paddr`: `paddr >> PAGE_BITS`. -/
def MM_getFrameNumber (paddr : Nat) : Nat := paddr >>> PAGE_BITS

/-- Whether `paddr` is aligned on a frame boundary. -/
def MM_isFrameAligned (paddr : Nat) : Bool := (paddr &&& FRAME_OFFSET_MASK) == 0

/-! ## Bit helpers (`KMem.h`) -/

/-- Sets bit `bit` of the pointer-sized `val`: `val | (1 << bit)`. -/
def KMem_bitSet (val bit : Nat) : Nat := val ||| u32 (1 <<< bit)

/-- Clears bit `bit` of the pointer-sized `val`: `val & ~(1 << bit)`. -/
def KMem_bitClear (val bit : Nat) : Nat := val &&& (4294967295 ^^^ u32 (1 <<< bit))

/-- Whether bit `bit` of the pointer-sized `val` is set: `(val & (1 << bit)) != 0`. -/
def KMem_isBitSet (val bit : Nat) : Bool := (val &&& u32 (1 <<< bit)) != 0

/-- Position of the first set bit of `val` at or above `k`, looking at no more
than `fuel` positions. -/
def lowestSetBitFrom (val : Nat) : Nat → Nat → Nat
  | 0, k => k
  | fuel + 1, k => if val.testBit k then k else lowestSetBitFrom val fuel (k + 1)

/-- Modelled from the spec: `KMem_findLowestSetBit` is only declared in
`KMem.h`; its body is not part of the sources. The header documents it as
returning a negative value when `val` is zero and otherwise the offset of the
least significant one bit of `val`. -/
def KMem_findLowestSetBit (val : Nat) : Int :=
  if val = 0 then -1 else Int.ofNat (lowestSetBitFrom val 32 0)

/-! ## `PmmBitmapAllocator` -/

/-- Fields of `PmmBitmapAllocator`; `m_bitmap` holds the words of the bitmap
array that the C field points to. -/
structure PmmBitmapAllocator where
  /-- Words of the bitmap array. -/
  m_bitmap : List Nat
  /-- Number of elements ("blocks") in the bitmap array. -/
  m_numBlocks : Nat
  /-- Position in the bitmap array where a free frame was last found. -/
  m_lastAllocatedIndex : Nat
  /-- Frame number of the first frame tracked by the allocator. -/
  m_baseFrameNumber : Nat
deriving DecidableEq, Repr

/-- Index into the bitmap array of the block containing the bit for
`frameNumber`: `(frameNumber - m_baseFrameNumber) / BITS_PER_BLOCK`. -/
def PmmBitmapAllocator_getBlockNumberForFrameNumber (this : PmmBitmapAllocator)
    (frameNumber : Nat) : Nat :=
  u32 (frameNumber + 4294967296 - this.m_baseFrameNumber) / BITS_PER_BLOCK

/-- Index of the bit within a block for `frameNumber`:
`frameNumber % BITS_PER_BLOCK`, returned as `uint8_t`. -/
def PmmBitmapAllocator_getBitInBlockForFrameNumber (frameNumber : Nat) : Nat :=
  (frameNumber % BITS_PER_BLOCK) % 256

/-- Physical address of the frame tracked by bit `bitInBlock` of block
`blockNumber`. -/
def PmmBitmapAllocator_getPhysAddrForBlockNumberAndBitInBlock (this : PmmBitmapAllocator)
    (blockNumber bitInBlock : Nat) : Nat :=
  let frameNumber := u32 (u32 (u32 (blockNumber * BITS_PER_BLOCK) + bitInBlock)
    + this.m_baseFrameNumber)
  MM_getFrameAddress frameNumber

/-- A new allocator; the bitmap space is zeroed so that every frame is
initially allocated. -/
def PmmBitmapAllocator_create (numBlocks baseAddress : Nat) : PmmBitmapAllocator :=
  { m_bitmap := List.replicate numBlocks 0
    m_lastAllocatedIndex := 0
    m_numBlocks := numBlocks
    m_baseFrameNumber := MM_getFrameNumber baseAddress }

/-- Number of frames tracked by `numBlocks` bitmap blocks. -/
def PmmBitmapAllocator_blocksToFrames (numBlocks : Nat) : Nat := u32 (numBlocks * BITS_PER_BLOCK)

/-- The `for` loop of `PmmBitmapAllocator_allocate`, entered with loop
variable `i`. The inner `while` runs its body at most once in a sequential
execution, because the compare-and-swap succeeds. -/
def PmmBitmapAllocator_allocateLoop (this : PmmBitmapAllocator) (beforeLast : Nat) :
    Nat → Nat → Option (Nat × PmmBitmapAllocator)
  | 0, _ => none
  | fuel + 1, i =>
    if i = beforeLast then some (PHYS_NULL, this)
    else
      let block := this.m_bitmap.getD i 0
      if block ≠ 0 then
        let signedBit := KMem_findLowestSetBit block
        let bit := u8OfInt signedBit
        let newBlock := KMem_bitClear block bit
        some (PmmBitmapAllocator_getPhysAddrForBlockNumberAndBitInBlock this i bit,
          { this with m_bitmap := this.m_bitmap.set i newBlock, m_lastAllocatedIndex := i })
      else PmmBitmapAllocator_allocateLoop this beforeLast fuel ((i + 1) % this.m_numBlocks)

/-- Allocation of some free frame: the returned address and the allocator
afterwards. -/
def PmmBitmapAllocator_allocate (this : PmmBitmapAllocator) :
    Option (Nat × PmmBitmapAllocator) :=
  let lastAllocatedIndex := this.m_lastAllocatedIndex
  let beforeLast := if lastAllocatedIndex = 0 then this.m_numBlocks - 1 else lastAllocatedIndex - 1
  PmmBitmapAllocator_allocateLoop this beforeLast this.m_numBlocks lastAllocatedIndex

/-- Allocation of the specific frame `frameAddr`. -/
def PmmBitmapAllocator_allocateFrame (this : PmmBitmapAllocator) (frameAddr : Nat) :
    Nat × PmmBitmapAllocator :=
  let frameNumber := MM_getFrameNumber frameAddr
  let bit := PmmBitmapAllocator_getBitInBlockForFrameNumber frameNumber
  let i := PmmBitmapAllocator_getBlockNumberForFrameNumber this frameNumber
  let block := this.m_bitmap.getD i 0
  if !KMem_isBitSet block bit then (PHYS_NULL, this)
  else
    let newBlock := KMem_bitClear block bit
    (frameAddr, { this with m_bitmap := this.m_bitmap.set i newBlock })

/-- Release of the frame `frameAddr`. -/
def PmmBitmapAllocator_free (this : PmmBitmapAllocator) (frameAddr : Nat) : PmmBitmapAllocator :=
  let frameNumber := MM_getFrameNumber frameAddr
  let bit := PmmBitmapAllocator_getBitInBlockForFrameNumber frameNumber
  let i := PmmBitmapAllocator_getBlockNumberForFrameNumber this frameNumber
  let block := this.m_bitmap.getD i 0
  let newBlock := KMem_bitSet block bit
  { this with m_bitmap := this.m_bitmap.set i newBlock }

/-! ## `PmmRegion` -/

/-- A contiguous region of physical address space, from its lowest byte
`m_base` to its highest byte `m_last`. -/
structure PmmRegion where
  /-- Lowest byte in the region. -/
  m_base : Nat
  /-- Highest byte in the region. -/
  m_last : Nat
deriving DecidableEq, Repr

/-- Length of the region in bytes: `m_last - m_base + 1`. -/
def PmmRegion_length (region : PmmRegion) : Nat :=
  u32 (u32 (region.m_last + 4294967296 - region.m_base) + 1)

/-- Whether `baseAddr` and `length` would make a valid region. -/
def PmmRegion_isValidRegion (baseAddr length : Nat) : Bool :=
  decide (length > 0) && decide (baseAddr ≤ MAX_PHYS_ADDR - (length - 1))

/-- A new region starting at `baseAddr` of length `length`. -/
def PmmRegion_create (baseAddr length : Nat) : PmmRegion :=
  { m_base := baseAddr
    m_last := u32 (baseAddr + u32 (length + 4294967296 - 1)) }

/-- Moves the region up to the next equal-sized window; the flag tells whether
it moved. -/
def PmmRegion_advance (region : PmmRegion) : Bool × PmmRegion :=
  let last := region.m_last
  if last = MAX_PHYS_ADDR then (false, region)
  else
    let newBase := u32 (last + 1)
    let length := PmmRegion_length region
    if PmmRegion_isValidRegion newBase length then
      (true, { m_base := newBase, m_last := u32 (region.m_last + length) })
    else (false, region)

/-- Address of the first byte in the region. -/
def PmmRegion_base (region : PmmRegion) : Nat := region.m_base

/-- Whether the last byte of the region is below `addr`. -/
def PmmRegion_below (region : PmmRegion) (addr : Nat) : Bool := decide (region.m_last < addr)

/-- Clips the region to `clippingRegion`; the flag tells whether the two
overlap. -/
def PmmRegion_clip (region clippingRegion : PmmRegion) : Bool × PmmRegion :=
  if PmmRegion_below region clippingRegion.m_base ||
      PmmRegion_below clippingRegion region.m_base then (false, region)
  else
    let region1 : PmmRegion :=
      if region.m_base < clippingRegion.m_base then
        { region with m_base := clippingRegion.m_base } else region
    let region2 : PmmRegion :=
      if clippingRegion.m_last < region1.m_last then
        { region1 with m_last := clippingRegion.m_last } else region1
    (true, region2)

/-- Address of the last byte in the region. -/
def PmmRegion_last (region : PmmRegion) : Nat := region.m_last

/-- Grows the region so that it begins on a page boundary and its length is a
multiple of the page size. -/
def PmmRegion_makePageAligned (region : PmmRegion) : PmmRegion :=
  let base := MM_alignToFrame region.m_base
  let lastFrameBaseAddr := MAX_PHYS_ADDR - (PAGE_SIZE - 1)
  if lastFrameBaseAddr ≤ region.m_last then { m_base := base, m_last := MAX_PHYS_ADDR }
  else
    { m_base := base
      m_last := u32 (MM_alignToFrame (u32 (region.m_last + PAGE_SIZE)) + 4294967296 - 1) }

/-! ## `PmmWatermarkAllocator` -/

/-- Fields of `PmmWatermarkAllocator`. The bitmap storage is held by the
bitmap allocator, the two region lists are the sequences they replay, and the
lock carries no state in a sequential execution. -/
structure PmmWatermarkAllocator where
  /-- Allocator that tracks the current region of physical address space. -/
  m_regionBitmapAllocator : PmmBitmapAllocator
  /-- Bounds of the current region of physical address space. -/
  m_currentRegion : PmmRegion
  /-- Physical address regions that correspond to usable RAM. -/
  m_ramList : List PmmRegion
  /-- Physical address regions that are already in use. -/
  m_reservedList : List PmmRegion
deriving DecidableEq, Repr

/-- Largest number of frame-sized steps a walk over 32-bit physical address
space can take. -/
abbrev FRAME_WALK_FUEL : Nat := 1048576

/-- The `do ... while` loop of `PmmWatermarkAllocator_allocateRegion`, entered
with the frame-sized `frameRegion`. -/
def PmmWatermarkAllocator_allocateRegionLoop (region : PmmRegion) :
    Nat → PmmRegion → PmmBitmapAllocator → Option PmmBitmapAllocator
  | 0, _, _ => none
  | fuel + 1, frameRegion, alloc =>
    let frameAddr := PmmRegion_base frameRegion
    let alloc1 :=
      if frameAddr ≠ PHYS_NULL then (PmmBitmapAllocator_allocateFrame alloc frameAddr).2
      else alloc
    match PmmRegion_advance frameRegion with
    | (false, _) => some alloc1
    | (true, frameRegion1) =>
      if !PmmRegion_below region (PmmRegion_base frameRegion1) then
        PmmWatermarkAllocator_allocateRegionLoop region fuel frameRegion1 alloc1
      else some alloc1

/-- Allocates the frames of the current region that overlap `region`; acts on
the bitmap allocator of the window `currentRegion`. -/
def PmmWatermarkAllocator_allocateRegion (alloc : PmmBitmapAllocator)
    (currentRegion region : PmmRegion) : Option PmmBitmapAllocator :=
  let region1 := PmmRegion_makePageAligned region
  match PmmRegion_clip region1 currentRegion with
  | (true, region2) =>
    let frameRegion := PmmRegion_create (PmmRegion_base region2) PAGE_SIZE
    PmmWatermarkAllocator_allocateRegionLoop region2 FRAME_WALK_FUEL frameRegion alloc
  | (false, _) => some alloc

/-- The `do ... while` loop of `PmmWatermarkAllocator_freeRegion`, entered
with the frame-sized `frameRegion`. -/
def PmmWatermarkAllocator_freeRegionLoop (region : PmmRegion) :
    Nat → PmmRegion → PmmBitmapAllocator → Option PmmBitmapAllocator
  | 0, _, _ => none
  | fuel + 1, frameRegion, alloc =>
    let frameAddr := PmmRegion_base frameRegion
    let alloc1 :=
      if frameAddr ≠ PHYS_NULL then PmmBitmapAllocator_free alloc frameAddr
      else alloc
    match PmmRegion_advance frameRegion with
    | (false, _) => some alloc1
    | (true, frameRegion1) =>
      if !PmmRegion_below region (PmmRegion_base frameRegion1) then
        PmmWatermarkAllocator_freeRegionLoop region fuel frameRegion1 alloc1
      else some alloc1

/-- Frees the frames of the current region that overlap `region`; the flag is
false exactly when `region` lies below the current region. -/
def PmmWatermarkAllocator_freeRegion (alloc : PmmBitmapAllocator)
    (currentRegion region : PmmRegion) : Option (Bool × PmmBitmapAllocator) :=
  let region1 := PmmRegion_makePageAligned region
  match PmmRegion_clip region1 currentRegion with
  | (true, region2) =>
    let frameRegion := PmmRegion_create (PmmRegion_base region2) PAGE_SIZE
    (PmmWatermarkAllocator_freeRegionLoop region2 FRAME_WALK_FUEL frameRegion alloc).map
      (fun alloc1 => (true, alloc1))
  | (false, region2) =>
    if PmmRegion_below region2 (PmmRegion_base currentRegion) then some (false, alloc)
    else some (true, alloc)

/-- The walk over the RAM list in `PmmWatermarkAllocator_initCurrentRegion`,
carrying `moreFramesAvailable`. -/
def PmmWatermarkAllocator_freeRamList (currentRegion : PmmRegion) :
    List PmmRegion → Bool → PmmBitmapAllocator → Option (Bool × PmmBitmapAllocator)
  | [], moreFramesAvailable, alloc => some (moreFramesAvailable, alloc)
  | crnt :: rest, moreFramesAvailable, alloc =>
    match PmmWatermarkAllocator_freeRegion alloc currentRegion crnt with
    | none => none
    | some (true, alloc1) => PmmWatermarkAllocator_freeRamList currentRegion rest true alloc1
    | some (false, alloc1) =>
      PmmWatermarkAllocator_freeRamList currentRegion rest moreFramesAvailable alloc1

/-- The walk over the reserved list in
`PmmWatermarkAllocator_initCurrentRegion`. -/
def PmmWatermarkAllocator_allocateReservedList (currentRegion : PmmRegion) :
    List PmmRegion → PmmBitmapAllocator → Option PmmBitmapAllocator
  | [], alloc => some alloc
  | crnt :: rest, alloc =>
    match PmmWatermarkAllocator_allocateRegion alloc currentRegion crnt with
    | none => none
    | some alloc1 => PmmWatermarkAllocator_allocateReservedList currentRegion rest alloc1

/-- Initializes the bitmap allocator for the current region; the flag tells
whether there is more memory in the current region or a later one. -/
def PmmWatermarkAllocator_initCurrentRegion (this : PmmWatermarkAllocator) :
    Option (Bool × PmmWatermarkAllocator) :=
  let alloc0 := PmmBitmapAllocator_create NUM_BLOCKS (PmmRegion_base this.m_currentRegion)
  match PmmWatermarkAllocator_freeRamList this.m_currentRegion this.m_ramList false alloc0 with
  | none => none
  | some (true, alloc1) =>
    match PmmWatermarkAllocator_allocateReservedList this.m_currentRegion
        this.m_reservedList alloc1 with
    | none => none
    | some alloc2 => some (true, { this with m_regionBitmapAllocator := alloc2 })
  | some (false, alloc1) => some (false, { this with m_regionBitmapAllocator := alloc1 })

/-- A new watermark allocator over the given RAM and reserved lists. -/
def PmmWatermarkAllocator_create (ramList reservedList : List PmmRegion) :
    Option PmmWatermarkAllocator :=
  let allocator : PmmWatermarkAllocator :=
    { m_regionBitmapAllocator := PmmBitmapAllocator_create NUM_BLOCKS 0
      m_currentRegion := PmmRegion_create 0 REGION_SIZE_IN_BYTES
      m_ramList := ramList
      m_reservedList := reservedList }
  (PmmWatermarkAllocator_initCurrentRegion allocator).map (fun r => r.2)

/-- Largest number of turns of the `while` loop of
`PmmWatermarkAllocator_allocate`: one per window of the address space, and one
more. -/
abbrev WINDOW_WALK_FUEL : Nat := 257

/-- The `while (frameAddr == PHYS_NULL)` loop of
`PmmWatermarkAllocator_allocate`. -/
def PmmWatermarkAllocator_allocateLoop :
    Nat → Nat → PmmWatermarkAllocator → Option (Nat × PmmWatermarkAllocator)
  | 0, _, _ => none
  | fuel + 1, frameAddr, lockedThis =>
    if frameAddr = PHYS_NULL then
      match PmmRegion_advance lockedThis.m_currentRegion with
      | (false, _) => some (frameAddr, lockedThis)
      | (true, region1) =>
        match PmmWatermarkAllocator_initCurrentRegion
            { lockedThis with m_currentRegion := region1 } with
        | none => none
        | some (true, this1) =>
          match PmmBitmapAllocator_allocate this1.m_regionBitmapAllocator with
          | none => none
          | some (frameAddr1, alloc1) =>
            PmmWatermarkAllocator_allocateLoop fuel frameAddr1
              { this1 with m_regionBitmapAllocator := alloc1 }
        | some (false, this1) => some (frameAddr, this1)
    else some (frameAddr, lockedThis)

/-- Allocation of a frame from the watermark allocator: the returned address
and the allocator afterwards. -/
def PmmWatermarkAllocator_allocate (this : PmmWatermarkAllocator) :
    Option (Nat × PmmWatermarkAllocator) :=
  match PmmBitmapAllocator_allocate this.m_regionBitmapAllocator with
  | none => none
  | some (frameAddr, alloc1) =>
    PmmWatermarkAllocator_allocateLoop WINDOW_WALK_FUEL frameAddr
      { this with m_regionBitmapAllocator := alloc1 }

/-- Results of `n` successive calls of `PmmWatermarkAllocator_allocate`, in
call order, and the allocator afterwards. -/
def PmmWatermarkAllocator_allocateMany :
    Nat → PmmWatermarkAllocator → Option (List Nat × PmmWatermarkAllocator)
  | 0, this => some ([], this)
  | n + 1, this =>
    match PmmWatermarkAllocator_allocate this with
    | none => none
    | some (frameAddr, this1) =>
      match PmmWatermarkAllocator_allocateMany n this1 with
      | none => none
      | some (rest, this2) => some (frameAddr :: rest, this2)

/-! ## Multiboot structures (`Multiboot.h`, `Multiboot.c`) -/

/-- Multiboot descriptor of a boot module; the module string and the
reserved word are not read by the region lists. -/
structure MBModuleInfo where
  ModStart : Nat
  ModEnd : Nat
  deriving DecidableEq, Repr

/-- Multiboot descriptor of a region of the physical address space; every
field is a 32-bit word, and `Type_` is the field `Type` of the C structure. -/
structure MBMemmapNode where
  Size : Nat
  BaseAddrLow : Nat
  BaseAddrHigh : Nat
  LengthLow : Nat
  LengthHigh : Nat
  Type_ : Nat
  deriving DecidableEq, Repr

/-- Fields of the root Multiboot information structure that the kernel reads;
pointers are 32-bit addresses. -/
structure MultibootInfo where
  MemFieldsPresent : Bool
  ModulesPresent : Bool
  MemMapPresent : Bool
  MemLower : Nat
  MemUpper : Nat
  ModsCount : Nat
  ModsAddr : Nat
  MMapLength : Nat
  MMapAddr : Nat
  deriving DecidableEq, Repr

/-- Number of bytes for a number of kilobytes (`MM_KB`, MM.h). -/
def MM_KB (kiloBytes : Nat) : Nat := u32 (kiloBytes * 1024)

/-- Number of bytes for a number of megabytes (`MM_MB`, MM.h). -/
def MM_MB (megaBytes : Nat) : Nat := u32 (u32 (megaBytes * 1024) * 1024)

/-- Physical load address of the kernel image (MMImpl.h). -/
abbrev MM_KERNEL_LOAD_PHYS_ADDR : Nat := 0x00100000

/-- Length of the region of a memory-map entry, truncated to the 32-bit
physical address space. -/
def MBMemmapNode_getAdjustedLength (node : MBMemmapNode) : Nat :=
  if node.LengthHigh ≠ 0 ∨ MAX_PHYS_ADDR - node.LengthLow < node.BaseAddrLow then
    let realLength := MAX_PHYS_ADDR - node.BaseAddrLow
    if realLength < MAX_PHYS_ADDR then u32 (realLength + 1) else realLength
  else
    node.LengthLow

/-- Address of the entry after the entry at address `node`; `mem` reads the
entry stored at an address, and `sizeof node->Size` is 4. -/
def MBMemmapNode_getNext (mem : Nat → MBMemmapNode) (node : Nat) : Nat :=
  u32 (u32 (node + 4) + (mem node).Size)

/-- Whether the address `node` lies inside the memory map of `mbInfo`. -/
def MultibootInfo_isValidMemmapNode (mbInfo : MultibootInfo) (node : Nat) : Bool :=
  if !mbInfo.MemMapPresent then false
  else
    let begin_ := mbInfo.MMapAddr
    let end_ := u32 (begin_ + mbInfo.MMapLength)
    decide (begin_ ≤ node) && decide (node < end_)

/-! ## `IPmmRegionList` -/

/-- Dispatch table of a region list over objects of type `σ`: `moveNext`
gives no result when the call does not return, `getCurrent` gives no result
when the value returned is not initialised. -/
structure IPmmRegionList_itable (σ : Type) where
  reset : σ → σ
  moveNext : σ → Option (Bool × σ)
  getCurrent : σ → Option PmmRegion

/-- Reference to an implementation of the region-list interface: the dispatch
table and the object. -/
structure IPmmRegionList (σ : Type) where
  iptr : IPmmRegionList_itable σ
  obj : σ

/-! ## `MBMemmapPmmRegionList` -/

/-- Iterator over the memory map; the current node is an address, `0` being
the null pointer. -/
structure MBMemmapPmmRegionList where
  m_currentMemmapNode : Nat
  m_mbInfo : MultibootInfo
  m_isRamList : Bool
  deriving DecidableEq, Repr

/-- Whether the current node pointer of the list is valid. -/
def MBMemmapPmmRegionList_isCurrentNodeValid (list : MBMemmapPmmRegionList) : Bool :=
  MultibootInfo_isValidMemmapNode list.m_mbInfo list.m_currentMemmapNode

/-- Reset of the memory-map list: the current node becomes null. -/
def MBMemmapPmmRegionList_reset (list : MBMemmapPmmRegionList) : MBMemmapPmmRegionList :=
  { list with m_currentMemmapNode := 0 }

/-- Bound on the iterations of the skipping loop of
`MBMemmapPmmRegionList_moveNext`: a cursor that moves up by at least the four
bytes of a size field leaves the 32-bit address space within `2^30` steps. -/
abbrev MEMMAP_WALK_FUEL : Nat := 1073741825

/-- The `while (true)` loop of `MBMemmapPmmRegionList_moveNext`: skips ahead
to a valid node of the wanted type; `none` when the fuel runs out. -/
def MBMemmapPmmRegionList_moveNextLoop (mem : Nat → MBMemmapNode) :
    Nat → MBMemmapPmmRegionList → Option (Bool × MBMemmapPmmRegionList)
  | 0, _ => none
  | fuel + 1, list =>
    if !MBMemmapPmmRegionList_isCurrentNodeValid list then some (false, list)
    else if list.m_isRamList && (mem list.m_currentMemmapNode).Type_ == 1 then
      some (true, list)
    else if !list.m_isRamList && (mem list.m_currentMemmapNode).Type_ != 1 then
      some (true, list)
    else
      MBMemmapPmmRegionList_moveNextLoop mem fuel
        { list with m_currentMemmapNode := MBMemmapNode_getNext mem list.m_currentMemmapNode }

/-- Advance of the memory-map list by one position. -/
def MBMemmapPmmRegionList_moveNext (mem : Nat → MBMemmapNode)
    (list : MBMemmapPmmRegionList) : Option (Bool × MBMemmapPmmRegionList) :=
  let memMapPresent := list.m_mbInfo.MemMapPresent
  let isReset := list.m_currentMemmapNode == 0
  let isCurrentValid := MBMemmapPmmRegionList_isCurrentNodeValid list
  if !memMapPresent || (!isCurrentValid && !isReset) then some (false, list)
  else if isReset then
    MBMemmapPmmRegionList_moveNextLoop mem MEMMAP_WALK_FUEL
      { list with m_currentMemmapNode := list.m_mbInfo.MMapAddr }
  else
    MBMemmapPmmRegionList_moveNextLoop mem MEMMAP_WALK_FUEL
      { list with m_currentMemmapNode := MBMemmapNode_getNext mem list.m_currentMemmapNode }

/-- Region of the current node of the memory-map list. -/
def MBMemmapPmmRegionList_getCurrent (mem : Nat → MBMemmapNode)
    (list : MBMemmapPmmRegionList) : Option PmmRegion :=
  some (PmmRegion_create (mem list.m_currentMemmapNode).BaseAddrLow
    (MBMemmapNode_getAdjustedLength (mem list.m_currentMemmapNode)))

/-- Dispatch table of the memory-map list. -/
def MBMemmapPmmRegionList_s_itable (mem : Nat → MBMemmapNode) :
    IPmmRegionList_itable MBMemmapPmmRegionList :=
  { reset := MBMemmapPmmRegionList_reset
    moveNext := MBMemmapPmmRegionList_moveNext mem
    getCurrent := MBMemmapPmmRegionList_getCurrent mem }

/-- New memory-map list over `mbInfo`. -/
def MBMemmapPmmRegionList_create (mbInfo : MultibootInfo) (isRamList : Bool) :
    MBMemmapPmmRegionList :=
  { m_currentMemmapNode := 0, m_mbInfo := mbInfo, m_isRamList := isRamList }

/-! ## `MBModulePmmRegionList` -/

namespace MBModulePmmRegionList_consts

/-- Iterator points past the end of the list. -/
abbrev STATE_PAST_END : Int := 0
/-- Iterator has been reset. -/
abbrev STATE_RESET : Int := 1
/-- Iterator points to the kernel image region. -/
abbrev STATE_KERNEL : Int := 2
/-- Iterator points to a module. -/
abbrev STATE_MODULE : Int := 3

end MBModulePmmRegionList_consts

/-- Iterator over the kernel image and the boot modules. -/
structure MBModulePmmRegionList where
  m_state : Int
  m_currentModuleIndex : Nat
  m_mbInfo : MultibootInfo
  deriving DecidableEq, Repr

/-- Reset of the module list. -/
def MBModulePmmRegionList_reset (list : MBModulePmmRegionList) : MBModulePmmRegionList :=
  { list with m_currentModuleIndex := 0, m_state := MBModulePmmRegionList_consts.STATE_RESET }

/-- Advance of the module list by one position. -/
def MBModulePmmRegionList_moveNext (list : MBModulePmmRegionList) :
    Option (Bool × MBModulePmmRegionList) :=
  if list.m_state = MBModulePmmRegionList_consts.STATE_PAST_END then some (false, list)
  else if list.m_state = MBModulePmmRegionList_consts.STATE_RESET then
    some (true, { list with m_state := MBModulePmmRegionList_consts.STATE_KERNEL })
  else if list.m_state = MBModulePmmRegionList_consts.STATE_KERNEL then
    if !list.m_mbInfo.ModulesPresent then
      some (false, { list with m_state := MBModulePmmRegionList_consts.STATE_PAST_END })
    else if 0 = list.m_mbInfo.ModsCount then
      some (false, { list with m_currentModuleIndex := 0,
                               m_state := MBModulePmmRegionList_consts.STATE_PAST_END })
    else
      some (true, { list with m_currentModuleIndex := 0,
                              m_state := MBModulePmmRegionList_consts.STATE_MODULE })
  else if list.m_state = MBModulePmmRegionList_consts.STATE_MODULE then
    let index := u32 (list.m_currentModuleIndex + 1)
    if index = list.m_mbInfo.ModsCount then
      some (false, { list with m_currentModuleIndex := index,
                               m_state := MBModulePmmRegionList_consts.STATE_PAST_END })
    else some (true, { list with m_currentModuleIndex := index })
  else some (false, list)

/-- Region of the current position of the module list; `BssEndPhys` is the
address of the linker symbol that ends the kernel image, `mods` reads the
module descriptor stored at an address (16 bytes each). -/
def MBModulePmmRegionList_getCurrent (BssEndPhys : Nat) (mods : Nat → MBModuleInfo)
    (list : MBModulePmmRegionList) : Option PmmRegion :=
  if list.m_state = MBModulePmmRegionList_consts.STATE_KERNEL then
    some (PmmRegion_create MM_KERNEL_LOAD_PHYS_ADDR
      (u32 (BssEndPhys + 4294967296 - MM_KERNEL_LOAD_PHYS_ADDR)))
  else if list.m_state = MBModulePmmRegionList_consts.STATE_MODULE then
    let mbModule := mods (u32 (list.m_mbInfo.ModsAddr + u32 (list.m_currentModuleIndex * 16)))
    some (PmmRegion_create mbModule.ModStart
      (u32 (mbModule.ModEnd + 4294967296 - mbModule.ModStart)))
  else none

/-- Dispatch table of the module list. -/
def MBModulePmmRegionList_s_itable (BssEndPhys : Nat) (mods : Nat → MBModuleInfo) :
    IPmmRegionList_itable MBModulePmmRegionList :=
  { reset := MBModulePmmRegionList_reset
    moveNext := MBModulePmmRegionList_moveNext
    getCurrent := MBModulePmmRegionList_getCurrent BssEndPhys mods }

/-- New module list over `mbInfo`; it must be reset before use. -/
def MBModulePmmRegionList_create (mbInfo : MultibootInfo) : MBModulePmmRegionList :=
  { m_currentModuleIndex := 0, m_mbInfo := mbInfo,
    m_state := MBModulePmmRegionList_consts.STATE_PAST_END }

/-! ## `MBMemFieldsPmmRegionList` -/

namespace MBMemFieldsPmmRegionList_consts

/-- Iterator has been reset. -/
abbrev STATE_RESET : Int := -1
/-- Iterator points at the lower-memory field. -/
abbrev STATE_LOWER : Int := STATE_RESET + 1
/-- Iterator points at the upper-memory field. -/
abbrev STATE_UPPER : Int := STATE_LOWER + 1
/-- Iterator points past the end of the list. -/
abbrev STATE_PAST_END : Int := STATE_UPPER + 1

end MBMemFieldsPmmRegionList_consts

/-- Iterator over the two memory fields of the Multiboot structure. -/
structure MBMemFieldsPmmRegionList where
  m_state : Int
  m_mbInfo : MultibootInfo
  deriving DecidableEq, Repr

/-- Reset of the memory-fields list. -/
def MBMemFieldsPmmRegionList_reset (list : MBMemFieldsPmmRegionList) :
    MBMemFieldsPmmRegionList :=
  { list with m_state := MBMemFieldsPmmRegionList_consts.STATE_RESET }

/-- Advance of the memory-fields list by one position. -/
def MBMemFieldsPmmRegionList_moveNext (list : MBMemFieldsPmmRegionList) :
    Option (Bool × MBMemFieldsPmmRegionList) :=
  if list.m_mbInfo.MemFieldsPresent then
    if list.m_state = MBMemFieldsPmmRegionList_consts.STATE_RESET ∨
        list.m_state = MBMemFieldsPmmRegionList_consts.STATE_LOWER then
      some (true, { list with m_state := list.m_state + 1 })
    else if list.m_state = MBMemFieldsPmmRegionList_consts.STATE_UPPER then
      some (false, { list with m_state := list.m_state + 1 })
    else some (false, list)
  else
    if list.m_state = MBMemFieldsPmmRegionList_consts.STATE_RESET then
      some (false, { list with m_state := MBMemFieldsPmmRegionList_consts.STATE_PAST_END })
    else some (false, list)

/-- Region of the current position of the memory-fields list. -/
def MBMemFieldsPmmRegionList_getCurrent (list : MBMemFieldsPmmRegionList) :
    Option PmmRegion :=
  if list.m_state = MBMemFieldsPmmRegionList_consts.STATE_LOWER then
    some (PmmRegion_create 0 (MM_KB list.m_mbInfo.MemLower))
  else if list.m_state = MBMemFieldsPmmRegionList_consts.STATE_UPPER then
    some (PmmRegion_create (MM_MB 1) (MM_KB list.m_mbInfo.MemUpper))
  else none

/-- Dispatch table of the memory-fields list. -/
def MBMemFieldsPmmRegionList_s_itable : IPmmRegionList_itable MBMemFieldsPmmRegionList :=
  { reset := MBMemFieldsPmmRegionList_reset
    moveNext := MBMemFieldsPmmRegionList_moveNext
    getCurrent := MBMemFieldsPmmRegionList_getCurrent }

/-- New memory-fields list over `mbInfo`; it must be reset before use. -/
def MBMemFieldsPmmRegionList_create (mbInfo : MultibootInfo) : MBMemFieldsPmmRegionList :=
  { m_mbInfo := mbInfo, m_state := MBMemFieldsPmmRegionList_consts.STATE_PAST_END }

/-! ## `ConcatPmmRegionList` -/

namespace ConcatPmmRegionList_consts

/-- Iterator has been reset. -/
abbrev STATE_RESET : Int := -1
/-- Iterator points into the first list. -/
abbrev STATE_ON_FIRST : Int := STATE_RESET + 1
/-- Iterator points into the second list. -/
abbrev STATE_ON_SECOND : Int := STATE_ON_FIRST + 1
/-- Iterator points past the end of the two lists. -/
abbrev STATE_PAST_END : Int := STATE_ON_SECOND + 1

end ConcatPmmRegionList_consts

/-- Concatenation of two region lists whose objects have types `α` and `β`. -/
structure ConcatPmmRegionList (α β : Type) where
  m_firstList : IPmmRegionList α
  m_secondList : IPmmRegionList β
  m_state : Int

/-- Reset of the concatenated list: both children are reset. -/
def ConcatPmmRegionList_reset {α β : Type} (list : ConcatPmmRegionList α β) :
    ConcatPmmRegionList α β :=
  { m_firstList := { list.m_firstList with
      obj := list.m_firstList.iptr.reset list.m_firstList.obj }
    m_secondList := { list.m_secondList with
      obj := list.m_secondList.iptr.reset list.m_secondList.obj }
    m_state := ConcatPmmRegionList_consts.STATE_RESET }

/-- Cases `STATE_ON_SECOND` and below of the switch of
`ConcatPmmRegionList_moveNext`. -/
def ConcatPmmRegionList_moveNextOnSecond {α β : Type} (list : ConcatPmmRegionList α β) :
    Option (Bool × ConcatPmmRegionList α β) :=
  match list.m_secondList.iptr.moveNext list.m_secondList.obj with
  | none => none
  | some (true, obj) =>
    some (true, { list with m_secondList := { list.m_secondList with obj := obj } })
  | some (false, obj) =>
    some (false, { list with m_secondList := { list.m_secondList with obj := obj },
                             m_state := ConcatPmmRegionList_consts.STATE_PAST_END })

/-- Cases `STATE_ON_FIRST` and below of the switch of
`ConcatPmmRegionList_moveNext`. -/
def ConcatPmmRegionList_moveNextOnFirst {α β : Type} (list : ConcatPmmRegionList α β) :
    Option (Bool × ConcatPmmRegionList α β) :=
  match list.m_firstList.iptr.moveNext list.m_firstList.obj with
  | none => none
  | some (true, obj) =>
    some (true, { list with m_firstList := { list.m_firstList with obj := obj } })
  | some (false, obj) =>
    ConcatPmmRegionList_moveNextOnSecond
      { list with m_firstList := { list.m_firstList with obj := obj },
                  m_state := ConcatPmmRegionList_consts.STATE_ON_SECOND }

/-- Advance of the concatenated list by one position. -/
def ConcatPmmRegionList_moveNext {α β : Type} (list : ConcatPmmRegionList α β) :
    Option (Bool × ConcatPmmRegionList α β) :=
  if list.m_state = ConcatPmmRegionList_consts.STATE_RESET then
    ConcatPmmRegionList_moveNextOnFirst
      { list with m_state := ConcatPmmRegionList_consts.STATE_ON_FIRST }
  else if list.m_state = ConcatPmmRegionList_consts.STATE_ON_FIRST then
    ConcatPmmRegionList_moveNextOnFirst list
  else if list.m_state = ConcatPmmRegionList_consts.STATE_ON_SECOND then
    ConcatPmmRegionList_moveNextOnSecond list
  else some (false, list)

/-- Region of the current position of the concatenated list. -/
def ConcatPmmRegionList_getCurrent {α β : Type} (list : ConcatPmmRegionList α β) :
    Option PmmRegion :=
  if list.m_state = ConcatPmmRegionList_consts.STATE_ON_FIRST then
    list.m_firstList.iptr.getCurrent list.m_firstList.obj
  else if list.m_state = ConcatPmmRegionList_consts.STATE_ON_SECOND then
    list.m_secondList.iptr.getCurrent list.m_secondList.obj
  else none

/-- Dispatch table of the concatenated list. -/
def ConcatPmmRegionList_s_itable (α β : Type) :
    IPmmRegionList_itable (ConcatPmmRegionList α β) :=
  { reset := ConcatPmmRegionList_reset
    moveNext := ConcatPmmRegionList_moveNext
    getCurrent := ConcatPmmRegionList_getCurrent }

/-- New concatenated list; it must be reset before use. -/
def ConcatPmmRegionList_create {α β : Type} (firstList : IPmmRegionList α)
    (secondList : IPmmRegionList β) : ConcatPmmRegionList α β :=
  { m_firstList := firstList, m_secondList := secondList,
    m_state := ConcatPmmRegionList_consts.STATE_PAST_END }

/-! ## Integer conversions of the 32-bit target -/

/-- The bits of a signed integer as an unsigned 32-bit word (the cast to
`uintptr_t`). -/
def uintptrOfInt (x : Int) : Nat := (x % 4294967296).toNat

/-- The value of the low `bits` bits of a word as a two's complement signed
integer (the casts to `int8_t`, `int16_t`, `int32_t` and `intptr_t`). -/
def signedOfWord (bits : Nat) (w : Nat) : Int :=
  if w % 2 ^ bits < 2 ^ (bits - 1) then Int.ofNat (w % 2 ^ bits)
  else Int.ofNat (w % 2 ^ bits) - Int.ofNat (2 ^ bits)

/-- Absolute value of a pointer-sized integer as an unsigned word
(`KMath_abs`, KMath.h); the negation wraps in 32 bits. -/
def KMath_abs (i : Int) : Nat := uintptrOfInt (if i < 0 then -i else i)

/-! ## `KString` -/

/-- Number of characters of a C string before its terminator; the string is
given by its characters, and what follows the last of them reads as the null
character. -/
def KString_length : List Nat → Nat
  | [] => 0
  | c :: str => if c = 0 then 0 else KString_length str + 1

/-! ## `ITextStream` -/

/-- Dispatch table of a text stream over objects of type `σ`. -/
structure ITextStream_itable (σ : Type) where
  write : σ → Nat → σ
  flush : σ → σ

/-- Reference to an implementation of the text-stream interface: the dispatch
table and the object. -/
structure ITextStream (σ : Type) where
  iptr : ITextStream_itable σ
  obj : σ

/-- The call `stream.iptr->write( stream.obj, c )`. -/
def ITextStream_write {σ : Type} (stream : ITextStream σ) (c : Nat) : ITextStream σ :=
  { stream with obj := stream.iptr.write stream.obj c }

/-! ## `TextWriter` -/

namespace TextWriter_consts

/-- Number of bits in a hex digit. -/
abbrev BITS_PER_HEX_DIGIT : Nat := 4
/-- Number of hex digits in a byte. -/
abbrev HEX_DIGITS_PER_BYTE : Nat := 2
/-- Maximal number of characters needed to represent 64-bit integers. -/
abbrev MAX_DECIMAL_DIGITS : Nat := 20

end TextWriter_consts

/-- Fields of a text writer over a stream with objects of type `σ`. -/
structure TextWriter (σ : Type) where
  m_stream : ITextStream σ
  m_isHexMode : Bool
  m_width : Nat
  m_leftAlign : Bool

/-- New text writer on a stream. -/
def TextWriter_create {σ : Type} (stream : ITextStream σ) : TextWriter σ :=
  { m_isHexMode := false, m_stream := stream, m_width := 0, m_leftAlign := false }

/-- Accessor of the width. -/
def TextWriter_getWidth {σ : Type} (writer : TextWriter σ) : Nat := writer.m_width

/-- Modifier of the width. -/
def TextWriter_setWidth {σ : Type} (writer : TextWriter σ) (width : Nat) : TextWriter σ :=
  { writer with m_width := width }

/-- Accessor of the hex mode. -/
def TextWriter_isHexMode {σ : Type} (writer : TextWriter σ) : Bool := writer.m_isHexMode

/-- Modifier of the hex mode. -/
def TextWriter_setHexMode {σ : Type} (writer : TextWriter σ) (isHex : Bool) : TextWriter σ :=
  { writer with m_isHexMode := isHex }

/-- Accessor of the alignment. -/
def TextWriter_isLeftAlign {σ : Type} (writer : TextWriter σ) : Bool := writer.m_leftAlign

/-- Modifier of the alignment. -/
def TextWriter_setLeftAlign {σ : Type} (writer : TextWriter σ) (leftAlign : Bool) :
    TextWriter σ :=
  { writer with m_leftAlign := leftAlign }

/-- The padding loop `for (i = n; i > 0; i--) write( ' ' )`. -/
def TextWriter_writePadding {σ : Type} (stream : ITextStream σ) : Nat → ITextStream σ
  | 0 => stream
  | i + 1 => TextWriter_writePadding (ITextStream_write stream 32) i

/-- The loop `while (*str != '\0') write( *str++ )`. -/
def TextWriter_writeChars {σ : Type} (stream : ITextStream σ) : List Nat → ITextStream σ
  | [] => stream
  | c :: str =>
    if c = 0 then stream else TextWriter_writeChars (ITextStream_write stream c) str

/-- Output of a string, padded with blanks to the width of the writer. -/
def TextWriter_writeString {σ : Type} (writer : TextWriter σ) (str : List Nat) :
    TextWriter σ :=
  let stream := writer.m_stream
  let width := writer.m_width
  let length := KString_length str
  let stream1 :=
    if !writer.m_leftAlign && decide (length < width) then
      TextWriter_writePadding stream (width - length)
    else stream
  let stream2 := TextWriter_writeChars stream1 str
  let stream3 :=
    if writer.m_leftAlign && decide (length < width) then
      TextWriter_writePadding stream2 (width - length)
    else stream2
  { writer with m_stream := stream3 }

/-- Output of a character, padded with blanks to the width of the writer. -/
def TextWriter_writeChar {σ : Type} (writer : TextWriter σ) (c : Nat) : TextWriter σ :=
  let stream := writer.m_stream
  let width := writer.m_width
  let stream1 :=
    if !writer.m_leftAlign && decide (width > 1) then
      TextWriter_writePadding stream (width - 1)
    else stream
  let stream2 := ITextStream_write stream1 c
  let stream3 :=
    if writer.m_leftAlign && decide (width > 1) then
      TextWriter_writePadding stream2 (width - 1)
    else stream2
  { writer with m_stream := stream3 }

/-- The digit loop of `TextWriter_writeHex`: it fills the buffer from the
last index down, one nibble of `val` per position, `n` positions in all. -/
def TextWriter_writeHexLoop : Nat → Nat → List Nat → List Nat
  | 0, _, hexRep => hexRep
  | n + 1, val, hexRep =>
    let nibble := (val &&& 0xF) % 256
    let c := if nibble < 10 then (nibble + 48) % 256 else (nibble - 10 + 65) % 256
    TextWriter_writeHexLoop n (val >>> TextWriter_consts.BITS_PER_HEX_DIGIT) (c :: hexRep)

/-- Output of an integer in hexadecimal, padded to `numDigits` hex digits
after the prefix `0x`. -/
def TextWriter_writeHex {σ : Type} (writer : TextWriter σ) (i numDigits : Nat) :
    TextWriter σ :=
  TextWriter_writeString writer (48 :: 120 :: TextWriter_writeHexLoop numDigits i [])

/-- The loop of `TextWriter_writeDecimal` that counts the significant digits
of `val`. -/
def TextWriter_countDigits : Nat → Nat → Nat → Nat
  | 0, _, numDigits => numDigits
  | fuel + 1, val, numDigits =>
    if val > 0 then TextWriter_countDigits fuel (val / 10) (numDigits + 1) else numDigits

/-- The digit loop of `TextWriter_writeDecimal`: it fills the buffer from the
last index down, one decimal digit of `val` per position, `n` positions in
all. -/
def TextWriter_writeDecimalLoop : Nat → Nat → List Nat → List Nat
  | 0, _, strRep => strRep
  | n + 1, val, strRep =>
    let digit := (val % 10) % 256
    let c := (digit + 48) % 256
    TextWriter_writeDecimalLoop n (val / 10) (c :: strRep)

/-- Output of an integer in decimal, with a minus sign before the digits when
`isNegative` is set. -/
def TextWriter_writeDecimal {σ : Type} (writer : TextWriter σ) (i : Nat) (isNegative : Bool) :
    TextWriter σ :=
  let numDigits :=
    if i = 0 then 1
    else TextWriter_countDigits TextWriter_consts.MAX_DECIMAL_DIGITS i 0
  let digits := TextWriter_writeDecimalLoop numDigits i []
  let strRep := if isNegative then 45 :: digits else digits
  TextWriter_writeString writer strRep

/-- Output of a pointer: always in hexadecimal, at pointer width. -/
def TextWriter_writePointer {σ : Type} (writer : TextWriter σ) (p : Nat) : TextWriter σ :=
  TextWriter_writeHex writer p (4 * TextWriter_consts.HEX_DIGITS_PER_BYTE)

/-- Output of a signed integer of `size` bytes (`TextWriter_writeInt8`,
`TextWriter_writeInt16`, `TextWriter_writeInt32` and `TextWriter_writeIntPtr`
for the sizes 1, 2, 4 and 4). -/
def TextWriter_writeSigned {σ : Type} (size : Nat) (writer : TextWriter σ) (i : Int) :
    TextWriter σ :=
  let ip := i
  if writer.m_isHexMode then
    TextWriter_writeHex writer (uintptrOfInt ip) (size * TextWriter_consts.HEX_DIGITS_PER_BYTE)
  else
    TextWriter_writeDecimal writer (KMath_abs ip) (decide (i < 0))

/-- Output of an 8-bit signed integer. -/
def TextWriter_writeInt8 {σ : Type} (writer : TextWriter σ) (i : Int) : TextWriter σ :=
  TextWriter_writeSigned 1 writer i

/-- Output of a 16-bit signed integer. -/
def TextWriter_writeInt16 {σ : Type} (writer : TextWriter σ) (i : Int) : TextWriter σ :=
  TextWriter_writeSigned 2 writer i

/-- Output of a 32-bit signed integer. -/
def TextWriter_writeInt32 {σ : Type} (writer : TextWriter σ) (i : Int) : TextWriter σ :=
  TextWriter_writeSigned 4 writer i

/-- Output of a pointer-sized signed integer. -/
def TextWriter_writeIntPtr {σ : Type} (writer : TextWriter σ) (i : Int) : TextWriter σ :=
  TextWriter_writeSigned 4 writer i

/-- Output of an unsigned integer of `size` bytes (`TextWriter_writeUInt8`,
`TextWriter_writeUInt16`, `TextWriter_writeUInt32` and
`TextWriter_writeUIntPtr` for the sizes 1, 2, 4 and 4). -/
def TextWriter_writeUnsigned {σ : Type} (size : Nat) (writer : TextWriter σ) (i : Nat) :
    TextWriter σ :=
  let uip := i
  if writer.m_isHexMode then
    TextWriter_writeHex writer uip (size * TextWriter_consts.HEX_DIGITS_PER_BYTE)
  else
    TextWriter_writeDecimal writer uip false

/-- Output of an 8-bit unsigned integer. -/
def TextWriter_writeUInt8 {σ : Type} (writer : TextWriter σ) (i : Nat) : TextWriter σ :=
  TextWriter_writeUnsigned 1 writer i

/-- Output of a 16-bit unsigned integer. -/
def TextWriter_writeUInt16 {σ : Type} (writer : TextWriter σ) (i : Nat) : TextWriter σ :=
  TextWriter_writeUnsigned 2 writer i

/-- Output of a 32-bit unsigned integer. -/
def TextWriter_writeUInt32 {σ : Type} (writer : TextWriter σ) (i : Nat) : TextWriter σ :=
  TextWriter_writeUnsigned 4 writer i

/-- Output of a pointer-sized unsigned integer. -/
def TextWriter_writeUIntPtr {σ : Type} (writer : TextWriter σ) (i : Nat) : TextWriter σ :=
  TextWriter_writeUnsigned 4 writer i

/-- Output of an object: double dispatch to its `writeTo`. -/
def TextWriter_writeObject {σ : Type} (writer : TextWriter σ)
    (writeTo : TextWriter σ → TextWriter σ) : TextWriter σ :=
  writeTo writer

/-! ## `KOut` -/

/-- Modifier of a format specifier. -/
inductive FormatSpecModifier where
  | BYTE_MODIFIER : FormatSpecModifier
  | SHORT_MODIFIER : FormatSpecModifier
  | LONG_MODIFIER : FormatSpecModifier
  | NO_MODIFIER : FormatSpecModifier
  deriving DecidableEq, Repr

/-- State accumulated by the parser of format specifiers. -/
structure FormatSpec where
  leftAlign : Bool
  modifier : FormatSpecModifier
  width : Nat
  deriving DecidableEq, Repr

/-- States of the parser of format specifiers. -/
inductive ParserState where
  | FOUND_NOTHING_STATE : ParserState
  | FOUND_PERCENT_STATE : ParserState
  | FOUND_LEFTALIGN_STATE : ParserState
  | FOUND_WIDTH_STATE : ParserState
  | FOUND_MODIFIER_STATE : ParserState
  | FINAL_STATE : ParserState
  deriving DecidableEq, Repr

/-- Classes of input characters of the parser of format specifiers. -/
inductive ParserInputChar where
  | PERCENT_CHAR : ParserInputChar
  | MINUS_CHAR : ParserInputChar
  | STAR_CHAR : ParserInputChar
  | MOD_CHAR : ParserInputChar
  | TYPE_CHAR : ParserInputChar
  | NULL_CHAR : ParserInputChar
  | NORMAL_CHAR : ParserInputChar
  deriving DecidableEq, Repr

/-- Actions taken on the transitions of the parser of format specifiers. -/
inductive ParserAction where
  | SET_LEFTALIGN_ACTION : ParserAction
  | SET_WIDTH_ACTION : ParserAction
  | SET_MODIFIER_ACTION : ParserAction
  | WRITE_OUTPUT_ACTION : ParserAction
  | WRITE_FORMAT_CHAR_ACTION : ParserAction
  | NO_ACTION : ParserAction
  | ABORT_ACTION : ParserAction
  deriving DecidableEq, Repr

/-- Entry of the state transition table. -/
structure ParserStateTransition where
  action : ParserAction
  nextState : ParserState
  deriving DecidableEq, Repr

/-- State transition table of the parser of format specifiers: the first
index is the current state, the second the class of the current character. -/
def s_parserStates : ParserState → ParserInputChar → ParserStateTransition
  | .FOUND_NOTHING_STATE, .PERCENT_CHAR => ⟨.NO_ACTION, .FOUND_PERCENT_STATE⟩
  | .FOUND_NOTHING_STATE, .MINUS_CHAR => ⟨.WRITE_FORMAT_CHAR_ACTION, .FOUND_NOTHING_STATE⟩
  | .FOUND_NOTHING_STATE, .STAR_CHAR => ⟨.WRITE_FORMAT_CHAR_ACTION, .FOUND_NOTHING_STATE⟩
  | .FOUND_NOTHING_STATE, .MOD_CHAR => ⟨.WRITE_FORMAT_CHAR_ACTION, .FOUND_NOTHING_STATE⟩
  | .FOUND_NOTHING_STATE, .TYPE_CHAR => ⟨.WRITE_FORMAT_CHAR_ACTION, .FOUND_NOTHING_STATE⟩
  | .FOUND_NOTHING_STATE, .NULL_CHAR => ⟨.NO_ACTION, .FINAL_STATE⟩
  | .FOUND_NOTHING_STATE, .NORMAL_CHAR => ⟨.WRITE_FORMAT_CHAR_ACTION, .FOUND_NOTHING_STATE⟩
  | .FOUND_PERCENT_STATE, .PERCENT_CHAR => ⟨.WRITE_FORMAT_CHAR_ACTION, .FOUND_NOTHING_STATE⟩
  | .FOUND_PERCENT_STATE, .MINUS_CHAR => ⟨.SET_LEFTALIGN_ACTION, .FOUND_LEFTALIGN_STATE⟩
  | .FOUND_PERCENT_STATE, .STAR_CHAR => ⟨.SET_WIDTH_ACTION, .FOUND_WIDTH_STATE⟩
  | .FOUND_PERCENT_STATE, .MOD_CHAR => ⟨.SET_MODIFIER_ACTION, .FOUND_MODIFIER_STATE⟩
  | .FOUND_PERCENT_STATE, .TYPE_CHAR => ⟨.WRITE_OUTPUT_ACTION, .FOUND_NOTHING_STATE⟩
  | .FOUND_PERCENT_STATE, .NULL_CHAR => ⟨.ABORT_ACTION, .FINAL_STATE⟩
  | .FOUND_PERCENT_STATE, .NORMAL_CHAR => ⟨.ABORT_ACTION, .FINAL_STATE⟩
  | .FOUND_LEFTALIGN_STATE, .PERCENT_CHAR => ⟨.ABORT_ACTION, .FINAL_STATE⟩
  | .FOUND_LEFTALIGN_STATE, .MINUS_CHAR => ⟨.ABORT_ACTION, .FINAL_STATE⟩
  | .FOUND_LEFTALIGN_STATE, .STAR_CHAR => ⟨.SET_WIDTH_ACTION, .FOUND_WIDTH_STATE⟩
  | .FOUND_LEFTALIGN_STATE, .MOD_CHAR => ⟨.SET_MODIFIER_ACTION, .FOUND_MODIFIER_STATE⟩
  | .FOUND_LEFTALIGN_STATE, .TYPE_CHAR => ⟨.WRITE_OUTPUT_ACTION, .FOUND_NOTHING_STATE⟩
  | .FOUND_LEFTALIGN_STATE, .NULL_CHAR => ⟨.ABORT_ACTION, .FINAL_STATE⟩
  | .FOUND_LEFTALIGN_STATE, .NORMAL_CHAR => ⟨.ABORT_ACTION, .FINAL_STATE⟩
  | .FOUND_WIDTH_STATE, .PERCENT_CHAR => ⟨.ABORT_ACTION, .FINAL_STATE⟩
  | .FOUND_WIDTH_STATE, .MINUS_CHAR => ⟨.ABORT_ACTION, .FINAL_STATE⟩
  | .FOUND_WIDTH_STATE, .STAR_CHAR => ⟨.ABORT_ACTION, .FINAL_STATE⟩
  | .FOUND_WIDTH_STATE, .MOD_CHAR => ⟨.SET_MODIFIER_ACTION, .FOUND_MODIFIER_STATE⟩
  | .FOUND_WIDTH_STATE, .TYPE_CHAR => ⟨.WRITE_OUTPUT_ACTION, .FOUND_NOTHING_STATE⟩
  | .FOUND_WIDTH_STATE, .NULL_CHAR => ⟨.ABORT_ACTION, .FINAL_STATE⟩
  | .FOUND_WIDTH_STATE, .NORMAL_CHAR => ⟨.ABORT_ACTION, .FINAL_STATE⟩
  | .FOUND_MODIFIER_STATE, .PERCENT_CHAR => ⟨.ABORT_ACTION, .FINAL_STATE⟩
  | .FOUND_MODIFIER_STATE, .MINUS_CHAR => ⟨.ABORT_ACTION, .FINAL_STATE⟩
  | .FOUND_MODIFIER_STATE, .STAR_CHAR => ⟨.ABORT_ACTION, .FINAL_STATE⟩
  | .FOUND_MODIFIER_STATE, .MOD_CHAR => ⟨.ABORT_ACTION, .FINAL_STATE⟩
  | .FOUND_MODIFIER_STATE, .TYPE_CHAR => ⟨.WRITE_OUTPUT_ACTION, .FOUND_NOTHING_STATE⟩
  | .FOUND_MODIFIER_STATE, .NULL_CHAR => ⟨.ABORT_ACTION, .FINAL_STATE⟩
  | .FOUND_MODIFIER_STATE, .NORMAL_CHAR => ⟨.ABORT_ACTION, .FINAL_STATE⟩
  | .FINAL_STATE, _ => ⟨.ABORT_ACTION, .FINAL_STATE⟩

/-- Class of an input character (given by its code). -/
def KOut_convertInputChar (c : Nat) : ParserInputChar :=
  if c = 37 then ParserInputChar.PERCENT_CHAR
  else if c = 45 then ParserInputChar.MINUS_CHAR
  else if c = 42 then ParserInputChar.STAR_CHAR
  else if c = 98 ∨ c = 108 ∨ c = 104 then ParserInputChar.MOD_CHAR
  else if c = 99 ∨ c = 100 ∨ c = 105 ∨ c = 115 ∨ c = 117 ∨ c = 120 ∨ c = 112 ∨ c = 79 then
    ParserInputChar.TYPE_CHAR
  else if c = 0 then ParserInputChar.NULL_CHAR
  else ParserInputChar.NORMAL_CHAR

/-- Modifier that a modifier character stands for. -/
def KOut_convertModifier (c : Nat) : FormatSpecModifier :=
  if c = 98 then FormatSpecModifier.BYTE_MODIFIER
  else if c = 104 then FormatSpecModifier.SHORT_MODIFIER
  else if c = 108 then FormatSpecModifier.LONG_MODIFIER
  else FormatSpecModifier.NO_MODIFIER

/-- A variable-length argument list: the 32-bit words that `va_arg` reads one
after the other, starting at index 0 (the words after the arguments that the
caller supplied are whatever the stack holds there). -/
abbrev va_list : Type := Nat → Nat

/-- The 32-bit word that `va_arg` returns. -/
def va_arg (args : va_list) : Nat := u32 (args 0)

/-- The argument list after one `va_arg`. -/
def va_next (args : va_list) : va_list := fun i => args (i + 1)

/-- What the arguments of a format operation point to: `strs p` is the string
stored at address `p` (its characters up to the terminator), and
`writeTo iptr obj` is the `writeTo` method of the `ITextWritable` with these
two fields. -/
structure KOut_Env (σ : Type) where
  strs : Nat → List Nat
  writeTo : Nat → Nat → TextWriter σ → TextWriter σ

/-- The switch of `KOut_writeNextArg` on the integer modifier, for the signed
types. -/
def KOut_writeSignedArg {σ : Type} (modifier : FormatSpecModifier) (writer : TextWriter σ)
    (args : va_list) : TextWriter σ × va_list :=
  match modifier with
  | FormatSpecModifier.BYTE_MODIFIER =>
    (TextWriter_writeInt8 writer (signedOfWord 8 (va_arg args)), va_next args)
  | FormatSpecModifier.SHORT_MODIFIER =>
    (TextWriter_writeInt16 writer (signedOfWord 16 (va_arg args)), va_next args)
  | FormatSpecModifier.LONG_MODIFIER =>
    (TextWriter_writeInt32 writer (signedOfWord 32 (va_arg args)), va_next args)
  | FormatSpecModifier.NO_MODIFIER =>
    (TextWriter_writeIntPtr writer (signedOfWord 32 (va_arg args)), va_next args)

/-- The switch of `KOut_writeNextArg` on the integer modifier, for the
unsigned types. -/
def KOut_writeUnsignedArg {σ : Type} (modifier : FormatSpecModifier) (writer : TextWriter σ)
    (args : va_list) : TextWriter σ × va_list :=
  match modifier with
  | FormatSpecModifier.BYTE_MODIFIER =>
    (TextWriter_writeUInt8 writer (va_arg args % 256), va_next args)
  | FormatSpecModifier.SHORT_MODIFIER =>
    (TextWriter_writeUInt16 writer (va_arg args % 65536), va_next args)
  | FormatSpecModifier.LONG_MODIFIER =>
    (TextWriter_writeUInt32 writer (va_arg args), va_next args)
  | FormatSpecModifier.NO_MODIFIER =>
    (TextWriter_writeUIntPtr writer (va_arg args), va_next args)

/-- Output of the next argument of the list with the given type and format;
the tail of the list is returned with the writer. -/
def KOut_writeNextArg {σ : Type} (env : KOut_Env σ) (typeSpecifier : Nat)
    (formatSpec : FormatSpec) (writer : TextWriter σ) (args : va_list) :
    TextWriter σ × va_list :=
  let oldHexMode := TextWriter_isHexMode writer
  let oldAlignMode := TextWriter_isLeftAlign writer
  let oldWidth := TextWriter_getWidth writer
  let writer1 := TextWriter_setHexMode writer false
  let writer2 := TextWriter_setLeftAlign writer1 formatSpec.leftAlign
  let writer3 := TextWriter_setWidth writer2 formatSpec.width
  let written : TextWriter σ × va_list :=
    if typeSpecifier = 99 then
      (TextWriter_writeChar writer3 (va_arg args % 256), va_next args)
    else if typeSpecifier = 100 ∨ typeSpecifier = 105 then
      KOut_writeSignedArg formatSpec.modifier writer3 args
    else if typeSpecifier = 115 then
      (TextWriter_writeString writer3 (env.strs (va_arg args)), va_next args)
    else if typeSpecifier = 120 then
      KOut_writeUnsignedArg formatSpec.modifier (TextWriter_setHexMode writer3 true) args
    else if typeSpecifier = 117 then
      KOut_writeUnsignedArg formatSpec.modifier writer3 args
    else if typeSpecifier = 112 then
      (TextWriter_writePointer writer3 (va_arg args), va_next args)
    else if typeSpecifier = 79 then
      (TextWriter_writeObject writer3 (env.writeTo (va_arg args) (va_arg (va_next args))),
        va_next (va_next args))
    else (writer3, args)
  let writer4 := TextWriter_setHexMode written.1 oldHexMode
  let writer5 := TextWriter_setLeftAlign writer4 oldAlignMode
  let writer6 := TextWriter_setWidth writer5 oldWidth
  (writer6, written.2)

/-- The format specification that the parser starts every specifier with. -/
def KOut_initialFormatSpec : FormatSpec :=
  { leftAlign := false, width := 0, modifier := FormatSpecModifier.NO_MODIFIER }

/-- The end of `KOut_vWriteTo` after its loop: the null character that
flushes the stream, and the result true. -/
def KOut_vWriteToEnd {σ : Type} (writer : TextWriter σ) : Bool × TextWriter σ :=
  (true, TextWriter_writeChar writer 0)

/-- The switch of the loop of `KOut_vWriteTo` on an action other than
`ABORT_ACTION`, for the current character `c`: the format specification, the
writer and the argument list afterwards. -/
def KOut_doAction {σ : Type} (env : KOut_Env σ) (action : ParserAction) (c : Nat)
    (formatSpec : FormatSpec) (writer : TextWriter σ) (args : va_list) :
    FormatSpec × TextWriter σ × va_list :=
  match action with
  | ParserAction.SET_LEFTALIGN_ACTION => ({ formatSpec with leftAlign := true }, writer, args)
  | ParserAction.SET_WIDTH_ACTION =>
    ({ formatSpec with width := va_arg args }, writer, va_next args)
  | ParserAction.SET_MODIFIER_ACTION =>
    ({ formatSpec with modifier := KOut_convertModifier c }, writer, args)
  | ParserAction.WRITE_OUTPUT_ACTION =>
    (KOut_initialFormatSpec, (KOut_writeNextArg env c formatSpec writer args).1,
      (KOut_writeNextArg env c formatSpec writer args).2)
  | ParserAction.WRITE_FORMAT_CHAR_ACTION => (formatSpec, TextWriter_writeChar writer c, args)
  | ParserAction.NO_ACTION => (formatSpec, writer, args)
  | ParserAction.ABORT_ACTION => (formatSpec, writer, args)

/-- The loop of `KOut_vWriteTo` from the character at `current`: the format
string is given by the characters from `current` on, and what follows the
last of them reads as the null character, on which every state of the table
goes to `FINAL_STATE` and the loop ends. -/
def KOut_vWriteToLoop {σ : Type} (env : KOut_Env σ) :
    ParserState → FormatSpec → TextWriter σ → va_list → List Nat → Bool × TextWriter σ
  | currentState, formatSpec, writer, args, [] =>
    let transition := s_parserStates currentState (KOut_convertInputChar 0)
    if transition.action = ParserAction.ABORT_ACTION then (false, writer)
    else KOut_vWriteToEnd (KOut_doAction env transition.action 0 formatSpec writer args).2.1
  | currentState, formatSpec, writer, args, c :: current =>
    let transition := s_parserStates currentState (KOut_convertInputChar c)
    if transition.action = ParserAction.ABORT_ACTION then (false, writer)
    else
      let done := KOut_doAction env transition.action c formatSpec writer args
      if transition.nextState = ParserState.FINAL_STATE then KOut_vWriteToEnd done.2.1
      else KOut_vWriteToLoop env transition.nextState done.1 done.2.1 done.2.2 current

/-- Formatted output to a text writer: the result and the writer
afterwards. -/
def KOut_vWriteTo {σ : Type} (env : KOut_Env σ) (writer : TextWriter σ)
    (formatString : List Nat) (args : va_list) : Bool × TextWriter σ :=
  KOut_vWriteToLoop env ParserState.FOUND_NOTHING_STATE KOut_initialFormatSpec writer args
    formatString

/-- Formatted output followed by a newline, which is written whether or not
the format string was well formed. -/
def KOut_vWriteLineTo {σ : Type} (env : KOut_Env σ) (writer : TextWriter σ)
    (formatString : List Nat) (args : va_list) : Bool × TextWriter σ :=
  let ret := KOut_vWriteTo env writer formatString args
  (ret.1, TextWriter_writeChar ret.2 10)

/-! ## `DisplayTextStream` -/

/-- Width of the display in characters (KernelDisplaySize.h). -/
abbrev KDISPLAY_NUM_COLUMNS : Nat := 80
/-- Height of the display in characters (KernelDisplaySize.h). -/
abbrev KDISPLAY_NUM_ROWS : Nat := 60

namespace DisplayTextStream_consts

/-- Number of characters buffered before flushing. -/
abbrev BUFFER_SIZE : Nat := KDISPLAY_NUM_COLUMNS * KDISPLAY_NUM_ROWS
/-- The buffer index at which the buffer is flushed. -/
abbrev BUFFER_UPPER_BOUND : Nat := BUFFER_SIZE

end DisplayTextStream_consts

/-- Modelled from the spec: the code of `KernelDisplay` is not under src/
(only `KernelDisplay.h`); the display is modelled by the characters it has
received, in order, a tab and a new line being recorded as the characters 9
and 10. -/
structure KernelDisplay where
  received : List Nat
  deriving DecidableEq, Repr

/-- Modelled from the spec: `KernelDisplay_print` (declared in
`KernelDisplay.h`) prints the first `length` characters of the buffer. -/
def KernelDisplay_print (kdisplay : KernelDisplay) (buffer : List Nat) (length : Nat) :
    KernelDisplay :=
  { received := kdisplay.received ++ buffer.take length }

/-- Modelled from the spec: `KernelDisplay_tab` (used by
`DisplayTextStream_write`, not under src/) moves the output location to the
right. -/
def KernelDisplay_tab (kdisplay : KernelDisplay) : KernelDisplay :=
  { received := kdisplay.received ++ [9] }

/-- Modelled from the spec: `KernelDisplay_newLine` (used by
`DisplayTextStream_write`, not under src/) moves to a new line. -/
def KernelDisplay_newLine (kdisplay : KernelDisplay) : KernelDisplay :=
  { received := kdisplay.received ++ [10] }

/-- Fields of the display text stream; its lock has no effect on a single
thread of execution and is left out. -/
structure DisplayTextStream where
  m_buffer : List Nat
  m_currentBufferIndex : Nat
  m_kernelDisplay : KernelDisplay
  deriving DecidableEq, Repr

/-- Flush of the display text stream: the buffered characters go to the
display and the index returns to the beginning. -/
def DisplayTextStream_flush (displayStream : DisplayTextStream) : DisplayTextStream :=
  { displayStream with
    m_kernelDisplay := KernelDisplay_print displayStream.m_kernelDisplay
      displayStream.m_buffer displayStream.m_currentBufferIndex
    m_currentBufferIndex := 0 }

/-- Write of a character to the display text stream. -/
def DisplayTextStream_write (displayStream : DisplayTextStream) (c : Nat) :
    DisplayTextStream :=
  if c = 9 then
    let flushed := DisplayTextStream_flush displayStream
    { flushed with m_kernelDisplay := KernelDisplay_tab flushed.m_kernelDisplay }
  else if c = 10 then
    let flushed := DisplayTextStream_flush displayStream
    { flushed with m_kernelDisplay := KernelDisplay_newLine flushed.m_kernelDisplay }
  else if c = 0 then DisplayTextStream_flush displayStream
  else
    let stream1 :=
      if displayStream.m_currentBufferIndex = DisplayTextStream_consts.BUFFER_UPPER_BOUND then
        DisplayTextStream_flush displayStream
      else displayStream
    { stream1 with
      m_buffer := stream1.m_buffer.set stream1.m_currentBufferIndex c
      m_currentBufferIndex := stream1.m_currentBufferIndex + 1 }

/-- The synchronized flush; on a single thread of execution the lock has no
effect. -/
def DisplayTextStream_lockedFlush (displayStream : DisplayTextStream) : DisplayTextStream :=
  DisplayTextStream_flush displayStream

/-- The synchronized write; on a single thread of execution the lock has no
effect. -/
def DisplayTextStream_lockedWrite (displayStream : DisplayTextStream) (c : Nat) :
    DisplayTextStream :=
  DisplayTextStream_write displayStream c

/-- Dispatch table of the display text stream. -/
def DisplayTextStream_s_itable : ITextStream_itable DisplayTextStream :=
  { write := DisplayTextStream_lockedWrite, flush := DisplayTextStream_lockedFlush }

/-- The display text stream after `DisplayTextStream_init` on a display. -/
def DisplayTextStream_init (kdisplay : KernelDisplay) : DisplayTextStream :=
  { m_buffer := List.replicate DisplayTextStream_consts.BUFFER_SIZE 0
    m_currentBufferIndex := 0
    m_kernelDisplay := kdisplay }

/-- Reference to the global display text stream, whose state is
`s_instance`. -/
def DisplayTextStream_getTextStream (s_instance : DisplayTextStream) :
    ITextStream DisplayTextStream :=
  { obj := s_instance, iptr := DisplayTextStream_s_itable }

/-- Formatted output to the kernel display: the result and the display text
stream afterwards. -/
def KOut_vWrite (env : KOut_Env DisplayTextStream) (s_instance : DisplayTextStream)
    (formatString : List Nat) (args : va_list) : Bool × DisplayTextStream :=
  let displayWriter := TextWriter_create (DisplayTextStream_getTextStream s_instance)
  let ret := KOut_vWriteTo env displayWriter formatString args
  (ret.1, ret.2.m_stream.obj)

/-! ## Memory of the 32-bit target -/

/-- Byte-addressed memory: the byte stored at each 32-bit address. -/
abbrev Memory : Type := Nat → Nat

/-- The byte at an address. -/
def Memory_read8 (mem : Memory) (addr : Nat) : Nat := mem (u32 addr) % 256

/-- The little-endian 32-bit word at an address. -/
def Memory_read32 (mem : Memory) (addr : Nat) : Nat :=
  Memory_read8 mem addr + 256 * Memory_read8 mem (addr + 1) +
    65536 * Memory_read8 mem (addr + 2) + 16777216 * Memory_read8 mem (addr + 3)

/-- Store of a byte at an address. -/
def Memory_write8 (mem : Memory) (addr val : Nat) : Memory :=
  fun a => if a = u32 addr then val % 256 else mem a

/-- Store of a little-endian 32-bit word at an address. -/
def Memory_write32 (mem : Memory) (addr val : Nat) : Memory :=
  Memory_write8 (Memory_write8 (Memory_write8 (Memory_write8 mem addr val)
    (addr + 1) (val / 256)) (addr + 2) (val / 65536)) (addr + 3) (val / 16777216)

/-- Whether an address is a multiple of four (KMem.h). -/
def KMem_isAligned32 (addr : Nat) : Bool := (addr &&& 3) == 0

/-- The address rounded up to a multiple of four (KMem.h). -/
def KMem_makeAligned32 (addr : Nat) : Nat := u32 (addr + 3) &&& (4294967295 ^^^ 3)

/-- Modelled from the spec: `KMem_copy` is only declared in `KMem.h` (its body
is not under src/); it copies `numBytes` bytes from `source` to `dest`, the
result being undefined by its documentation when the two regions overlap
(the model then takes every byte from the memory before the copy). -/
def KMem_copy (mem : Memory) (dest source numBytes : Nat) : Memory :=
  fun a =>
    if a < 4294967296 ∧ u32 (a + 4294967296 - u32 dest) < numBytes then
      Memory_read8 mem (source + u32 (a + 4294967296 - u32 dest))
    else mem a

/-- Modelled from the spec: `KMem_set` is only declared in `KMem.h` (its body
is not under src/); it fills `numBytes` bytes from `dest` on with `val`. -/
def KMem_set (mem : Memory) (dest val numBytes : Nat) : Memory :=
  fun a =>
    if a < 4294967296 ∧ u32 (a + 4294967296 - u32 dest) < numBytes then val % 256 else mem a

/-- Number of addresses of the 32-bit address space, plus one: the fuel of
the loops that walk through memory. -/
abbrev ADDRESS_SPACE_FUEL : Nat := 4294967297

/-- The loop of `KString_length` on a string in memory; `none` when no null
character is found in the whole address space. -/
def KString_lengthLoop (mem : Memory) : Nat → Nat → Nat → Option Nat
  | 0, _, _ => none
  | fuel + 1, str, length =>
    if Memory_read8 mem str ≠ 0 then KString_lengthLoop mem fuel (u32 (str + 1)) (u32 (length + 1))
    else some length

/-- `KString_length` on the string at address `str` of the memory. -/
def KString_lengthAt (mem : Memory) (str : Nat) : Option Nat :=
  KString_lengthLoop mem ADDRESS_SPACE_FUEL str 0

/-! ## Layout of the Multiboot structures in memory (`Multiboot.h`) -/

/-- Virtual base address of kernel space (MemImpl.h, MMImpl.h). -/
abbrev MM_KERNEL_VIRTUAL_BASE : Nat := 0xE0000000

namespace MultibootInfo_layout

/-- Size of the packed structure `MultibootInfo`. -/
abbrev sizeof : Nat := 96
/-- Offset of the word that holds the bit fields. -/
abbrev flags : Nat := 0
/-- Offset of the field `CommandLine`. -/
abbrev CommandLine : Nat := 16
/-- Offset of the field `ModsCount`. -/
abbrev ModsCount : Nat := 20
/-- Offset of the field `ModsAddr`. -/
abbrev ModsAddr : Nat := 24
/-- Offset of the field `MMapLength`. -/
abbrev MMapLength : Nat := 44
/-- Offset of the field `MMapAddr`. -/
abbrev MMapAddr : Nat := 48
/-- Bit of the bit field `CommandLinePresent`. -/
abbrev CommandLinePresent : Nat := 2
/-- Bit of the bit field `ModulesPresent`. -/
abbrev ModulesPresent : Nat := 3
/-- Bit of the bit field `MemMapPresent`. -/
abbrev MemMapPresent : Nat := 6

end MultibootInfo_layout

namespace MBModuleInfo_layout

/-- Size of the packed structure `MBModuleInfo`. -/
abbrev sizeof : Nat := 16
/-- Offset of the field `ModString`. -/
abbrev ModString : Nat := 8

end MBModuleInfo_layout

/-- The bit field `CommandLinePresent` of the structure at `mbInfo`. -/
def MultibootInfo_CommandLinePresent (mem : Memory) (mbInfo : Nat) : Bool :=
  (Memory_read32 mem (mbInfo + MultibootInfo_layout.flags)).testBit
    MultibootInfo_layout.CommandLinePresent

/-- The bit field `ModulesPresent` of the structure at `mbInfo`. -/
def MultibootInfo_ModulesPresent (mem : Memory) (mbInfo : Nat) : Bool :=
  (Memory_read32 mem (mbInfo + MultibootInfo_layout.flags)).testBit
    MultibootInfo_layout.ModulesPresent

/-- The bit field `MemMapPresent` of the structure at `mbInfo`. -/
def MultibootInfo_MemMapPresent (mem : Memory) (mbInfo : Nat) : Bool :=
  (Memory_read32 mem (mbInfo + MultibootInfo_layout.flags)).testBit
    MultibootInfo_layout.MemMapPresent

/-- The address of the module structure `mbInfo->ModsAddr + i`. -/
def MultibootInfo_module (mem : Memory) (mbInfo i : Nat) : Nat :=
  u32 (Memory_read32 mem (mbInfo + MultibootInfo_layout.ModsAddr) + MBModuleInfo_layout.sizeof * i)

/-! ## `BootLoaderInfoTranslator` -/

/-- The loop of `BootLoaderInfoTranslator_mapString` from the address `str`:
whether a terminator was found before `kEnd`, and the addresses read so far,
in order; `none` when the fuel runs out. -/
def BootLoaderInfoTranslator_mapStringLoop (mem : Memory) (kEnd : Nat) :
    Nat → Nat → List Nat → Option (Bool × List Nat)
  | 0, _, _ => none
  | fuel + 1, str, reads =>
    if Memory_read8 mem str ≠ 0 then
      if kEnd ≤ u32 (str + 1) then some (false, reads ++ [u32 str])
      else
        BootLoaderInfoTranslator_mapStringLoop mem kEnd fuel (u32 (str + 1)) (reads ++ [u32 str])
    else some (true, reads ++ [u32 str])

/-- Mapping of a null-terminated string into the kernel's virtual address
space: the virtual address of the string, or 0 (`NULL`), and the addresses
read, in order. -/
def BootLoaderInfoTranslator_mapString (mem : Memory) (strPhysAddr : Nat) :
    Option (Nat × List Nat) :=
  let KERNEL_END := MM_MB 4
  if KERNEL_END ≤ strPhysAddr then some (0, [])
  else
    let strBegin := u32 (strPhysAddr + MM_KERNEL_VIRTUAL_BASE)
    let kEnd := u32 (KERNEL_END + MM_KERNEL_VIRTUAL_BASE)
    match BootLoaderInfoTranslator_mapStringLoop mem kEnd ADDRESS_SPACE_FUEL strBegin [] with
    | none => none
    | some (found, reads) => some (if found then strBegin else 0, reads)

/-- The part of `BootLoaderInfoTranslator_mapMultibootInfo` that fixes up the
kernel command line: whether it went well, and the memory afterwards. -/
def BootLoaderInfoTranslator_mapCommandLine (mem : Memory) (mbInfo : Nat) :
    Option (Bool × Memory) :=
  if MultibootInfo_CommandLinePresent mem mbInfo ∧
      Memory_read32 mem (mbInfo + MultibootInfo_layout.CommandLine) ≠ 0 then
    match BootLoaderInfoTranslator_mapString mem
        (Memory_read32 mem (mbInfo + MultibootInfo_layout.CommandLine)) with
    | none => none
    | some (commandLine, _) =>
      if commandLine = 0 then some (false, mem)
      else some (true, Memory_write32 mem (mbInfo + MultibootInfo_layout.CommandLine) commandLine)
  else some (true, Memory_write32 mem (mbInfo + MultibootInfo_layout.CommandLine) 0)

/-- The part of `BootLoaderInfoTranslator_mapMultibootInfo` that checks and
fixes up the memory map: whether it went well, and the memory afterwards. -/
def BootLoaderInfoTranslator_mapMemMap (mem : Memory) (mbInfo : Nat) : Bool × Memory :=
  let KERNEL_END := MM_MB 4
  if MultibootInfo_MemMapPresent mem mbInfo then
    if KERNEL_END ≤ Memory_read32 mem (mbInfo + MultibootInfo_layout.MMapAddr) then (false, mem)
    else if KERNEL_END < u32 (Memory_read32 mem (mbInfo + MultibootInfo_layout.MMapAddr) +
        Memory_read32 mem (mbInfo + MultibootInfo_layout.MMapLength)) then (false, mem)
    else
      (true, Memory_write32 mem (mbInfo + MultibootInfo_layout.MMapAddr)
        (u32 (Memory_read32 mem (mbInfo + MultibootInfo_layout.MMapAddr) +
          MM_KERNEL_VIRTUAL_BASE)))
  else (true, Memory_write32 mem (mbInfo + MultibootInfo_layout.MMapAddr) 0)

/-- The loop of `BootLoaderInfoTranslator_mapMultibootInfo` over the module
names, from the index `i`: whether all names were mapped, and the memory
afterwards; `none` when the fuel runs out. -/
def BootLoaderInfoTranslator_mapModuleNames (mbInfo : Nat) :
    Nat → Nat → Memory → Option (Bool × Memory)
  | 0, _, _ => none
  | fuel + 1, i, mem =>
    if i < Memory_read32 mem (mbInfo + MultibootInfo_layout.ModsCount) then
      let module := MultibootInfo_module mem mbInfo i
      if Memory_read32 mem (module + MBModuleInfo_layout.ModString) ≠ 0 then
        match BootLoaderInfoTranslator_mapString mem
            (Memory_read32 mem (module + MBModuleInfo_layout.ModString)) with
        | none => none
        | some (modName, _) =>
          if modName = 0 then some (false, mem)
          else
            BootLoaderInfoTranslator_mapModuleNames mbInfo fuel (i + 1)
              (Memory_write32 mem (module + MBModuleInfo_layout.ModString) modName)
      else BootLoaderInfoTranslator_mapModuleNames mbInfo fuel (i + 1) mem
    else some (true, mem)

/-- The part of `BootLoaderInfoTranslator_mapMultibootInfo` that checks and
fixes up the module list and the module names: whether it went well, and the
memory afterwards. The sum `mbInfo->ModsAddr + mbInfo->ModsCount` is pointer
arithmetic on `MBModuleInfo*`, in 32 bits. -/
def BootLoaderInfoTranslator_mapModules (mem : Memory) (mbInfo : Nat) :
    Option (Bool × Memory) :=
  let KERNEL_END := MM_MB 4
  if MultibootInfo_ModulesPresent mem mbInfo then
    if KERNEL_END ≤ Memory_read32 mem (mbInfo + MultibootInfo_layout.ModsAddr) then
      some (false, mem)
    else if KERNEL_END < u32 (Memory_read32 mem (mbInfo + MultibootInfo_layout.ModsAddr) +
        MBModuleInfo_layout.sizeof *
          Memory_read32 mem (mbInfo + MultibootInfo_layout.ModsCount)) then
      some (false, mem)
    else
      BootLoaderInfoTranslator_mapModuleNames mbInfo ADDRESS_SPACE_FUEL 0
        (Memory_write32 mem (mbInfo + MultibootInfo_layout.ModsAddr)
          (u32 (Memory_read32 mem (mbInfo + MultibootInfo_layout.ModsAddr) +
            MM_KERNEL_VIRTUAL_BASE)))
  else some (true, Memory_write32 mem (mbInfo + MultibootInfo_layout.ModsAddr) 0)

/-- Mapping of the Multiboot info structure into the kernel's virtual address
space: the virtual address of the structure, or 0 (`NULL`), and the memory
afterwards. -/
def BootLoaderInfoTranslator_mapMultibootInfo (mem : Memory) (mbInfoPhysAddr : Nat) :
    Option (Nat × Memory) :=
  let KERNEL_END := MM_MB 4
  if KERNEL_END ≤ mbInfoPhysAddr then some (0, mem)
  else if KERNEL_END < u32 (mbInfoPhysAddr + MultibootInfo_layout.sizeof) then some (0, mem)
  else
    let mbInfo := u32 (mbInfoPhysAddr + MM_KERNEL_VIRTUAL_BASE)
    match BootLoaderInfoTranslator_mapCommandLine mem mbInfo with
    | none => none
    | some (false, mem1) => some (0, mem1)
    | some (true, mem1) =>
      match BootLoaderInfoTranslator_mapMemMap mem1 mbInfo with
      | (false, mem2) => some (0, mem2)
      | (true, mem2) =>
        match BootLoaderInfoTranslator_mapModules mem2 mbInfo with
        | none => none
        | some (false, mem3) => some (0, mem3)
        | some (true, mem3) => some (mbInfo, mem3)

/-- Size in bytes of the static array `s_mbInfoSpace` that holds the copy of
the Multiboot structures. -/
abbrev s_mbInfoSpace_sizeof : Nat := 1024

/-- Attempt to copy part of the Multiboot structure to the place `dest` of
the static buffer, whose address is `s_mbInfoSpace`: the first aligned place
after the copy, or 0 (`NULL`) when nothing was copied, and the memory
afterwards. -/
def BootLoaderInfoTranslator_copyStructurePart (s_mbInfoSpace : Nat) (mem : Memory)
    (dest source bytes : Nat) : Nat × Memory :=
  let mbInfoSpaceEnd := u32 (s_mbInfoSpace + s_mbInfoSpace_sizeof)
  let mbInfoSpace := dest
  let mbInfoSpaceSizeInBytes := u32 (mbInfoSpaceEnd + 4294967296 - mbInfoSpace)
  if bytes > mbInfoSpaceSizeInBytes ∨ ¬ (KMem_isAligned32 mbInfoSpace = true) then (0, mem)
  else (KMem_makeAligned32 (u32 (mbInfoSpace + bytes)), KMem_copy mem dest source bytes)

/-- The part of `BootLoaderInfoTranslator_copyMultibootInfo` that copies the
memory map: the next place in the buffer, or 0 when the copy failed, and the
memory afterwards. -/
def BootLoaderInfoTranslator_copyMemMap (s_mbInfoSpace : Nat) (mem : Memory) (dest : Nat) :
    Nat × Memory :=
  let mbInfo := s_mbInfoSpace
  if MultibootInfo_MemMapPresent mem mbInfo then
    let destBeforeCopy := dest
    let copied := BootLoaderInfoTranslator_copyStructurePart s_mbInfoSpace mem dest
      (Memory_read32 mem (mbInfo + MultibootInfo_layout.MMapAddr))
      (Memory_read32 mem (mbInfo + MultibootInfo_layout.MMapLength))
    if copied.1 = 0 then (0, copied.2)
    else
      (copied.1, Memory_write32 copied.2 (mbInfo + MultibootInfo_layout.MMapAddr) destBeforeCopy)
  else (dest, Memory_write32 mem (mbInfo + MultibootInfo_layout.MMapAddr) 0)

/-- The part of `BootLoaderInfoTranslator_copyMultibootInfo` that copies the
module list: the next place in the buffer, or 0 when the copy failed, and the
memory afterwards. The size of the list is computed in 32 bits. -/
def BootLoaderInfoTranslator_copyModuleList (s_mbInfoSpace : Nat) (mem : Memory) (dest : Nat) :
    Nat × Memory :=
  let mbInfo := s_mbInfoSpace
  if MultibootInfo_ModulesPresent mem mbInfo then
    let moduleListSizeInBytes :=
      u32 (Memory_read32 mem (mbInfo + MultibootInfo_layout.ModsCount) *
        MBModuleInfo_layout.sizeof)
    let destBeforeCopy := dest
    let copied := BootLoaderInfoTranslator_copyStructurePart s_mbInfoSpace mem dest
      (Memory_read32 mem (mbInfo + MultibootInfo_layout.ModsAddr)) moduleListSizeInBytes
    if copied.1 = 0 then (0, copied.2)
    else
      (copied.1, Memory_write32 copied.2 (mbInfo + MultibootInfo_layout.ModsAddr) destBeforeCopy)
  else (dest, Memory_write32 mem (mbInfo + MultibootInfo_layout.ModsAddr) 0)

/-- The loop of `BootLoaderInfoTranslator_copyMultibootInfo` over the module
names, from the index `i`: the next place in the buffer, or 0 when a copy
failed, and the memory afterwards; `none` when the fuel runs out or a module
name has no terminator. -/
def BootLoaderInfoTranslator_copyModuleNames (s_mbInfoSpace : Nat) :
    Nat → Nat → Nat → Memory → Option (Nat × Memory)
  | 0, _, _, _ => none
  | fuel + 1, i, dest, mem =>
    let mbInfo := s_mbInfoSpace
    if i < Memory_read32 mem (mbInfo + MultibootInfo_layout.ModsCount) then
      let module := MultibootInfo_module mem mbInfo i
      if Memory_read32 mem (module + MBModuleInfo_layout.ModString) ≠ 0 then
        match KString_lengthAt mem (Memory_read32 mem (module + MBModuleInfo_layout.ModString)) with
        | none => none
        | some len =>
          let length := u32 (len + 1)
          let destBeforeCopy := dest
          let copied := BootLoaderInfoTranslator_copyStructurePart s_mbInfoSpace mem dest
            (Memory_read32 mem (module + MBModuleInfo_layout.ModString)) length
          if copied.1 = 0 then some (0, copied.2)
          else
            BootLoaderInfoTranslator_copyModuleNames s_mbInfoSpace fuel (i + 1) copied.1
              (Memory_write32 copied.2 (module + MBModuleInfo_layout.ModString) destBeforeCopy)
      else BootLoaderInfoTranslator_copyModuleNames s_mbInfoSpace fuel (i + 1) dest mem
    else some (dest, mem)

/-- The part of `BootLoaderInfoTranslator_copyMultibootInfo` that copies the
kernel command line: the next place in the buffer, or 0 when the copy failed,
and the memory afterwards; `none` when the command line has no terminator. -/
def BootLoaderInfoTranslator_copyCommandLine (s_mbInfoSpace : Nat) (mem : Memory) (dest : Nat) :
    Option (Nat × Memory) :=
  let mbInfo := s_mbInfoSpace
  if MultibootInfo_CommandLinePresent mem mbInfo ∧
      Memory_read32 mem (mbInfo + MultibootInfo_layout.CommandLine) ≠ 0 then
    match KString_lengthAt mem (Memory_read32 mem (mbInfo + MultibootInfo_layout.CommandLine)) with
    | none => none
    | some len =>
      let length := u32 (len + 1)
      let destBeforeCopy := dest
      let copied := BootLoaderInfoTranslator_copyStructurePart s_mbInfoSpace mem dest
        (Memory_read32 mem (mbInfo + MultibootInfo_layout.CommandLine)) length
      if copied.1 = 0 then some (0, copied.2)
      else
        some (copied.1,
          Memory_write32 copied.2 (mbInfo + MultibootInfo_layout.CommandLine) destBeforeCopy)
  else some (dest, Memory_write32 mem (mbInfo + MultibootInfo_layout.CommandLine) 0)

/-- Copy of the relevant parts of the Multiboot structure at `originalMbInfo`
into the static buffer at `s_mbInfoSpace`: the address of the copy, or 0
(`NULL`), and the memory afterwards; `none` when a loop does not end. -/
def BootLoaderInfoTranslator_copyMultibootInfo (s_mbInfoSpace : Nat) (mem : Memory)
    (originalMbInfo : Nat) : Option (Nat × Memory) :=
  let mem0 := KMem_set mem s_mbInfoSpace 0 s_mbInfoSpace_sizeof
  let root := BootLoaderInfoTranslator_copyStructurePart s_mbInfoSpace mem0 s_mbInfoSpace
    originalMbInfo MultibootInfo_layout.sizeof
  if root.1 = 0 then some (0, root.2)
  else
    let mbInfo := s_mbInfoSpace
    let memMap := BootLoaderInfoTranslator_copyMemMap s_mbInfoSpace root.2 root.1
    if memMap.1 = 0 then some (0, memMap.2)
    else
      let moduleList := BootLoaderInfoTranslator_copyModuleList s_mbInfoSpace memMap.2 memMap.1
      if moduleList.1 = 0 then some (0, moduleList.2)
      else
        match (if MultibootInfo_ModulesPresent moduleList.2 mbInfo then
            BootLoaderInfoTranslator_copyModuleNames s_mbInfoSpace ADDRESS_SPACE_FUEL 0
              moduleList.1 moduleList.2
          else some moduleList) with
        | none => none
        | some names =>
          if names.1 = 0 then some (0, names.2)
          else
            match BootLoaderInfoTranslator_copyCommandLine s_mbInfoSpace names.2 names.1 with
            | none => none
            | some commandLine =>
              if commandLine.1 = 0 then some (0, commandLine.2) else some (mbInfo, commandLine.2)

/-- The boot loader information object: it holds the pointer to the Multiboot
structure that `BootLoaderInfo_init` was given (its region lists are created
from that pointer and are left out). -/
structure BootLoaderInfoStruct where
  m_mbInfo : Nat
  deriving DecidableEq, Repr

/-- Translation of the structure that the boot loader passed at the physical
address `mbInfoPhysAddr`: the boot loader information object, or `none` for
`NULL`, and the memory afterwards; the outer `none` when a loop does not
end. -/
def BootLoaderInfoTranslator_translate (s_mbInfoSpace : Nat) (mem : Memory)
    (mbInfoPhysAddr magic : Nat) : Option (Option BootLoaderInfoStruct × Memory) :=
  if magic ≠ 0x2BADB002 then some (none, mem)
  else
    match BootLoaderInfoTranslator_mapMultibootInfo mem mbInfoPhysAddr with
    | none => none
    | some mapped =>
      if mapped.1 = 0 then some (none, mapped.2)
      else
        match BootLoaderInfoTranslator_copyMultibootInfo s_mbInfoSpace mapped.2 mapped.1 with
        | none => none
        | some copied =>
          if copied.1 = 0 then some (none, copied.2)
          else some (some { m_mbInfo := copied.1 }, copied.2)

/-! ## The accesses to memory of `BootLoaderInfoTranslator_translate`

The functions of the translator once more, each with the list of its accesses
to memory, in the order of the source: one access for each read or write of a
field, of a bit field (the word `flags` that holds it), of a character, and
of the bytes that `KMem_copy`, `KMem_set` and `KString_length` go through. -/

/-- An access to memory: a read or a write of `size` bytes at the address
`addr`. -/
inductive Memory_Access where
  | read (addr size : Nat)
  | write (addr size : Nat)
  deriving DecidableEq, Repr

/-- The accesses of `BootLoaderInfoTranslator_mapString`: one read of a
character at each address it reads, in order. -/
def BootLoaderInfoTranslator_mapString_accesses (reads : List Nat) : List Memory_Access :=
  reads.map (fun addr => Memory_Access.read addr 1)

/-- The part of `BootLoaderInfoTranslator_mapMultibootInfo` that fixes up the
kernel command line, with its accesses: the test reads `CommandLinePresent`
and, when it is set, `CommandLine`; the call of `mapString` reads
`CommandLine` again, and then the characters of the string. -/
def BootLoaderInfoTranslator_mapCommandLine_traced (mem : Memory) (mbInfo : Nat) :
    Option ((Bool × Memory) × List Memory_Access) :=
  let present := [Memory_Access.read (mbInfo + MultibootInfo_layout.flags) 4]
  if MultibootInfo_CommandLinePresent mem mbInfo then
    let tested := present ++ [Memory_Access.read (mbInfo + MultibootInfo_layout.CommandLine) 4]
    if Memory_read32 mem (mbInfo + MultibootInfo_layout.CommandLine) ≠ 0 then
      match BootLoaderInfoTranslator_mapString mem
          (Memory_read32 mem (mbInfo + MultibootInfo_layout.CommandLine)) with
      | none => none
      | some (commandLine, reads) =>
        let mapped := tested ++
          [Memory_Access.read (mbInfo + MultibootInfo_layout.CommandLine) 4] ++
          BootLoaderInfoTranslator_mapString_accesses reads
        if commandLine = 0 then some ((false, mem), mapped)
        else
          some ((true,
              Memory_write32 mem (mbInfo + MultibootInfo_layout.CommandLine) commandLine),
            mapped ++ [Memory_Access.write (mbInfo + MultibootInfo_layout.CommandLine) 4])
    else
      some ((true, Memory_write32 mem (mbInfo + MultibootInfo_layout.CommandLine) 0),
        tested ++ [Memory_Access.write (mbInfo + MultibootInfo_layout.CommandLine) 4])
  else
    some ((true, Memory_write32 mem (mbInfo + MultibootInfo_layout.CommandLine) 0),
      present ++ [Memory_Access.write (mbInfo + MultibootInfo_layout.CommandLine) 4])

/-- The part of `BootLoaderInfoTranslator_mapMultibootInfo` that checks and
fixes up the memory map, with its accesses. -/
def BootLoaderInfoTranslator_mapMemMap_traced (mem : Memory) (mbInfo : Nat) :
    (Bool × Memory) × List Memory_Access :=
  let KERNEL_END := MM_MB 4
  let present := [Memory_Access.read (mbInfo + MultibootInfo_layout.flags) 4]
  if MultibootInfo_MemMapPresent mem mbInfo then
    let starts := present ++ [Memory_Access.read (mbInfo + MultibootInfo_layout.MMapAddr) 4]
    if KERNEL_END ≤ Memory_read32 mem (mbInfo + MultibootInfo_layout.MMapAddr) then
      ((false, mem), starts)
    else
      let ends := starts ++
        [Memory_Access.read (mbInfo + MultibootInfo_layout.MMapAddr) 4,
          Memory_Access.read (mbInfo + MultibootInfo_layout.MMapLength) 4]
      if KERNEL_END < u32 (Memory_read32 mem (mbInfo + MultibootInfo_layout.MMapAddr) +
          Memory_read32 mem (mbInfo + MultibootInfo_layout.MMapLength)) then ((false, mem), ends)
      else
        ((true, Memory_write32 mem (mbInfo + MultibootInfo_layout.MMapAddr)
            (u32 (Memory_read32 mem (mbInfo + MultibootInfo_layout.MMapAddr) +
              MM_KERNEL_VIRTUAL_BASE))),
          ends ++
            [Memory_Access.read (mbInfo + MultibootInfo_layout.MMapAddr) 4,
              Memory_Access.write (mbInfo + MultibootInfo_layout.MMapAddr) 4])
  else
    ((true, Memory_write32 mem (mbInfo + MultibootInfo_layout.MMapAddr) 0),
      present ++ [Memory_Access.write (mbInfo + MultibootInfo_layout.MMapAddr) 4])

/-- The loop of `BootLoaderInfoTranslator_mapMultibootInfo` over the module
names, from the index `i`, with its accesses, which follow `accesses`: the
test of the loop reads `ModsCount`, the address of the module is computed
from `ModsAddr`, the test of the name reads `ModString`, and the call of
`mapString` reads it again, and then the characters of the name. -/
def BootLoaderInfoTranslator_mapModuleNames_traced (mbInfo : Nat) :
    Nat → Nat → Memory → List Memory_Access → Option ((Bool × Memory) × List Memory_Access)
  | 0, _, _, _ => none
  | fuel + 1, i, mem, accesses =>
    let counted := accesses ++ [Memory_Access.read (mbInfo + MultibootInfo_layout.ModsCount) 4]
    if i < Memory_read32 mem (mbInfo + MultibootInfo_layout.ModsCount) then
      let module := MultibootInfo_module mem mbInfo i
      let tested := counted ++
        [Memory_Access.read (mbInfo + MultibootInfo_layout.ModsAddr) 4,
          Memory_Access.read (module + MBModuleInfo_layout.ModString) 4]
      if Memory_read32 mem (module + MBModuleInfo_layout.ModString) ≠ 0 then
        match BootLoaderInfoTranslator_mapString mem
            (Memory_read32 mem (module + MBModuleInfo_layout.ModString)) with
        | none => none
        | some (modName, reads) =>
          let mapped := tested ++
            [Memory_Access.read (module + MBModuleInfo_layout.ModString) 4] ++
            BootLoaderInfoTranslator_mapString_accesses reads
          if modName = 0 then some ((false, mem), mapped)
          else
            BootLoaderInfoTranslator_mapModuleNames_traced mbInfo fuel (i + 1)
              (Memory_write32 mem (module + MBModuleInfo_layout.ModString) modName)
              (mapped ++ [Memory_Access.write (module + MBModuleInfo_layout.ModString) 4])
      else BootLoaderInfoTranslator_mapModuleNames_traced mbInfo fuel (i + 1) mem tested
    else some ((true, mem), counted)

/-- The part of `BootLoaderInfoTranslator_mapMultibootInfo` that checks and
fixes up the module list and the module names, with its accesses. -/
def BootLoaderInfoTranslator_mapModules_traced (mem : Memory) (mbInfo : Nat) :
    Option ((Bool × Memory) × List Memory_Access) :=
  let KERNEL_END := MM_MB 4
  let present := [Memory_Access.read (mbInfo + MultibootInfo_layout.flags) 4]
  if MultibootInfo_ModulesPresent mem mbInfo then
    let starts := present ++ [Memory_Access.read (mbInfo + MultibootInfo_layout.ModsAddr) 4]
    if KERNEL_END ≤ Memory_read32 mem (mbInfo + MultibootInfo_layout.ModsAddr) then
      some ((false, mem), starts)
    else
      let ends := starts ++
        [Memory_Access.read (mbInfo + MultibootInfo_layout.ModsAddr) 4,
          Memory_Access.read (mbInfo + MultibootInfo_layout.ModsCount) 4]
      if KERNEL_END < u32 (Memory_read32 mem (mbInfo + MultibootInfo_layout.ModsAddr) +
          MBModuleInfo_layout.sizeof *
            Memory_read32 mem (mbInfo + MultibootInfo_layout.ModsCount)) then
        some ((false, mem), ends)
      else
        BootLoaderInfoTranslator_mapModuleNames_traced mbInfo ADDRESS_SPACE_FUEL 0
          (Memory_write32 mem (mbInfo + MultibootInfo_layout.ModsAddr)
            (u32 (Memory_read32 mem (mbInfo + MultibootInfo_layout.ModsAddr) +
              MM_KERNEL_VIRTUAL_BASE)))
          (ends ++
            [Memory_Access.read (mbInfo + MultibootInfo_layout.ModsAddr) 4,
              Memory_Access.write (mbInfo + MultibootInfo_layout.ModsAddr) 4])
  else
    some ((true, Memory_write32 mem (mbInfo + MultibootInfo_layout.ModsAddr) 0),
      present ++ [Memory_Access.write (mbInfo + MultibootInfo_layout.ModsAddr) 4])

/-- `BootLoaderInfoTranslator_mapMultibootInfo` with its accesses: none
before the two tests of the address of the structure, and none when one of
them fails. -/
def BootLoaderInfoTranslator_mapMultibootInfo_traced (mem : Memory) (mbInfoPhysAddr : Nat) :
    Option ((Nat × Memory) × List Memory_Access) :=
  let KERNEL_END := MM_MB 4
  if KERNEL_END ≤ mbInfoPhysAddr then some ((0, mem), [])
  else if KERNEL_END < u32 (mbInfoPhysAddr + MultibootInfo_layout.sizeof) then
    some ((0, mem), [])
  else
    let mbInfo := u32 (mbInfoPhysAddr + MM_KERNEL_VIRTUAL_BASE)
    match BootLoaderInfoTranslator_mapCommandLine_traced mem mbInfo with
    | none => none
    | some ((false, mem1), accesses1) => some ((0, mem1), accesses1)
    | some ((true, mem1), accesses1) =>
      match BootLoaderInfoTranslator_mapMemMap_traced mem1 mbInfo with
      | ((false, mem2), accesses2) => some ((0, mem2), accesses1 ++ accesses2)
      | ((true, mem2), accesses2) =>
        match BootLoaderInfoTranslator_mapModules_traced mem2 mbInfo with
        | none => none
        | some ((false, mem3), accesses3) =>
          some ((0, mem3), accesses1 ++ accesses2 ++ accesses3)
        | some ((true, mem3), accesses3) =>
          some ((mbInfo, mem3), accesses1 ++ accesses2 ++ accesses3)

/-- `BootLoaderInfoTranslator_copyStructurePart` with its accesses: those of
`KMem_copy`, a read of `bytes` bytes at `source` and a write of `bytes` bytes
at `dest`, when the copy is made. -/
def BootLoaderInfoTranslator_copyStructurePart_traced (s_mbInfoSpace : Nat) (mem : Memory)
    (dest source bytes : Nat) : (Nat × Memory) × List Memory_Access :=
  let mbInfoSpaceEnd := u32 (s_mbInfoSpace + s_mbInfoSpace_sizeof)
  let mbInfoSpace := dest
  let mbInfoSpaceSizeInBytes := u32 (mbInfoSpaceEnd + 4294967296 - mbInfoSpace)
  if bytes > mbInfoSpaceSizeInBytes ∨ ¬ (KMem_isAligned32 mbInfoSpace = true) then
    ((0, mem), [])
  else
    ((KMem_makeAligned32 (u32 (mbInfoSpace + bytes)), KMem_copy mem dest source bytes),
      [Memory_Access.read source bytes, Memory_Access.write dest bytes])

/-- The part of `BootLoaderInfoTranslator_copyMultibootInfo` that copies the
memory map, with its accesses. -/
def BootLoaderInfoTranslator_copyMemMap_traced (s_mbInfoSpace : Nat) (mem : Memory)
    (dest : Nat) : (Nat × Memory) × List Memory_Access :=
  let mbInfo := s_mbInfoSpace
  let present := [Memory_Access.read (mbInfo + MultibootInfo_layout.flags) 4]
  if MultibootInfo_MemMapPresent mem mbInfo then
    let destBeforeCopy := dest
    let copied := BootLoaderInfoTranslator_copyStructurePart_traced s_mbInfoSpace mem dest
      (Memory_read32 mem (mbInfo + MultibootInfo_layout.MMapAddr))
      (Memory_read32 mem (mbInfo + MultibootInfo_layout.MMapLength))
    let accesses := present ++
      [Memory_Access.read (mbInfo + MultibootInfo_layout.MMapAddr) 4,
        Memory_Access.read (mbInfo + MultibootInfo_layout.MMapLength) 4] ++ copied.2
    if copied.1.1 = 0 then ((0, copied.1.2), accesses)
    else
      ((copied.1.1,
          Memory_write32 copied.1.2 (mbInfo + MultibootInfo_layout.MMapAddr) destBeforeCopy),
        accesses ++ [Memory_Access.write (mbInfo + MultibootInfo_layout.MMapAddr) 4])
  else
    ((dest, Memory_write32 mem (mbInfo + MultibootInfo_layout.MMapAddr) 0),
      present ++ [Memory_Access.write (mbInfo + MultibootInfo_layout.MMapAddr) 4])

/-- The part of `BootLoaderInfoTranslator_copyMultibootInfo` that copies the
module list, with its accesses. -/
def BootLoaderInfoTranslator_copyModuleList_traced (s_mbInfoSpace : Nat) (mem : Memory)
    (dest : Nat) : (Nat × Memory) × List Memory_Access :=
  let mbInfo := s_mbInfoSpace
  let present := [Memory_Access.read (mbInfo + MultibootInfo_layout.flags) 4]
  if MultibootInfo_ModulesPresent mem mbInfo then
    let moduleListSizeInBytes :=
      u32 (Memory_read32 mem (mbInfo + MultibootInfo_layout.ModsCount) *
        MBModuleInfo_layout.sizeof)
    let destBeforeCopy := dest
    let copied := BootLoaderInfoTranslator_copyStructurePart_traced s_mbInfoSpace mem dest
      (Memory_read32 mem (mbInfo + MultibootInfo_layout.ModsAddr)) moduleListSizeInBytes
    let accesses := present ++
      [Memory_Access.read (mbInfo + MultibootInfo_layout.ModsCount) 4,
        Memory_Access.read (mbInfo + MultibootInfo_layout.ModsAddr) 4] ++ copied.2
    if copied.1.1 = 0 then ((0, copied.1.2), accesses)
    else
      ((copied.1.1,
          Memory_write32 copied.1.2 (mbInfo + MultibootInfo_layout.ModsAddr) destBeforeCopy),
        accesses ++ [Memory_Access.write (mbInfo + MultibootInfo_layout.ModsAddr) 4])
  else
    ((dest, Memory_write32 mem (mbInfo + MultibootInfo_layout.ModsAddr) 0),
      present ++ [Memory_Access.write (mbInfo + MultibootInfo_layout.ModsAddr) 4])

/-- The loop of `BootLoaderInfoTranslator_copyMultibootInfo` over the module
names, from the index `i`, with its accesses, which follow `accesses`:
`KString_length` reads the characters of the name and its terminator. -/
def BootLoaderInfoTranslator_copyModuleNames_traced (s_mbInfoSpace : Nat) :
    Nat → Nat → Nat → Memory → List Memory_Access →
      Option ((Nat × Memory) × List Memory_Access)
  | 0, _, _, _, _ => none
  | fuel + 1, i, dest, mem, accesses =>
    let mbInfo := s_mbInfoSpace
    let counted := accesses ++ [Memory_Access.read (mbInfo + MultibootInfo_layout.ModsCount) 4]
    if i < Memory_read32 mem (mbInfo + MultibootInfo_layout.ModsCount) then
      let module := MultibootInfo_module mem mbInfo i
      let tested := counted ++
        [Memory_Access.read (mbInfo + MultibootInfo_layout.ModsAddr) 4,
          Memory_Access.read (module + MBModuleInfo_layout.ModString) 4]
      if Memory_read32 mem (module + MBModuleInfo_layout.ModString) ≠ 0 then
        match KString_lengthAt mem (Memory_read32 mem (module + MBModuleInfo_layout.ModString)) with
        | none => none
        | some len =>
          let length := u32 (len + 1)
          let destBeforeCopy := dest
          let copied := BootLoaderInfoTranslator_copyStructurePart_traced s_mbInfoSpace mem dest
            (Memory_read32 mem (module + MBModuleInfo_layout.ModString)) length
          let measured := tested ++
            [Memory_Access.read (module + MBModuleInfo_layout.ModString) 4,
              Memory_Access.read (Memory_read32 mem (module + MBModuleInfo_layout.ModString))
                (len + 1),
              Memory_Access.read (module + MBModuleInfo_layout.ModString) 4] ++ copied.2
          if copied.1.1 = 0 then some ((0, copied.1.2), measured)
          else
            BootLoaderInfoTranslator_copyModuleNames_traced s_mbInfoSpace fuel (i + 1)
              copied.1.1
              (Memory_write32 copied.1.2 (module + MBModuleInfo_layout.ModString)
                destBeforeCopy)
              (measured ++ [Memory_Access.write (module + MBModuleInfo_layout.ModString) 4])
      else
        BootLoaderInfoTranslator_copyModuleNames_traced s_mbInfoSpace fuel (i + 1) dest mem
          tested
    else some ((dest, mem), counted)

/-- The part of `BootLoaderInfoTranslator_copyMultibootInfo` that copies the
kernel command line, with its accesses. -/
def BootLoaderInfoTranslator_copyCommandLine_traced (s_mbInfoSpace : Nat) (mem : Memory)
    (dest : Nat) : Option ((Nat × Memory) × List Memory_Access) :=
  let mbInfo := s_mbInfoSpace
  let present := [Memory_Access.read (mbInfo + MultibootInfo_layout.flags) 4]
  if MultibootInfo_CommandLinePresent mem mbInfo then
    let tested := present ++ [Memory_Access.read (mbInfo + MultibootInfo_layout.CommandLine) 4]
    if Memory_read32 mem (mbInfo + MultibootInfo_layout.CommandLine) ≠ 0 then
      match KString_lengthAt mem
          (Memory_read32 mem (mbInfo + MultibootInfo_layout.CommandLine)) with
      | none => none
      | some len =>
        let length := u32 (len + 1)
        let destBeforeCopy := dest
        let copied := BootLoaderInfoTranslator_copyStructurePart_traced s_mbInfoSpace mem dest
          (Memory_read32 mem (mbInfo + MultibootInfo_layout.CommandLine)) length
        let measured := tested ++
          [Memory_Access.read (mbInfo + MultibootInfo_layout.CommandLine) 4,
            Memory_Access.read (Memory_read32 mem (mbInfo + MultibootInfo_layout.CommandLine))
              (len + 1),
            Memory_Access.read (mbInfo + MultibootInfo_layout.CommandLine) 4] ++ copied.2
        if copied.1.1 = 0 then some ((0, copied.1.2), measured)
        else
          some ((copied.1.1,
              Memory_write32 copied.1.2 (mbInfo + MultibootInfo_layout.CommandLine)
                destBeforeCopy),
            measured ++ [Memory_Access.write (mbInfo + MultibootInfo_layout.CommandLine) 4])
    else
      some ((dest, Memory_write32 mem (mbInfo + MultibootInfo_layout.CommandLine) 0),
        tested ++ [Memory_Access.write (mbInfo + MultibootInfo_layout.CommandLine) 4])
  else
    some ((dest, Memory_write32 mem (mbInfo + MultibootInfo_layout.CommandLine) 0),
      present ++ [Memory_Access.write (mbInfo + MultibootInfo_layout.CommandLine) 4])

/-- `BootLoaderInfoTranslator_copyMultibootInfo` with its accesses: first the
write of `KMem_set` to the whole static buffer, then the copy of the
structure itself. -/
def BootLoaderInfoTranslator_copyMultibootInfo_traced (s_mbInfoSpace : Nat) (mem : Memory)
    (originalMbInfo : Nat) : Option ((Nat × Memory) × List Memory_Access) :=
  let mem0 := KMem_set mem s_mbInfoSpace 0 s_mbInfoSpace_sizeof
  let cleared := [Memory_Access.write s_mbInfoSpace s_mbInfoSpace_sizeof]
  let root := BootLoaderInfoTranslator_copyStructurePart_traced s_mbInfoSpace mem0 s_mbInfoSpace
    originalMbInfo MultibootInfo_layout.sizeof
  if root.1.1 = 0 then some ((0, root.1.2), cleared ++ root.2)
  else
    let mbInfo := s_mbInfoSpace
    let memMap := BootLoaderInfoTranslator_copyMemMap_traced s_mbInfoSpace root.1.2 root.1.1
    if memMap.1.1 = 0 then some ((0, memMap.1.2), cleared ++ root.2 ++ memMap.2)
    else
      let moduleList :=
        BootLoaderInfoTranslator_copyModuleList_traced s_mbInfoSpace memMap.1.2 memMap.1.1
      if moduleList.1.1 = 0 then
        some ((0, moduleList.1.2), cleared ++ root.2 ++ memMap.2 ++ moduleList.2)
      else
        let present := cleared ++ root.2 ++ memMap.2 ++ moduleList.2 ++
          [Memory_Access.read (mbInfo + MultibootInfo_layout.flags) 4]
        match (if MultibootInfo_ModulesPresent moduleList.1.2 mbInfo then
            BootLoaderInfoTranslator_copyModuleNames_traced s_mbInfoSpace ADDRESS_SPACE_FUEL 0
              moduleList.1.1 moduleList.1.2 present
          else some (moduleList.1, present)) with
        | none => none
        | some names =>
          if names.1.1 = 0 then some ((0, names.1.2), names.2)
          else
            match BootLoaderInfoTranslator_copyCommandLine_traced s_mbInfoSpace names.1.2
                names.1.1 with
            | none => none
            | some commandLine =>
              if commandLine.1.1 = 0 then some ((0, commandLine.1.2), names.2 ++ commandLine.2)
              else some ((mbInfo, commandLine.1.2), names.2 ++ commandLine.2)

/-- `BootLoaderInfoTranslator_translate` with its accesses to memory, up to
the call of `BootLoaderInfo_init`: none before the test of the magic number,
and none when that test fails. -/
def BootLoaderInfoTranslator_translate_traced (s_mbInfoSpace : Nat) (mem : Memory)
    (mbInfoPhysAddr magic : Nat) :
    Option ((Option BootLoaderInfoStruct × Memory) × List Memory_Access) :=
  if magic ≠ 0x2BADB002 then some ((none, mem), [])
  else
    match BootLoaderInfoTranslator_mapMultibootInfo_traced mem mbInfoPhysAddr with
    | none => none
    | some mapped =>
      if mapped.1.1 = 0 then some ((none, mapped.1.2), mapped.2)
      else
        match BootLoaderInfoTranslator_copyMultibootInfo_traced s_mbInfoSpace mapped.1.2
            mapped.1.1 with
        | none => none
        | some copied =>
          if copied.1.1 = 0 then some ((none, copied.1.2), mapped.2 ++ copied.2)
          else some ((some { m_mbInfo := copied.1.1 }, copied.1.2), mapped.2 ++ copied.2)

/-! ## Vocabulary of the statements -/

/-- Bit `k` of word `w` of a bitmap array. -/
def bitAt (bm : List Nat) (w k : Nat) : Bool := (bm.getD w 0).testBit k

/-- Index of the word examined by `PmmBitmapAllocator_allocate` after `d`
advances of its loop variable, which starts at the last-allocated hint. -/
def rotIndex (this : PmmBitmapAllocator) (d : Nat) : Nat :=
  (this.m_lastAllocatedIndex + d) % this.m_numBlocks

/-- State invariant of a bitmap allocator: at least one block, a bitmap array
of `m_numBlocks` 32-bit words, and a hint that indexes the array. -/
def PmmBitmapAllocator_wellFormed (this : PmmBitmapAllocator) : Prop :=
  0 < this.m_numBlocks ∧ this.m_bitmap.length = this.m_numBlocks ∧
  (∀ x ∈ this.m_bitmap, x < 4294967296) ∧ this.m_lastAllocatedIndex < this.m_numBlocks

instance (this : PmmBitmapAllocator) : Decidable (PmmBitmapAllocator_wellFormed this) := by
  unfold PmmBitmapAllocator_wellFormed
  infer_instance

/-- The managed window lies inside the 32-bit physical address space. -/
def PmmBitmapAllocator_windowFits (this : PmmBitmapAllocator) : Prop :=
  this.m_baseFrameNumber + this.m_numBlocks * BITS_PER_BLOCK ≤ 1048576

instance (this : PmmBitmapAllocator) : Decidable (PmmBitmapAllocator_windowFits this) := by
  unfold PmmBitmapAllocator_windowFits
  infer_instance

/-- The allocator left behind by a successful `PmmBitmapAllocator_allocate`
that took the lowest set bit of word `i`. -/
def PmmBitmapAllocator_taken (this : PmmBitmapAllocator) (i : Nat) : PmmBitmapAllocator :=
  { this with
    m_bitmap := this.m_bitmap.set i (KMem_bitClear (this.m_bitmap.getD i 0)
      (u8OfInt (KMem_findLowestSetBit (this.m_bitmap.getD i 0))))
    m_lastAllocatedIndex := i }

/-- The address handed out by a successful `PmmBitmapAllocator_allocate` that
took the lowest set bit of word `i`. -/
def PmmBitmapAllocator_takenAddr (this : PmmBitmapAllocator) (i : Nat) : Nat :=
  PmmBitmapAllocator_getPhysAddrForBlockNumberAndBitInBlock this i
    (u8OfInt (KMem_findLowestSetBit (this.m_bitmap.getD i 0)))

/-- Data-model invariant of a region: `m_base ≤ m_last ≤ MAX_PHYS_ADDR`. -/
def PmmRegion_valid (r : PmmRegion) : Prop := r.m_base ≤ r.m_last ∧ r.m_last ≤ MAX_PHYS_ADDR

instance (r : PmmRegion) : Decidable (PmmRegion_valid r) := by
  unfold PmmRegion_valid
  infer_instance

/-- Whether the address `a` lies in the page-aligned, outward-grown form of the
region `r`, that is, in `PmmRegion_makePageAligned r`. -/
def inAligned (r : PmmRegion) (a : Nat) : Bool :=
  decide ((PmmRegion_makePageAligned r).m_base ≤ a) &&
    decide (a ≤ (PmmRegion_makePageAligned r).m_last)

/-- Address of the frame tracked by bit `j` of word `w` in the window that
starts at address `B`. -/
def winAddr (B w j : Nat) : Nat := B + (32 * w + j) * 4096

/-- The bitmap allocator `alloc` manages the watermark window that starts at
address `B`: it is well formed, has `NUM_BLOCKS` blocks, its base frame is the
frame of `B`, and `B` is a multiple of the window size with the window inside
the address space. -/
def WinAlloc (B : Nat) (alloc : PmmBitmapAllocator) : Prop :=
  PmmBitmapAllocator_wellFormed alloc ∧ alloc.m_numBlocks = 128 ∧
  alloc.m_baseFrameNumber * 4096 = B ∧ B % 16777216 = 0 ∧ B + 16777216 ≤ 4294967296

/-- Whether the frame at address `a` is one the watermark allocator may hand
out: it is not the frame at `PHYS_NULL`, it lies in the page-aligned form of
some RAM region, and it lies in the page-aligned form of no reserved region. -/
def frameAvailable (ram res : List PmmRegion) (a : Nat) : Bool :=
  decide (a ≠ PHYS_NULL) && ram.any (fun r => inAligned r a) && !res.any (fun r => inAligned r a)

/-- State invariant of a watermark allocator whose window starts at `B`: the
current region is the window `[B, B + REGION_SIZE_IN_BYTES - 1]`, the bitmap
allocator manages that window, and the regions of both lists are valid. -/
def WatermarkShape (B : Nat) (st : PmmWatermarkAllocator) : Prop :=
  st.m_currentRegion = ⟨B, B + 16777215⟩ ∧ WinAlloc B st.m_regionBitmapAllocator ∧
  (∀ r ∈ st.m_ramList, PmmRegion_valid r) ∧ (∀ r ∈ st.m_reservedList, PmmRegion_valid r)

/-- The allocator that `PhysicalMemoryManager_initStageOne` builds and the
frame count it returns. The reserved and module lists are chained by
`ConcatPmmRegionList_create`, whose iterator replays the first list and then
the second. -/
def PhysicalMemoryManager_initStageOne (ramList reservedList moduleList : List PmmRegion) :
    Option (Nat × PmmWatermarkAllocator) :=
  let highestAddr :=
    ramList.foldl (fun highestAddr crnt =>
      if PmmRegion_last crnt > highestAddr then PmmRegion_last crnt else highestAddr) 0
  let numFrames := u32 (MM_getFrameNumber highestAddr + 1)
  (PmmWatermarkAllocator_create ramList (reservedList ++ moduleList)).map
    (fun allocator => (numFrames, allocator))

/-- RAM list of end-to-end scenario 1. -/
def scenario1Ram : List PmmRegion := [⟨0x00000000, 0x0009FFFF⟩, ⟨0x00100000, 0x07FFFFFF⟩]

/-- Reserved list of end-to-end scenario 1. -/
def scenario1Reserved : List PmmRegion := [⟨0x000A0000, 0x000FFFFF⟩]

/-- Module list of end-to-end scenario 1: the kernel image. -/
def scenario1Modules : List PmmRegion := [⟨0x00100000, 0x0012FFFF⟩]

/-- Every frame that the watermark allocator `st` can still hand out lies at
or above the address `L`: the window ends at or above `L`, the words of the
bitmap below the last-allocated hint are zero, and every set bit tracks a
frame at or above `L`. -/
def WatermarkAbove (L : Nat) (st : PmmWatermarkAllocator) : Prop :=
  ∀ B, WatermarkShape B st →
    L ≤ B + 16777216 ∧
    (∀ w k, w < st.m_regionBitmapAllocator.m_lastAllocatedIndex →
      bitAt st.m_regionBitmapAllocator.m_bitmap w k = false) ∧
    (∀ w j, w < 128 → j < 32 → bitAt st.m_regionBitmapAllocator.m_bitmap w j = true →
      L ≤ winAddr B w j)

/-- RAM list of the exhaustion scenario: the single region
`[0, 4 × REGION_SIZE_IN_BYTES)`. -/
def exhaustionRam : List PmmRegion := [PmmRegion_create 0 (4 * REGION_SIZE_IN_BYTES)]

/-- State of the watermark allocator of the exhaustion scenario after it has
handed out the frames `1, ..., n`: the next frame `n + 1` lies in the current
window or is the first frame of the next one, a bit of the bitmap is set
exactly when its frame is at or above frame `n + 1` and inside the RAM region,
and the rotation from the hint reaches the word of frame `n + 1`. -/
def ExhaustAt (n : Nat) (st : PmmWatermarkAllocator) : Prop :=
  st.m_ramList = exhaustionRam ∧ st.m_reservedList = [] ∧
  ∀ B, WatermarkShape B st →
    B ≤ (n + 1) * 4096 ∧ (n + 1) * 4096 ≤ B + 16777216 ∧
    (∀ w j, w < 128 → j < 32 → bitAt st.m_regionBitmapAllocator.m_bitmap w j =
      decide ((n + 1) * 4096 ≤ winAddr B w j ∧ winAddr B w j < 67108864)) ∧
    ((n + 1) * 4096 < B + 16777216 →
      st.m_regionBitmapAllocator.m_lastAllocatedIndex ≤ (n + 1) % 4096 / 32 ∧
      (st.m_regionBitmapAllocator.m_lastAllocatedIndex = 0 → (n + 1) % 4096 / 32 < 127))

/-- State of the watermark allocator of the exhaustion scenario once nothing
is left: the window is the last one that holds RAM or a later one, and its
bitmap is empty. -/
def ExhaustDone (st : PmmWatermarkAllocator) : Prop :=
  st.m_ramList = exhaustionRam ∧ st.m_reservedList = [] ∧
  ∀ B, WatermarkShape B st →
    50331648 ≤ B ∧
    ∀ w j, w < 128 → j < 32 → bitAt st.m_regionBitmapAllocator.m_bitmap w j = false

/-! ## Vocabulary of the region and region-list statements -/

/-- Whether the byte at address `a` belongs to the region. -/
def PmmRegion_contains (r : PmmRegion) (a : Nat) : Prop := r.m_base ≤ a ∧ a ≤ r.m_last

instance (r : PmmRegion) (a : Nat) : Decidable (PmmRegion_contains r a) := by
  unfold PmmRegion_contains
  infer_instance

/-- One of the three operations that modify a region in place. -/
inductive PmmRegionOp where
  | advance : PmmRegionOp
  | clip (clippingRegion : PmmRegion) : PmmRegionOp
  | makePageAligned : PmmRegionOp
  deriving DecidableEq, Repr

/-- The region after one operation (the flag that `PmmRegion_advance` and
`PmmRegion_clip` return is dropped). -/
def PmmRegionOp_apply (region : PmmRegion) : PmmRegionOp → PmmRegion
  | PmmRegionOp.advance => (PmmRegion_advance region).2
  | PmmRegionOp.clip clippingRegion => (PmmRegion_clip region clippingRegion).2
  | PmmRegionOp.makePageAligned => PmmRegion_makePageAligned region

/-- The region after a sequence of operations, applied from left to right. -/
def PmmRegionOp_run (region : PmmRegion) (ops : List PmmRegionOp) : PmmRegion :=
  ops.foldl PmmRegionOp_apply region

/-- An operation is admissible when its clipping region, if any, is valid. -/
def PmmRegionOp_ok : PmmRegionOp → Prop
  | PmmRegionOp.clip clippingRegion => PmmRegion_valid clippingRegion
  | _ => True

instance (op : PmmRegionOp) : Decidable (PmmRegionOp_ok op) := by
  cases op <;> unfold PmmRegionOp_ok <;> infer_instance

/-- Length of a region in unbounded integers. -/
def PmmRegion_trueLength (r : PmmRegion) : Nat := r.m_last - r.m_base + 1

/-- Starting from the object `obj`, the successive `moveNext`/`getCurrent`
calls yield exactly the regions `rs`, in order, and the call of `moveNext`
after the last of them returns false. -/
def IPmmRegionList_yields {σ : Type} (iptr : IPmmRegionList_itable σ) :
    σ → List PmmRegion → Bool
  | obj, [] =>
    match iptr.moveNext obj with
    | some (false, _) => true
    | _ => false
  | obj, r :: rs =>
    match iptr.moveNext obj with
    | some (true, obj1) =>
      decide (iptr.getCurrent obj1 = some r) && IPmmRegionList_yields iptr obj1 rs
    | _ => false

/-- The entries `es` are stored end to end from address `a` up to address
`e`: each entry is followed by the next at its own address plus its `Size`
plus the four bytes of the `Size` field, and the last one ends at `e`. -/
def MBMemmap_laid (mem : Nat → MBMemmapNode) : Nat → List MBMemmapNode → Nat → Prop
  | a, [], e => a = e
  | a, n :: ns, e => mem a = n ∧ a + 4 + n.Size ≤ e ∧ MBMemmap_laid mem (a + 4 + n.Size) ns e

instance MBMemmap_laid_decidable (mem : Nat → MBMemmapNode) :
    (a : Nat) → (es : List MBMemmapNode) → (e : Nat) → Decidable (MBMemmap_laid mem a es e)
  | a, [], e => by
    unfold MBMemmap_laid
    infer_instance
  | a, n :: ns, e => by
    unfold MBMemmap_laid
    have _h := MBMemmap_laid_decidable mem (a + 4 + n.Size) ns e
    infer_instance

/-- Whether a memory-map entry describes available RAM (`Type == 1`). -/
def MBMemmapNode_isRam (node : MBMemmapNode) : Bool := node.Type_ == 1

/-- The region of a memory-map entry: it starts at `BaseAddrLow` and has the
adjusted length of the entry. -/
def MBMemmapNode_region (node : MBMemmapNode) : PmmRegion :=
  PmmRegion_create node.BaseAddrLow (MBMemmapNode_getAdjustedLength node)

/-- The 64-bit length of a memory-map entry. -/
def MBMemmapNode_fullLength (node : MBMemmapNode) : Nat :=
  node.LengthHigh * 4294967296 + node.LengthLow

/-- Memory that holds the entries `es` end to end from address `a` (and an
entry of all zeroes at every other address). -/
def MBMemmap_store : Nat → List MBMemmapNode → Nat → MBMemmapNode
  | _, [], _ => ⟨0, 0, 0, 0, 0, 0⟩
  | a, n :: ns, x => if x = a then n else MBMemmap_store (a + 4 + n.Size) ns x

/-- A Multiboot structure with a memory map of `MMapLength` bytes at
`MMapAddr` and nothing else. -/
def MultibootInfo_memmapOnly (MMapAddr MMapLength : Nat) : MultibootInfo :=
  { MemFieldsPresent := false, ModulesPresent := false, MemMapPresent := true,
    MemLower := 0, MemUpper := 0, ModsCount := 0, ModsAddr := 0,
    MMapLength := MMapLength, MMapAddr := MMapAddr }

/-- A Multiboot structure with the two memory fields and nothing else. -/
def MultibootInfo_memFieldsOnly (MemLower MemUpper : Nat) : MultibootInfo :=
  { MemFieldsPresent := true, ModulesPresent := false, MemMapPresent := false,
    MemLower := MemLower, MemUpper := MemUpper, ModsCount := 0, ModsAddr := 0,
    MMapLength := 0, MMapAddr := 0 }

/-! ## Vocabulary of the text output statements -/

/-- The stream after it has been sent the characters `cs`, one `write` each,
in order. -/
def ITextStream_writeAll {σ : Type} (stream : ITextStream σ) (cs : List Nat) :
    ITextStream σ :=
  cs.foldl ITextStream_write stream

/-- Dispatch table of a sink that records the characters it is sent. -/
def RecordingTextStream_itable : ITextStream_itable (List Nat) :=
  { write := fun sent c => sent ++ [c], flush := fun sent => sent }

/-- A sink that has been sent the characters `sent`. -/
def RecordingTextStream (sent : List Nat) : ITextStream (List Nat) :=
  { iptr := RecordingTextStream_itable, obj := sent }

/-- An argument list that holds the words `words` (and zeroes after them). -/
def va_list_of (words : List Nat) : va_list := fun i => words.getD i 0

/-- An environment in which every string pointer points to the string `str`
and every object writes nothing. -/
def KOut_Env_const (σ : Type) (str : List Nat) : KOut_Env σ :=
  { strs := fun _ => str, writeTo := fun _ _ writer => writer }

/-- The characters that a modifier is written with in a format specifier:
`b`, `h`, `l`, or nothing. -/
def KOut_modifierChars : FormatSpecModifier → List Nat
  | FormatSpecModifier.BYTE_MODIFIER => [98]
  | FormatSpecModifier.SHORT_MODIFIER => [104]
  | FormatSpecModifier.LONG_MODIFIER => [108]
  | FormatSpecModifier.NO_MODIFIER => []

/-- Whether a character is one of the types `c d i s u x p O`. -/
def KOut_isTypeChar (c : Nat) : Bool :=
  c == 99 || c == 100 || c == 105 || c == 115 || c == 117 || c == 120 || c == 112 || c == 79

/-- A piece of a well-formed format string: an ordinary character, the
escape `%%`, or a specifier `% [-] [*] [b|h|l] type`. -/
inductive KOut_FormatToken where
  | ordinary (c : Nat) : KOut_FormatToken
  | percent : KOut_FormatToken
  | specifier (leftAlign star : Bool) (modifier : FormatSpecModifier) (type : Nat) :
    KOut_FormatToken
  deriving DecidableEq, Repr

/-- An ordinary character is any character but `%` and the terminator; the
type of a specifier is one of `c d i s u x p O`. -/
def KOut_FormatToken_valid : KOut_FormatToken → Bool
  | KOut_FormatToken.ordinary c => c != 37 && c != 0
  | KOut_FormatToken.percent => true
  | KOut_FormatToken.specifier _ _ _ type => KOut_isTypeChar type

/-- The characters of a piece of a format string. -/
def KOut_FormatToken_chars : KOut_FormatToken → List Nat
  | KOut_FormatToken.ordinary c => [c]
  | KOut_FormatToken.percent => [37, 37]
  | KOut_FormatToken.specifier leftAlign star modifier type =>
    37 :: ((if leftAlign then [45] else []) ++ ((if star then [42] else []) ++
      (KOut_modifierChars modifier ++ [type])))

/-- The format string made of the pieces `toks`. -/
def KOut_FormatToken_concat (toks : List KOut_FormatToken) : List Nat :=
  (toks.map KOut_FormatToken_chars).flatten

/-- A format string is well formed when it is a concatenation of ordinary
characters, escapes `%%` and specifiers. -/
def KOut_wellFormed (formatString : List Nat) : Prop :=
  ∃ toks : List KOut_FormatToken,
    (∀ t ∈ toks, KOut_FormatToken_valid t = true) ∧ formatString = KOut_FormatToken_concat toks

/-- What one piece of a format string writes, and the arguments it leaves:
an ordinary character and the escape write one character, a specifier writes
the next argument with its own flags, after `*` has taken the width from the
argument before it. -/
def KOut_FormatToken_write {σ : Type} (env : KOut_Env σ) :
    KOut_FormatToken → TextWriter σ × va_list → TextWriter σ × va_list
  | KOut_FormatToken.ordinary c, wa => (TextWriter_writeChar wa.1 c, wa.2)
  | KOut_FormatToken.percent, wa => (TextWriter_writeChar wa.1 37, wa.2)
  | KOut_FormatToken.specifier leftAlign star modifier type, wa =>
    KOut_writeNextArg env type
      { leftAlign := leftAlign, modifier := modifier,
        width := if star then va_arg wa.2 else 0 }
      wa.1 (if star then va_next wa.2 else wa.2)

/-- What the pieces `toks` write one after the other. -/
def KOut_FormatToken_writeAll {σ : Type} (env : KOut_Env σ) (toks : List KOut_FormatToken)
    (wa : TextWriter σ × va_list) : TextWriter σ × va_list :=
  toks.foldl (fun wa t => KOut_FormatToken_write env t wa) wa

/-- Optional character `c` at the head of a string: whether it is there, and
the rest. -/
def KOut_stripChar (c : Nat) : List Nat → Bool × List Nat
  | [] => (false, [])
  | d :: rest => if d = c then (true, rest) else (false, d :: rest)

/-- Optional modifier at the head of a string, and the rest. -/
def KOut_stripModifier : List Nat → FormatSpecModifier × List Nat
  | [] => (FormatSpecModifier.NO_MODIFIER, [])
  | d :: rest =>
    if d = 98 then (FormatSpecModifier.BYTE_MODIFIER, rest)
    else if d = 104 then (FormatSpecModifier.SHORT_MODIFIER, rest)
    else if d = 108 then (FormatSpecModifier.LONG_MODIFIER, rest)
    else (FormatSpecModifier.NO_MODIFIER, d :: rest)

/-- The piece at the head of a format string and the rest of the string, if
the string starts with a piece. -/
def KOut_nextToken : List Nat → Option (KOut_FormatToken × List Nat)
  | [] => none
  | c :: rest =>
    if c = 0 then none
    else if c ≠ 37 then some (KOut_FormatToken.ordinary c, rest)
    else
      match rest with
      | [] => none
      | d :: rest1 =>
        if d = 37 then some (KOut_FormatToken.percent, rest1)
        else
          let minus := KOut_stripChar 45 rest
          let star := KOut_stripChar 42 minus.2
          let modifier := KOut_stripModifier star.2
          match modifier.2 with
          | [] => none
          | type :: rest2 =>
            if KOut_isTypeChar type then
              some (KOut_FormatToken.specifier minus.1 star.1 modifier.1 type, rest2)
            else none

/-- The decimal digits (characters `0` to `9`) of a string, read as a
number. -/
def KOut_decimalValue (cs : List Nat) : Nat :=
  cs.foldl (fun acc c => 10 * acc + (c - 48)) 0

/-- Whether a character is a decimal digit. -/
def KOut_isDecimalDigit (c : Nat) : Bool := decide (48 ≤ c) && decide (c ≤ 57)

/-- Whether a character is a hexadecimal digit `0`-`9` or `A`-`F`. -/
def KOut_isHexDigit (c : Nat) : Bool :=
  (decide (48 ≤ c) && decide (c ≤ 57)) || (decide (65 ≤ c) && decide (c ≤ 70))

/-- The hexadecimal digits of a string, read as a number. -/
def KOut_hexValue (cs : List Nat) : Nat :=
  cs.foldl (fun acc c => 16 * acc + (if c ≤ 57 then c - 48 else c - 55)) 0

/-- A decimal numeral without sign: digits only, at least one, and no leading
zero unless it is the single digit `0`. -/
def KOut_isDecimalNumeral (cs : List Nat) : Prop :=
  cs ≠ [] ∧ (∀ c ∈ cs, KOut_isDecimalDigit c = true) ∧ (cs.head? = some 48 → cs = [48])

/-- The string that `TextWriter_writeString` is to emit for the string `str`
under a width and an alignment: the string, with blanks before it or after it
up to the width. -/
def TextWriter_padded (leftAlign : Bool) (width : Nat) (str : List Nat) : List Nat :=
  if leftAlign then str ++ List.replicate (width - str.length) 32
  else List.replicate (width - str.length) 32 ++ str

/-- The characters that the display text stream holds in its buffer and has
not yet sent to the display. -/
def DisplayTextStream_pending (displayStream : DisplayTextStream) : List Nat :=
  displayStream.m_buffer.take displayStream.m_currentBufferIndex

/-! ## Vocabulary of the translator statements -/

/-- The memory that holds zero everywhere. -/
def Memory_zero : Memory := fun _ => 0

/-- The memory `mem` with the bytes `bytes` stored from the address `addr`
on. -/
def Memory_store (mem : Memory) (addr : Nat) (bytes : List Nat) : Memory :=
  fun a => if addr ≤ a ∧ a < addr + bytes.length then bytes.getD (a - addr) 0 else mem a

/-- The bytes of the memory at the `n` addresses from `addr` on. -/
def Memory_bytes (mem : Memory) (addr : Nat) (n : Nat) : List Nat :=
  (List.range n).map (fun i => Memory_read8 mem (addr + i))

/-- A memory that holds, at the physical address 0x2000, a Multiboot structure
with only a memory map present, at the physical address 0x1000 and of length
0xFFFFF000. -/
def BootLoaderInfoTranslator_wrapExample : Memory :=
  Memory_write32 (Memory_write32 (Memory_write32 Memory_zero 0xE0002000 0x40)
    (0xE0002000 + 44) 0xFFFFF000) (0xE0002000 + 48) 0x1000

/-! ## Vocabulary of the copy statements -/

/-- The address `x` rounded up to a multiple of four. -/
def BootLoaderInfoTranslator_roundUp (x : Nat) : Nat := (x + 3) / 4 * 4

/-- The memory holds at `s` a string of `len` characters followed by its
terminator. -/
def Memory_isCString (mem : Memory) (s len : Nat) : Prop :=
  (∀ j, j < len → Memory_read8 mem (s + j) ≠ 0) ∧ Memory_read8 mem (s + len) = 0

/-- The `n` bytes of `m1` from `a1` on are the `n` bytes of `m2` from `a2`
on. -/
def Memory_sameBytes (m1 : Memory) (a1 : Nat) (m2 : Memory) (a2 n : Nat) : Prop :=
  ∀ j, j < n → Memory_read8 m1 (a1 + j) = Memory_read8 m2 (a2 + j)

/-- The `n` bytes from `addr` on lie in the address space and outside the
static buffer at `S`. -/
def BootLoaderInfoTranslator_apart (S addr n : Nat) : Prop :=
  addr + n ≤ 4294967296 ∧ (addr + n ≤ S ∨ S + s_mbInfoSpace_sizeof ≤ addr)

/-- The length of the string at `s`, as `KString_length` finds it (0 when the
string has no end). -/
def Memory_strlen (mem : Memory) (s : Nat) : Nat := (KString_lengthAt mem s).getD 0

/-- The pointer `ModString` of the module structure `i` of the root at
`R`. -/
def MultibootInfo_modString (mem : Memory) (R i : Nat) : Nat :=
  Memory_read32 mem (Memory_read32 mem (R + MultibootInfo_layout.ModsAddr) +
    MBModuleInfo_layout.sizeof * i + MBModuleInfo_layout.ModString)

/-- The place of the copy of the memory map of the root at `R` in the buffer
at `S`: the tail of the buffer after the copy of the root. -/
def BootLoaderInfoTranslator_memMapPlace (S : Nat) : Nat := S + MultibootInfo_layout.sizeof

/-- The place of the copy of the module list: the tail of the buffer after
the memory map, rounded up. -/
def BootLoaderInfoTranslator_moduleListPlace (mem : Memory) (R S : Nat) : Nat :=
  if MultibootInfo_MemMapPresent mem R then
    BootLoaderInfoTranslator_roundUp (BootLoaderInfoTranslator_memMapPlace S +
      Memory_read32 mem (R + MultibootInfo_layout.MMapLength))
  else BootLoaderInfoTranslator_memMapPlace S

/-- The tail of the buffer after the module list, rounded up. -/
def BootLoaderInfoTranslator_namesStart (mem : Memory) (R S : Nat) : Nat :=
  if MultibootInfo_ModulesPresent mem R then
    BootLoaderInfoTranslator_roundUp (BootLoaderInfoTranslator_moduleListPlace mem R S +
      MBModuleInfo_layout.sizeof * Memory_read32 mem (R + MultibootInfo_layout.ModsCount))
  else BootLoaderInfoTranslator_moduleListPlace mem R S

/-- The tail of the buffer after the names of the modules before the module
`i`, rounded up: the place of the copy of the name of the module `i`, if it
has one. -/
def BootLoaderInfoTranslator_namePlace (mem : Memory) (R S : Nat) : Nat → Nat
  | 0 => BootLoaderInfoTranslator_namesStart mem R S
  | i + 1 =>
    if MultibootInfo_modString mem R i = 0 then BootLoaderInfoTranslator_namePlace mem R S i
    else
      BootLoaderInfoTranslator_roundUp (BootLoaderInfoTranslator_namePlace mem R S i +
        (Memory_strlen mem (MultibootInfo_modString mem R i) + 1))

/-- The place of the copy of the command line: the tail of the buffer after
the module names. -/
def BootLoaderInfoTranslator_commandLinePlace (mem : Memory) (R S : Nat) : Nat :=
  if MultibootInfo_ModulesPresent mem R then
    BootLoaderInfoTranslator_namePlace mem R S
      (Memory_read32 mem (R + MultibootInfo_layout.ModsCount))
  else BootLoaderInfoTranslator_namesStart mem R S

/-- Whether the root at `R` has a command line to copy. -/
def MultibootInfo_hasCommandLine (mem : Memory) (R : Nat) : Prop :=
  MultibootInfo_CommandLinePresent mem R = true ∧
    Memory_read32 mem (R + MultibootInfo_layout.CommandLine) ≠ 0

instance MultibootInfo_hasCommandLine_decidable (mem : Memory) (R : Nat) :
    Decidable (MultibootInfo_hasCommandLine mem R) := by
  unfold MultibootInfo_hasCommandLine
  exact inferInstance

/-- The tail of the buffer after all the copies, rounded up. -/
def BootLoaderInfoTranslator_tail (mem : Memory) (R S : Nat) : Nat :=
  if MultibootInfo_hasCommandLine mem R then
    BootLoaderInfoTranslator_roundUp (BootLoaderInfoTranslator_commandLinePlace mem R S +
      (Memory_strlen mem (Memory_read32 mem (R + MultibootInfo_layout.CommandLine)) + 1))
  else BootLoaderInfoTranslator_commandLinePlace mem R S

/-- The memory `m` is the memory `mem` outside the static buffer at `S`. -/
def BootLoaderInfoTranslator_frame (S : Nat) (mem m : Memory) : Prop :=
  ∀ a, a < 4294967296 → (a < S ∨ S + s_mbInfoSpace_sizeof ≤ a) →
    Memory_read8 m a = Memory_read8 mem a

/-- The memory `m'` is the memory `m` but for the bytes in `[lo, hi)` and the
word at `f`. -/
def Memory_agreeExcept (m m' : Memory) (lo hi f : Nat) : Prop :=
  ∀ a, a < 4294967296 → ¬ (lo ≤ a ∧ a < hi) → ¬ (f ≤ a ∧ a < f + 4) →
    Memory_read8 m' a = Memory_read8 m a

/-- The static buffer at `S` is aligned, not at the null address and not at
the very end of the address space. -/
def BootLoaderInfoTranslator_bufferOk (S : Nat) : Prop :=
  S % 4 = 0 ∧ 0 < S ∧ S + s_mbInfoSpace_sizeof < 4294967296

/-- The names of the modules of the root at `R` are strings that lie outside
the buffer at `S`. -/
def BootLoaderInfoTranslator_namesApart (S : Nat) (mem : Memory) (R : Nat) : Prop :=
  ∀ i, i < Memory_read32 mem (R + MultibootInfo_layout.ModsCount) →
    MultibootInfo_modString mem R i ≠ 0 →
    ∃ len, Memory_isCString mem (MultibootInfo_modString mem R i) len ∧
      BootLoaderInfoTranslator_apart S (MultibootInfo_modString mem R i) (len + 1)

/-- The root at `R` and what it refers to (the memory map, the module list,
the names of the modules and the command line, as far as they are present)
lie outside the buffer at `S`, and the strings have an end. -/
def BootLoaderInfoTranslator_sourceApart (S : Nat) (mem : Memory) (R : Nat) : Prop :=
  BootLoaderInfoTranslator_apart S R MultibootInfo_layout.sizeof ∧
  (MultibootInfo_MemMapPresent mem R = true →
    BootLoaderInfoTranslator_apart S (Memory_read32 mem (R + MultibootInfo_layout.MMapAddr))
      (Memory_read32 mem (R + MultibootInfo_layout.MMapLength))) ∧
  (MultibootInfo_ModulesPresent mem R = true →
    BootLoaderInfoTranslator_apart S (Memory_read32 mem (R + MultibootInfo_layout.ModsAddr))
      (MBModuleInfo_layout.sizeof * Memory_read32 mem (R + MultibootInfo_layout.ModsCount)) ∧
    BootLoaderInfoTranslator_namesApart S mem R) ∧
  (MultibootInfo_hasCommandLine mem R →
    ∃ len, Memory_isCString mem (Memory_read32 mem (R + MultibootInfo_layout.CommandLine)) len ∧
      BootLoaderInfoTranslator_apart S (Memory_read32 mem (R + MultibootInfo_layout.CommandLine))
        (len + 1))

/-- The state of the loop over the module names at the module `i`, in the
memory `m`: the names of the modules before `i` have been copied to their
places and the pointers to them point there, the pointers of the other
modules are those of the source. -/
def BootLoaderInfoTranslator_namesInv (S : Nat) (mem : Memory) (R i : Nat) (m : Memory) : Prop :=
  BootLoaderInfoTranslator_frame S mem m ∧
  Memory_read32 m (S + MultibootInfo_layout.ModsCount) =
    Memory_read32 mem (R + MultibootInfo_layout.ModsCount) ∧
  Memory_read32 m (S + MultibootInfo_layout.ModsAddr) =
    BootLoaderInfoTranslator_moduleListPlace mem R S ∧
  (∀ j, i ≤ j → j < Memory_read32 mem (R + MultibootInfo_layout.ModsCount) →
    Memory_read32 m (BootLoaderInfoTranslator_moduleListPlace mem R S +
      MBModuleInfo_layout.sizeof * j + MBModuleInfo_layout.ModString) =
      MultibootInfo_modString mem R j) ∧
  (∀ j, j < i → j < Memory_read32 mem (R + MultibootInfo_layout.ModsCount) →
    Memory_read32 m (BootLoaderInfoTranslator_moduleListPlace mem R S +
      MBModuleInfo_layout.sizeof * j + MBModuleInfo_layout.ModString) =
      (if MultibootInfo_modString mem R j = 0 then 0
        else BootLoaderInfoTranslator_namePlace mem R S j)) ∧
  (∀ j, j < i → j < Memory_read32 mem (R + MultibootInfo_layout.ModsCount) →
    MultibootInfo_modString mem R j ≠ 0 →
    Memory_sameBytes m (BootLoaderInfoTranslator_namePlace mem R S j) mem
      (MultibootInfo_modString mem R j)
      (Memory_strlen mem (MultibootInfo_modString mem R j) + 1))

/-- The memory `m'` is the memory `m` below the place of the first module
name, but for the pointers to the names in the copy of the module list. -/
def BootLoaderInfoTranslator_namesAgree (S : Nat) (mem : Memory) (R : Nat) (m m' : Memory) :
    Prop :=
  ∀ a, a < BootLoaderInfoTranslator_namesStart mem R S →
    (∀ j, j < Memory_read32 mem (R + MultibootInfo_layout.ModsCount) →
      ¬ (BootLoaderInfoTranslator_moduleListPlace mem R S + MBModuleInfo_layout.sizeof * j +
          MBModuleInfo_layout.ModString ≤ a ∧
        a < BootLoaderInfoTranslator_moduleListPlace mem R S + MBModuleInfo_layout.sizeof * j +
          MBModuleInfo_layout.ModString + 4)) →
    Memory_read8 m' a = Memory_read8 m a

/-- The memory `m` is the source memory outside the buffer, and the buffer
starts with the copy of the root at `R`, but for its three pointers
`CommandLine`, `ModsAddr` and `MMapAddr`. -/
def BootLoaderInfoTranslator_rootCopied (S : Nat) (mem : Memory) (R : Nat) (m : Memory) : Prop :=
  BootLoaderInfoTranslator_frame S mem m ∧
  ∀ off, off < 96 → ¬ (16 ≤ off ∧ off < 20) → ¬ (24 ≤ off ∧ off < 28) →
    ¬ (48 ≤ off ∧ off < 52) → Memory_read8 m (S + off) = Memory_read8 mem (R + off)

/-- The pointer `MMapAddr` of the copy of the root points to the place of the
memory map in the buffer, which holds the bytes of the memory map of the
source; it is null when there is no memory map. -/
def BootLoaderInfoTranslator_memMapCopied (S : Nat) (mem : Memory) (R : Nat) (m : Memory) :
    Prop :=
  Memory_read32 m (S + 48) =
    (if MultibootInfo_MemMapPresent mem R then BootLoaderInfoTranslator_memMapPlace S else 0) ∧
  (MultibootInfo_MemMapPresent mem R = true →
    Memory_sameBytes m (BootLoaderInfoTranslator_memMapPlace S) mem
      (Memory_read32 mem (R + 48)) (Memory_read32 mem (R + 44)))

/-- The pointer `ModsAddr` of the copy of the root points to the place of the
module list in the buffer, which holds the module structures of the source,
but for their pointers `ModString`; it is null when there are no modules. -/
def BootLoaderInfoTranslator_moduleListCopied (S : Nat) (mem : Memory) (R : Nat) (m : Memory) :
    Prop :=
  Memory_read32 m (S + 24) =
    (if MultibootInfo_ModulesPresent mem R then BootLoaderInfoTranslator_moduleListPlace mem R S
      else 0) ∧
  (MultibootInfo_ModulesPresent mem R = true →
    ∀ i, i < Memory_read32 mem (R + 20) → ∀ off, off < 16 → ¬ (8 ≤ off ∧ off < 12) →
      Memory_read8 m (BootLoaderInfoTranslator_moduleListPlace mem R S + 16 * i + off) =
        Memory_read8 mem (Memory_read32 mem (R + 24) + 16 * i + off))

/-- The pointer `ModString` of every module structure of the copy points to
the place of the name of the module in the buffer, which holds the name and
its terminator; it is null when the module has no name. -/
def BootLoaderInfoTranslator_namesCopied (S : Nat) (mem : Memory) (R : Nat) (m : Memory) :
    Prop :=
  MultibootInfo_ModulesPresent mem R = true →
    ∀ i, i < Memory_read32 mem (R + 20) →
      Memory_read32 m (BootLoaderInfoTranslator_moduleListPlace mem R S + 16 * i + 8) =
        (if MultibootInfo_modString mem R i = 0 then 0
          else BootLoaderInfoTranslator_namePlace mem R S i) ∧
      (MultibootInfo_modString mem R i ≠ 0 →
        Memory_sameBytes m (BootLoaderInfoTranslator_namePlace mem R S i) mem
          (MultibootInfo_modString mem R i)
          (Memory_strlen mem (MultibootInfo_modString mem R i) + 1))

/-- The pointer `CommandLine` of the copy of the root points to the place of
the command line in the buffer, which holds the command line and its
terminator; it is null when there is no command line. -/
def BootLoaderInfoTranslator_commandLineCopied (S : Nat) (mem : Memory) (R : Nat)
    (m : Memory) : Prop :=
  Memory_read32 m (S + 16) =
    (if MultibootInfo_hasCommandLine mem R then BootLoaderInfoTranslator_commandLinePlace mem R S
      else 0) ∧
  (MultibootInfo_hasCommandLine mem R →
    Memory_sameBytes m (BootLoaderInfoTranslator_commandLinePlace mem R S) mem
      (Memory_read32 mem (R + 16))
      (Memory_strlen mem (Memory_read32 mem (R + 16)) + 1))

/-- The places of the copies are multiples of four and follow one another in
the buffer: each copy ends before the place of the next, and the last ends in
the buffer. -/
def BootLoaderInfoTranslator_layoutOk (S : Nat) (mem : Memory) (R : Nat) : Prop :=
  BootLoaderInfoTranslator_memMapPlace S = S + 96 ∧
  (MultibootInfo_MemMapPresent mem R = true →
    BootLoaderInfoTranslator_memMapPlace S + Memory_read32 mem (R + 44) ≤
      BootLoaderInfoTranslator_moduleListPlace mem R S) ∧
  BootLoaderInfoTranslator_moduleListPlace mem R S % 4 = 0 ∧
  BootLoaderInfoTranslator_memMapPlace S ≤ BootLoaderInfoTranslator_moduleListPlace mem R S ∧
  (MultibootInfo_ModulesPresent mem R = true →
    BootLoaderInfoTranslator_moduleListPlace mem R S + 16 * Memory_read32 mem (R + 20) ≤
      BootLoaderInfoTranslator_namesStart mem R S ∧
    ∀ i, i < Memory_read32 mem (R + 20) →
      BootLoaderInfoTranslator_namePlace mem R S i % 4 = 0 ∧
      BootLoaderInfoTranslator_namesStart mem R S ≤ BootLoaderInfoTranslator_namePlace mem R S i ∧
      BootLoaderInfoTranslator_namePlace mem R S i ≤
        BootLoaderInfoTranslator_namePlace mem R S (i + 1) ∧
      BootLoaderInfoTranslator_namePlace mem R S (i + 1) ≤
        BootLoaderInfoTranslator_commandLinePlace mem R S ∧
      (MultibootInfo_modString mem R i ≠ 0 →
        BootLoaderInfoTranslator_namePlace mem R S i +
            (Memory_strlen mem (MultibootInfo_modString mem R i) + 1) ≤
          BootLoaderInfoTranslator_namePlace mem R S (i + 1))) ∧
  BootLoaderInfoTranslator_commandLinePlace mem R S % 4 = 0 ∧
  BootLoaderInfoTranslator_namesStart mem R S ≤ BootLoaderInfoTranslator_commandLinePlace mem R S ∧
  BootLoaderInfoTranslator_moduleListPlace mem R S ≤ BootLoaderInfoTranslator_namesStart mem R S ∧
  (MultibootInfo_hasCommandLine mem R →
    BootLoaderInfoTranslator_commandLinePlace mem R S +
        (Memory_strlen mem (Memory_read32 mem (R + 16)) + 1) ≤
      BootLoaderInfoTranslator_tail mem R S) ∧
  BootLoaderInfoTranslator_commandLinePlace mem R S ≤ BootLoaderInfoTranslator_tail mem R S ∧
  BootLoaderInfoTranslator_tail mem R S ≤ S + s_mbInfoSpace_sizeof

instance Memory_isCString_decidable (mem : Memory) (s len : Nat) :
    Decidable (Memory_isCString mem s len) := by
  unfold Memory_isCString
  exact inferInstance

instance BootLoaderInfoTranslator_apart_decidable (S addr n : Nat) :
    Decidable (BootLoaderInfoTranslator_apart S addr n) := by
  unfold BootLoaderInfoTranslator_apart
  exact inferInstance

/-- A memory that holds, at the physical address 0x2000, a Multiboot structure
with only a memory map present, of 4 bytes at the physical address 0x200100,
where the bytes 1, 2, 3, 4 are stored: with the static buffer at the virtual
address 0xE0200000, the memory map lies in the buffer. -/
def BootLoaderInfoTranslator_overlapExample : Memory :=
  Memory_store (Memory_write32 (Memory_write32 (Memory_write32 Memory_zero 0xE0002000 0x40)
    (0xE0002000 + 44) 4) (0xE0002000 + 48) 0x200100) 0xE0200100 [1, 2, 3, 4]

/-- A memory that holds, at the physical address 0x2000, a Multiboot structure
with a memory map of 8 bytes at 0x2100 and one module, whose structure is at
0x2200 and whose name `m` is at 0x3000. -/
def BootLoaderInfoTranslator_example : Memory :=
  Memory_store (Memory_store (Memory_write32 (Memory_write32 (Memory_write32 (Memory_write32
    (Memory_write32 (Memory_write32 Memory_zero 0xE0002000 0x48) (0xE0002000 + 20) 1)
    (0xE0002000 + 24) 0x2200) (0xE0002000 + 44) 8) (0xE0002000 + 48) 0x2100)
    (0xE0002200 + 8) 0x3000) 0xE0002100 [1, 2, 3, 4, 5, 6, 7, 8]) 0xE0003000 [109, 0]

/-- The root of `BootLoaderInfoTranslator_example` and the memory after the
mapping step: the pointers to the memory map, to the module list and to the
module name are virtual addresses, the pointer to the command line is
null. -/
def BootLoaderInfoTranslator_exampleMapped : Nat × Memory :=
  (0xE0002000,
    Memory_write32 (Memory_write32 (Memory_write32 (Memory_write32
      BootLoaderInfoTranslator_example (0xE0002000 + 16) 0) (0xE0002000 + 48) 0xE0002100)
      (0xE0002000 + 24) 0xE0002200) (0xE0002200 + 8) 0xE0003000)

/-! ## Vocabulary of the display stream statements -/

/-- The display text stream after the characters `cs` have been written to
it through its dispatch table, one write each, in order. -/
def DisplayTextStream_writeAll (displayStream : DisplayTextStream) (cs : List Nat) :
    DisplayTextStream :=
  cs.foldl DisplayTextStream_lockedWrite displayStream

/-- What the display is sent for the characters `cs` when nothing is
buffered: a tab call for a tab, a new-line call for a new line, nothing for a
null character, and a print of the character itself for any other one. -/
def KernelDisplay_unbuffered (kdisplay : KernelDisplay) (cs : List Nat) : KernelDisplay :=
  cs.foldl (fun d c =>
    if c = 9 then KernelDisplay_tab d
    else if c = 10 then KernelDisplay_newLine d
    else if c = 0 then d
    else KernelDisplay_print d [c] 1) kdisplay

/-- State invariant of the display text stream: the buffer has its
`BUFFER_SIZE` places, the index lies within `0..BUFFER_SIZE`, and no tab, new
line or null character waits in the buffer. -/
def DisplayTextStream_wellFormed (displayStream : DisplayTextStream) : Prop :=
  displayStream.m_buffer.length = DisplayTextStream_consts.BUFFER_SIZE ∧
  displayStream.m_currentBufferIndex ≤ DisplayTextStream_consts.BUFFER_SIZE ∧
  ∀ c ∈ DisplayTextStream_pending displayStream, c ≠ 0 ∧ c ≠ 9 ∧ c ≠ 10

/-! ## `IInterruptHandler` and `TrapFrame` -/

/-- Reference to an implementation of the `IInterruptHandler` interface: the
pointer to the interface dispatch table and the pointer to the object; `τ` is
the type of the pointers to dispatch tables. -/
structure IInterruptHandler (τ : Type) where
  iptr : τ
  obj : Nat
  deriving DecidableEq, Repr

namespace TrapFrame_layout

/-- Size of the packed structure `TrapFrameStruct` (TrapFrame_x86.h). -/
abbrev sizeof : Nat := 80
/-- Offset of the field `interruptVectorNumber`. -/
abbrev interruptVectorNumber : Nat := 52
/-- Offset of the field `cs`. -/
abbrev cs : Nat := 64

end TrapFrame_layout

/-- The vector number of the interrupt stored in the trap frame at address
`frame`, zero-extended from its eight bits. -/
def TrapFrame_getInterruptVectorNumber (mem : Memory) (frame : Nat) : Nat :=
  Memory_read8 mem (frame + TrapFrame_layout.interruptVectorNumber)

/-- Whether the kernel was interrupted: the `CPL` bits (the two low bits) of
the frame's `cs` are 0. -/
def TrapFrame_isKernelInterrupted (mem : Memory) (frame : Nat) : Bool :=
  Memory_read8 mem (frame + TrapFrame_layout.cs) % 4 == 0

/-! ## `Processor` (uniprocessor x86) -/

namespace Processor_consts

/-- Number of entries of the interrupt dispatch table: 19 exceptions, NMI, 12
reserved, 16 IRQs, 1 system-call vector. -/
abbrev NUM_IDT_ENTRIES : Nat := 49

end Processor_consts

/-- The fields of `ProcessorStruct` that the dispatcher uses: the table of
registered handlers, an array of `NUM_IDT_ENTRIES` entries, and the field
`ESP0` of the task state segment. -/
structure Processor (τ : Type) where
  m_dispatchTable : Fin Processor_consts.NUM_IDT_ENTRIES → IInterruptHandler τ
  m_tss_ESP0 : Nat

/-- The ID of a processor (`Processor_x86_uni.c`): the source is that of a
uniprocessor system, whose one and only processor has the ID 0. -/
def Processor_getID {τ : Type} (_processor : Processor τ) : Int := 0

/-- What interrupt handlers and the dispatcher act on: the processor object
and the memory that holds the trap frames. -/
structure Processor_Machine (τ : Type) where
  processor : Processor τ
  mem : Memory

/-- The array read `processor->m_dispatchTable[index]`; nothing is defined
outside the `NUM_IDT_ENTRIES` entries of the array. -/
def Processor_dispatchTableAt {τ : Type} (processor : Processor τ) (index : Nat) :
    Option (IInterruptHandler τ) :=
  if h : index < Processor_consts.NUM_IDT_ENTRIES then some (processor.m_dispatchTable ⟨index, h⟩)
  else none

/-- Dispatch of an interrupt or exception to its registered handler.
`handleInterrupt iptr obj trapFrame` is the method `iptr->handleInterrupt`
called on `obj` and the trap frame at address `trapFrame`: it returns the
address of a trap frame, or 0 (`NULL`), and the machine as the handler leaves
it, or nothing when the handler does not return. The result is the address of
the trap frame to resume from and the machine afterwards. -/
def Processor_dispatchToHandler {τ : Type}
    (handleInterrupt : τ → Nat → Nat → Processor_Machine τ → Option (Nat × Processor_Machine τ))
    (machine : Processor_Machine τ) (trapFrame : Nat) :
    Option (Nat × Processor_Machine τ) :=
  match Processor_dispatchTableAt machine.processor
      (TrapFrame_getInterruptVectorNumber machine.mem trapFrame) with
  | none => none
  | some handler =>
    match handleInterrupt handler.iptr handler.obj trapFrame machine with
    | none => none
    | some (newFrame, machine1) =>
      if newFrame = 0 then some (trapFrame, machine1)
      else
        let machine2 :=
          if !TrapFrame_isKernelInterrupted machine1.mem newFrame then
            { machine1 with
              processor := { machine1.processor with
                m_tss_ESP0 := u32 (newFrame + TrapFrame_layout.sizeof) } }
          else machine1
        some (newFrame, machine2)

/-- The loop of `Processor_initDispatchTable`, entered with loop variable
`i`: `n` is the number of turns left. -/
def Processor_initDispatchTableLoop {τ : Type} (defaultHandler : IInterruptHandler τ) :
    Nat → Nat → Processor τ → Processor τ
  | 0, _, processor => processor
  | n + 1, i, processor =>
    if h : i < Processor_consts.NUM_IDT_ENTRIES then
      Processor_initDispatchTableLoop defaultHandler n (i + 1)
        { processor with
          m_dispatchTable := Function.update processor.m_dispatchTable ⟨i, h⟩ defaultHandler }
    else processor

/-- Registration of a handler for an interrupt vector; nothing is defined
when the vector is out of range (a failed `KDebug_assertArg`). -/
def Processor_registerHandler {τ : Type} (processor : Processor τ)
    (handler : IInterruptHandler τ) (intrVector : Nat) : Option (Processor τ) :=
  if h : intrVector < Processor_consts.NUM_IDT_ENTRIES then
    some { processor with
      m_dispatchTable := Function.update processor.m_dispatchTable ⟨intrVector, h⟩ handler }
  else none

/-- The loops of the dispatchers that register one handler for each vector
of an array of vectors. -/
def Processor_registerHandlers {τ : Type} (handler : IInterruptHandler τ) :
    List Nat → Processor τ → Option (Processor τ)
  | [], processor => some processor
  | intrVector :: vectors, processor =>
    match Processor_registerHandler processor handler intrVector with
    | none => none
    | some processor1 => Processor_registerHandlers handler vectors processor1

/-! ## The interrupt handlers of the kernel -/

/-- The interface dispatch tables of `IInterruptHandler` that the kernel
defines, each a file-local static with one method: `s_defaultHandler_itable`
(Processor_x86_uni.c, `DefaultHandler_handleInterrupt`),
`s_deliverableHandlerTable` and `s_unrecoverableHandlerTable`
(ExceptionDispatcher_x86.c, `ExceptionDispatcher_handleDeliverableException`
and `ExceptionDispatcher_handleUnrecoverableException`), `s_timerHandlerTable`
and `s_deliverableHandlerTable` (InterruptDispatcher_x86_uni.c,
`InterruptDispatcher_handleTimerInterrupt` and
`InterruptDispatcher_handleDeliverableInterrupt`). -/
inductive IInterruptHandler_itable where
  | Processor_s_defaultHandler_itable
  | ExceptionDispatcher_s_deliverableHandlerTable
  | ExceptionDispatcher_s_unrecoverableHandlerTable
  | InterruptDispatcher_s_timerHandlerTable
  | InterruptDispatcher_s_deliverableHandlerTable
  deriving DecidableEq, Repr

/-- The handler that is installed in the dispatch table at initialization
time; its method resets the processor. -/
def DefaultHandler_getHandler : IInterruptHandler IInterruptHandler_itable :=
  { obj := 0, iptr := IInterruptHandler_itable.Processor_s_defaultHandler_itable }

/-- Initialization of the dispatch table to a known state. -/
def Processor_initDispatchTable (processor : Processor IInterruptHandler_itable) :
    Processor IInterruptHandler_itable :=
  Processor_initDispatchTableLoop DefaultHandler_getHandler Processor_consts.NUM_IDT_ENTRIES 0
    processor

namespace ExceptionDispatcher

/-- The vectors of the deliverable exceptions: `INT0_DE_DIVIDE_ERROR`,
`INT3_BP_BREAKPOINT`, `INT4_OF_OVERFLOW`, `INT5_BR_BOUND_RANGE_EXCEEDED`,
`INT6_UD_INVALID_OPCODE`, `INT7_NM_NO_MATH_COPROCESSOR`,
`INT11_NP_SEG_NOT_PRESENT`, `INT12_SS_STACK_SEG_FAULT`,
`INT13_GP_GENERAL_PROTECTION`, `INT14_PF_PAGE_FAULT`,
`INT16_MF_X87_MATH_FAULT`, `INT17_AC_ALIGNMENT_CHECK`,
`INT19_XF_SIMD_FP_EXCEPTION`, `INT_SYS_CALL`. -/
def deliverableVectors : List Nat := [0, 3, 4, 5, 6, 7, 11, 12, 13, 14, 16, 17, 19, 48]

/-- The vectors of the unrecoverable exceptions: `INT1_DB_RESERVED`,
`INT2_NMI_INTERRUPT`, `INT8_DF_DOUBLE_FAULT`, `INT9_CO_PROCESSOR_SEG_OVERRUN`,
`INT10_TS_INVALID_TSS`, `INT15_RESERVED`, `INT18_MC_MACHINE_CHECK`,
`INT20_RESERVED` to `INT31_RESERVED`. -/
def unrecoverableVectors : List Nat :=
  [1, 2, 8, 9, 10, 15, 18, 20, 21, 22, 23, 24, 25, 26, 27, 28, 29, 30, 31]

/-- The handler of the deliverable exceptions. -/
def deliverableHandler : IInterruptHandler IInterruptHandler_itable :=
  { iptr := IInterruptHandler_itable.ExceptionDispatcher_s_deliverableHandlerTable, obj := 0 }

/-- The handler of the unrecoverable exceptions. -/
def unrecoverableHandler : IInterruptHandler IInterruptHandler_itable :=
  { iptr := IInterruptHandler_itable.ExceptionDispatcher_s_unrecoverableHandlerTable, obj := 0 }

end ExceptionDispatcher

/-- Registration of the handlers of the exception dispatcher with the
current processor. -/
def ExceptionDispatcher_initForCurrentProcessor (processor : Processor IInterruptHandler_itable) :
    Option (Processor IInterruptHandler_itable) :=
  match Processor_registerHandlers ExceptionDispatcher.deliverableHandler
      ExceptionDispatcher.deliverableVectors processor with
  | none => none
  | some processor1 =>
    Processor_registerHandlers ExceptionDispatcher.unrecoverableHandler
      ExceptionDispatcher.unrecoverableVectors processor1

namespace InterruptDispatcher

/-- The vectors of the device interrupts other than the timer:
`INT_HW_IRQ1` to `INT_HW_IRQ15`. -/
def deliverableVectors : List Nat :=
  [33, 34, 35, 36, 37, 38, 39, 40, 41, 42, 43, 44, 45, 46, 47]

/-- The vector of the timer interrupt, `INT_HW_IRQ0`. -/
abbrev INT_HW_IRQ0 : Nat := 32

/-- The handler of the device interrupts other than the timer; `s_instance`
is the address of the one instance of the interrupt dispatcher. -/
def deliverableHandler (s_instance : Nat) : IInterruptHandler IInterruptHandler_itable :=
  { iptr := IInterruptHandler_itable.InterruptDispatcher_s_deliverableHandlerTable,
    obj := s_instance }

/-- The handler of the timer interrupt. -/
def timerHandler (s_instance : Nat) : IInterruptHandler IInterruptHandler_itable :=
  { iptr := IInterruptHandler_itable.InterruptDispatcher_s_timerHandlerTable,
    obj := s_instance }

end InterruptDispatcher

/-- Registration of the handlers of the interrupt dispatcher with the current
processor (the initialization of the interrupt controller that follows does
not act on the processor object). -/
def InterruptDispatcher_initForCurrentProcessor (s_instance : Nat)
    (processor : Processor IInterruptHandler_itable) :
    Option (Processor IInterruptHandler_itable) :=
  match Processor_registerHandlers (InterruptDispatcher.deliverableHandler s_instance)
      InterruptDispatcher.deliverableVectors processor with
  | none => none
  | some processor1 =>
    Processor_registerHandler processor1 (InterruptDispatcher.timerHandler s_instance)
      InterruptDispatcher.INT_HW_IRQ0

/-! ## Vocabulary of the dispatcher statements -/

/-- A processor object whose dispatch table holds the handler `handler` in
every entry and whose `ESP0` is `esp0`. -/
def Processor_filled {τ : Type} (handler : IInterruptHandler τ) (esp0 : Nat) : Processor τ :=
  { m_dispatchTable := fun _ => handler, m_tss_ESP0 := esp0 }

/-- The dispatch table after the initialization of the processor, of the
exception dispatcher and of the interrupt dispatcher, in the order of
`kmain`. -/
def Processor_afterInit (s_instance : Nat) (processor : Processor IInterruptHandler_itable) :
    Option (Processor IInterruptHandler_itable) :=
  match ExceptionDispatcher_initForCurrentProcessor (Processor_initDispatchTable processor) with
  | none => none
  | some processor1 => InterruptDispatcher_initForCurrentProcessor s_instance processor1

/-- The handler that the claim assigns to each vector once the dispatchers
are initialized. -/
def Processor_expectedHandler (s_instance : Nat) (v : Nat) :
    IInterruptHandler IInterruptHandler_itable :=
  if v ∈ [0, 3, 4, 5, 6, 7, 11, 12, 13, 14, 16, 17, 19, 48] then
    ExceptionDispatcher.deliverableHandler
  else if v ∈ [1, 2, 8, 9, 10, 15, 18] ∨ (20 ≤ v ∧ v ≤ 31) then
    ExceptionDispatcher.unrecoverableHandler
  else if v = 32 then InterruptDispatcher.timerHandler s_instance
  else if 33 ≤ v ∧ v ≤ 47 then InterruptDispatcher.deliverableHandler s_instance
  else DefaultHandler_getHandler

/-- A memory that holds, at the address 0x1000, a trap frame of vector 32
taken in kernel mode, at the address 0x2000, a trap frame whose `cs` is the
selector 0x1B, of privilege level 3, and at the address 0x3000 a trap frame
whose `cs` is the selector 0x08, of privilege level 0. -/
def Processor_exampleMemory : Memory :=
  Memory_write8
    (Memory_write8
      (Memory_write8 Memory_zero (0x1000 + TrapFrame_layout.interruptVectorNumber) 32)
      (0x2000 + TrapFrame_layout.cs) 0x1B)
    (0x3000 + TrapFrame_layout.cs) 0x08

/-- A handler method that leaves the machine as it is and asks for a switch
to the trap frame at the address held in the handler's object. -/
def Processor_exampleSwitch (τ : Type) :
    τ → Nat → Nat → Processor_Machine τ → Option (Nat × Processor_Machine τ) :=
  fun _ obj _ machine => some (obj, machine)

/-! ## `Atomic` -/

/-- Modelled from the spec: `Atomic_compareAndSwap` is declared in `Atomic.h`
and implemented in assembler, which is not under src/. By its documentation
it compares the value at the target with `compareValue` and, when they are
equal, stores `updateValue` there and returns true, and otherwise leaves the
target and returns false, all in one atomic step. The result is the flag and
the value at the target afterwards. -/
def Atomic_compareAndSwap (target compareValue updateValue : Nat) : Bool × Nat :=
  if target = compareValue then (true, updateValue) else (false, target)

/-- Atomic read of the value at a target (Atomic_x86.c). -/
def Atomic_read (target : Nat) : Nat := target

/-- Atomic write to a target: the value at the target afterwards
(Atomic_x86.c). -/
def Atomic_write (_target updateValue : Nat) : Nat := updateValue

/-! ## `KShutdown` -/

/-- Fields of `KShutdownStruct`, each an `uintptr_t`. -/
structure KShutdown where
  /-- ID of the processor that initiated shutdown mode, or -1. -/
  m_shutdownProcessorID : Nat
  /-- Whether to halt or reboot on system failure. -/
  m_rebootOnFail : Nat
  /-- Delay before rebooting, in milliseconds. -/
  m_rebootDelayInMilliseconds : Nat
  deriving DecidableEq, Repr

/-- The global instance after `KShutdown_init`. -/
def KShutdown_init : KShutdown :=
  { m_shutdownProcessorID := uintptrOfInt (-1)
    m_rebootOnFail := 1
    m_rebootDelayInMilliseconds := 10000 }

/-- Whether the system is in shutdown mode. -/
def KShutdown_isInShutdownMode (kshutdown : KShutdown) : Bool :=
  let shutdownProcessorID := signedOfWord 32 (Atomic_read kshutdown.m_shutdownProcessorID)
  shutdownProcessorID != -1

/-- Whether the machine reboots on `KShutdown_fail`. -/
def KShutdown_isRebootOnFailEnabled (kshutdown : KShutdown) : Bool :=
  Atomic_read kshutdown.m_rebootOnFail != 0

/-- Modifier of the reboot-on-fail flag. -/
def KShutdown_setRebootOnFailEnabled (kshutdown : KShutdown) (rebootOnFail : Bool) :
    KShutdown :=
  { kshutdown with
    m_rebootOnFail := Atomic_write kshutdown.m_rebootOnFail (if rebootOnFail then 1 else 0) }

/-- Accessor of the reboot delay. -/
def KShutdown_getRebootDelayInMilliseconds (kshutdown : KShutdown) : Int :=
  signedOfWord 32 (Atomic_read kshutdown.m_rebootDelayInMilliseconds)

/-- Modifier of the reboot delay. -/
def KShutdown_setRebootDelayInMilliseconds (kshutdown : KShutdown)
    (delayInMilliseconds : Int) : KShutdown :=
  { kshutdown with
    m_rebootDelayInMilliseconds :=
      Atomic_write kshutdown.m_rebootDelayInMilliseconds (uintptrOfInt delayInMilliseconds) }

/-- The three public functions that enter shutdown mode: `KShutdown_fail`,
`KShutdown_halt` and `KShutdown_reboot`. -/
inductive KShutdown_Entry where
  | fail
  | halt
  | reboot
  deriving DecidableEq, Repr

/-- What a processor does inside the shutdown functions that acts on the
rest of the system: the calls of `ShutdownHardware_haltAllOtherProcessors`,
`DisplayTextStream_reset`, `KOut_vWrite`, `KOut_writeLine`, `KOut_write`,
`Processor_hardReset`, `Processor_waitForInterrupt`, `ShutdownHardware_halt`
and `ShutdownHardware_reboot`. -/
inductive KShutdown_Event where
  | ShutdownHardware_haltAllOtherProcessors
  | DisplayTextStream_reset
  | KOut_vWrite
  | KOut_writeLine
  | KOut_write
  | Processor_hardReset
  | Processor_waitForInterrupt
  | ShutdownHardware_halt
  | ShutdownHardware_reboot
  deriving DecidableEq, Repr

/-- Whether an event is a call of the output code, `KOut_vWrite`,
`KOut_writeLine` or `KOut_write`. -/
def KShutdown_Event_isOutput : KShutdown_Event → Bool
  | KShutdown_Event.KOut_vWrite => true
  | KShutdown_Event.KOut_writeLine => true
  | KShutdown_Event.KOut_write => true
  | _ => false

/-- Where a processor is in the shutdown functions, one point before each
step that reads or writes the `KShutdown` object or acts on the rest of the
system. The points `initiate_*` are those of
`KShutdown_initiateShutdownMode`, entered from the function `entry`; the
points `fail_*`, `doHalt_*` and `doReboot_*` are those of `KShutdown_fail`,
`KShutdown_doHalt` and `KShutdown_doReboot`. `running` is a processor outside
the shutdown functions, `stopped` one that was halted or reset and executes
nothing more. -/
inductive KShutdown_pc where
  | running
  | initiate_compareAndSwap (entry : KShutdown_Entry)
  | initiate_read (entry : KShutdown_Entry)
  | initiate_hardReset
  | initiate_waitForInterrupt
  | initiate_haltAllOtherProcessors (entry : KShutdown_Entry)
  | initiate_displayReset (entry : KShutdown_Entry)
  | fail_vWrite
  | fail_readRebootOnFail
  | doHalt_writeLine
  | doHalt_halt
  | doReboot_readDelay
  | doReboot_writeLine (delayInSeconds : Int)
  | doReboot_write (i delayInSeconds : Int)
  | doReboot_reboot
  | stopped
  deriving DecidableEq, Repr

/-- The point that follows the return of `KShutdown_initiateShutdownMode` in
the function `entry`: the output of the message in `KShutdown_fail`, and the
calls of `KShutdown_doHalt` and `KShutdown_doReboot` in `KShutdown_halt` and
`KShutdown_reboot`. -/
def KShutdown_afterInitiate : KShutdown_Entry → KShutdown_pc
  | KShutdown_Entry.fail => KShutdown_pc.fail_vWrite
  | KShutdown_Entry.halt => KShutdown_pc.doHalt_writeLine
  | KShutdown_Entry.reboot => KShutdown_pc.doReboot_readDelay

/-- One step of a caller of the shutdown functions at the point `pc`: the
`KShutdown` object afterwards, the next point, and the events of the step.
`thisProcessorID` is what `Processor_getID( Processor_getCurrent() )`
returned to the caller. In the source, a uniprocessor system, that is the ID
0 of `Processor_getID` for every caller; the step is defined for every value
of the ID, so that what is proved of it for every ID holds for the ID of the
source. Modelled from the spec: `Processor_hardReset`, `ShutdownHardware_halt`
and `ShutdownHardware_reboot` do not return (Processor.h, ShutdownHardware.h;
the first is implemented in assembler, which is not under src/). -/
def KShutdown_step (thisProcessorID : Int) (kshutdown : KShutdown) :
    KShutdown_pc → KShutdown × KShutdown_pc × List KShutdown_Event
  | KShutdown_pc.running => (kshutdown, KShutdown_pc.running, [])
  | KShutdown_pc.initiate_compareAndSwap entry =>
    let swapped := Atomic_compareAndSwap kshutdown.m_shutdownProcessorID
      (uintptrOfInt (-1)) (uintptrOfInt thisProcessorID)
    ({ kshutdown with m_shutdownProcessorID := swapped.2 },
      if !swapped.1 then KShutdown_pc.initiate_read entry
      else KShutdown_pc.initiate_haltAllOtherProcessors entry, [])
  | KShutdown_pc.initiate_read _ =>
    let shutdownProcessorID := signedOfWord 32 (Atomic_read kshutdown.m_shutdownProcessorID)
    (kshutdown,
      if thisProcessorID = shutdownProcessorID then KShutdown_pc.initiate_hardReset
      else KShutdown_pc.initiate_waitForInterrupt, [])
  | KShutdown_pc.initiate_hardReset =>
    (kshutdown, KShutdown_pc.stopped, [KShutdown_Event.Processor_hardReset])
  | KShutdown_pc.initiate_waitForInterrupt =>
    (kshutdown, KShutdown_pc.initiate_waitForInterrupt,
      [KShutdown_Event.Processor_waitForInterrupt])
  | KShutdown_pc.initiate_haltAllOtherProcessors entry =>
    (kshutdown, KShutdown_pc.initiate_displayReset entry,
      [KShutdown_Event.ShutdownHardware_haltAllOtherProcessors])
  | KShutdown_pc.initiate_displayReset entry =>
    (kshutdown, KShutdown_afterInitiate entry, [KShutdown_Event.DisplayTextStream_reset])
  | KShutdown_pc.fail_vWrite =>
    (kshutdown, KShutdown_pc.fail_readRebootOnFail, [KShutdown_Event.KOut_vWrite])
  | KShutdown_pc.fail_readRebootOnFail =>
    let reboot := kshutdown.m_rebootOnFail != 0
    (kshutdown,
      if reboot then KShutdown_pc.doReboot_readDelay else KShutdown_pc.doHalt_writeLine, [])
  | KShutdown_pc.doHalt_writeLine =>
    (kshutdown, KShutdown_pc.doHalt_halt, [KShutdown_Event.KOut_writeLine])
  | KShutdown_pc.doHalt_halt =>
    (kshutdown, KShutdown_pc.stopped, [KShutdown_Event.ShutdownHardware_halt])
  | KShutdown_pc.doReboot_readDelay =>
    let delayInMilliseconds := signedOfWord 32 kshutdown.m_rebootDelayInMilliseconds
    let delayInSeconds := Int.tdiv delayInMilliseconds 1000
    (kshutdown,
      if delayInSeconds > 0 then KShutdown_pc.doReboot_writeLine delayInSeconds
      else KShutdown_pc.doReboot_reboot, [])
  | KShutdown_pc.doReboot_writeLine delayInSeconds =>
    (kshutdown, KShutdown_pc.doReboot_write 0 delayInSeconds, [KShutdown_Event.KOut_writeLine])
  | KShutdown_pc.doReboot_write i delayInSeconds =>
    if i < delayInSeconds then
      (kshutdown, KShutdown_pc.doReboot_write (i + 1) delayInSeconds,
        [KShutdown_Event.KOut_write])
    else (kshutdown, KShutdown_pc.doReboot_reboot, [])
  | KShutdown_pc.doReboot_reboot =>
    (kshutdown, KShutdown_pc.stopped, [KShutdown_Event.ShutdownHardware_reboot])
  | KShutdown_pc.stopped => (kshutdown, KShutdown_pc.stopped, [])

/-! ## Processors that share the `KShutdown` object -/

/-- The `KShutdown` object, the point at which each processor is (by
processor ID), and the events so far, in order, each with the ID of its
processor. -/
structure KShutdown_System where
  s_instance : KShutdown
  pc : Int → KShutdown_pc
  log : List (Int × KShutdown_Event)

/-- What a processor can do next with the `KShutdown` object: enter one of
the three shutdown functions (from the code it runs, or from the handler of
an interrupt or exception that interrupts a shutdown function, which is then
never resumed, since none of the three returns), execute the next step of
the shutdown function it is in, or call one of the accessors and
modifiers, each of which is one atomic read or write. -/
inductive KShutdown_Action where
  | enter (entry : KShutdown_Entry)
  | step
  | isInShutdownMode
  | isRebootOnFailEnabled
  | setRebootOnFailEnabled (rebootOnFail : Bool)
  | getRebootDelayInMilliseconds
  | setRebootDelayInMilliseconds (delayInMilliseconds : Int)
  deriving DecidableEq, Repr

/-- The system after the processor `action.1` has done `action.2`; a stopped
processor does nothing. -/
def KShutdown_System_act (sys : KShutdown_System) (action : Int × KShutdown_Action) :
    KShutdown_System :=
  if sys.pc action.1 = KShutdown_pc.stopped then sys
  else
    match action.2 with
    | KShutdown_Action.enter entry =>
      { sys with
        pc := Function.update sys.pc action.1 (KShutdown_pc.initiate_compareAndSwap entry) }
    | KShutdown_Action.step =>
      let next := KShutdown_step action.1 sys.s_instance (sys.pc action.1)
      { s_instance := next.1
        pc := Function.update sys.pc action.1 next.2.1
        log := sys.log ++ next.2.2.map (fun event => (action.1, event)) }
    | KShutdown_Action.isInShutdownMode => sys
    | KShutdown_Action.isRebootOnFailEnabled => sys
    | KShutdown_Action.setRebootOnFailEnabled rebootOnFail =>
      { sys with s_instance := KShutdown_setRebootOnFailEnabled sys.s_instance rebootOnFail }
    | KShutdown_Action.getRebootDelayInMilliseconds => sys
    | KShutdown_Action.setRebootDelayInMilliseconds delayInMilliseconds =>
      { sys with
        s_instance :=
          KShutdown_setRebootDelayInMilliseconds sys.s_instance delayInMilliseconds }

/-- The system after a sequence of actions of its processors, in order. -/
def KShutdown_System_run (sys : KShutdown_System) (actions : List (Int × KShutdown_Action)) :
    KShutdown_System :=
  actions.foldl KShutdown_System_act sys

/-- The system right after `KShutdown_init`: every processor is outside the
shutdown functions. -/
def KShutdown_System_init : KShutdown_System :=
  { s_instance := KShutdown_init, pc := fun _ => KShutdown_pc.running, log := [] }

/-- The run of one processor alone for `n` steps from the point `pc`: the
`KShutdown` object, the point reached, and the events, in order. -/
def KShutdown_solo (thisProcessorID : Int) :
    Nat → KShutdown → KShutdown_pc → List KShutdown_Event →
      KShutdown × KShutdown_pc × List KShutdown_Event
  | 0, kshutdown, pc, events => (kshutdown, pc, events)
  | n + 1, kshutdown, pc, events =>
    let next := KShutdown_step thisProcessorID kshutdown pc
    KShutdown_solo thisProcessorID n next.1 next.2.1 (events ++ next.2.2)

/-! ## Vocabulary of the shutdown statements -/

/-- The IDs that a processor can have: the values of an `int` other than the
value -1, which marks in the `KShutdown` object that no processor has
initiated shutdown mode. -/
def KShutdown_isProcessorID (p : Int) : Prop :=
  -2147483648 ≤ p ∧ p < 2147483648 ∧ p ≠ -1

instance (p : Int) : Decidable (KShutdown_isProcessorID p) := by
  unfold KShutdown_isProcessorID
  infer_instance

/-! ## Vocabulary of the window statements -/

/-- The bitmap of `alloc` marks the available frames of the window that
starts at `B`: for every frame of the window, at the page-aligned address
`f`, the bit that `PmmBitmapAllocator_free` and
`PmmBitmapAllocator_allocateFrame` address for `f` is set exactly when `f` is
not the frame at `PHYS_NULL`, `f` lies in the page-aligned form of some
region of `ram`, and `f` lies in the page-aligned form of no region of
`reserved` and of no region of `modules`. -/
def PmmWatermarkAllocator_marksAvailable (alloc : PmmBitmapAllocator) (B : Nat)
    (ram reserved modules : List PmmRegion) : Prop :=
  ∀ f : Nat, f % PAGE_SIZE = 0 → B ≤ f → f < B + REGION_SIZE_IN_BYTES →
    (KMem_isBitSet
        (alloc.m_bitmap.getD
          (PmmBitmapAllocator_getBlockNumberForFrameNumber alloc (MM_getFrameNumber f)) 0)
        (PmmBitmapAllocator_getBitInBlockForFrameNumber (MM_getFrameNumber f)) = true ↔
      f ≠ PHYS_NULL ∧ (∃ r ∈ ram, inAligned r f = true) ∧
        (∀ r ∈ reserved, inAligned r f = false) ∧ ∀ r ∈ modules, inAligned r f = false)

/-- The addresses of the frames that the `do ... while` loops of
`PmmWatermarkAllocator_freeRegion` and `PmmWatermarkAllocator_allocateRegion`
go through, in order: the base of `frameRegion` at each turn of the loop;
`none` when the fuel runs out. -/
def PmmWatermarkAllocator_frameWalk (region : PmmRegion) : Nat → PmmRegion → Option (List Nat)
  | 0, _ => none
  | fuel + 1, frameRegion =>
    let frameAddr := PmmRegion_base frameRegion
    match PmmRegion_advance frameRegion with
    | (false, _) => some [frameAddr]
    | (true, frameRegion1) =>
      if !PmmRegion_below region (PmmRegion_base frameRegion1) then
        (PmmWatermarkAllocator_frameWalk region fuel frameRegion1).map
          (fun rest => frameAddr :: rest)
      else some [frameAddr]

/-- What the body of the loop of `PmmWatermarkAllocator_freeRegion` does with
the frame at `frameAddr`. -/
def PmmWatermarkAllocator_freeFrame (alloc : PmmBitmapAllocator) (frameAddr : Nat) :
    PmmBitmapAllocator :=
  if frameAddr ≠ PHYS_NULL then PmmBitmapAllocator_free alloc frameAddr else alloc

/-- What the body of the loop of `PmmWatermarkAllocator_allocateRegion` does
with the frame at `frameAddr`. -/
def PmmWatermarkAllocator_allocateFrame (alloc : PmmBitmapAllocator) (frameAddr : Nat) :
    PmmBitmapAllocator :=
  if frameAddr ≠ PHYS_NULL then (PmmBitmapAllocator_allocateFrame alloc frameAddr).2 else alloc

/-- The window of index `k`: the region
`[k × REGION_SIZE_IN_BYTES, (k + 1) × REGION_SIZE_IN_BYTES − 1]`. -/
def PmmWatermarkAllocator_window (k : Nat) : PmmRegion :=
  { m_base := k * REGION_SIZE_IN_BYTES, m_last := (k + 1) * REGION_SIZE_IN_BYTES - 1 }

/-! ## The bitmap allocator and the window initialisation in a checked build

In a checked build (`NDEBUG` not defined) the functions of the bitmap
allocator carry debug assertions. The functions below are those of the
model above with these assertions: their result is `none` when an assertion
of the bitmap allocator fails (and, for the loops, when the fuel runs out). -/

/-- `PmmBitmapAllocator_getBlockNumberForFrameNumber` with its assertions
`frameNumber >= this->m_baseFrameNumber` and
`blockNumber < this->m_numBlocks`. -/
def PmmBitmapAllocator_getBlockNumberForFrameNumber_checked (this : PmmBitmapAllocator)
    (frameNumber : Nat) : Option Nat :=
  if frameNumber ≥ this.m_baseFrameNumber then
    let blockNumber := PmmBitmapAllocator_getBlockNumberForFrameNumber this frameNumber
    if blockNumber < this.m_numBlocks then some blockNumber else none
  else none

/-- `PmmBitmapAllocator_create` with its assertions `numBlocks > 0` and
`MM_isFrameAligned( baseAddress )`. -/
def PmmBitmapAllocator_create_checked (numBlocks baseAddress : Nat) :
    Option PmmBitmapAllocator :=
  if numBlocks > 0 ∧ MM_isFrameAligned baseAddress = true then
    some (PmmBitmapAllocator_create numBlocks baseAddress)
  else none

/-- `PmmBitmapAllocator_allocateFrame` with its assertions
`frameAddr != PHYS_NULL` and `MM_isFrameAligned( frameAddr )` and those of the
block number. -/
def PmmBitmapAllocator_allocateFrame_checked (this : PmmBitmapAllocator) (frameAddr : Nat) :
    Option (Nat × PmmBitmapAllocator) :=
  if frameAddr ≠ PHYS_NULL ∧ MM_isFrameAligned frameAddr = true then
    let frameNumber := MM_getFrameNumber frameAddr
    let bit := PmmBitmapAllocator_getBitInBlockForFrameNumber frameNumber
    match PmmBitmapAllocator_getBlockNumberForFrameNumber_checked this frameNumber with
    | none => none
    | some i =>
      let block := this.m_bitmap.getD i 0
      if !KMem_isBitSet block bit then some (PHYS_NULL, this)
      else
        let newBlock := KMem_bitClear block bit
        some (frameAddr, { this with m_bitmap := this.m_bitmap.set i newBlock })
  else none

/-- `PmmBitmapAllocator_free` with its assertions `frameAddr != PHYS_NULL`
and `MM_isFrameAligned( frameAddr )`, those of the block number, and
`!KMem_isBitSet( block, bit )`: the caller is not allowed to free memory that
is already free. -/
def PmmBitmapAllocator_free_checked (this : PmmBitmapAllocator) (frameAddr : Nat) :
    Option PmmBitmapAllocator :=
  if frameAddr ≠ PHYS_NULL ∧ MM_isFrameAligned frameAddr = true then
    let frameNumber := MM_getFrameNumber frameAddr
    let bit := PmmBitmapAllocator_getBitInBlockForFrameNumber frameNumber
    match PmmBitmapAllocator_getBlockNumberForFrameNumber_checked this frameNumber with
    | none => none
    | some i =>
      let block := this.m_bitmap.getD i 0
      if !KMem_isBitSet block bit then
        let newBlock := KMem_bitSet block bit
        some { this with m_bitmap := this.m_bitmap.set i newBlock }
      else none
  else none

/-- The loop of `PmmWatermarkAllocator_allocateRegion` in a checked build. -/
def PmmWatermarkAllocator_allocateRegionLoop_checked (region : PmmRegion) :
    Nat → PmmRegion → PmmBitmapAllocator → Option PmmBitmapAllocator
  | 0, _, _ => none
  | fuel + 1, frameRegion, alloc =>
    let frameAddr := PmmRegion_base frameRegion
    let allocated :=
      if frameAddr ≠ PHYS_NULL then
        (PmmBitmapAllocator_allocateFrame_checked alloc frameAddr).map (fun r => r.2)
      else some alloc
    match allocated with
    | none => none
    | some alloc1 =>
      match PmmRegion_advance frameRegion with
      | (false, _) => some alloc1
      | (true, frameRegion1) =>
        if !PmmRegion_below region (PmmRegion_base frameRegion1) then
          PmmWatermarkAllocator_allocateRegionLoop_checked region fuel frameRegion1 alloc1
        else some alloc1

/-- `PmmWatermarkAllocator_allocateRegion` in a checked build. -/
def PmmWatermarkAllocator_allocateRegion_checked (alloc : PmmBitmapAllocator)
    (currentRegion region : PmmRegion) : Option PmmBitmapAllocator :=
  let region1 := PmmRegion_makePageAligned region
  match PmmRegion_clip region1 currentRegion with
  | (true, region2) =>
    let frameRegion := PmmRegion_create (PmmRegion_base region2) PAGE_SIZE
    PmmWatermarkAllocator_allocateRegionLoop_checked region2 FRAME_WALK_FUEL frameRegion alloc
  | (false, _) => some alloc

/-- The loop of `PmmWatermarkAllocator_freeRegion` in a checked build. -/
def PmmWatermarkAllocator_freeRegionLoop_checked (region : PmmRegion) :
    Nat → PmmRegion → PmmBitmapAllocator → Option PmmBitmapAllocator
  | 0, _, _ => none
  | fuel + 1, frameRegion, alloc =>
    let frameAddr := PmmRegion_base frameRegion
    let freed :=
      if frameAddr ≠ PHYS_NULL then PmmBitmapAllocator_free_checked alloc frameAddr
      else some alloc
    match freed with
    | none => none
    | some alloc1 =>
      match PmmRegion_advance frameRegion with
      | (false, _) => some alloc1
      | (true, frameRegion1) =>
        if !PmmRegion_below region (PmmRegion_base frameRegion1) then
          PmmWatermarkAllocator_freeRegionLoop_checked region fuel frameRegion1 alloc1
        else some alloc1

/-- `PmmWatermarkAllocator_freeRegion` in a checked build. -/
def PmmWatermarkAllocator_freeRegion_checked (alloc : PmmBitmapAllocator)
    (currentRegion region : PmmRegion) : Option (Bool × PmmBitmapAllocator) :=
  let region1 := PmmRegion_makePageAligned region
  match PmmRegion_clip region1 currentRegion with
  | (true, region2) =>
    let frameRegion := PmmRegion_create (PmmRegion_base region2) PAGE_SIZE
    (PmmWatermarkAllocator_freeRegionLoop_checked region2 FRAME_WALK_FUEL frameRegion alloc).map
      (fun alloc1 => (true, alloc1))
  | (false, region2) =>
    if PmmRegion_below region2 (PmmRegion_base currentRegion) then some (false, alloc)
    else some (true, alloc)

/-- The walk over the RAM list in `PmmWatermarkAllocator_initCurrentRegion`
in a checked build. -/
def PmmWatermarkAllocator_freeRamList_checked (currentRegion : PmmRegion) :
    List PmmRegion → Bool → PmmBitmapAllocator → Option (Bool × PmmBitmapAllocator)
  | [], moreFramesAvailable, alloc => some (moreFramesAvailable, alloc)
  | crnt :: rest, moreFramesAvailable, alloc =>
    match PmmWatermarkAllocator_freeRegion_checked alloc currentRegion crnt with
    | none => none
    | some (true, alloc1) =>
      PmmWatermarkAllocator_freeRamList_checked currentRegion rest true alloc1
    | some (false, alloc1) =>
      PmmWatermarkAllocator_freeRamList_checked currentRegion rest moreFramesAvailable alloc1

/-- The walk over the reserved list in
`PmmWatermarkAllocator_initCurrentRegion` in a checked build. -/
def PmmWatermarkAllocator_allocateReservedList_checked (currentRegion : PmmRegion) :
    List PmmRegion → PmmBitmapAllocator → Option PmmBitmapAllocator
  | [], alloc => some alloc
  | crnt :: rest, alloc =>
    match PmmWatermarkAllocator_allocateRegion_checked alloc currentRegion crnt with
    | none => none
    | some alloc1 =>
      PmmWatermarkAllocator_allocateReservedList_checked currentRegion rest alloc1

/-- `PmmWatermarkAllocator_initCurrentRegion` in a checked build. -/
def PmmWatermarkAllocator_initCurrentRegion_checked (this : PmmWatermarkAllocator) :
    Option (Bool × PmmWatermarkAllocator) :=
  match PmmBitmapAllocator_create_checked NUM_BLOCKS (PmmRegion_base this.m_currentRegion) with
  | none => none
  | some alloc0 =>
    match PmmWatermarkAllocator_freeRamList_checked this.m_currentRegion this.m_ramList false
        alloc0 with
    | none => none
    | some (true, alloc1) =>
      match PmmWatermarkAllocator_allocateReservedList_checked this.m_currentRegion
          this.m_reservedList alloc1 with
      | none => none
      | some alloc2 => some (true, { this with m_regionBitmapAllocator := alloc2 })
    | some (false, alloc1) => some (false, { this with m_regionBitmapAllocator := alloc1 })

/-- No two regions of the list touch the same page frame: the page-aligned
forms of two regions at different places of the list have no address in
common. -/
def PmmRegion_framesApart (regions : List PmmRegion) : Prop :=
  regions.Pairwise (fun r s => ∀ a : Nat, ¬ (inAligned r a = true ∧ inAligned s a = true))

/-! ## Single-bit lemmas -/

theorem u32_one_shiftLeft {bit : Nat} (h : bit < 32) : u32 (1 <<< bit) = 2 ^ bit := by
  have h1 : (2 : Nat) ^ bit < 2 ^ 32 := Nat.pow_lt_pow_right (by decide) h
  simp only [u32, Nat.one_shiftLeft]
  exact Nat.mod_eq_of_lt (by simpa using h1)

theorem KMem_isBitSet_eq_testBit (val : Nat) {bit : Nat} (h : bit < 32) :
    KMem_isBitSet val bit = val.testBit bit := by
  unfold KMem_isBitSet
  rw [u32_one_shiftLeft h]
  by_cases hb : val.testBit bit = true
  · rw [hb]
    have : (val &&& 2 ^ bit).testBit bit = true := by
      rw [Nat.testBit_and, hb, Nat.testBit_two_pow_self]; rfl
    have hne : val &&& 2 ^ bit ≠ 0 := by
      intro h0
      rw [h0] at this
      simp at this
    simpa using hne
  · have hb2 : val.testBit bit = false := by simpa using hb
    rw [hb2]
    have : val &&& 2 ^ bit = 0 := by
      apply Nat.eq_of_testBit_eq
      intro i
      rw [Nat.testBit_and, Nat.zero_testBit, Nat.testBit_two_pow]
      by_cases hi : bit = i
      · subst hi; simp [hb2]
      · simp [hi]
    simp [this]

theorem testBit_KMem_bitSet (val : Nat) {bit : Nat} (h : bit < 32) (j : Nat) :
    (KMem_bitSet val bit).testBit j = (val.testBit j || decide (bit = j)) := by
  unfold KMem_bitSet
  rw [u32_one_shiftLeft h, Nat.testBit_or, Nat.testBit_two_pow]

theorem testBit_KMem_bitClear {val : Nat} (hv : val < 4294967296) {bit : Nat} (h : bit < 32)
    (j : Nat) : (KMem_bitClear val bit).testBit j = (val.testBit j && !decide (bit = j)) := by
  unfold KMem_bitClear
  rw [u32_one_shiftLeft h, Nat.testBit_and, Nat.testBit_xor, Nat.testBit_two_pow]
  have h32 : (4294967295 : Nat) = 2 ^ 32 - 1 := by norm_num
  rw [h32, Nat.testBit_two_pow_sub_one]
  by_cases hj : j < 32
  · simp [hj]
  · have hlt : val < 2 ^ j :=
      lt_of_lt_of_le hv (by
        have : (2 : Nat) ^ 32 ≤ 2 ^ j := Nat.pow_le_pow_right (by decide) (by omega)
        simpa using this)
    rw [Nat.testBit_lt_two_pow hlt]
    simp

theorem KMem_bitSet_lt {val : Nat} (hv : val < 4294967296) {bit : Nat} (h : bit < 32) :
    KMem_bitSet val bit < 4294967296 := by
  unfold KMem_bitSet
  rw [u32_one_shiftLeft h]
  have h1 : (2 : Nat) ^ bit < 2 ^ 32 := Nat.pow_lt_pow_right (by decide) h
  have h2 : val < 2 ^ 32 := by simpa using hv
  have := Nat.or_lt_two_pow h2 h1
  simpa using this

theorem KMem_bitClear_le (val bit : Nat) : KMem_bitClear val bit ≤ val := by
  unfold KMem_bitClear
  exact Nat.and_le_left

theorem testBit_eq_false_of_lt_word {val : Nat} (hv : val < 4294967296) {j : Nat}
    (hj : 32 ≤ j) : val.testBit j = false := by
  apply Nat.testBit_lt_two_pow
  have : (2 : Nat) ^ 32 ≤ 2 ^ j := Nat.pow_le_pow_right (by decide) hj
  exact lt_of_lt_of_le (by simpa using hv) this

theorem lowestSetBitFrom_spec (val : Nat) :
    ∀ (fuel k : Nat), (∃ j, k ≤ j ∧ j < k + fuel ∧ val.testBit j = true) →
      k ≤ lowestSetBitFrom val fuel k ∧ lowestSetBitFrom val fuel k < k + fuel ∧
      val.testBit (lowestSetBitFrom val fuel k) = true ∧
      ∀ j, k ≤ j → j < lowestSetBitFrom val fuel k → val.testBit j = false := by
  intro fuel
  induction fuel with
  | zero =>
    intro k ⟨j, h1, h2, _⟩
    omega
  | succ fuel ih =>
    intro k ⟨j, h1, h2, h3⟩
    unfold lowestSetBitFrom
    by_cases hk : val.testBit k = true
    · rw [if_pos hk]
      refine ⟨le_refl _, by omega, hk, ?_⟩
      intro j hj1 hj2
      omega
    · rw [if_neg hk]
      have hjk : j ≠ k := by
        intro h; subst h; exact hk h3
      obtain ⟨a, b, c, d⟩ := ih (k + 1) ⟨j, by omega, by omega, h3⟩
      refine ⟨by omega, by omega, c, ?_⟩
      intro i hi1 hi2
      by_cases hik : i = k
      · subst hik; simpa using hk
      · exact d i (by omega) hi2

/-- What the bit scan returns on a non-zero 32-bit word. -/
theorem KMem_findLowestSetBit_spec {val : Nat} (hv : val < 4294967296) (h0 : val ≠ 0) :
    ∃ k : Nat, k < 32 ∧ KMem_findLowestSetBit val = Int.ofNat k ∧ u8OfInt (KMem_findLowestSetBit val) = k ∧
      val.testBit k = true ∧ ∀ j, j < k → val.testBit j = false := by
  obtain ⟨i, hi⟩ := Nat.ne_zero_implies_bit_true h0
  have hi32 : i < 32 := by
    by_contra hcon
    rw [testBit_eq_false_of_lt_word hv (by omega)] at hi
    exact Bool.noConfusion hi
  obtain ⟨_, b, c, d⟩ := lowestSetBitFrom_spec val 32 0 ⟨i, by omega, by omega, hi⟩
  refine ⟨lowestSetBitFrom val 32 0, by omega, ?_, ?_, c, fun j hj => d j (by omega) hj⟩
  · unfold KMem_findLowestSetBit
    rw [if_neg h0]
  · unfold KMem_findLowestSetBit u8OfInt
    rw [if_neg h0]
    simp only [Int.ofNat_eq_coe]
    omega

/-! ## `PmmBitmapAllocator`: lemmas -/

theorem getD_set_eq (l : List Nat) (i j v : Nat) :
    (l.set i v).getD j 0 = if i = j ∧ i < l.length then v else l.getD j 0 := by
  induction l generalizing i j with
  | nil => simp
  | cons x xs ih =>
    cases i with
    | zero =>
      cases j with
      | zero => simp
      | succ j => simp
    | succ i =>
      cases j with
      | zero => simp
      | succ j =>
        simp only [List.set_cons_succ, List.getD_cons_succ, List.length_cons]
        rw [ih]
        simp

theorem getD_lt_word {l : List Nat} (h : ∀ x ∈ l, x < 4294967296) (i : Nat) :
    l.getD i 0 < 4294967296 := by
  by_cases hi : i < l.length
  · rw [List.getD_eq_getElem _ _ hi]
    exact h _ (List.getElem_mem _)
  · rw [List.getD_eq_default _ _ (by omega)]
    decide

theorem set_lt_word {l : List Nat} (h : ∀ x ∈ l, x < 4294967296) (i : Nat) {v : Nat}
    (hv : v < 4294967296) : ∀ x ∈ l.set i v, x < 4294967296 := by
  intro x hx
  rcases List.mem_or_eq_of_mem_set hx with h1 | h1
  · exact h x h1
  · rw [h1]; exact hv

theorem bitAt_set (l : List Nat) (i v w k : Nat) (hi : i < l.length) :
    bitAt (l.set i v) w k = if w = i then v.testBit k else bitAt l w k := by
  unfold bitAt
  rw [getD_set_eq]
  by_cases h : w = i
  · subst h; simp [hi]
  · have : ¬ (i = w ∧ i < l.length) := fun hc => h hc.1.symm
    rw [if_neg this, if_neg h]

theorem rotIndex_eq (this : PmmBitmapAllocator)
    (hh : this.m_lastAllocatedIndex < this.m_numBlocks) {d : Nat} (hd : d < this.m_numBlocks) :
    rotIndex this d =
      if this.m_lastAllocatedIndex + d < this.m_numBlocks then this.m_lastAllocatedIndex + d
      else this.m_lastAllocatedIndex + d - this.m_numBlocks := by
  unfold rotIndex
  split
  · next h => exact Nat.mod_eq_of_lt h
  · next h =>
    rw [Nat.mod_eq_sub_mod (by omega)]
    exact Nat.mod_eq_of_lt (by omega)

theorem rotIndex_lt (this : PmmBitmapAllocator) (hn : 0 < this.m_numBlocks) (d : Nat) :
    rotIndex this d < this.m_numBlocks := Nat.mod_lt _ hn

theorem rotIndex_succ (this : PmmBitmapAllocator) (d : Nat) :
    (rotIndex this d + 1) % this.m_numBlocks = rotIndex this (d + 1) := by
  unfold rotIndex
  rw [Nat.mod_add_mod]
  rfl

theorem allocateLoop_spec (this : PmmBitmapAllocator) (hn : 0 < this.m_numBlocks)
    (hh : this.m_lastAllocatedIndex < this.m_numBlocks) :
    ∀ (fuel d : Nat), d ≤ this.m_numBlocks - 1 → this.m_numBlocks ≤ d + fuel →
      (∀ e, e < d → this.m_bitmap.getD (rotIndex this e) 0 = 0) →
      (PmmBitmapAllocator_allocateLoop this
          (if this.m_lastAllocatedIndex = 0 then this.m_numBlocks - 1
            else this.m_lastAllocatedIndex - 1) fuel (rotIndex this d) = some (PHYS_NULL, this) ∧
        ∀ e, e < this.m_numBlocks - 1 → this.m_bitmap.getD (rotIndex this e) 0 = 0) ∨
      (∃ dist, d ≤ dist ∧ dist < this.m_numBlocks - 1 ∧
        this.m_bitmap.getD (rotIndex this dist) 0 ≠ 0 ∧
        (∀ e, e < dist → this.m_bitmap.getD (rotIndex this e) 0 = 0) ∧
        PmmBitmapAllocator_allocateLoop this
          (if this.m_lastAllocatedIndex = 0 then this.m_numBlocks - 1
            else this.m_lastAllocatedIndex - 1) fuel (rotIndex this d) =
          some (PmmBitmapAllocator_takenAddr this (rotIndex this dist),
            PmmBitmapAllocator_taken this (rotIndex this dist))) := by
  intro fuel
  induction fuel with
  | zero =>
    intro d h1 h2 _
    omega
  | succ fuel ih =>
    intro d h1 h2 hz
    have hrd := rotIndex_eq this hh (show d < this.m_numBlocks by omega)
    unfold PmmBitmapAllocator_allocateLoop
    by_cases hlast : rotIndex this d = (if this.m_lastAllocatedIndex = 0 then this.m_numBlocks - 1
            else this.m_lastAllocatedIndex - 1)
    · rw [if_pos hlast]
      left
      refine ⟨rfl, ?_⟩
      have hd : d = this.m_numBlocks - 1 := by
        rw [hrd] at hlast
        split at hlast <;> split at hlast <;> omega
      intro e he
      exact hz e (by omega)
    · rw [if_neg hlast]
      have hd : d < this.m_numBlocks - 1 := by
        by_contra hcon
        apply hlast
        rw [hrd]
        split <;> split <;> omega
      by_cases hb : this.m_bitmap.getD (rotIndex this d) 0 = 0
      · simp only [hb, ne_eq, not_true_eq_false, if_false]
        rw [rotIndex_succ]
        have hz1 : ∀ e, e < d + 1 → this.m_bitmap.getD (rotIndex this e) 0 = 0 := by
          intro e he
          by_cases hed : e = d
          · subst hed; exact hb
          · exact hz e (by omega)
        rcases ih (d + 1) (by omega) (by omega) hz1 with h | ⟨dist, a, b, c, e, f⟩
        · left; exact h
        · right; exact ⟨dist, by omega, b, c, e, f⟩
      · right
        refine ⟨d, le_refl _, hd, hb, hz, ?_⟩
        simp only [ne_eq, hb, not_false_eq_true, if_true]
        rfl

/-- Outcome of `PmmBitmapAllocator_allocate` on a well-formed allocator: either
every word examined by the rotation is zero and `PHYS_NULL` comes back with the
allocator untouched, or the lowest set bit of the first non-zero word examined
is taken. -/
theorem PmmBitmapAllocator_allocate_spec (this : PmmBitmapAllocator)
    (hwf : PmmBitmapAllocator_wellFormed this) :
    (PmmBitmapAllocator_allocate this = some (PHYS_NULL, this) ∧
        ∀ e, e < this.m_numBlocks - 1 → this.m_bitmap.getD (rotIndex this e) 0 = 0) ∨
      (∃ dist, dist < this.m_numBlocks - 1 ∧
        this.m_bitmap.getD (rotIndex this dist) 0 ≠ 0 ∧
        (∀ e, e < dist → this.m_bitmap.getD (rotIndex this e) 0 = 0) ∧
        PmmBitmapAllocator_allocate this =
          some (PmmBitmapAllocator_takenAddr this (rotIndex this dist),
            PmmBitmapAllocator_taken this (rotIndex this dist))) := by
  obtain ⟨hn, _, _, hh⟩ := hwf
  have h0 : rotIndex this 0 = this.m_lastAllocatedIndex := by
    unfold rotIndex
    exact Nat.mod_eq_of_lt hh
  have := allocateLoop_spec this hn hh this.m_numBlocks 0 (by omega) (by omega)
    (fun e he => absurd he (by omega))
  rw [h0] at this
  unfold PmmBitmapAllocator_allocate
  rcases this with h | ⟨dist, _, b, c, d, e⟩
  · left; exact h
  · right; exact ⟨dist, b, c, d, e⟩

theorem getPhysAddr_eq (this : PmmBitmapAllocator) (hfit : PmmBitmapAllocator_windowFits this)
    {i bit : Nat} (hi : i < this.m_numBlocks) (hb : bit < 32) :
    PmmBitmapAllocator_getPhysAddrForBlockNumberAndBitInBlock this i bit =
      (this.m_baseFrameNumber + i * 32 + bit) * 4096 := by
  unfold PmmBitmapAllocator_windowFits at hfit
  unfold PmmBitmapAllocator_getPhysAddrForBlockNumberAndBitInBlock MM_getFrameAddress u32
  simp only [Nat.shiftLeft_eq, BITS_PER_BLOCK, BITS_PER_BYTE, PAGE_BITS] at hfit ⊢
  norm_num at hfit ⊢
  omega

/-- Effect on the bitmap of taking the lowest set bit of the non-zero word
`i`. -/
theorem PmmBitmapAllocator_taken_spec (this : PmmBitmapAllocator)
    (hwf : PmmBitmapAllocator_wellFormed this) {i : Nat} (hi : i < this.m_numBlocks)
    (hne : this.m_bitmap.getD i 0 ≠ 0) :
    ∃ bit, bit < 32 ∧ u8OfInt (KMem_findLowestSetBit (this.m_bitmap.getD i 0)) = bit ∧
      bitAt this.m_bitmap i bit = true ∧
      (∀ j, j < bit → bitAt this.m_bitmap i j = false) ∧
      (∀ w k, bitAt (PmmBitmapAllocator_taken this i).m_bitmap w k =
        (bitAt this.m_bitmap w k && !(decide (w = i) && decide (k = bit)))) ∧
      PmmBitmapAllocator_wellFormed (PmmBitmapAllocator_taken this i) := by
  obtain ⟨hn, hlen, hword, hh⟩ := hwf
  have hv := getD_lt_word hword i
  obtain ⟨bit, hb, _, hu, hset, hlow⟩ := KMem_findLowestSetBit_spec hv hne
  refine ⟨bit, hb, hu, hset, hlow, ?_, ?_⟩
  · intro w k
    unfold PmmBitmapAllocator_taken
    simp only
    rw [bitAt_set _ _ _ _ _ (by omega), hu]
    by_cases hw : w = i
    · subst hw
      rw [if_pos rfl, testBit_KMem_bitClear hv hb]
      unfold bitAt
      by_cases hk : bit = k
      · subst hk; simp
      · have hk2 : ¬ k = bit := fun h => hk h.symm
        simp [hk, hk2]
    · rw [if_neg hw]
      simp [hw]
  · unfold PmmBitmapAllocator_taken
    refine ⟨hn, ?_, ?_, hi⟩
    · simp only [List.length_set]; exact hlen
    · exact set_lt_word hword i (lt_of_le_of_lt (KMem_bitClear_le _ _) hv)

theorem MM_getFrameNumber_eq (paddr : Nat) : MM_getFrameNumber paddr = paddr / 4096 := by
  unfold MM_getFrameNumber
  rw [Nat.shiftRight_eq_div_pow]
  rfl

theorem getBitInBlock_eq (frameNumber : Nat) :
    PmmBitmapAllocator_getBitInBlockForFrameNumber frameNumber = frameNumber % 32 := by
  unfold PmmBitmapAllocator_getBitInBlockForFrameNumber
  simp only [BITS_PER_BLOCK, BITS_PER_BYTE]
  omega

theorem getBlockNumber_eq (this : PmmBitmapAllocator) {frameNumber : Nat}
    (h1 : this.m_baseFrameNumber ≤ frameNumber) (h2 : frameNumber < 4294967296) :
    PmmBitmapAllocator_getBlockNumberForFrameNumber this frameNumber =
      (frameNumber - this.m_baseFrameNumber) / 32 := by
  unfold PmmBitmapAllocator_getBlockNumberForFrameNumber u32
  simp only [BITS_PER_BLOCK, BITS_PER_BYTE]
  omega

theorem set_getD_self (l : List Nat) (i : Nat) : l.set i (l.getD i 0) = l := by
  induction l generalizing i with
  | nil => simp
  | cons x xs ih =>
    cases i with
    | zero => simp
    | succ i =>
      simp only [List.getD_cons_succ, List.set_cons_succ]
      rw [ih]

theorem KMem_bitClear_bitSet {val : Nat} (hv : val < 4294967296) {bit : Nat} (h : bit < 32)
    (hclear : val.testBit bit = false) : KMem_bitClear (KMem_bitSet val bit) bit = val := by
  apply Nat.eq_of_testBit_eq
  intro j
  rw [testBit_KMem_bitClear (KMem_bitSet_lt hv h) h, testBit_KMem_bitSet val h]
  by_cases hj : bit = j
  · subst hj; simp [hclear]
  · simp [hj]

/-- Effect of `PmmBitmapAllocator_free` on the bits of the bitmap, for a frame
number whose word index is inside the array. -/
theorem PmmBitmapAllocator_free_spec (this : PmmBitmapAllocator)
    (hwf : PmmBitmapAllocator_wellFormed this) (frameAddr : Nat)
    (hi : PmmBitmapAllocator_getBlockNumberForFrameNumber this (MM_getFrameNumber frameAddr)
      < this.m_numBlocks) :
    (∀ w j, bitAt (PmmBitmapAllocator_free this frameAddr).m_bitmap w j =
      (bitAt this.m_bitmap w j ||
        (decide (w = PmmBitmapAllocator_getBlockNumberForFrameNumber this
            (MM_getFrameNumber frameAddr)) &&
          decide (j = PmmBitmapAllocator_getBitInBlockForFrameNumber
            (MM_getFrameNumber frameAddr))))) ∧
    PmmBitmapAllocator_wellFormed (PmmBitmapAllocator_free this frameAddr) ∧
    (PmmBitmapAllocator_free this frameAddr).m_numBlocks = this.m_numBlocks ∧
    (PmmBitmapAllocator_free this frameAddr).m_lastAllocatedIndex = this.m_lastAllocatedIndex ∧
    (PmmBitmapAllocator_free this frameAddr).m_baseFrameNumber = this.m_baseFrameNumber := by
  obtain ⟨hn, hlen, hword, hh⟩ := hwf
  have hk : PmmBitmapAllocator_getBitInBlockForFrameNumber (MM_getFrameNumber frameAddr) < 32 := by
    rw [getBitInBlock_eq]; omega
  refine ⟨?_, ⟨hn, ?_, ?_, hh⟩, rfl, rfl, rfl⟩
  · intro w j
    unfold PmmBitmapAllocator_free
    simp only
    rw [bitAt_set _ _ _ _ _ (by omega)]
    by_cases hw : w = PmmBitmapAllocator_getBlockNumberForFrameNumber this
        (MM_getFrameNumber frameAddr)
    · rw [if_pos hw, testBit_KMem_bitSet _ hk, hw]
      unfold bitAt
      by_cases hj : PmmBitmapAllocator_getBitInBlockForFrameNumber
          (MM_getFrameNumber frameAddr) = j
      · simp [hj]
      · have hj2 : ¬ j = PmmBitmapAllocator_getBitInBlockForFrameNumber
            (MM_getFrameNumber frameAddr) := fun h => hj h.symm
        simp [hj, hj2]
    · rw [if_neg hw]
      simp [hw]
  · unfold PmmBitmapAllocator_free
    simp only [List.length_set]
    exact hlen
  · unfold PmmBitmapAllocator_free
    exact set_lt_word hword _ (KMem_bitSet_lt (getD_lt_word hword _) hk)

/-- Effect of `PmmBitmapAllocator_allocateFrame` on the bits of the bitmap, for
a frame number whose word index is inside the array. -/
theorem PmmBitmapAllocator_allocateFrame_spec (this : PmmBitmapAllocator)
    (hwf : PmmBitmapAllocator_wellFormed this) (frameAddr : Nat)
    (hi : PmmBitmapAllocator_getBlockNumberForFrameNumber this (MM_getFrameNumber frameAddr)
      < this.m_numBlocks) :
    (PmmBitmapAllocator_allocateFrame this frameAddr).1 =
      (if bitAt this.m_bitmap
          (PmmBitmapAllocator_getBlockNumberForFrameNumber this (MM_getFrameNumber frameAddr))
          (PmmBitmapAllocator_getBitInBlockForFrameNumber (MM_getFrameNumber frameAddr)) = true
        then frameAddr else PHYS_NULL) ∧
    (bitAt this.m_bitmap
        (PmmBitmapAllocator_getBlockNumberForFrameNumber this (MM_getFrameNumber frameAddr))
        (PmmBitmapAllocator_getBitInBlockForFrameNumber (MM_getFrameNumber frameAddr)) = false →
      (PmmBitmapAllocator_allocateFrame this frameAddr).2 = this) ∧
    (∀ w j, bitAt (PmmBitmapAllocator_allocateFrame this frameAddr).2.m_bitmap w j =
      (bitAt this.m_bitmap w j &&
        !(decide (w = PmmBitmapAllocator_getBlockNumberForFrameNumber this
            (MM_getFrameNumber frameAddr)) &&
          decide (j = PmmBitmapAllocator_getBitInBlockForFrameNumber
            (MM_getFrameNumber frameAddr))))) ∧
    PmmBitmapAllocator_wellFormed (PmmBitmapAllocator_allocateFrame this frameAddr).2 ∧
    (PmmBitmapAllocator_allocateFrame this frameAddr).2.m_numBlocks = this.m_numBlocks ∧
    (PmmBitmapAllocator_allocateFrame this frameAddr).2.m_lastAllocatedIndex =
      this.m_lastAllocatedIndex ∧
    (PmmBitmapAllocator_allocateFrame this frameAddr).2.m_baseFrameNumber =
      this.m_baseFrameNumber := by
  obtain ⟨hn, hlen, hword, hh⟩ := hwf
  have hk : PmmBitmapAllocator_getBitInBlockForFrameNumber (MM_getFrameNumber frameAddr) < 32 := by
    rw [getBitInBlock_eq]; omega
  have hv := getD_lt_word hword (PmmBitmapAllocator_getBlockNumberForFrameNumber this
    (MM_getFrameNumber frameAddr))
  unfold PmmBitmapAllocator_allocateFrame
  simp only [KMem_isBitSet_eq_testBit _ hk]
  by_cases hset : bitAt this.m_bitmap
      (PmmBitmapAllocator_getBlockNumberForFrameNumber this (MM_getFrameNumber frameAddr))
      (PmmBitmapAllocator_getBitInBlockForFrameNumber (MM_getFrameNumber frameAddr)) = true
  · have hset2 := hset
    unfold bitAt at hset2
    simp only [hset, hset2, Bool.not_true, Bool.false_eq_true, if_false, if_true]
    refine ⟨trivial, fun h => Bool.noConfusion h, ?_, ⟨hn, ?_, ?_, hh⟩, trivial, trivial, trivial⟩
    · intro w j
      rw [bitAt_set _ _ _ _ _ (by omega)]
      by_cases hw : w = PmmBitmapAllocator_getBlockNumberForFrameNumber this
          (MM_getFrameNumber frameAddr)
      · rw [if_pos hw, testBit_KMem_bitClear hv hk, hw]
        unfold bitAt
        by_cases hj : PmmBitmapAllocator_getBitInBlockForFrameNumber
            (MM_getFrameNumber frameAddr) = j
        · simp [hj]
        · have hj2 : ¬ j = PmmBitmapAllocator_getBitInBlockForFrameNumber
              (MM_getFrameNumber frameAddr) := fun h => hj h.symm
          simp [hj, hj2]
      · rw [if_neg hw]
        simp [hw]
    · simp only [List.length_set]
      exact hlen
    · exact set_lt_word hword _ (lt_of_le_of_lt (KMem_bitClear_le _ _) hv)
  · have hset1 : bitAt this.m_bitmap
        (PmmBitmapAllocator_getBlockNumberForFrameNumber this (MM_getFrameNumber frameAddr))
        (PmmBitmapAllocator_getBitInBlockForFrameNumber (MM_getFrameNumber frameAddr)) = false := by
      simpa using hset
    have hset2 := hset1
    unfold bitAt at hset2
    simp only [hset1, hset2, Bool.not_false, if_true, Bool.false_eq_true, if_false]
    refine ⟨trivial, fun _ => trivial, ?_, ⟨hn, hlen, hword, hh⟩, trivial, trivial, trivial⟩
    intro w j
    by_cases hw : w = PmmBitmapAllocator_getBlockNumberForFrameNumber this
        (MM_getFrameNumber frameAddr)
    · by_cases hj : j = PmmBitmapAllocator_getBitInBlockForFrameNumber
          (MM_getFrameNumber frameAddr)
      · subst hw; subst hj; simp [hset1]
      · simp [hj]
    · simp [hw]

theorem frame_index_in_window (this : PmmBitmapAllocator)
    (hfit : PmmBitmapAllocator_windowFits this) {f : Nat}
    (hlo : this.m_baseFrameNumber * 4096 ≤ f)
    (hhi : f < (this.m_baseFrameNumber + this.m_numBlocks * 32) * 4096) :
    PmmBitmapAllocator_getBlockNumberForFrameNumber this (MM_getFrameNumber f) =
        (f / 4096 - this.m_baseFrameNumber) / 32 ∧
      PmmBitmapAllocator_getBlockNumberForFrameNumber this (MM_getFrameNumber f)
        < this.m_numBlocks := by
  unfold PmmBitmapAllocator_windowFits at hfit
  simp only [BITS_PER_BLOCK, BITS_PER_BYTE] at hfit
  rw [MM_getFrameNumber_eq]
  have h1 : this.m_baseFrameNumber ≤ f / 4096 := by omega
  have h2 : f / 4096 < 4294967296 := by omega
  rw [getBlockNumber_eq this h1 h2]
  omega

/-- Freeing an allocated frame and then allocating that same frame leaves the
allocator as it was. -/
theorem allocateFrame_free_restores (this : PmmBitmapAllocator)
    (hwf : PmmBitmapAllocator_wellFormed this) (frameAddr : Nat)
    (hi : PmmBitmapAllocator_getBlockNumberForFrameNumber this (MM_getFrameNumber frameAddr)
      < this.m_numBlocks)
    (hclear : bitAt this.m_bitmap
      (PmmBitmapAllocator_getBlockNumberForFrameNumber this (MM_getFrameNumber frameAddr))
      (PmmBitmapAllocator_getBitInBlockForFrameNumber (MM_getFrameNumber frameAddr)) = false) :
    PmmBitmapAllocator_allocateFrame (PmmBitmapAllocator_free this frameAddr) frameAddr =
      (frameAddr, this) := by
  obtain ⟨hn, hlen, hword, hh⟩ := hwf
  have hk : PmmBitmapAllocator_getBitInBlockForFrameNumber (MM_getFrameNumber frameAddr) < 32 := by
    rw [getBitInBlock_eq]; omega
  have hv := getD_lt_word hword (PmmBitmapAllocator_getBlockNumberForFrameNumber this
    (MM_getFrameNumber frameAddr))
  have hsame : PmmBitmapAllocator_getBlockNumberForFrameNumber
      (PmmBitmapAllocator_free this frameAddr) (MM_getFrameNumber frameAddr) =
      PmmBitmapAllocator_getBlockNumberForFrameNumber this (MM_getFrameNumber frameAddr) := rfl
  unfold bitAt at hclear
  unfold PmmBitmapAllocator_allocateFrame
  simp only [hsame, KMem_isBitSet_eq_testBit _ hk]
  have hget : (PmmBitmapAllocator_free this frameAddr).m_bitmap.getD
      (PmmBitmapAllocator_getBlockNumberForFrameNumber this (MM_getFrameNumber frameAddr)) 0 =
      KMem_bitSet (this.m_bitmap.getD
        (PmmBitmapAllocator_getBlockNumberForFrameNumber this (MM_getFrameNumber frameAddr)) 0)
        (PmmBitmapAllocator_getBitInBlockForFrameNumber (MM_getFrameNumber frameAddr)) := by
    unfold PmmBitmapAllocator_free
    simp only
    rw [getD_set_eq, if_pos ⟨rfl, by omega⟩]
  rw [hget, testBit_KMem_bitSet _ hk, KMem_bitClear_bitSet hv hk hclear]
  simp only [decide_True, Bool.or_true, Bool.not_true, Bool.false_eq_true, if_false]
  unfold PmmBitmapAllocator_free
  simp only [List.set_set, set_getD_self]

/-! ## `PmmRegion`: lemmas -/

theorem PmmRegion_mk_congr {a b c d : Nat} (h1 : a = c) (h2 : b = d) :
    (⟨a, b⟩ : PmmRegion) = ⟨c, d⟩ := by
  rw [h1, h2]

theorem alignMask_eq : (4294967295 ^^^ FRAME_OFFSET_MASK : Nat) = 1048575 <<< 12 := by decide

theorem MM_alignToFrame_eq {x : Nat} (hx : x < 4294967296) :
    MM_alignToFrame x = x / 4096 * 4096 := by
  unfold MM_alignToFrame
  rw [alignMask_eq]
  have h1 : x / 4096 * 4096 = (x >>> 12) <<< 12 := by
    rw [Nat.shiftLeft_eq, Nat.shiftRight_eq_div_pow]
  rw [h1]
  apply Nat.eq_of_testBit_eq
  intro j
  have h20 : (1048575 : Nat) = 2 ^ 20 - 1 := by norm_num
  rw [Nat.testBit_and, Nat.testBit_shiftLeft, Nat.testBit_shiftLeft, Nat.testBit_shiftRight, h20,
    Nat.testBit_two_pow_sub_one]
  by_cases hj : 12 ≤ j
  · have e : 12 + (j - 12) = j := by omega
    rw [e]
    by_cases hj2 : j - 12 < 20
    · simp [hj, hj2]
    · have hx0 : x.testBit j = false := testBit_eq_false_of_lt_word hx (by omega)
      simp [hx0]
  · simp [hj]

theorem PmmRegion_makePageAligned_eq {r : PmmRegion} (hr : PmmRegion_valid r) :
    PmmRegion_makePageAligned r =
      ⟨r.m_base / 4096 * 4096, r.m_last / 4096 * 4096 + 4095⟩ := by
  obtain ⟨h1, h2⟩ := hr
  simp only [MAX_PHYS_ADDR] at h2
  unfold PmmRegion_makePageAligned
  simp only [MAX_PHYS_ADDR, PAGE_SIZE]
  rw [MM_alignToFrame_eq (show r.m_base < 4294967296 by omega)]
  split
  · next h =>
    apply PmmRegion_mk_congr rfl
    omega
  · next h =>
    have h3 : u32 (r.m_last + 4 * 1024) = r.m_last + 4096 := by
      unfold u32; omega
    rw [h3, MM_alignToFrame_eq (by omega)]
    unfold u32
    apply PmmRegion_mk_congr rfl
    omega

theorem inAligned_iff {r : PmmRegion} (hr : PmmRegion_valid r) (a : Nat) :
    inAligned r a = true ↔ r.m_base / 4096 * 4096 ≤ a ∧ a ≤ r.m_last / 4096 * 4096 + 4095 := by
  unfold inAligned
  rw [PmmRegion_makePageAligned_eq hr]
  simp

theorem PmmRegion_advance_eq {r : PmmRegion} (hr : PmmRegion_valid r) :
    PmmRegion_advance r =
      if r.m_last = 4294967295 then (false, r)
      else if 2 * r.m_last + 1 - r.m_base ≤ 4294967295 then
        (true, ⟨r.m_last + 1, 2 * r.m_last + 1 - r.m_base⟩)
      else (false, r) := by
  obtain ⟨h1, h2⟩ := hr
  simp only [MAX_PHYS_ADDR] at h2
  unfold PmmRegion_advance
  simp only [MAX_PHYS_ADDR]
  by_cases hl : r.m_last = 4294967295
  · rw [if_pos hl, if_pos hl]
  · rw [if_neg hl, if_neg hl]
    have hlen : PmmRegion_length r = r.m_last - r.m_base + 1 := by
      unfold PmmRegion_length u32; omega
    have hnb : u32 (r.m_last + 1) = r.m_last + 1 := by unfold u32; omega
    rw [hlen, hnb]
    unfold PmmRegion_isValidRegion
    simp only [MAX_PHYS_ADDR, Bool.and_eq_true, decide_eq_true_eq]
    by_cases hv : 2 * r.m_last + 1 - r.m_base ≤ 4294967295
    · rw [if_pos hv, if_pos ⟨by omega, by omega⟩]
      have : u32 (r.m_last + (r.m_last - r.m_base + 1)) = 2 * r.m_last + 1 - r.m_base := by
        unfold u32; omega
      rw [this]
    · rw [if_neg hv, if_neg (by omega)]

theorem PmmRegion_create_frame {f : Nat} (hf : f + 4095 < 4294967296) :
    PmmRegion_create f PAGE_SIZE = ⟨f, f + 4095⟩ := by
  unfold PmmRegion_create u32
  simp only [PAGE_SIZE]
  apply PmmRegion_mk_congr rfl
  omega

theorem PmmRegion_advance_frame {f : Nat} (hf : f + 4095 < 4294967296) (ha : f % 4096 = 0) :
    PmmRegion_advance ⟨f, f + 4095⟩ =
      if f + 4095 = 4294967295 then (false, ⟨f, f + 4095⟩)
      else (true, ⟨f + 4096, f + 4096 + 4095⟩) := by
  rw [PmmRegion_advance_eq ⟨by simp, by simp only [MAX_PHYS_ADDR]; omega⟩]
  by_cases h : f + 4095 = 4294967295
  · simp only [h, if_true]
  · simp only [h, if_false]
    rw [if_pos (by omega)]
    congr 2
    omega

theorem PmmRegion_advance_window {B : Nat} (hB : B % 16777216 = 0)
    (hfit : B + 16777216 ≤ 4294967296) :
    PmmRegion_advance ⟨B, B + 16777215⟩ =
      if B + 16777216 = 4294967296 then (false, ⟨B, B + 16777215⟩)
      else (true, ⟨B + 16777216, B + 16777216 + 16777215⟩) := by
  rw [PmmRegion_advance_eq ⟨by simp, by simp only [MAX_PHYS_ADDR]; omega⟩]
  by_cases h : B + 16777216 = 4294967296
  · rw [if_pos h, if_pos (by simp only; omega)]
  · rw [if_neg h, if_neg (by simp only; omega), if_pos (by simp only; omega)]
    congr 2
    simp only
    omega

theorem PmmRegion_clip_eq (r c : PmmRegion) :
    PmmRegion_clip r c =
      if r.m_last < c.m_base ∨ c.m_last < r.m_base then (false, r)
      else (true, ⟨max r.m_base c.m_base, min r.m_last c.m_last⟩) := by
  unfold PmmRegion_clip PmmRegion_below
  simp only [Bool.or_eq_true, decide_eq_true_eq]
  by_cases h : r.m_last < c.m_base ∨ c.m_last < r.m_base
  · rw [if_pos h, if_pos h]
  · rw [if_neg h, if_neg h]
    congr 1
    by_cases h1 : r.m_base < c.m_base
    · simp only [h1, if_true]
      by_cases h2 : c.m_last < r.m_last
      · simp only [h2, if_true]
        congr 1
        · omega
        · omega
      · simp only [h2, if_false]
        congr 1
        · omega
        · omega
    · simp only [h1, if_false]
      by_cases h2 : c.m_last < r.m_last
      · simp only [h2, if_true]
        congr 1
        · omega
        · omega
      · simp only [h2, if_false]
        cases r
        congr 1
        · simp only at h1 ⊢; omega
        · simp only at h2 ⊢; omega

/-! ## Frames of a watermark window -/

theorem or_decide_congr (b : Bool) {p q : Prop} [Decidable p] [Decidable q] (h : p ↔ q) :
    (b || decide p) = (b || decide q) := by
  rw [decide_eq_decide.mpr h]

theorem or_decide_or (b : Bool) {p1 p2 q : Prop} [Decidable p1] [Decidable p2] [Decidable q]
    (h : (p1 ∨ p2) ↔ q) : ((b || decide p1) || decide p2) = (b || decide q) := by
  rw [Bool.or_assoc, ← Bool.decide_or, decide_eq_decide.mpr h]

theorem and_not_decide_congr (b : Bool) {p q : Prop} [Decidable p] [Decidable q] (h : p ↔ q) :
    (b && !decide p) = (b && !decide q) := by
  rw [decide_eq_decide.mpr h]

theorem and_not_decide_or (b : Bool) {p1 p2 q : Prop} [Decidable p1] [Decidable p2]
    [Decidable q] (h : (p1 ∨ p2) ↔ q) :
    ((b && !decide p1) && !decide p2) = (b && !decide q) := by
  rw [Bool.and_assoc, ← Bool.not_or, ← Bool.decide_or, decide_eq_decide.mpr h]

theorem WinAlloc_fits {B : Nat} {alloc : PmmBitmapAllocator} (h : WinAlloc B alloc) :
    PmmBitmapAllocator_windowFits alloc := by
  obtain ⟨_, hn, hb, _, hfit⟩ := h
  unfold PmmBitmapAllocator_windowFits
  simp only [BITS_PER_BLOCK, BITS_PER_BYTE]
  omega

theorem WinAlloc_index {B : Nat} {alloc : PmmBitmapAllocator} (h : WinAlloc B alloc) {f : Nat}
    (ha : f % 4096 = 0) (hlo : B ≤ f) (hhi : f < B + 16777216) :
    PmmBitmapAllocator_getBlockNumberForFrameNumber alloc (MM_getFrameNumber f)
        < alloc.m_numBlocks ∧
    ∀ w j, j < 32 →
      ((w = PmmBitmapAllocator_getBlockNumberForFrameNumber alloc (MM_getFrameNumber f) ∧
        j = PmmBitmapAllocator_getBitInBlockForFrameNumber (MM_getFrameNumber f)) ↔
        winAddr B w j = f) := by
  have hfit := WinAlloc_fits h
  obtain ⟨_, hn, hb, hB, hBfit⟩ := h
  obtain ⟨h1, h2⟩ := frame_index_in_window alloc hfit (f := f) (by omega) (by omega)
  refine ⟨h2, ?_⟩
  intro w j hj
  rw [h1, getBitInBlock_eq, MM_getFrameNumber_eq]
  unfold winAddr
  omega

theorem free_window {B : Nat} {alloc : PmmBitmapAllocator} (h : WinAlloc B alloc) {f : Nat}
    (ha : f % 4096 = 0) (hlo : B ≤ f) (hhi : f < B + 16777216) :
    WinAlloc B (PmmBitmapAllocator_free alloc f) ∧
    (PmmBitmapAllocator_free alloc f).m_lastAllocatedIndex = alloc.m_lastAllocatedIndex ∧
    ∀ w j, j < 32 → bitAt (PmmBitmapAllocator_free alloc f).m_bitmap w j =
      (bitAt alloc.m_bitmap w j || decide (winAddr B w j = f)) := by
  obtain ⟨hi, hiff⟩ := WinAlloc_index h ha hlo hhi
  obtain ⟨hbits, hwf, hn, hh, hb⟩ := PmmBitmapAllocator_free_spec alloc h.1 f hi
  refine ⟨⟨hwf, by rw [hn]; exact h.2.1, by rw [hb]; exact h.2.2.1, h.2.2.2⟩, hh, ?_⟩
  intro w j hj
  rw [hbits, ← Bool.decide_and]
  exact or_decide_congr _ (hiff w j hj)

theorem allocateFrame_window {B : Nat} {alloc : PmmBitmapAllocator} (h : WinAlloc B alloc)
    {f : Nat} (ha : f % 4096 = 0) (hlo : B ≤ f) (hhi : f < B + 16777216) :
    WinAlloc B (PmmBitmapAllocator_allocateFrame alloc f).2 ∧
    (PmmBitmapAllocator_allocateFrame alloc f).2.m_lastAllocatedIndex =
      alloc.m_lastAllocatedIndex ∧
    ∀ w j, j < 32 → bitAt (PmmBitmapAllocator_allocateFrame alloc f).2.m_bitmap w j =
      (bitAt alloc.m_bitmap w j && !decide (winAddr B w j = f)) := by
  obtain ⟨hi, hiff⟩ := WinAlloc_index h ha hlo hhi
  obtain ⟨_, _, hbits, hwf, hn, hh, hb⟩ := PmmBitmapAllocator_allocateFrame_spec alloc h.1 f hi
  refine ⟨⟨hwf, by rw [hn]; exact h.2.1, by rw [hb]; exact h.2.2.1, h.2.2.2⟩, hh, ?_⟩
  intro w j hj
  rw [hbits, ← Bool.decide_and]
  exact and_not_decide_congr _ (hiff w j hj)

theorem freeRegionLoop_spec (B : Nat) (region : PmmRegion)
    (hl : region.m_last % 4096 = 4095) (hlw : region.m_last < B + 16777216) :
    ∀ (fuel f : Nat) (alloc : PmmBitmapAllocator), WinAlloc B alloc → f % 4096 = 0 → B ≤ f →
      f ≤ region.m_last → (region.m_last + 1 - f) / 4096 ≤ fuel →
      ∃ alloc', PmmWatermarkAllocator_freeRegionLoop region fuel ⟨f, f + 4095⟩ alloc
          = some alloc' ∧
        WinAlloc B alloc' ∧ alloc'.m_lastAllocatedIndex = alloc.m_lastAllocatedIndex ∧
        ∀ w j, j < 32 → bitAt alloc'.m_bitmap w j =
          (bitAt alloc.m_bitmap w j ||
            decide (winAddr B w j ≠ 0 ∧ f ≤ winAddr B w j ∧ winAddr B w j ≤ region.m_last)) := by
  intro fuel
  induction fuel with
  | zero =>
    intro f alloc _ ha _ hfl hfuel
    omega
  | succ fuel ih =>
    intro f alloc hwin ha hlo hfl hfuel
    have hBfit := hwin.2.2.2.2
    have hB := hwin.2.2.2.1
    -- the bitmap after the body of the loop
    have hstep : ∃ alloc1, (if PmmRegion_base ⟨f, f + 4095⟩ ≠ PHYS_NULL
          then PmmBitmapAllocator_free alloc (PmmRegion_base ⟨f, f + 4095⟩) else alloc) = alloc1 ∧
        WinAlloc B alloc1 ∧ alloc1.m_lastAllocatedIndex = alloc.m_lastAllocatedIndex ∧
        ∀ w j, j < 32 → bitAt alloc1.m_bitmap w j =
          (bitAt alloc.m_bitmap w j || decide (winAddr B w j ≠ 0 ∧ winAddr B w j = f)) := by
      simp only [PmmRegion_base, PHYS_NULL]
      by_cases hf0 : f = 0
      · refine ⟨alloc, by simp [hf0], hwin, rfl, ?_⟩
        intro w j _
        have : decide (winAddr B w j ≠ 0 ∧ winAddr B w j = f) = false := by
          rw [decide_eq_false_iff_not]; omega
        rw [this, Bool.or_false]
      · obtain ⟨h1, h2, h3⟩ := free_window hwin ha hlo (by omega)
        refine ⟨_, by simp [hf0], h1, h2, ?_⟩
        intro w j hj
        rw [h3 w j hj]
        exact or_decide_congr _ (by omega)
    obtain ⟨alloc1, halloc1, hwin1, hh1, hbits1⟩ := hstep
    unfold PmmWatermarkAllocator_freeRegionLoop
    simp only [halloc1]
    rw [PmmRegion_advance_frame (by omega) ha]
    by_cases htop : f + 4095 = 4294967295
    · rw [if_pos htop]
      refine ⟨alloc1, rfl, hwin1, hh1, ?_⟩
      intro w j hj
      rw [hbits1 w j hj]
      exact or_decide_congr _ (by unfold winAddr; omega)
    · rw [if_neg htop]
      simp only [PmmRegion_below, PmmRegion_base]
      by_cases hdone : region.m_last < f + 4096
      · simp only [hdone, decide_True, Bool.not_true, Bool.false_eq_true, if_false]
        refine ⟨alloc1, rfl, hwin1, hh1, ?_⟩
        intro w j hj
        rw [hbits1 w j hj]
        exact or_decide_congr _ (by unfold winAddr; omega)
      · simp only [hdone, decide_False, Bool.not_false, if_true]
        obtain ⟨alloc', h1, h2, h3, h4⟩ :=
          ih (f + 4096) alloc1 hwin1 (by omega) (by omega) (by omega) (by omega)
        refine ⟨alloc', h1, h2, by rw [h3, hh1], ?_⟩
        intro w j hj
        rw [h4 w j hj, hbits1 w j hj]
        exact or_decide_or _ (by unfold winAddr; omega)

theorem allocateRegionLoop_spec (B : Nat) (region : PmmRegion)
    (hl : region.m_last % 4096 = 4095) (hlw : region.m_last < B + 16777216) :
    ∀ (fuel f : Nat) (alloc : PmmBitmapAllocator), WinAlloc B alloc → f % 4096 = 0 → B ≤ f →
      f ≤ region.m_last → (region.m_last + 1 - f) / 4096 ≤ fuel →
      ∃ alloc', PmmWatermarkAllocator_allocateRegionLoop region fuel ⟨f, f + 4095⟩ alloc
          = some alloc' ∧
        WinAlloc B alloc' ∧ alloc'.m_lastAllocatedIndex = alloc.m_lastAllocatedIndex ∧
        ∀ w j, j < 32 → bitAt alloc'.m_bitmap w j =
          (bitAt alloc.m_bitmap w j &&
            !decide (winAddr B w j ≠ 0 ∧ f ≤ winAddr B w j ∧ winAddr B w j ≤ region.m_last)) := by
  intro fuel
  induction fuel with
  | zero =>
    intro f alloc _ ha _ hfl hfuel
    omega
  | succ fuel ih =>
    intro f alloc hwin ha hlo hfl hfuel
    have hBfit := hwin.2.2.2.2
    have hB := hwin.2.2.2.1
    -- the bitmap after the body of the loop
    have hstep : ∃ alloc1, (if PmmRegion_base ⟨f, f + 4095⟩ ≠ PHYS_NULL
          then (PmmBitmapAllocator_allocateFrame alloc (PmmRegion_base ⟨f, f + 4095⟩)).2
          else alloc) = alloc1 ∧
        WinAlloc B alloc1 ∧ alloc1.m_lastAllocatedIndex = alloc.m_lastAllocatedIndex ∧
        ∀ w j, j < 32 → bitAt alloc1.m_bitmap w j =
          (bitAt alloc.m_bitmap w j && !decide (winAddr B w j ≠ 0 ∧ winAddr B w j = f)) := by
      simp only [PmmRegion_base, PHYS_NULL]
      by_cases hf0 : f = 0
      · refine ⟨alloc, by simp [hf0], hwin, rfl, ?_⟩
        intro w j _
        have : decide (winAddr B w j ≠ 0 ∧ winAddr B w j = f) = false := by
          rw [decide_eq_false_iff_not]; omega
        rw [this, Bool.not_false, Bool.and_true]
      · obtain ⟨h1, h2, h3⟩ := allocateFrame_window hwin ha hlo (by omega)
        refine ⟨_, by simp [hf0], h1, h2, ?_⟩
        intro w j hj
        rw [h3 w j hj]
        exact and_not_decide_congr _ (by omega)
    obtain ⟨alloc1, halloc1, hwin1, hh1, hbits1⟩ := hstep
    unfold PmmWatermarkAllocator_allocateRegionLoop
    simp only [halloc1]
    rw [PmmRegion_advance_frame (by omega) ha]
    by_cases htop : f + 4095 = 4294967295
    · rw [if_pos htop]
      refine ⟨alloc1, rfl, hwin1, hh1, ?_⟩
      intro w j hj
      rw [hbits1 w j hj]
      exact and_not_decide_congr _ (by unfold winAddr; omega)
    · rw [if_neg htop]
      simp only [PmmRegion_below, PmmRegion_base]
      by_cases hdone : region.m_last < f + 4096
      · simp only [hdone, decide_True, Bool.not_true, Bool.false_eq_true, if_false]
        refine ⟨alloc1, rfl, hwin1, hh1, ?_⟩
        intro w j hj
        rw [hbits1 w j hj]
        exact and_not_decide_congr _ (by unfold winAddr; omega)
      · simp only [hdone, decide_False, Bool.not_false, if_true]
        obtain ⟨alloc', h1, h2, h3, h4⟩ :=
          ih (f + 4096) alloc1 hwin1 (by omega) (by omega) (by omega) (by omega)
        refine ⟨alloc', h1, h2, by rw [h3, hh1], ?_⟩
        intro w j hj
        rw [h4 w j hj, hbits1 w j hj]
        exact and_not_decide_or _ (by unfold winAddr; omega)

theorem winAddr_bounds (B : Nat) {w j : Nat} (hw : w < 128) (hj : j < 32) :
    B ≤ winAddr B w j ∧ winAddr B w j < B + 16777216 ∧ winAddr B w j % 4096 = B % 4096 := by
  unfold winAddr
  omega

theorem inAligned_clip {r : PmmRegion} (hr : PmmRegion_valid r) {B a : Nat} (b1 : B ≤ a)
    (b2 : a < B + 16777216) :
    (decide (a ≠ PHYS_NULL) && inAligned r a) =
      decide (a ≠ 0 ∧ max (r.m_base / 4096 * 4096) B ≤ a ∧
        a ≤ min (r.m_last / 4096 * 4096 + 4095) (B + 16777215)) := by
  rw [Bool.eq_iff_iff, Bool.and_eq_true, decide_eq_true_eq, decide_eq_true_eq, inAligned_iff hr]
  simp only [PHYS_NULL]
  omega

/-- Effect of `PmmWatermarkAllocator_freeRegion` for a valid region on the
bitmap of the window at `B`. -/
theorem freeRegion_spec {B : Nat} {alloc : PmmBitmapAllocator} (hwin : WinAlloc B alloc)
    {r : PmmRegion} (hr : PmmRegion_valid r) :
    ∃ alloc', PmmWatermarkAllocator_freeRegion alloc ⟨B, B + 16777215⟩ r =
        some (decide (B ≤ r.m_last / 4096 * 4096 + 4095), alloc') ∧
      WinAlloc B alloc' ∧ alloc'.m_lastAllocatedIndex = alloc.m_lastAllocatedIndex ∧
      ∀ w j, w < 128 → j < 32 → bitAt alloc'.m_bitmap w j =
        (bitAt alloc.m_bitmap w j ||
          (decide (winAddr B w j ≠ PHYS_NULL) && inAligned r (winAddr B w j))) := by
  have hBfit := hwin.2.2.2.2
  have hB := hwin.2.2.2.1
  obtain ⟨hr1, hr2⟩ := hr
  simp only [MAX_PHYS_ADDR] at hr2
  unfold PmmWatermarkAllocator_freeRegion
  rw [PmmRegion_makePageAligned_eq ⟨hr1, hr2⟩]
  simp only []
  rw [PmmRegion_clip_eq]
  simp only [PmmRegion_below, PmmRegion_base]
  by_cases hdis : r.m_last / 4096 * 4096 + 4095 < B ∨ B + 16777215 < r.m_base / 4096 * 4096
  · rw [if_pos hdis]
    simp only
    have hres : (if decide (r.m_last / 4096 * 4096 + 4095 < B) = true
          then some (false, alloc) else some (true, alloc)) =
        some (decide (B ≤ r.m_last / 4096 * 4096 + 4095), alloc) := by
      by_cases hb : r.m_last / 4096 * 4096 + 4095 < B
      · simp [hb]
      · simp [hb]; omega
    rw [hres]
    refine ⟨alloc, rfl, hwin, rfl, ?_⟩
    intro w j hw hj
    obtain ⟨b1, b2, _⟩ := winAddr_bounds B hw hj
    have hin : inAligned r (winAddr B w j) = false := by
      rw [← Bool.not_eq_true, inAligned_iff ⟨hr1, hr2⟩]
      omega
    rw [hin, Bool.and_false, Bool.or_false]
  · rw [if_neg hdis]
    simp only
    rw [PmmRegion_create_frame (by omega)]
    obtain ⟨alloc', h1, h2, h3, h4⟩ := freeRegionLoop_spec B
      ⟨max (r.m_base / 4096 * 4096) B, min (r.m_last / 4096 * 4096 + 4095) (B + 16777215)⟩
      (by simp only; omega) (by simp only; omega) FRAME_WALK_FUEL
      (max (r.m_base / 4096 * 4096) B) alloc hwin (by omega) (by omega) (by simp only; omega)
      (by simp only [FRAME_WALK_FUEL]; omega)
    rw [h1]
    have hflag : decide (B ≤ r.m_last / 4096 * 4096 + 4095) = true := by
      rw [decide_eq_true_eq]; omega
    rw [hflag]
    refine ⟨alloc', rfl, h2, h3, ?_⟩
    intro w j hw hj
    obtain ⟨b1, b2, _⟩ := winAddr_bounds B hw hj
    rw [h4 w j hj, inAligned_clip ⟨hr1, hr2⟩ b1 b2]

/-- Effect of `PmmWatermarkAllocator_allocateRegion` for a valid region on the
bitmap of the window at `B`. -/
theorem allocateRegion_spec {B : Nat} {alloc : PmmBitmapAllocator} (hwin : WinAlloc B alloc)
    {r : PmmRegion} (hr : PmmRegion_valid r) :
    ∃ alloc', PmmWatermarkAllocator_allocateRegion alloc ⟨B, B + 16777215⟩ r = some alloc' ∧
      WinAlloc B alloc' ∧ alloc'.m_lastAllocatedIndex = alloc.m_lastAllocatedIndex ∧
      ∀ w j, w < 128 → j < 32 → bitAt alloc'.m_bitmap w j =
        (bitAt alloc.m_bitmap w j &&
          !(decide (winAddr B w j ≠ PHYS_NULL) && inAligned r (winAddr B w j))) := by
  have hBfit := hwin.2.2.2.2
  have hB := hwin.2.2.2.1
  obtain ⟨hr1, hr2⟩ := hr
  simp only [MAX_PHYS_ADDR] at hr2
  unfold PmmWatermarkAllocator_allocateRegion
  rw [PmmRegion_makePageAligned_eq ⟨hr1, hr2⟩]
  simp only []
  rw [PmmRegion_clip_eq]
  simp only [PmmRegion_base]
  by_cases hdis : r.m_last / 4096 * 4096 + 4095 < B ∨ B + 16777215 < r.m_base / 4096 * 4096
  · rw [if_pos hdis]
    simp only
    refine ⟨alloc, rfl, hwin, rfl, ?_⟩
    intro w j hw hj
    obtain ⟨b1, b2, _⟩ := winAddr_bounds B hw hj
    have hin : inAligned r (winAddr B w j) = false := by
      rw [← Bool.not_eq_true, inAligned_iff ⟨hr1, hr2⟩]
      omega
    rw [hin, Bool.and_false, Bool.not_false, Bool.and_true]
  · rw [if_neg hdis]
    simp only
    rw [PmmRegion_create_frame (by omega)]
    obtain ⟨alloc', h1, h2, h3, h4⟩ := allocateRegionLoop_spec B
      ⟨max (r.m_base / 4096 * 4096) B, min (r.m_last / 4096 * 4096 + 4095) (B + 16777215)⟩
      (by simp only; omega) (by simp only; omega) FRAME_WALK_FUEL
      (max (r.m_base / 4096 * 4096) B) alloc hwin (by omega) (by omega) (by simp only; omega)
      (by simp only [FRAME_WALK_FUEL]; omega)
    rw [h1]
    refine ⟨alloc', rfl, h2, h3, ?_⟩
    intro w j hw hj
    obtain ⟨b1, b2, _⟩ := winAddr_bounds B hw hj
    rw [h4 w j hj, inAligned_clip ⟨hr1, hr2⟩ b1 b2]

theorem freeRamList_spec {B : Nat} :
    ∀ (ram : List PmmRegion) (flag : Bool) (alloc : PmmBitmapAllocator),
      (∀ r ∈ ram, PmmRegion_valid r) → WinAlloc B alloc →
      ∃ alloc', PmmWatermarkAllocator_freeRamList ⟨B, B + 16777215⟩ ram flag alloc =
          some (flag || ram.any (fun r => decide (B ≤ r.m_last / 4096 * 4096 + 4095)), alloc') ∧
        WinAlloc B alloc' ∧ alloc'.m_lastAllocatedIndex = alloc.m_lastAllocatedIndex ∧
        ∀ w j, w < 128 → j < 32 → bitAt alloc'.m_bitmap w j =
          (bitAt alloc.m_bitmap w j ||
            (decide (winAddr B w j ≠ PHYS_NULL) &&
              ram.any (fun r => inAligned r (winAddr B w j)))) := by
  intro ram
  induction ram with
  | nil =>
    intro flag alloc _ hwin
    refine ⟨alloc, by simp [PmmWatermarkAllocator_freeRamList], hwin, rfl, ?_⟩
    intro w j _ _
    simp
  | cons r rest ih =>
    intro flag alloc hval hwin
    obtain ⟨alloc1, h1, h2, h3, h4⟩ := freeRegion_spec hwin (hval r (List.mem_cons_self _ _))
    have hval' : ∀ x ∈ rest, PmmRegion_valid x := fun x hx => hval x (List.mem_cons_of_mem _ hx)
    unfold PmmWatermarkAllocator_freeRamList
    rw [h1]
    cases hflag : decide (B ≤ r.m_last / 4096 * 4096 + 4095)
    · simp only []
      obtain ⟨alloc', g1, g2, g3, g4⟩ := ih flag alloc1 hval' h2
      refine ⟨alloc', ?_, g2, by rw [g3, h3], ?_⟩
      · rw [g1, List.any_cons, hflag, Bool.false_or]
      · intro w j hw hj
        rw [g4 w j hw hj, h4 w j hw hj, List.any_cons]
        cases bitAt alloc.m_bitmap w j <;> cases decide (winAddr B w j ≠ PHYS_NULL) <;>
          cases inAligned r (winAddr B w j) <;> rfl
    · simp only []
      obtain ⟨alloc', g1, g2, g3, g4⟩ := ih true alloc1 hval' h2
      refine ⟨alloc', ?_, g2, by rw [g3, h3], ?_⟩
      · rw [g1, List.any_cons, hflag]
        simp
      · intro w j hw hj
        rw [g4 w j hw hj, h4 w j hw hj, List.any_cons]
        cases bitAt alloc.m_bitmap w j <;> cases decide (winAddr B w j ≠ PHYS_NULL) <;>
          cases inAligned r (winAddr B w j) <;> rfl

theorem allocateReservedList_spec {B : Nat} :
    ∀ (res : List PmmRegion) (alloc : PmmBitmapAllocator),
      (∀ r ∈ res, PmmRegion_valid r) → WinAlloc B alloc →
      ∃ alloc', PmmWatermarkAllocator_allocateReservedList ⟨B, B + 16777215⟩ res alloc =
          some alloc' ∧
        WinAlloc B alloc' ∧ alloc'.m_lastAllocatedIndex = alloc.m_lastAllocatedIndex ∧
        ∀ w j, w < 128 → j < 32 → bitAt alloc'.m_bitmap w j =
          (bitAt alloc.m_bitmap w j &&
            !(decide (winAddr B w j ≠ PHYS_NULL) &&
              res.any (fun r => inAligned r (winAddr B w j)))) := by
  intro res
  induction res with
  | nil =>
    intro alloc _ hwin
    refine ⟨alloc, by simp [PmmWatermarkAllocator_allocateReservedList], hwin, rfl, ?_⟩
    intro w j _ _
    simp
  | cons r rest ih =>
    intro alloc hval hwin
    obtain ⟨alloc1, h1, h2, h3, h4⟩ := allocateRegion_spec hwin (hval r (List.mem_cons_self _ _))
    have hval' : ∀ x ∈ rest, PmmRegion_valid x := fun x hx => hval x (List.mem_cons_of_mem _ hx)
    unfold PmmWatermarkAllocator_allocateReservedList
    rw [h1]
    simp only []
    obtain ⟨alloc', g1, g2, g3, g4⟩ := ih alloc1 hval' h2
    refine ⟨alloc', g1, g2, by rw [g3, h3], ?_⟩
    intro w j hw hj
    rw [g4 w j hw hj, h4 w j hw hj, List.any_cons]
    cases bitAt alloc.m_bitmap w j <;> cases decide (winAddr B w j ≠ PHYS_NULL) <;>
      cases inAligned r (winAddr B w j) <;> rfl

theorem getD_replicate_zero (n w : Nat) : (List.replicate n 0).getD w 0 = 0 := by
  induction n generalizing w with
  | zero => simp
  | succ n ih =>
    cases w with
    | zero => simp [List.replicate_succ]
    | succ w =>
      rw [List.replicate_succ, List.getD_cons_succ]
      exact ih w

theorem WinAlloc_create {B : Nat} (hB : B % 16777216 = 0) (hfit : B + 16777216 ≤ 4294967296) :
    WinAlloc B (PmmBitmapAllocator_create NUM_BLOCKS B) ∧
    (PmmBitmapAllocator_create NUM_BLOCKS B).m_lastAllocatedIndex = 0 ∧
    ∀ w j, bitAt (PmmBitmapAllocator_create NUM_BLOCKS B).m_bitmap w j = false := by
  refine ⟨⟨⟨?_, ?_, ?_, ?_⟩, rfl, ?_, hB, hfit⟩, rfl, ?_⟩
  · simp [PmmBitmapAllocator_create]
  · simp [PmmBitmapAllocator_create]
  · intro x hx
    simp only [PmmBitmapAllocator_create] at hx
    rw [List.eq_of_mem_replicate hx]
    decide
  · simp [PmmBitmapAllocator_create]
  · simp only [PmmBitmapAllocator_create]
    rw [MM_getFrameNumber_eq]
    omega
  · intro w j
    simp only [PmmBitmapAllocator_create, bitAt]
    rw [getD_replicate_zero]
    simp

/-- Outcome of `PmmWatermarkAllocator_initCurrentRegion` on the window that
starts at `B`: the flag tells whether some RAM region reaches up to the window
or beyond it, and bit `j` of word `w` of the new bitmap is set exactly when the
frame it tracks is available. -/
theorem initCurrentRegion_spec (st : PmmWatermarkAllocator) {B : Nat}
    (hcur : st.m_currentRegion = ⟨B, B + 16777215⟩) (hB : B % 16777216 = 0)
    (hfit : B + 16777216 ≤ 4294967296)
    (hram : ∀ r ∈ st.m_ramList, PmmRegion_valid r)
    (hres : ∀ r ∈ st.m_reservedList, PmmRegion_valid r) :
    ∃ alloc', PmmWatermarkAllocator_initCurrentRegion st =
        some (st.m_ramList.any (fun r => decide (B ≤ r.m_last / 4096 * 4096 + 4095)),
          { st with m_regionBitmapAllocator := alloc' }) ∧
      WinAlloc B alloc' ∧ alloc'.m_lastAllocatedIndex = 0 ∧
      ∀ w j, w < 128 → j < 32 → bitAt alloc'.m_bitmap w j =
        frameAvailable st.m_ramList st.m_reservedList (winAddr B w j) := by
  obtain ⟨c1, c2, c3⟩ := WinAlloc_create hB hfit
  obtain ⟨alloc1, h1, h2, h3, h4⟩ := freeRamList_spec st.m_ramList false _ hram c1
  unfold PmmWatermarkAllocator_initCurrentRegion
  simp only [hcur, PmmRegion_base]
  rw [h1, Bool.false_or]
  cases hmore : st.m_ramList.any (fun r => decide (B ≤ r.m_last / 4096 * 4096 + 4095))
  · simp only []
    refine ⟨alloc1, rfl, h2, by rw [h3, c2], ?_⟩
    intro w j hw hj
    obtain ⟨b1, b2, _⟩ := winAddr_bounds B hw hj
    rw [h4 w j hw hj, c3]
    have hnone : st.m_ramList.any (fun r => inAligned r (winAddr B w j)) = false := by
      rw [List.any_eq_false]
      intro r hr
      have hr' := (List.any_eq_false.mp hmore) r hr
      rw [decide_eq_true_eq] at hr'
      rw [inAligned_iff (hram r hr)]
      omega
    unfold frameAvailable
    rw [hnone]
    simp
  · simp only []
    obtain ⟨alloc2, g1, g2, g3, g4⟩ := allocateReservedList_spec st.m_reservedList alloc1 hres h2
    rw [g1]
    simp only []
    refine ⟨alloc2, rfl, g2, by rw [g3, h3, c2], ?_⟩
    intro w j hw hj
    rw [g4 w j hw hj, h4 w j hw hj, c3]
    unfold frameAvailable
    cases decide (winAddr B w j ≠ PHYS_NULL) <;>
      cases st.m_ramList.any (fun r => inAligned r (winAddr B w j)) <;>
      cases st.m_reservedList.any (fun r => inAligned r (winAddr B w j)) <;> rfl

/-! ## `PmmWatermarkAllocator`: lemmas -/

/-- Outcome of `PmmBitmapAllocator_allocate` on the bitmap of a window: either
nothing is found and the allocator is untouched, or the lowest set bit `bit` of
the first non-zero word `rotIndex alloc dist` is taken and its frame address is
returned. -/
theorem bitmap_allocate_window {B : Nat} {alloc : PmmBitmapAllocator} (hwin : WinAlloc B alloc) :
    (PmmBitmapAllocator_allocate alloc = some (PHYS_NULL, alloc) ∧
        ∀ e, e < 127 → alloc.m_bitmap.getD (rotIndex alloc e) 0 = 0) ∨
      (∃ dist bit alloc1, dist < 127 ∧ bit < 32 ∧ rotIndex alloc dist < 128 ∧
        bitAt alloc.m_bitmap (rotIndex alloc dist) bit = true ∧
        (∀ j, j < bit → bitAt alloc.m_bitmap (rotIndex alloc dist) j = false) ∧
        (∀ e, e < dist → alloc.m_bitmap.getD (rotIndex alloc e) 0 = 0) ∧
        PmmBitmapAllocator_allocate alloc =
          some (winAddr B (rotIndex alloc dist) bit, alloc1) ∧
        WinAlloc B alloc1 ∧ alloc1.m_lastAllocatedIndex = rotIndex alloc dist ∧
        ∀ w k, bitAt alloc1.m_bitmap w k =
          (bitAt alloc.m_bitmap w k && !(decide (w = rotIndex alloc dist) && decide (k = bit)))) := by
  have hfit := WinAlloc_fits hwin
  obtain ⟨hwf, hn, hb, hB, hBfit⟩ := hwin
  rcases PmmBitmapAllocator_allocate_spec alloc hwf with ⟨h, hz⟩ | ⟨dist, hd, hne, hz, h⟩
  · left
    exact ⟨h, fun e he => hz e (by omega)⟩
  · right
    have hi := rotIndex_lt alloc hwf.1 dist
    obtain ⟨bit, hbit, hu, hset, hlow, hbits, hwf1⟩ := PmmBitmapAllocator_taken_spec alloc hwf hi hne
    have haddr : PmmBitmapAllocator_takenAddr alloc (rotIndex alloc dist) =
        winAddr B (rotIndex alloc dist) bit := by
      unfold PmmBitmapAllocator_takenAddr
      rw [hu, getPhysAddr_eq alloc hfit hi hbit]
      unfold winAddr
      omega
    rw [haddr] at h
    exact ⟨dist, bit, _, by omega, hbit, by omega, hset, hlow, hz, h,
      ⟨hwf1, hn, hb, hB, hBfit⟩, rfl, hbits⟩

theorem PmmWatermarkAllocator_allocateLoop_succ (fuel a : Nat) (st : PmmWatermarkAllocator) :
    PmmWatermarkAllocator_allocateLoop (fuel + 1) a st =
      if a = PHYS_NULL then
        match PmmRegion_advance st.m_currentRegion with
        | (false, _) => some (a, st)
        | (true, region1) =>
          match PmmWatermarkAllocator_initCurrentRegion
              { st with m_currentRegion := region1 } with
          | none => none
          | some (true, this1) =>
            match PmmBitmapAllocator_allocate this1.m_regionBitmapAllocator with
            | none => none
            | some (frameAddr1, alloc1) =>
              PmmWatermarkAllocator_allocateLoop fuel frameAddr1
                { this1 with m_regionBitmapAllocator := alloc1 }
          | some (false, this1) => some (a, this1)
      else some (a, st) := rfl

/-- Outcome rule for the `while` loop of `PmmWatermarkAllocator_allocate`.
`J` is a property of the allocator before the bitmap of its window is asked
for a frame, `I a st` a property of the pending result `a` and the allocator
`st` at the loop test, and `Q` the property wanted of the returned pair: it has
to hold where the loop is left with a frame (`h_ret`), where the window cannot
advance (`h_top`) and where no RAM is left at or above the new window
(`h_end`). The loop terminates within its fuel. -/
theorem allocateLoop_outcome (J : PmmWatermarkAllocator → Prop)
    (I Q : Nat → PmmWatermarkAllocator → Prop)
    (h_bitmap : ∀ st B a alloc1, J st → WatermarkShape B st →
      PmmBitmapAllocator_allocate st.m_regionBitmapAllocator = some (a, alloc1) →
      I a { st with m_regionBitmapAllocator := alloc1 })
    (h_init : ∀ st B alloc', I 0 st → WatermarkShape B st → B + 16777216 < 4294967296 →
      WinAlloc (B + 16777216) alloc' → alloc'.m_lastAllocatedIndex = 0 →
      (∀ w j, w < 128 → j < 32 → bitAt alloc'.m_bitmap w j =
        frameAvailable st.m_ramList st.m_reservedList (winAddr (B + 16777216) w j)) →
      J { st with m_currentRegion := ⟨B + 16777216, B + 16777216 + 16777215⟩,
                  m_regionBitmapAllocator := alloc' })
    (h_ret : ∀ a st, I a st → a ≠ PHYS_NULL → Q a st)
    (h_top : ∀ st B, I 0 st → WatermarkShape B st → B + 16777216 = 4294967296 → Q 0 st)
    (h_end : ∀ st B, J st → WatermarkShape B st →
      st.m_ramList.any (fun r => decide (B ≤ r.m_last / 4096 * 4096 + 4095)) = false →
      Q 0 st) :
    ∀ (fuel a : Nat) (st : PmmWatermarkAllocator) (B : Nat), WatermarkShape B st → I a st →
      (4294967296 - B) / 16777216 ≤ fuel →
      ∃ a' st' B', PmmWatermarkAllocator_allocateLoop fuel a st = some (a', st') ∧
        Q a' st' ∧ WatermarkShape B' st' := by
  intro fuel
  induction fuel with
  | zero =>
    intro a st B hshape _ hfuel
    have := hshape.2.1.2.2.2.2
    omega
  | succ fuel ih =>
    intro a st B hshape hI hfuel
    obtain ⟨hcur, hwin, hram, hres⟩ := hshape
    have hB := hwin.2.2.2.1
    have hBfit := hwin.2.2.2.2
    rw [PmmWatermarkAllocator_allocateLoop_succ]
    by_cases ha : a = PHYS_NULL
    · rw [if_pos ha, hcur, PmmRegion_advance_window hB hBfit]
      have hI0 : I 0 st := by rw [ha] at hI; exact hI
      by_cases htop : B + 16777216 = 4294967296
      · rw [if_pos htop]
        refine ⟨a, st, B, rfl, ?_, hcur, hwin, hram, hres⟩
        rw [ha]
        exact h_top st B hI0 ⟨hcur, hwin, hram, hres⟩ htop
      · rw [if_neg htop]
        simp only []
        have hB' : (B + 16777216) % 16777216 = 0 := by omega
        have hBfit' : B + 16777216 + 16777216 ≤ 4294967296 := by omega
        obtain ⟨alloc', g1, g2, g3, g4⟩ := initCurrentRegion_spec
          { st with m_currentRegion := ⟨B + 16777216, B + 16777216 + 16777215⟩ }
          (B := B + 16777216) rfl hB' hBfit' hram hres
        rw [g1]
        have hJ := h_init st B alloc' hI0 ⟨hcur, hwin, hram, hres⟩ (by omega) g2 g3 g4
        have hshape1 : WatermarkShape (B + 16777216)
            { st with m_currentRegion := ⟨B + 16777216, B + 16777216 + 16777215⟩,
                      m_regionBitmapAllocator := alloc' } := ⟨rfl, g2, hram, hres⟩
        cases hmore : st.m_ramList.any
            (fun r => decide (B + 16777216 ≤ r.m_last / 4096 * 4096 + 4095))
        · simp only [hmore]
          refine ⟨a, _, B + 16777216, rfl, ?_, hshape1⟩
          rw [ha]
          exact h_end _ (B + 16777216) hJ hshape1 hmore
        · simp only [hmore]
          rcases bitmap_allocate_window g2 with ⟨k1, _⟩ | ⟨dist, bit, alloc1, _, _, _, _, _, _, k1, k2, _⟩
          · rw [k1]
            simp only []
            have hI1 := h_bitmap _ (B + 16777216) PHYS_NULL alloc' hJ hshape1 k1
            exact ih PHYS_NULL _ (B + 16777216) hshape1 hI1 (by omega)
          · rw [k1]
            simp only []
            have hI1 := h_bitmap _ (B + 16777216) _ alloc1 hJ hshape1 k1
            exact ih _ _ (B + 16777216) ⟨rfl, k2, hram, hres⟩ hI1 (by omega)
    · rw [if_neg ha]
      exact ⟨a, st, B, rfl, h_ret a st hI ha, hcur, hwin, hram, hres⟩

/-- Outcome rule for one call of `PmmWatermarkAllocator_allocate`: the call
returns, and its result satisfies `Q`. -/
theorem allocate_outcome (J : PmmWatermarkAllocator → Prop)
    (I Q : Nat → PmmWatermarkAllocator → Prop)
    (h_bitmap : ∀ st B a alloc1, J st → WatermarkShape B st →
      PmmBitmapAllocator_allocate st.m_regionBitmapAllocator = some (a, alloc1) →
      I a { st with m_regionBitmapAllocator := alloc1 })
    (h_init : ∀ st B alloc', I 0 st → WatermarkShape B st → B + 16777216 < 4294967296 →
      WinAlloc (B + 16777216) alloc' → alloc'.m_lastAllocatedIndex = 0 →
      (∀ w j, w < 128 → j < 32 → bitAt alloc'.m_bitmap w j =
        frameAvailable st.m_ramList st.m_reservedList (winAddr (B + 16777216) w j)) →
      J { st with m_currentRegion := ⟨B + 16777216, B + 16777216 + 16777215⟩,
                  m_regionBitmapAllocator := alloc' })
    (h_ret : ∀ a st, I a st → a ≠ PHYS_NULL → Q a st)
    (h_top : ∀ st B, I 0 st → WatermarkShape B st → B + 16777216 = 4294967296 → Q 0 st)
    (h_end : ∀ st B, J st → WatermarkShape B st →
      st.m_ramList.any (fun r => decide (B ≤ r.m_last / 4096 * 4096 + 4095)) = false →
      Q 0 st)
    (st : PmmWatermarkAllocator) (B : Nat) (hshape : WatermarkShape B st) (hJ : J st) :
    ∃ a' st' B', PmmWatermarkAllocator_allocate st = some (a', st') ∧
      Q a' st' ∧ WatermarkShape B' st' := by
  obtain ⟨hcur, hwin, hram, hres⟩ := hshape
  have hBfit := hwin.2.2.2.2
  unfold PmmWatermarkAllocator_allocate
  rcases bitmap_allocate_window hwin with ⟨k1, _⟩ | ⟨dist, bit, alloc1, _, _, _, _, _, _, k1, k2, _⟩
  · rw [k1]
    simp only []
    have hI1 := h_bitmap st B PHYS_NULL _ hJ ⟨hcur, hwin, hram, hres⟩ k1
    exact allocateLoop_outcome J I Q h_bitmap h_init h_ret h_top h_end WINDOW_WALK_FUEL
      PHYS_NULL _ B ⟨hcur, hwin, hram, hres⟩ hI1 (by simp only [WINDOW_WALK_FUEL]; omega)
  · rw [k1]
    simp only []
    have hI1 := h_bitmap st B _ alloc1 hJ ⟨hcur, hwin, hram, hres⟩ k1
    exact allocateLoop_outcome J I Q h_bitmap h_init h_ret h_top h_end WINDOW_WALK_FUEL _ _ B
      ⟨hcur, k2, hram, hres⟩ hI1 (by simp only [WINDOW_WALK_FUEL]; omega)

/-- Invariant rule for one call of `PmmWatermarkAllocator_allocate`: the call
returns, and its result satisfies `I`. -/
theorem allocate_invariant (J : PmmWatermarkAllocator → Prop)
    (I : Nat → PmmWatermarkAllocator → Prop)
    (h_bitmap : ∀ st B a alloc1, J st → WatermarkShape B st →
      PmmBitmapAllocator_allocate st.m_regionBitmapAllocator = some (a, alloc1) →
      I a { st with m_regionBitmapAllocator := alloc1 })
    (h_init : ∀ st B alloc', I 0 st → WatermarkShape B st → B + 16777216 < 4294967296 →
      WinAlloc (B + 16777216) alloc' → alloc'.m_lastAllocatedIndex = 0 →
      (∀ w j, w < 128 → j < 32 → bitAt alloc'.m_bitmap w j =
        frameAvailable st.m_ramList st.m_reservedList (winAddr (B + 16777216) w j)) →
      J { st with m_currentRegion := ⟨B + 16777216, B + 16777216 + 16777215⟩,
                  m_regionBitmapAllocator := alloc' })
    (h_done : ∀ st, J st → I 0 st)
    (st : PmmWatermarkAllocator) (B : Nat) (hshape : WatermarkShape B st) (hJ : J st) :
    ∃ a' st' B', PmmWatermarkAllocator_allocate st = some (a', st') ∧
      I a' st' ∧ WatermarkShape B' st' :=
  allocate_outcome J I I h_bitmap h_init (fun _ _ h _ => h) (fun _ _ h _ _ => h)
    (fun st _ h _ _ => h_done st h) st B hshape hJ

theorem PmmRegion_create_window :
    PmmRegion_create 0 REGION_SIZE_IN_BYTES = ⟨0, 16777215⟩ := by
  decide

/-- The allocator built by `PmmWatermarkAllocator_create` over valid lists:
its window is the first one and a bit of its bitmap is set exactly when the
frame it tracks is available. -/
theorem PmmWatermarkAllocator_create_spec {ram res : List PmmRegion}
    (hram : ∀ r ∈ ram, PmmRegion_valid r) (hres : ∀ r ∈ res, PmmRegion_valid r) :
    ∃ alloc', PmmWatermarkAllocator_create ram res =
        some ⟨alloc', ⟨0, 16777215⟩, ram, res⟩ ∧
      WatermarkShape 0 ⟨alloc', ⟨0, 16777215⟩, ram, res⟩ ∧
      alloc'.m_lastAllocatedIndex = 0 ∧
      ∀ w j, w < 128 → j < 32 → bitAt alloc'.m_bitmap w j =
        frameAvailable ram res (winAddr 0 w j) := by
  obtain ⟨alloc', g1, g2, g3, g4⟩ := initCurrentRegion_spec
    ⟨PmmBitmapAllocator_create NUM_BLOCKS 0, ⟨0, 16777215⟩, ram, res⟩ (B := 0) rfl
    (by decide) (by decide) hram hres
  unfold PmmWatermarkAllocator_create
  simp only []
  rw [PmmRegion_create_window, g1]
  exact ⟨alloc', rfl, ⟨rfl, g2, hram, hres⟩, g3, g4⟩

/-- Lifting of a property of single calls to sequences of calls of
`PmmWatermarkAllocator_allocate`. -/
theorem allocateMany_invariant (J : PmmWatermarkAllocator → Prop) (P : Nat → Prop)
    (hcall : ∀ st B, WatermarkShape B st → J st →
      ∃ a st' B', PmmWatermarkAllocator_allocate st = some (a, st') ∧ P a ∧ J st' ∧
        WatermarkShape B' st') :
    ∀ (n : Nat) (st : PmmWatermarkAllocator) (B : Nat), WatermarkShape B st → J st →
      ∃ results st', PmmWatermarkAllocator_allocateMany n st = some (results, st') ∧
        ∀ a ∈ results, P a := by
  intro n
  induction n with
  | zero =>
    intro st B _ _
    exact ⟨[], st, rfl, fun a ha => absurd ha (List.not_mem_nil a)⟩
  | succ n ih =>
    intro st B hshape hJ
    obtain ⟨a, st1, B1, h1, h2, h3, h4⟩ := hcall st B hshape hJ
    obtain ⟨rest, st2, g1, g2⟩ := ih st1 B1 h4 h3
    refine ⟨a :: rest, st2, ?_, ?_⟩
    · unfold PmmWatermarkAllocator_allocateMany
      rw [h1]
      simp only []
      rw [g1]
    · intro x hx
      rcases List.mem_cons.mp hx with h | h
      · rw [h]; exact h2
      · exact g2 x h

/-- Safety of a single call of `PmmWatermarkAllocator_allocate`: when every
set bit of the window bitmap tracks an available frame, the call returns, a
non-null result is the page-aligned address of an available frame, and every
set bit still tracks an available frame. -/
theorem allocate_available (ram res : List PmmRegion) (st : PmmWatermarkAllocator) (B : Nat)
    (hshape : WatermarkShape B st)
    (hJ : st.m_ramList = ram ∧ st.m_reservedList = res ∧
      ∀ B', WatermarkShape B' st → ∀ w j, w < 128 → j < 32 →
        bitAt st.m_regionBitmapAllocator.m_bitmap w j = true →
        frameAvailable ram res (winAddr B' w j) = true) :
    ∃ a st' B1, PmmWatermarkAllocator_allocate st = some (a, st') ∧
      (a ≠ PHYS_NULL → frameAvailable ram res a = true ∧ a % 4096 = 0) ∧
      (st'.m_ramList = ram ∧ st'.m_reservedList = res ∧
        ∀ B', WatermarkShape B' st' → ∀ w j, w < 128 → j < 32 →
          bitAt st'.m_regionBitmapAllocator.m_bitmap w j = true →
          frameAvailable ram res (winAddr B' w j) = true) ∧
      WatermarkShape B1 st' := by
  have key := allocate_invariant
    (fun st => st.m_ramList = ram ∧ st.m_reservedList = res ∧
      ∀ B', WatermarkShape B' st → ∀ w j, w < 128 → j < 32 →
        bitAt st.m_regionBitmapAllocator.m_bitmap w j = true →
        frameAvailable ram res (winAddr B' w j) = true)
    (fun a st => (a ≠ PHYS_NULL → frameAvailable ram res a = true ∧ a % 4096 = 0) ∧
      (st.m_ramList = ram ∧ st.m_reservedList = res ∧
      ∀ B', WatermarkShape B' st → ∀ w j, w < 128 → j < 32 →
        bitAt st.m_regionBitmapAllocator.m_bitmap w j = true →
        frameAvailable ram res (winAddr B' w j) = true))
    ?_ ?_ ?_ st B hshape hJ
  · obtain ⟨a, st', B1, k1, ⟨k2, k3⟩, k4⟩ := key
    exact ⟨a, st', B1, k1, k2, k3, k4⟩
  · -- the bitmap of the window is asked for a frame
    intro st B a alloc1 hJ hshape hcall
    obtain ⟨hr1, hr2, hbits⟩ := hJ
    have hbitsB := hbits B hshape
    obtain ⟨hcur, hwin, hram, hres⟩ := hshape
    rcases bitmap_allocate_window hwin with ⟨k1, _⟩ |
      ⟨dist, bit, alloc2, _, hbit, hi, hset, _, _, k1, k2, _, k4⟩
    · rw [k1] at hcall
      have e := Option.some.inj hcall
      have e1 : a = PHYS_NULL := (congrArg Prod.fst e).symm
      have e2 : alloc1 = st.m_regionBitmapAllocator := (congrArg Prod.snd e).symm
      subst e1
      rw [e2]
      exact ⟨fun h => absurd rfl h, hr1, hr2, hbits⟩
    · rw [k1] at hcall
      have e := Option.some.inj hcall
      have e1 : a = winAddr B (rotIndex st.m_regionBitmapAllocator dist) bit :=
        (congrArg Prod.fst e).symm
      have e2 : alloc1 = alloc2 := (congrArg Prod.snd e).symm
      subst e2
      refine ⟨fun _ => ?_, hr1, hr2, ?_⟩
      · rw [e1]
        refine ⟨hbitsB _ _ hi hbit hset, ?_⟩
        have := (winAddr_bounds B hi hbit).2.2
        have hB := hwin.2.2.2.1
        omega
      · intro B' hshape' w j hw hj hb
        have hBB : B' = B := by
          have h1 := hshape'.1
          simp only [hcur] at h1
          exact (congrArg PmmRegion.m_base h1).symm
        rw [hBB]
        simp only [k4] at hb
        rw [Bool.and_eq_true] at hb
        exact hbitsB w j hw hj hb.1
  · -- a new window is initialized
    intro st B alloc' hI hshape _ _ _ hbits
    obtain ⟨_, hr1, hr2, _⟩ := hI
    refine ⟨hr1, hr2, ?_⟩
    intro B' hshape' w j hw hj hb
    have hBB : B' = B + 16777216 := by
      have h1 := hshape'.1
      simp only at h1
      exact (congrArg PmmRegion.m_base h1).symm
    rw [hBB]
    simp only [hbits w j hw hj] at hb
    rw [← hr1, ← hr2]
    exact hb
  · intro st hJ
    exact ⟨fun h => absurd rfl h, hJ⟩

theorem frameAvailable_iff (ram res : List PmmRegion) (a : Nat) :
    frameAvailable ram res a = true ↔
      a ≠ PHYS_NULL ∧ (∃ r ∈ ram, inAligned r a = true) ∧ ∀ r ∈ res, inAligned r a = false := by
  unfold frameAvailable
  simp only [Bool.and_eq_true, decide_eq_true_eq, List.any_eq_true, Bool.not_eq_true',
    List.any_eq_false, Bool.not_eq_true]
  tauto

theorem inAligned_frame {r : PmmRegion} (hr : PmmRegion_valid r) {a x : Nat}
    (ha : a % 4096 = 0) (h1 : a ≤ x) (h2 : x ≤ a + 4095) : inAligned r x = inAligned r a := by
  rw [Bool.eq_iff_iff, inAligned_iff hr, inAligned_iff hr]
  omega

/-- Every non-null address returned by a sequence of calls of
`PmmWatermarkAllocator_allocate` on a freshly created allocator is the
page-aligned address of an available frame. -/
theorem watermark_results_available {ram res : List PmmRegion}
    (hram : ∀ r ∈ ram, PmmRegion_valid r) (hres : ∀ r ∈ res, PmmRegion_valid r) (n : Nat) :
    ∃ st results st', PmmWatermarkAllocator_create ram res = some st ∧
      PmmWatermarkAllocator_allocateMany n st = some (results, st') ∧
      ∀ a ∈ results, a ≠ PHYS_NULL → frameAvailable ram res a = true ∧ a % 4096 = 0 := by
  obtain ⟨alloc', h1, h2, _, h4⟩ := PmmWatermarkAllocator_create_spec hram hres
  have hJ0 : (⟨alloc', ⟨0, 16777215⟩, ram, res⟩ : PmmWatermarkAllocator).m_ramList = ram ∧
      (⟨alloc', ⟨0, 16777215⟩, ram, res⟩ : PmmWatermarkAllocator).m_reservedList = res ∧
      ∀ B', WatermarkShape B' ⟨alloc', ⟨0, 16777215⟩, ram, res⟩ → ∀ w j, w < 128 → j < 32 →
        bitAt (⟨alloc', ⟨0, 16777215⟩, ram, res⟩ :
          PmmWatermarkAllocator).m_regionBitmapAllocator.m_bitmap w j = true →
        frameAvailable ram res (winAddr B' w j) = true := by
    refine ⟨rfl, rfl, ?_⟩
    intro B' hshape' w j hw hj hb
    have hBB : B' = 0 := by
      have h1 := hshape'.1
      simp only at h1
      exact (congrArg PmmRegion.m_base h1).symm
    rw [hBB]
    simp only [h4 w j hw hj] at hb
    exact hb
  obtain ⟨results, st', g1, g2⟩ := allocateMany_invariant _
    (fun a => a ≠ PHYS_NULL → frameAvailable ram res a = true ∧ a % 4096 = 0)
    (fun st B hshape hJ => allocate_available ram res st B hshape hJ) n _ 0 h2 hJ0
  exact ⟨_, results, st', h1, g1, g2⟩


/-! ## Order of the frames handed out -/

theorem word_zero_iff_bits (bm : List Nat) (w : Nat) :
    bm.getD w 0 = 0 ↔ ∀ k, bitAt bm w k = false := by
  unfold bitAt
  constructor
  · intro h k
    rw [h]
    exact Nat.zero_testBit k
  · intro h
    apply Nat.eq_of_testBit_eq
    intro k
    rw [h k]
    exact (Nat.zero_testBit k).symm

theorem WatermarkShape_base {B B' : Nat} {st : PmmWatermarkAllocator}
    (h : WatermarkShape B st) (h' : WatermarkShape B' st) : B' = B := by
  have h1 := h.1
  have h2 := h'.1
  rw [h1] at h2
  exact (congrArg PmmRegion.m_base h2).symm

/-- In a window whose words below the hint are zero, a successful
`PmmBitmapAllocator_allocate` takes a bit of a word at or above the hint, and
all words below that word are zero. -/
theorem bitmap_allocate_forward {B : Nat} {alloc : PmmBitmapAllocator} (hwin : WinAlloc B alloc)
    (hlow : ∀ w k, w < alloc.m_lastAllocatedIndex → bitAt alloc.m_bitmap w k = false)
    {dist : Nat} (hd : dist < 127)
    (hne : ∃ k, bitAt alloc.m_bitmap (rotIndex alloc dist) k = true)
    (hz : ∀ e, e < dist → alloc.m_bitmap.getD (rotIndex alloc e) 0 = 0) :
    rotIndex alloc dist = alloc.m_lastAllocatedIndex + dist ∧
    ∀ w k, w < rotIndex alloc dist → bitAt alloc.m_bitmap w k = false := by
  obtain ⟨hwf, hn, _, _, _⟩ := hwin
  obtain ⟨_, _, _, hh⟩ := hwf
  have hrot : ∀ e, e < 128 → rotIndex alloc e =
      if alloc.m_lastAllocatedIndex + e < 128 then alloc.m_lastAllocatedIndex + e
      else alloc.m_lastAllocatedIndex + e - 128 := by
    intro e he
    have := rotIndex_eq alloc hh (d := e) (by omega)
    rw [hn] at this
    exact this
  have hi : rotIndex alloc dist = alloc.m_lastAllocatedIndex + dist := by
    rw [hrot dist (by omega)]
    split
    · rfl
    · next hwrap =>
      exfalso
      obtain ⟨k, hk⟩ := hne
      rw [hrot dist (by omega), if_neg hwrap, hlow _ k (by omega)] at hk
      exact Bool.noConfusion hk
  refine ⟨hi, ?_⟩
  have hlt : rotIndex alloc dist < 128 := by
    have h128 := rotIndex_lt alloc (by omega : 0 < alloc.m_numBlocks) dist
    rw [hn] at h128
    exact h128
  intro w k hw
  by_cases hwl : w < alloc.m_lastAllocatedIndex
  · exact hlow w k hwl
  · have he : rotIndex alloc (w - alloc.m_lastAllocatedIndex) = w := by
      rw [hrot _ (by omega), if_pos (by omega)]
      omega
    have hz1 := hz (w - alloc.m_lastAllocatedIndex) (by omega)
    rw [he] at hz1
    exact (word_zero_iff_bits _ _).mp hz1 k

/-- One call of `PmmWatermarkAllocator_allocate` on an allocator all of whose
remaining frames lie at or above `L`: a non-null result is page-aligned and at
or above `L`, and all remaining frames then lie strictly above the result. -/
theorem allocate_increasing (L : Nat) (st : PmmWatermarkAllocator) (B : Nat)
    (hshape : WatermarkShape B st) (hJ : WatermarkAbove L st) :
    ∃ a st' B', PmmWatermarkAllocator_allocate st = some (a, st') ∧
      ((a ≠ PHYS_NULL → L ≤ a ∧ a % 4096 = 0 ∧ WatermarkAbove (a + 1) st') ∧
        (a = PHYS_NULL → WatermarkAbove L st')) ∧
      WatermarkShape B' st' := by
  refine allocate_invariant (WatermarkAbove L)
    (fun a st' => (a ≠ PHYS_NULL → L ≤ a ∧ a % 4096 = 0 ∧ WatermarkAbove (a + 1) st') ∧
        (a = PHYS_NULL → WatermarkAbove L st')) ?_ ?_ ?_ st B hshape hJ
  · -- the bitmap of the window is asked for a frame
    intro st B a alloc1 hJ hshape hcall
    obtain ⟨hLB, hlow, hbits⟩ := hJ B hshape
    obtain ⟨hcur, hwin, hram, hres⟩ := hshape
    have hB := hwin.2.2.2.1
    rcases bitmap_allocate_window hwin with ⟨k1, _⟩ |
      ⟨dist, bit, alloc2, hd, hbit, hi, hset, hlowest, hz, k1, k2, k3, k4⟩
    · rw [k1] at hcall
      have e := Option.some.inj hcall
      have e1 : a = PHYS_NULL := (congrArg Prod.fst e).symm
      have e2 : alloc1 = st.m_regionBitmapAllocator := (congrArg Prod.snd e).symm
      subst e1
      rw [e2]
      refine ⟨fun h => absurd rfl h, fun _ => ?_⟩
      intro B' hshape'
      have hBB := WatermarkShape_base ⟨hcur, hwin, hram, hres⟩ hshape'
      rw [hBB]
      exact ⟨hLB, hlow, hbits⟩
    · rw [k1] at hcall
      have e := Option.some.inj hcall
      have e1 : a = winAddr B (rotIndex st.m_regionBitmapAllocator dist) bit :=
        (congrArg Prod.fst e).symm
      have e2 : alloc1 = alloc2 := (congrArg Prod.snd e).symm
      subst e2
      obtain ⟨hfwd1, hfwd2⟩ := bitmap_allocate_forward hwin hlow hd ⟨bit, hset⟩ hz
      obtain ⟨b1, b2, b3⟩ := winAddr_bounds B hi hbit
      have hshape1 : WatermarkShape B { st with m_regionBitmapAllocator := alloc1 } :=
        ⟨hcur, k2, hram, hres⟩
      -- the bits that are still set track frames above the one taken
      have hrest : ∀ w j, w < 128 → j < 32 → bitAt alloc1.m_bitmap w j = true →
          bitAt st.m_regionBitmapAllocator.m_bitmap w j = true ∧
          winAddr B (rotIndex st.m_regionBitmapAllocator dist) bit < winAddr B w j := by
        intro w j hw hj hb
        rw [k4, Bool.and_eq_true] at hb
        obtain ⟨hb1, hb2⟩ := hb
        refine ⟨hb1, ?_⟩
        have hwi : ¬ w < rotIndex st.m_regionBitmapAllocator dist := by
          intro hlt
          rw [hfwd2 w j hlt] at hb1
          exact Bool.noConfusion hb1
        by_cases hweq : w = rotIndex st.m_regionBitmapAllocator dist
        · have hjb : ¬ j < bit := by
            intro hlt
            rw [hweq, hlowest j hlt] at hb1
            exact Bool.noConfusion hb1
          have hjne : j ≠ bit := by
            intro hjeq
            rw [hweq, hjeq] at hb2
            simp at hb2
          unfold winAddr
          omega
        · unfold winAddr
          omega
      have hlow1 : ∀ w k, w < alloc1.m_lastAllocatedIndex → bitAt alloc1.m_bitmap w k = false := by
        intro w k hw
        rw [k3] at hw
        rw [k4, hfwd2 w k hw]
        rfl
      refine ⟨fun _ => ⟨?_, ?_, ?_⟩, fun _ => ?_⟩
      · rw [e1]
        exact hbits _ _ hi hbit hset
      · rw [e1]
        omega
      · intro B' hshape'
        have hBB := WatermarkShape_base hshape1 hshape'
        rw [hBB, e1]
        refine ⟨by omega, hlow1, ?_⟩
        intro w j hw hj hb
        have := (hrest w j hw hj hb).2
        omega
      · intro B' hshape'
        have hBB := WatermarkShape_base hshape1 hshape'
        rw [hBB]
        refine ⟨hLB, hlow1, ?_⟩
        intro w j hw hj hb
        exact hbits w j hw hj (hrest w j hw hj hb).1
  · -- a new window is initialized
    intro st B alloc' hI hshape hBnext hwin' hhint' _
    have hAbove := hI.2 rfl
    obtain ⟨hLB, _, _⟩ := hAbove B hshape
    intro B' hshape'
    have hshape1 : WatermarkShape (B + 16777216)
        { st with m_currentRegion := ⟨B + 16777216, B + 16777216 + 16777215⟩,
                  m_regionBitmapAllocator := alloc' } := ⟨rfl, hwin', hshape.2.2.1, hshape.2.2.2⟩
    have hBB := WatermarkShape_base hshape1 hshape'
    rw [hBB]
    refine ⟨by omega, ?_, ?_⟩
    · intro w k hw
      simp only [hhint'] at hw
      omega
    · intro w j hw hj _
      have := (winAddr_bounds (B + 16777216) hw hj).1
      omega
  · intro st hJ
    exact ⟨fun h => absurd rfl h, fun _ => hJ⟩

/-- The non-null results of a sequence of calls of
`PmmWatermarkAllocator_allocate` are page-aligned, at or above `L`, and
strictly increasing. -/
theorem allocateMany_increasing :
    ∀ (n : Nat) (L : Nat) (st : PmmWatermarkAllocator) (B : Nat), WatermarkShape B st →
      WatermarkAbove L st →
      ∃ results st', PmmWatermarkAllocator_allocateMany n st = some (results, st') ∧
        (∀ a ∈ results, a ≠ PHYS_NULL → L ≤ a ∧ a % 4096 = 0) ∧
        (results.filter (fun a => decide (a ≠ PHYS_NULL))).Pairwise (fun a b => a < b) := by
  intro n
  induction n with
  | zero =>
    intro L st B _ _
    exact ⟨[], st, rfl, fun a ha => absurd ha (List.not_mem_nil a), List.Pairwise.nil⟩
  | succ n ih =>
    intro L st B hshape hJ
    obtain ⟨a, st1, B1, h1, ⟨h2, h3⟩, h4⟩ := allocate_increasing L st B hshape hJ
    have hmany : ∀ rest st2, PmmWatermarkAllocator_allocateMany n st1 = some (rest, st2) →
        PmmWatermarkAllocator_allocateMany (n + 1) st = some (a :: rest, st2) := by
      intro rest st2 g1
      unfold PmmWatermarkAllocator_allocateMany
      rw [h1]
      simp only []
      rw [g1]
    by_cases ha : a = PHYS_NULL
    · obtain ⟨rest, st2, g1, g2, g3⟩ := ih L st1 B1 h4 (h3 ha)
      refine ⟨a :: rest, st2, hmany rest st2 g1, ?_, ?_⟩
      · intro x hx hxn
        rcases List.mem_cons.mp hx with h | h
        · rw [h] at hxn; exact absurd ha hxn
        · exact g2 x h hxn
      · rw [List.filter_cons_of_neg (by simp [ha])]
        exact g3
    · obtain ⟨hLa, halign, hAbove⟩ := h2 ha
      obtain ⟨rest, st2, g1, g2, g3⟩ := ih (a + 1) st1 B1 h4 hAbove
      refine ⟨a :: rest, st2, hmany rest st2 g1, ?_, ?_⟩
      · intro x hx hxn
        rcases List.mem_cons.mp hx with h | h
        · rw [h]; exact ⟨hLa, halign⟩
        · have := g2 x h hxn
          exact ⟨by omega, this.2⟩
      · rw [List.filter_cons_of_pos (by simp [ha])]
        refine List.Pairwise.cons ?_ g3
        intro b hb
        obtain ⟨hb1, hb2⟩ := List.mem_filter.mp hb
        have hbn : b ≠ PHYS_NULL := by simpa using hb2
        have := (g2 b hb1 hbn).1
        omega

/-- When the lowest set bit of the bitmap of a window is bit `k0` of word `w0`
and the rotation from the hint reaches word `w0`,
`PmmBitmapAllocator_allocate` takes that bit. -/
theorem bitmap_allocate_finds {B : Nat} {alloc : PmmBitmapAllocator} (hwin : WinAlloc B alloc)
    (w0 k0 : Nat) (hw0 : w0 < 128) (hhint : alloc.m_lastAllocatedIndex ≤ w0)
    (hskip : alloc.m_lastAllocatedIndex = 0 → w0 < 127)
    (hset : bitAt alloc.m_bitmap w0 k0 = true)
    (hbelow : ∀ w k, w < w0 → bitAt alloc.m_bitmap w k = false)
    (hlowest : ∀ k, k < k0 → bitAt alloc.m_bitmap w0 k = false) :
    ∃ alloc1, PmmBitmapAllocator_allocate alloc = some (winAddr B w0 k0, alloc1) ∧
      WinAlloc B alloc1 ∧ alloc1.m_lastAllocatedIndex = w0 ∧
      ∀ w k, bitAt alloc1.m_bitmap w k =
        (bitAt alloc.m_bitmap w k && !(decide (w = w0) && decide (k = k0))) := by
  have hn := hwin.2.1
  have hh := hwin.1.2.2.2
  have hrot : ∀ e, e < 128 → rotIndex alloc e =
      if alloc.m_lastAllocatedIndex + e < 128 then alloc.m_lastAllocatedIndex + e
      else alloc.m_lastAllocatedIndex + e - 128 := by
    intro e he
    have h1 := rotIndex_eq alloc hh (d := e) (by omega)
    rw [hn] at h1
    exact h1
  have hlow : ∀ w k, w < alloc.m_lastAllocatedIndex → bitAt alloc.m_bitmap w k = false :=
    fun w k hw => hbelow w k (by omega)
  rcases bitmap_allocate_window hwin with ⟨_, hz⟩ |
    ⟨dist, bit, alloc1, hd, hbit, hi, hset1, hlowest1, hz, k1, k2, k3, k4⟩
  · exfalso
    have he : rotIndex alloc (w0 - alloc.m_lastAllocatedIndex) = w0 := by
      rw [hrot _ (by omega), if_pos (by omega)]
      omega
    have hz1 := hz (w0 - alloc.m_lastAllocatedIndex) (by omega)
    rw [he] at hz1
    rw [(word_zero_iff_bits _ _).mp hz1 k0] at hset
    exact Bool.noConfusion hset
  · obtain ⟨_, hfwd2⟩ := bitmap_allocate_forward hwin hlow hd ⟨bit, hset1⟩ hz
    have hiw : rotIndex alloc dist = w0 := by
      by_contra hne
      rcases Nat.lt_or_gt_of_ne hne with h | h
      · rw [hbelow _ bit h] at hset1
        exact Bool.noConfusion hset1
      · rw [hfwd2 w0 k0 h] at hset
        exact Bool.noConfusion hset
    rw [hiw] at hset1 hlowest1 k1 k3 k4
    have hbk : bit = k0 := by
      by_contra hne
      rcases Nat.lt_or_gt_of_ne hne with h | h
      · rw [hlowest bit h] at hset1
        exact Bool.noConfusion hset1
      · rw [hlowest1 k0 h] at hset
        exact Bool.noConfusion hset
    rw [hbk] at k1 k4
    exact ⟨alloc1, k1, k2, k3, k4⟩

/-- When the bitmap of the current window yields a frame,
`PmmWatermarkAllocator_allocate` returns it and only the bitmap changes. -/
theorem allocate_hit (st : PmmWatermarkAllocator) {a : Nat} {alloc1 : PmmBitmapAllocator}
    (h : PmmBitmapAllocator_allocate st.m_regionBitmapAllocator = some (a, alloc1))
    (ha : a ≠ PHYS_NULL) :
    PmmWatermarkAllocator_allocate st =
      some (a, { st with m_regionBitmapAllocator := alloc1 }) := by
  unfold PmmWatermarkAllocator_allocate
  rw [h]
  simp only []
  rw [show WINDOW_WALK_FUEL = 256 + 1 from rfl, PmmWatermarkAllocator_allocateLoop_succ,
    if_neg ha]

theorem scenario1_valid :
    (∀ r ∈ scenario1Ram, PmmRegion_valid r) ∧
    (∀ r ∈ scenario1Reserved ++ scenario1Modules, PmmRegion_valid r) := by
  decide

theorem scenario1_frames :
    frameAvailable scenario1Ram (scenario1Reserved ++ scenario1Modules) (winAddr 0 0 0) = false ∧
    frameAvailable scenario1Ram (scenario1Reserved ++ scenario1Modules) (winAddr 0 0 1) = true ∧
    frameAvailable scenario1Ram (scenario1Reserved ++ scenario1Modules) (winAddr 0 0 2) = true ∧
    winAddr 0 0 1 = 0x00001000 ∧ winAddr 0 0 2 = 0x00002000 := by
  decide

/-- In scenario 1 the first two calls of `PmmWatermarkAllocator_allocate`
return `0x00001000` and `0x00002000`. -/
theorem scenario1_first_two :
    ∃ st st', PmmWatermarkAllocator_create scenario1Ram (scenario1Reserved ++ scenario1Modules)
        = some st ∧
      PmmWatermarkAllocator_allocateMany 2 st = some ([0x00001000, 0x00002000], st') := by
  obtain ⟨alloc0, h1, h2, h3, h4⟩ :=
    PmmWatermarkAllocator_create_spec scenario1_valid.1 scenario1_valid.2
  obtain ⟨f0, f1, f2, e1, e2⟩ := scenario1_frames
  obtain ⟨hcur, hwin, hram, hres⟩ := h2
  simp only at hwin
  -- first call: bit 1 of word 0
  obtain ⟨alloc1, a1, a2, a3, a4⟩ := bitmap_allocate_finds hwin 0 1
    (by decide) (by omega) (fun _ => by decide)
    (by rw [h4 0 1 (by decide) (by decide)]; exact f1)
    (fun w k hw => absurd hw (by omega))
    (fun k hk => by
      have hk0 : k = 0 := by omega
      rw [hk0, h4 0 0 (by decide) (by decide)]
      exact f0)
  -- second call: bit 2 of word 0
  obtain ⟨alloc2, b1, b2, b3, b4⟩ := bitmap_allocate_finds a2 0 2
    (by decide) (by omega) (fun _ => by decide)
    (by rw [a4, h4 0 2 (by decide) (by decide), f2]; decide)
    (fun w k hw => absurd hw (by omega))
    (fun k hk => by
      rw [a4]
      have hk01 : k = 0 ∨ k = 1 := by omega
      rcases hk01 with h | h
      · rw [h, h4 0 0 (by decide) (by decide), f0]; rfl
      · rw [h]; simp)
  rw [e1] at a1
  rw [e2] at b1
  have c1 := allocate_hit ⟨alloc0, ⟨0, 16777215⟩, scenario1Ram,
    scenario1Reserved ++ scenario1Modules⟩ a1 (by decide)
  have c2 := allocate_hit ⟨alloc1, ⟨0, 16777215⟩, scenario1Ram,
    scenario1Reserved ++ scenario1Modules⟩ b1 (by decide)
  simp only at c1 c2
  refine ⟨_, ⟨alloc2, ⟨0, 16777215⟩, scenario1Ram, scenario1Reserved ++ scenario1Modules⟩,
    h1, ?_⟩
  unfold PmmWatermarkAllocator_allocateMany
  rw [c1]
  simp only []
  unfold PmmWatermarkAllocator_allocateMany
  rw [c2]
  simp only []
  unfold PmmWatermarkAllocator_allocateMany
  rfl


/-! ## Exhaustion of a four-window RAM region -/

theorem exhaustionRam_eq : exhaustionRam = [⟨0, 67108863⟩] := by decide

theorem frameAvailable_exhaustion (a : Nat) :
    frameAvailable exhaustionRam [] a = decide (a ≠ 0 ∧ a ≤ 67108863) := by
  have hv : PmmRegion_valid ⟨0, 67108863⟩ := by decide
  rw [Bool.eq_iff_iff, frameAvailable_iff, exhaustionRam_eq, decide_eq_true_eq]
  simp only [List.mem_singleton, exists_eq_left, List.not_mem_nil, false_implies, implies_true,
    and_true, PHYS_NULL]
  rw [inAligned_iff hv]
  simp only []
  omega

theorem bitAt_high {B : Nat} {alloc : PmmBitmapAllocator} (hwin : WinAlloc B alloc) (w : Nat)
    {k : Nat} (hk : 32 ≤ k) : bitAt alloc.m_bitmap w k = false := by
  unfold bitAt
  exact testBit_eq_false_of_lt_word (getD_lt_word hwin.1.2.2.1 w) hk

theorem allocateMany_append :
    ∀ (k m : Nat) (st st1 st2 : PmmWatermarkAllocator) (r1 r2 : List Nat),
      PmmWatermarkAllocator_allocateMany k st = some (r1, st1) →
      PmmWatermarkAllocator_allocateMany m st1 = some (r2, st2) →
      PmmWatermarkAllocator_allocateMany (k + m) st = some (r1 ++ r2, st2) := by
  intro k
  induction k with
  | zero =>
    intro m st st1 st2 r1 r2 h1 h2
    unfold PmmWatermarkAllocator_allocateMany at h1
    have e := Option.some.inj h1
    have e1 : r1 = [] := (congrArg Prod.fst e).symm
    have e2 : st1 = st := (congrArg Prod.snd e).symm
    rw [e1, Nat.zero_add, List.nil_append, ← e2]
    exact h2
  | succ k ih =>
    intro m st st1 st2 r1 r2 h1 h2
    unfold PmmWatermarkAllocator_allocateMany at h1
    cases hcall : PmmWatermarkAllocator_allocate st with
    | none =>
      rw [hcall] at h1
      exact Option.noConfusion h1
    | some p =>
      obtain ⟨a, sta⟩ := p
      rw [hcall] at h1
      simp only [] at h1
      cases hrest : PmmWatermarkAllocator_allocateMany k sta with
      | none =>
        rw [hrest] at h1
        exact Option.noConfusion h1
      | some q =>
        obtain ⟨rest, stb⟩ := q
        rw [hrest] at h1
        simp only [] at h1
        have e := Option.some.inj h1
        have e1 : r1 = a :: rest := (congrArg Prod.fst e).symm
        have e2 : st1 = stb := (congrArg Prod.snd e).symm
        rw [e2] at h2
        have hih := ih m sta stb st2 rest r2 hrest h2
        rw [show k + 1 + m = (k + m) + 1 by omega]
        unfold PmmWatermarkAllocator_allocateMany
        rw [hcall]
        simp only []
        rw [hih, e1]
        rfl

/-- One call of `PmmWatermarkAllocator_allocate` in the exhaustion scenario
while frames are left: it returns the next frame. -/
theorem exhaust_step (n : Nat) (hn : n < 16383) (st : PmmWatermarkAllocator) (B : Nat)
    (hshape : WatermarkShape B st) (hJ : ExhaustAt n st) :
    ∃ a st' B', PmmWatermarkAllocator_allocate st = some (a, st') ∧
      (a = (n + 1) * 4096 ∧ ExhaustAt (n + 1) st') ∧ WatermarkShape B' st' := by
  refine allocate_outcome (ExhaustAt n)
    (fun a st => (a = (n + 1) * 4096 ∧ ExhaustAt (n + 1) st) ∨
      (a = PHYS_NULL ∧ ExhaustAt n st ∧
        ∀ B, WatermarkShape B st → (n + 1) * 4096 = B + 16777216))
    (fun a st => a = (n + 1) * 4096 ∧ ExhaustAt (n + 1) st) ?_ ?_ ?_ ?_ ?_ st B hshape hJ
  · -- the bitmap of the window is asked for a frame
    intro st B a alloc1 hJ hshape hcall
    obtain ⟨hr1, hr2, hall⟩ := hJ
    obtain ⟨hlo, hhi, hbits, hhint⟩ := hall B hshape
    obtain ⟨hcur, hwin, hram, hres⟩ := hshape
    have hB := hwin.2.2.2.1
    have hBfit := hwin.2.2.2.2
    by_cases hin : (n + 1) * 4096 < B + 16777216
    · left
      obtain ⟨hh1, hh2⟩ := hhint hin
      have haddr : winAddr B ((n + 1) % 4096 / 32) ((n + 1) % 32) = (n + 1) * 4096 := by
        unfold winAddr
        omega
      have hset : bitAt st.m_regionBitmapAllocator.m_bitmap ((n + 1) % 4096 / 32)
          ((n + 1) % 32) = true := by
        rw [hbits _ _ (by omega) (by omega), haddr, decide_eq_true_eq]
        omega
      have hbelow : ∀ w k, w < (n + 1) % 4096 / 32 →
          bitAt st.m_regionBitmapAllocator.m_bitmap w k = false := by
        intro w k hw
        by_cases hk : k < 32
        · rw [hbits w k (by omega) hk, decide_eq_false_iff_not]
          unfold winAddr
          omega
        · exact bitAt_high hwin w (by omega)
      have hlowest : ∀ k, k < (n + 1) % 32 →
          bitAt st.m_regionBitmapAllocator.m_bitmap ((n + 1) % 4096 / 32) k = false := by
        intro k hk
        rw [hbits _ k (by omega) (by omega), decide_eq_false_iff_not]
        unfold winAddr
        omega
      obtain ⟨alloc2, a1, a2, a3, a4⟩ := bitmap_allocate_finds hwin _ _ (by omega) hh1 hh2
        hset hbelow hlowest
      rw [a1, haddr] at hcall
      have e := Option.some.inj hcall
      have e1 : a = (n + 1) * 4096 := (congrArg Prod.fst e).symm
      have e2 : alloc1 = alloc2 := (congrArg Prod.snd e).symm
      subst e2
      refine ⟨e1, hr1, hr2, ?_⟩
      intro B' hshape'
      have hshape1 : WatermarkShape B { st with m_regionBitmapAllocator := alloc1 } :=
        ⟨hcur, a2, hram, hres⟩
      have hBB := WatermarkShape_base hshape1 hshape'
      rw [hBB]
      refine ⟨by omega, by omega, ?_, ?_⟩
      · intro w j hw hj
        simp only []
        rw [a4, hbits w j hw hj, Bool.eq_iff_iff, Bool.and_eq_true, decide_eq_true_eq,
          Bool.not_eq_true', Bool.and_eq_false_iff, decide_eq_false_iff_not,
          decide_eq_false_iff_not, decide_eq_true_eq]
        unfold winAddr
        omega
      · intro hin'
        simp only [a3]
        omega
    · right
      have hex : (n + 1) * 4096 = B + 16777216 := by omega
      rcases bitmap_allocate_window hwin with ⟨k1, _⟩ |
        ⟨dist, bit, alloc2, _, hbit, hi, hset, _, _, _, _, _, _⟩
      · rw [k1] at hcall
        have e := Option.some.inj hcall
        have e1 : a = PHYS_NULL := (congrArg Prod.fst e).symm
        have e2 : alloc1 = st.m_regionBitmapAllocator := (congrArg Prod.snd e).symm
        rw [e2]
        refine ⟨e1, ⟨hr1, hr2, hall⟩, ?_⟩
        intro B' hshape'
        have hshape0 : WatermarkShape B st := ⟨hcur, hwin, hram, hres⟩
        have hBB := WatermarkShape_base hshape0 hshape'
        rw [hBB]
        exact hex
      · exfalso
        rw [hbits _ _ hi hbit, decide_eq_true_eq] at hset
        have := (winAddr_bounds B hi hbit).2.1
        omega
  · -- a new window is initialized
    intro st B alloc' hI hshape hBnext hwin' hhint' hbits'
    rcases hI with ⟨h0, _⟩ | ⟨_, hJ, hex⟩
    · exfalso
      omega
    · obtain ⟨hr1, hr2, _⟩ := hJ
      have hexB := hex B hshape
      refine ⟨hr1, hr2, ?_⟩
      intro B' hshape'
      have hshape1 : WatermarkShape (B + 16777216)
          { st with m_currentRegion := ⟨B + 16777216, B + 16777216 + 16777215⟩,
                    m_regionBitmapAllocator := alloc' } :=
        ⟨rfl, hwin', hshape.2.2.1, hshape.2.2.2⟩
      have hBB := WatermarkShape_base hshape1 hshape'
      rw [hBB]
      have hB := hshape.2.1.2.2.2.1
      refine ⟨by omega, by omega, ?_, ?_⟩
      · intro w j hw hj
        simp only []
        rw [hbits' w j hw hj, hr1, hr2, frameAvailable_exhaustion]
        have := (winAddr_bounds (B + 16777216) hw hj).1
        rw [decide_eq_decide]
        omega
      · intro _
        simp only [hhint']
        omega
  · -- the loop is left with a frame
    intro a st hI ha
    rcases hI with h | ⟨h0, _⟩
    · exact h
    · exact absurd h0 ha
  · -- the window cannot advance
    intro st B hI hshape htop
    exfalso
    rcases hI with ⟨h0, _⟩ | ⟨_, _, hex⟩
    · omega
    · have := hex B hshape
      omega
  · -- no RAM is left at or above the new window
    intro st B hJ hshape hnone
    exfalso
    obtain ⟨hr1, _, hall⟩ := hJ
    obtain ⟨hlo, _, _, _⟩ := hall B hshape
    rw [hr1, exhaustionRam_eq] at hnone
    simp only [List.any_cons, List.any_nil, Bool.or_false, decide_eq_false_iff_not] at hnone
    omega

/-- One call of `PmmWatermarkAllocator_allocate` in the exhaustion scenario
once nothing is left: it returns `PHYS_NULL`. -/
theorem exhaust_done_step (st : PmmWatermarkAllocator) (B : Nat)
    (hshape : WatermarkShape B st) (hJ : ExhaustDone st) :
    ∃ a st' B', PmmWatermarkAllocator_allocate st = some (a, st') ∧
      (a = PHYS_NULL ∧ ExhaustDone st') ∧ WatermarkShape B' st' := by
  refine allocate_invariant ExhaustDone (fun a st => a = PHYS_NULL ∧ ExhaustDone st)
    ?_ ?_ ?_ st B hshape hJ
  · intro st B a alloc1 hJ hshape hcall
    obtain ⟨hr1, hr2, hall⟩ := hJ
    obtain ⟨hlo, hbits⟩ := hall B hshape
    obtain ⟨hcur, hwin, hram, hres⟩ := hshape
    rcases bitmap_allocate_window hwin with ⟨k1, _⟩ |
      ⟨dist, bit, alloc2, _, hbit, hi, hset, _, _, _, _, _, _⟩
    · rw [k1] at hcall
      have e := Option.some.inj hcall
      have e1 : a = PHYS_NULL := (congrArg Prod.fst e).symm
      have e2 : alloc1 = st.m_regionBitmapAllocator := (congrArg Prod.snd e).symm
      rw [e2]
      exact ⟨e1, hr1, hr2, hall⟩
    · exfalso
      rw [hbits _ _ hi hbit] at hset
      exact Bool.noConfusion hset
  · intro st B alloc' hI hshape hBnext hwin' hhint' hbits'
    obtain ⟨_, hr1, hr2, hall⟩ := hI
    obtain ⟨hlo, _⟩ := hall B hshape
    refine ⟨hr1, hr2, ?_⟩
    intro B' hshape'
    have hshape1 : WatermarkShape (B + 16777216)
        { st with m_currentRegion := ⟨B + 16777216, B + 16777216 + 16777215⟩,
                  m_regionBitmapAllocator := alloc' } :=
      ⟨rfl, hwin', hshape.2.2.1, hshape.2.2.2⟩
    have hBB := WatermarkShape_base hshape1 hshape'
    rw [hBB]
    refine ⟨by omega, ?_⟩
    intro w j hw hj
    simp only []
    rw [hbits' w j hw hj, hr1, hr2, frameAvailable_exhaustion, decide_eq_false_iff_not]
    have := (winAddr_bounds (B + 16777216) hw hj).1
    omega
  · intro st hJ
    exact ⟨rfl, hJ⟩

theorem exhaust_phase_one :
    ∀ (k n : Nat) (st : PmmWatermarkAllocator) (B : Nat), n + k ≤ 16383 →
      WatermarkShape B st → ExhaustAt n st →
      ∃ st' B', PmmWatermarkAllocator_allocateMany k st =
          some ((List.range k).map (fun i => (n + i + 1) * 4096), st') ∧
        ExhaustAt (n + k) st' ∧ WatermarkShape B' st' := by
  intro k
  induction k with
  | zero =>
    intro n st B _ hshape hJ
    exact ⟨st, B, rfl, hJ, hshape⟩
  | succ k ih =>
    intro n st B hnk hshape hJ
    obtain ⟨a, st1, B1, h1, ⟨h2, h3⟩, h4⟩ := exhaust_step n (by omega) st B hshape hJ
    obtain ⟨st2, B2, g1, g2, g3⟩ := ih (n + 1) st1 B1 (by omega) h4 h3
    refine ⟨st2, B2, ?_, ?_, g3⟩
    · unfold PmmWatermarkAllocator_allocateMany
      rw [h1]
      simp only []
      rw [g1, h2, List.range_succ_eq_map, List.map_cons, List.map_map]
      simp only []
      have hf : (List.range k).map (fun i => (n + 1 + i + 1) * 4096) =
          (List.range k).map ((fun i => (n + i + 1) * 4096) ∘ Nat.succ) := by
        apply List.map_congr_left
        intro i _
        simp only [Function.comp, Nat.succ_eq_add_one]
        omega
      rw [hf]
    · rw [show n + (k + 1) = n + 1 + k by omega]
      exact g2

theorem exhaust_phase_two :
    ∀ (m : Nat) (st : PmmWatermarkAllocator) (B : Nat), WatermarkShape B st → ExhaustDone st →
      ∃ st', PmmWatermarkAllocator_allocateMany m st =
        some (List.replicate m PHYS_NULL, st') := by
  intro m
  induction m with
  | zero =>
    intro st B _ _
    exact ⟨st, rfl⟩
  | succ m ih =>
    intro st B hshape hJ
    obtain ⟨a, st1, B1, h1, ⟨h2, h3⟩, h4⟩ := exhaust_done_step st B hshape hJ
    obtain ⟨st2, g1⟩ := ih st1 B1 h4 h3
    refine ⟨st2, ?_⟩
    unfold PmmWatermarkAllocator_allocateMany
    rw [h1]
    simp only []
    rw [g1, h2, List.replicate_succ]

theorem exhaust_initial :
    ∃ st, PmmWatermarkAllocator_create exhaustionRam [] = some st ∧
      WatermarkShape 0 st ∧ ExhaustAt 0 st := by
  have hram : ∀ r ∈ exhaustionRam, PmmRegion_valid r := by decide
  have hres : ∀ r ∈ ([] : List PmmRegion), PmmRegion_valid r := by decide
  obtain ⟨alloc0, h1, h2, h3, h4⟩ := PmmWatermarkAllocator_create_spec hram hres
  refine ⟨_, h1, h2, rfl, rfl, ?_⟩
  intro B' hshape'
  have hBB := WatermarkShape_base h2 hshape'
  rw [hBB]
  refine ⟨by omega, by omega, ?_, ?_⟩
  · intro w j hw hj
    simp only []
    rw [h4 w j hw hj, frameAvailable_exhaustion, decide_eq_decide]
    have := (winAddr_bounds 0 hw hj).2.2
    omega
  · intro _
    simp only [h3]
    omega

theorem exhaust_done_of_all {st : PmmWatermarkAllocator} (h : ExhaustAt 16383 st) :
    ExhaustDone st := by
  obtain ⟨hr1, hr2, hall⟩ := h
  refine ⟨hr1, hr2, ?_⟩
  intro B hshape
  obtain ⟨hlo, hhi, hbits, _⟩ := hall B hshape
  refine ⟨by omega, ?_⟩
  intro w j hw hj
  rw [hbits w j hw hj, decide_eq_false_iff_not]
  omega

/-! ## Regions under create, advance, clip and makePageAligned -/

theorem PmmRegion_isValidRegion_iff (b n : Nat) (hn : n < 4294967296) :
    PmmRegion_isValidRegion b n = true ↔ 1 ≤ n ∧ b + n - 1 ≤ MAX_PHYS_ADDR := by
  unfold PmmRegion_isValidRegion
  simp only [Bool.and_eq_true, decide_eq_true_eq, MAX_PHYS_ADDR]
  omega

theorem PmmRegion_create_eq {b n : Nat} (hn : n < 4294967296)
    (h : PmmRegion_isValidRegion b n = true) : PmmRegion_create b n = ⟨b, b + n - 1⟩ := by
  have h1 := (PmmRegion_isValidRegion_iff b n hn).1 h
  simp only [MAX_PHYS_ADDR] at h1
  unfold PmmRegion_create u32
  apply PmmRegion_mk_congr rfl
  omega

theorem PmmRegion_create_valid {b n : Nat} (hn : n < 4294967296)
    (h : PmmRegion_isValidRegion b n = true) : PmmRegion_valid (PmmRegion_create b n) := by
  have h1 := (PmmRegion_isValidRegion_iff b n hn).1 h
  rw [PmmRegion_create_eq hn h]
  simp only [PmmRegion_valid, MAX_PHYS_ADDR] at h1 ⊢
  omega

theorem PmmRegion_advance_valid {r : PmmRegion} (hr : PmmRegion_valid r) :
    PmmRegion_valid (PmmRegion_advance r).2 := by
  rw [PmmRegion_advance_eq hr]
  simp only [PmmRegion_valid, MAX_PHYS_ADDR] at hr ⊢
  split
  · exact hr
  · split
    · simp only []
      omega
    · exact hr

theorem PmmRegion_clip_valid {r c : PmmRegion} (hr : PmmRegion_valid r)
    (hc : PmmRegion_valid c) : PmmRegion_valid (PmmRegion_clip r c).2 := by
  rw [PmmRegion_clip_eq]
  simp only [PmmRegion_valid, MAX_PHYS_ADDR] at hr hc ⊢
  split
  · exact hr
  · simp only []
    omega

theorem PmmRegion_makePageAligned_valid {r : PmmRegion} (hr : PmmRegion_valid r) :
    PmmRegion_valid (PmmRegion_makePageAligned r) := by
  rw [PmmRegion_makePageAligned_eq hr]
  simp only [PmmRegion_valid, MAX_PHYS_ADDR] at hr ⊢
  omega

theorem PmmRegionOp_apply_valid {r : PmmRegion} (hr : PmmRegion_valid r) (op : PmmRegionOp)
    (hop : PmmRegionOp_ok op) : PmmRegion_valid (PmmRegionOp_apply r op) := by
  cases op with
  | advance => exact PmmRegion_advance_valid hr
  | clip c => exact PmmRegion_clip_valid hr hop
  | makePageAligned => exact PmmRegion_makePageAligned_valid hr

theorem PmmRegionOp_run_valid (ops : List PmmRegionOp) :
    ∀ r : PmmRegion, PmmRegion_valid r → (∀ op ∈ ops, PmmRegionOp_ok op) →
      PmmRegion_valid (PmmRegionOp_run r ops) := by
  induction ops with
  | nil => intro r hr _; exact hr
  | cons op ops ih =>
    intro r hr hops
    unfold PmmRegionOp_run
    rw [List.foldl_cons]
    exact ih _ (PmmRegionOp_apply_valid hr op (hops op (List.mem_cons_self _ _)))
      (fun o ho => hops o (List.mem_cons_of_mem _ ho))

theorem PmmRegion_length_eq {r : PmmRegion} (hr : PmmRegion_valid r) :
    PmmRegion_length r = if r = ⟨0, 4294967295⟩ then 0 else PmmRegion_trueLength r := by
  obtain ⟨b, l⟩ := r
  simp only [PmmRegion_valid, MAX_PHYS_ADDR] at hr
  simp only [PmmRegion_length, PmmRegion_trueLength, u32, PmmRegion.mk.injEq]
  split <;> omega

/-! ## Region lists: lemmas -/

theorem IPmmRegionList_yields_nil {σ : Type} (iptr : IPmmRegionList_itable σ) (obj : σ) :
    IPmmRegionList_yields iptr obj [] = true ↔ ∃ obj1, iptr.moveNext obj = some (false, obj1) := by
  unfold IPmmRegionList_yields
  cases h : iptr.moveNext obj with
  | none => simp
  | some p =>
    obtain ⟨b, o⟩ := p
    cases b <;> simp

theorem IPmmRegionList_yields_cons {σ : Type} (iptr : IPmmRegionList_itable σ) (obj : σ)
    (r : PmmRegion) (rs : List PmmRegion) :
    IPmmRegionList_yields iptr obj (r :: rs) = true ↔
      ∃ obj1, iptr.moveNext obj = some (true, obj1) ∧ iptr.getCurrent obj1 = some r ∧
        IPmmRegionList_yields iptr obj1 rs = true := by
  rw [IPmmRegionList_yields]
  cases h : iptr.moveNext obj with
  | none => simp
  | some p =>
    obtain ⟨b, o⟩ := p
    cases b <;> simp

theorem ConcatPmmRegionList_yields_on_second {α β : Type} (fl : IPmmRegionList α)
    (si : IPmmRegionList_itable β) (lb : List PmmRegion) :
    ∀ so : β, IPmmRegionList_yields si so lb = true →
      IPmmRegionList_yields (ConcatPmmRegionList_s_itable α β)
        ⟨fl, ⟨si, so⟩, ConcatPmmRegionList_consts.STATE_ON_SECOND⟩ lb = true := by
  induction lb with
  | nil =>
    intro so h
    obtain ⟨so1, h1⟩ := (IPmmRegionList_yields_nil si so).1 h
    rw [IPmmRegionList_yields_nil]
    refine ⟨⟨fl, ⟨si, so1⟩, ConcatPmmRegionList_consts.STATE_PAST_END⟩, ?_⟩
    simp [ConcatPmmRegionList_consts.STATE_RESET, ConcatPmmRegionList_consts.STATE_ON_FIRST,
      ConcatPmmRegionList_consts.STATE_ON_SECOND, ConcatPmmRegionList_consts.STATE_PAST_END,
      ConcatPmmRegionList_s_itable, ConcatPmmRegionList_moveNext,
      ConcatPmmRegionList_moveNextOnSecond, h1]
  | cons r rs ih =>
    intro so h
    obtain ⟨so1, h1, h2, h3⟩ := (IPmmRegionList_yields_cons si so r rs).1 h
    rw [IPmmRegionList_yields_cons]
    refine ⟨⟨fl, ⟨si, so1⟩, ConcatPmmRegionList_consts.STATE_ON_SECOND⟩, ?_, ?_, ih so1 h3⟩
    · simp [ConcatPmmRegionList_consts.STATE_RESET, ConcatPmmRegionList_consts.STATE_ON_FIRST,
      ConcatPmmRegionList_consts.STATE_ON_SECOND, ConcatPmmRegionList_consts.STATE_PAST_END,
      ConcatPmmRegionList_s_itable, ConcatPmmRegionList_moveNext,
        ConcatPmmRegionList_moveNextOnSecond, h1]
    · simp [ConcatPmmRegionList_consts.STATE_RESET, ConcatPmmRegionList_consts.STATE_ON_FIRST,
      ConcatPmmRegionList_consts.STATE_ON_SECOND, ConcatPmmRegionList_consts.STATE_PAST_END,
      ConcatPmmRegionList_s_itable, ConcatPmmRegionList_getCurrent, h2]

theorem ConcatPmmRegionList_moveNext_reset {α β : Type} (fl : IPmmRegionList α)
    (sl : IPmmRegionList β) :
    ConcatPmmRegionList_moveNext ⟨fl, sl, ConcatPmmRegionList_consts.STATE_RESET⟩ =
      ConcatPmmRegionList_moveNext ⟨fl, sl, ConcatPmmRegionList_consts.STATE_ON_FIRST⟩ := by
  simp [ConcatPmmRegionList_consts.STATE_RESET, ConcatPmmRegionList_consts.STATE_ON_FIRST,
    ConcatPmmRegionList_moveNext]

theorem ConcatPmmRegionList_yields_on_first {α β : Type} (fi : IPmmRegionList_itable α)
    (si : IPmmRegionList_itable β) (so : β) (la lb : List PmmRegion)
    (hb : IPmmRegionList_yields si so lb = true) :
    ∀ fo : α, IPmmRegionList_yields fi fo la = true →
      IPmmRegionList_yields (ConcatPmmRegionList_s_itable α β)
        ⟨⟨fi, fo⟩, ⟨si, so⟩, ConcatPmmRegionList_consts.STATE_ON_FIRST⟩ (la ++ lb) = true := by
  induction la with
  | nil =>
    intro fo h
    obtain ⟨fo1, h1⟩ := (IPmmRegionList_yields_nil fi fo).1 h
    rw [List.nil_append]
    cases lb with
    | nil =>
      obtain ⟨so1, h2⟩ := (IPmmRegionList_yields_nil si so).1 hb
      rw [IPmmRegionList_yields_nil]
      refine ⟨⟨⟨fi, fo1⟩, ⟨si, so1⟩, ConcatPmmRegionList_consts.STATE_PAST_END⟩, ?_⟩
      simp [ConcatPmmRegionList_consts.STATE_RESET, ConcatPmmRegionList_consts.STATE_ON_FIRST,
      ConcatPmmRegionList_consts.STATE_ON_SECOND, ConcatPmmRegionList_consts.STATE_PAST_END,
      ConcatPmmRegionList_s_itable, ConcatPmmRegionList_moveNext,
        ConcatPmmRegionList_moveNextOnFirst, ConcatPmmRegionList_moveNextOnSecond, h1, h2]
    | cons r rs =>
      obtain ⟨so1, h2, h3, h4⟩ := (IPmmRegionList_yields_cons si so r rs).1 hb
      rw [IPmmRegionList_yields_cons]
      refine ⟨⟨⟨fi, fo1⟩, ⟨si, so1⟩, ConcatPmmRegionList_consts.STATE_ON_SECOND⟩, ?_, ?_,
        ConcatPmmRegionList_yields_on_second ⟨fi, fo1⟩ si rs so1 h4⟩
      · simp [ConcatPmmRegionList_consts.STATE_RESET, ConcatPmmRegionList_consts.STATE_ON_FIRST,
      ConcatPmmRegionList_consts.STATE_ON_SECOND, ConcatPmmRegionList_consts.STATE_PAST_END,
      ConcatPmmRegionList_s_itable, ConcatPmmRegionList_moveNext,
          ConcatPmmRegionList_moveNextOnFirst, ConcatPmmRegionList_moveNextOnSecond, h1, h2]
      · simp [ConcatPmmRegionList_consts.STATE_RESET, ConcatPmmRegionList_consts.STATE_ON_FIRST,
      ConcatPmmRegionList_consts.STATE_ON_SECOND, ConcatPmmRegionList_consts.STATE_PAST_END,
      ConcatPmmRegionList_s_itable, ConcatPmmRegionList_getCurrent, h3]
  | cons r rs ih =>
    intro fo h
    obtain ⟨fo1, h1, h2, h3⟩ := (IPmmRegionList_yields_cons fi fo r rs).1 h
    rw [List.cons_append, IPmmRegionList_yields_cons]
    refine ⟨⟨⟨fi, fo1⟩, ⟨si, so⟩, ConcatPmmRegionList_consts.STATE_ON_FIRST⟩, ?_, ?_, ih fo1 h3⟩
    · simp [ConcatPmmRegionList_consts.STATE_RESET, ConcatPmmRegionList_consts.STATE_ON_FIRST,
      ConcatPmmRegionList_consts.STATE_ON_SECOND, ConcatPmmRegionList_consts.STATE_PAST_END,
      ConcatPmmRegionList_s_itable, ConcatPmmRegionList_moveNext,
        ConcatPmmRegionList_moveNextOnFirst, h1]
    · simp [ConcatPmmRegionList_consts.STATE_RESET, ConcatPmmRegionList_consts.STATE_ON_FIRST,
      ConcatPmmRegionList_consts.STATE_ON_SECOND, ConcatPmmRegionList_consts.STATE_PAST_END,
      ConcatPmmRegionList_s_itable, ConcatPmmRegionList_getCurrent, h2]

theorem ConcatPmmRegionList_yields_reset {α β : Type} (fl : IPmmRegionList α)
    (sl : IPmmRegionList β) (rs : List PmmRegion)
    (h : IPmmRegionList_yields (ConcatPmmRegionList_s_itable α β)
      ⟨fl, sl, ConcatPmmRegionList_consts.STATE_ON_FIRST⟩ rs = true) :
    IPmmRegionList_yields (ConcatPmmRegionList_s_itable α β)
      ⟨fl, sl, ConcatPmmRegionList_consts.STATE_RESET⟩ rs = true := by
  cases rs with
  | nil =>
    rw [IPmmRegionList_yields_nil] at h ⊢
    obtain ⟨o, ho⟩ := h
    exact ⟨o, by
      simp only [ConcatPmmRegionList_s_itable] at ho ⊢
      rw [ConcatPmmRegionList_moveNext_reset]
      exact ho⟩
  | cons r rs =>
    rw [IPmmRegionList_yields_cons] at h ⊢
    obtain ⟨o, ho, h2⟩ := h
    exact ⟨o, by
      simp only [ConcatPmmRegionList_s_itable] at ho ⊢
      rw [ConcatPmmRegionList_moveNext_reset]
      exact ho, h2⟩

/-- Once `moveNext` of a concatenated list has returned false, the next call
returns false and leaves the list as it is, whatever the two children do. -/
theorem ConcatPmmRegionList_moveNext_false_stays {α β : Type}
    (list list1 : ConcatPmmRegionList α β)
    (h : ConcatPmmRegionList_moveNext list = some (false, list1)) :
    ConcatPmmRegionList_moveNext list1 = some (false, list1) := by
  have key : list1.m_state ≠ ConcatPmmRegionList_consts.STATE_RESET ∧
      list1.m_state ≠ ConcatPmmRegionList_consts.STATE_ON_FIRST ∧
      list1.m_state ≠ ConcatPmmRegionList_consts.STATE_ON_SECOND := by
    have hsecond : ∀ l : ConcatPmmRegionList α β,
        ConcatPmmRegionList_moveNextOnSecond l = some (false, list1) →
        list1.m_state = ConcatPmmRegionList_consts.STATE_PAST_END := by
      intro l hl
      unfold ConcatPmmRegionList_moveNextOnSecond at hl
      split at hl
      · exact Option.noConfusion hl
      · simp at hl
      · simp only [Option.some.injEq, Prod.mk.injEq, true_and] at hl
        rw [← hl]
    have hfirst : ∀ l : ConcatPmmRegionList α β,
        ConcatPmmRegionList_moveNextOnFirst l = some (false, list1) →
        list1.m_state = ConcatPmmRegionList_consts.STATE_PAST_END := by
      intro l hl
      unfold ConcatPmmRegionList_moveNextOnFirst at hl
      split at hl
      · exact Option.noConfusion hl
      · simp at hl
      · exact hsecond _ hl
    unfold ConcatPmmRegionList_moveNext at h
    split at h
    · rw [hfirst _ h]
      decide
    · split at h
      · rw [hfirst _ h]
        decide
      · split at h
        · rw [hsecond _ h]
          decide
        · simp only [Option.some.injEq, Prod.mk.injEq, true_and] at h
          subst h
          refine ⟨?_, ?_, ?_⟩ <;> assumption
  unfold ConcatPmmRegionList_moveNext
  rw [if_neg key.1, if_neg key.2.1, if_neg key.2.2]

/-- Once `moveNext` of a memory-fields list has returned false, the next call
returns false and leaves the list as it is. -/
theorem MBMemFieldsPmmRegionList_moveNext_false_stays (list list1 : MBMemFieldsPmmRegionList)
    (h : MBMemFieldsPmmRegionList_moveNext list = some (false, list1)) :
    MBMemFieldsPmmRegionList_moveNext list1 = some (false, list1) := by
  obtain ⟨st, info⟩ := list
  obtain ⟨st1, info1⟩ := list1
  simp only [MBMemFieldsPmmRegionList_moveNext, MBMemFieldsPmmRegionList_consts.STATE_RESET,
    MBMemFieldsPmmRegionList_consts.STATE_LOWER, MBMemFieldsPmmRegionList_consts.STATE_UPPER,
    MBMemFieldsPmmRegionList_consts.STATE_PAST_END] at h ⊢
  split_ifs at h with h1 h2 h3 h4 <;>
    simp only [Option.some.injEq, Prod.mk.injEq, MBMemFieldsPmmRegionList.mk.injEq,
      Bool.true_eq_false, false_and, true_and] at h
  · obtain ⟨hs, hi⟩ := h
    subst hi
    rw [if_pos h1, if_neg (by omega), if_neg (by omega)]
  · obtain ⟨hs, hi⟩ := h
    subst hi
    subst hs
    rw [if_pos h1, if_neg h2, if_neg h3]
  · obtain ⟨hs, hi⟩ := h
    subst hi
    rw [if_neg h1, if_neg (by omega)]
  · obtain ⟨hs, hi⟩ := h
    subst hi
    subst hs
    rw [if_neg h1, if_neg h4]

/-- Once `moveNext` of a module list has returned false, the next call
returns false and leaves the list as it is. -/
theorem MBModulePmmRegionList_moveNext_false_stays (list list1 : MBModulePmmRegionList)
    (h : MBModulePmmRegionList_moveNext list = some (false, list1)) :
    MBModulePmmRegionList_moveNext list1 = some (false, list1) := by
  obtain ⟨st, idx, info⟩ := list
  obtain ⟨st1, idx1, info1⟩ := list1
  simp only [MBModulePmmRegionList_moveNext, MBModulePmmRegionList_consts.STATE_RESET,
    MBModulePmmRegionList_consts.STATE_KERNEL, MBModulePmmRegionList_consts.STATE_MODULE,
    MBModulePmmRegionList_consts.STATE_PAST_END] at h
  have hst : st1 = 0 ∨ (st1 ≠ 0 ∧ st1 ≠ 1 ∧ st1 ≠ 2 ∧ st1 ≠ 3) := by
    split_ifs at h <;>
      simp only [Option.some.injEq, Prod.mk.injEq, MBModulePmmRegionList.mk.injEq,
        Bool.true_eq_false, false_and, true_and] at h <;> omega
  simp only [MBModulePmmRegionList_moveNext, MBModulePmmRegionList_consts.STATE_RESET,
    MBModulePmmRegionList_consts.STATE_KERNEL, MBModulePmmRegionList_consts.STATE_MODULE,
    MBModulePmmRegionList_consts.STATE_PAST_END]
  rcases hst with h0 | ⟨h0, h1, h2, h3⟩
  · rw [if_pos h0]
  · rw [if_neg h0, if_neg h1, if_neg h2, if_neg h3]

theorem MultibootInfo_isValidMemmapNode_eq (mbInfo : MultibootInfo)
    (hp : mbInfo.MemMapPresent = true)
    (hend : mbInfo.MMapAddr + mbInfo.MMapLength < 4294967296) (node : Nat) :
    MultibootInfo_isValidMemmapNode mbInfo node =
      decide (mbInfo.MMapAddr ≤ node ∧ node < mbInfo.MMapAddr + mbInfo.MMapLength) := by
  unfold MultibootInfo_isValidMemmapNode u32
  simp [hp, Nat.mod_eq_of_lt hend]

theorem MBMemmap_laid_length (mem : Nat → MBMemmapNode) (e : Nat) :
    ∀ (es : List MBMemmapNode) (a : Nat), MBMemmap_laid mem a es e → a + 4 * es.length ≤ e := by
  intro es
  induction es with
  | nil =>
    intro a h
    simp only [MBMemmap_laid] at h
    simp only [List.length_nil]
    omega
  | cons n ns ih =>
    intro a h
    simp only [MBMemmap_laid] at h
    have h1 := ih _ h.2.2
    simp only [List.length_cons]
    omega

theorem MBMemmapNode_getNext_eq (mem : Nat → MBMemmapNode) (a : Nat)
    (h : a + 4 + (mem a).Size < 4294967296) :
    MBMemmapNode_getNext mem a = a + 4 + (mem a).Size := by
  unfold MBMemmapNode_getNext u32
  omega

/-- The skipping loop on a table laid end to end: it stops on the first
entry of the wanted kind at or after the cursor, or at the end address when
there is none, and the fuel suffices. -/
theorem MBMemmapPmmRegionList_moveNextLoop_laid (mem : Nat → MBMemmapNode)
    (mbInfo : MultibootInfo) (isRam : Bool) (hp : mbInfo.MemMapPresent = true)
    (hend : mbInfo.MMapAddr + mbInfo.MMapLength < 4294967296) :
    ∀ (es : List MBMemmapNode) (a fuel : Nat),
      MBMemmap_laid mem a es (mbInfo.MMapAddr + mbInfo.MMapLength) → mbInfo.MMapAddr ≤ a →
      es.length < fuel →
      (∃ a1 post, MBMemmapPmmRegionList_moveNextLoop mem fuel ⟨a, mbInfo, isRam⟩ =
            some (true, ⟨a1, mbInfo, isRam⟩) ∧
          mbInfo.MMapAddr ≤ a1 ∧
          a1 + 4 + (mem a1).Size ≤ mbInfo.MMapAddr + mbInfo.MMapLength ∧
          MBMemmap_laid mem (a1 + 4 + (mem a1).Size) post
            (mbInfo.MMapAddr + mbInfo.MMapLength) ∧
          es.filter (fun n => MBMemmapNode_isRam n == isRam) =
            mem a1 :: post.filter (fun n => MBMemmapNode_isRam n == isRam) ∧
          post.length < es.length) ∨
      (MBMemmapPmmRegionList_moveNextLoop mem fuel ⟨a, mbInfo, isRam⟩ =
          some (false, ⟨mbInfo.MMapAddr + mbInfo.MMapLength, mbInfo, isRam⟩) ∧
        es.filter (fun n => MBMemmapNode_isRam n == isRam) = []) := by
  intro es
  induction es with
  | nil =>
    intro a fuel hl ha hf
    simp only [MBMemmap_laid] at hl
    right
    obtain ⟨f, rfl⟩ : ∃ f, fuel = f + 1 := ⟨fuel - 1, by simp only [List.length_nil] at hf; omega⟩
    refine ⟨?_, rfl⟩
    rw [MBMemmapPmmRegionList_moveNextLoop]
    simp only [MBMemmapPmmRegionList_isCurrentNodeValid,
      MultibootInfo_isValidMemmapNode_eq mbInfo hp hend]
    rw [if_pos (by simp; omega), hl]
  | cons n ns ih =>
    intro a fuel hl ha hf
    simp only [MBMemmap_laid] at hl
    obtain ⟨hn, hle, hrest⟩ := hl
    obtain ⟨f, rfl⟩ : ∃ f, fuel = f + 1 := ⟨fuel - 1, by omega⟩
    simp only [List.length_cons] at hf
    by_cases hk : MBMemmapNode_isRam n = isRam
    · left
      refine ⟨a, ns, ?_, ha, by rw [hn]; exact hle, by rw [hn]; exact hrest, ?_, by
        simp only [List.length_cons]; omega⟩
      · rw [MBMemmapPmmRegionList_moveNextLoop]
        simp only [MBMemmapPmmRegionList_isCurrentNodeValid,
          MultibootInfo_isValidMemmapNode_eq mbInfo hp hend]
        rw [if_neg (by simp; omega)]
        cases isRam
        · have h1 : ((mem a).Type_ != 1) = true := by
            rw [hn]
            simpa [MBMemmapNode_isRam] using hk
          simp [h1]
        · have h1 : ((mem a).Type_ == 1) = true := by
            rw [hn]
            simpa [MBMemmapNode_isRam] using hk
          simp [h1]
      · rw [hn, List.filter_cons_of_pos (by simp [hk])]
    · have hskip : MBMemmapPmmRegionList_moveNextLoop mem (f + 1) ⟨a, mbInfo, isRam⟩ =
          MBMemmapPmmRegionList_moveNextLoop mem f ⟨a + 4 + n.Size, mbInfo, isRam⟩ := by
        rw [MBMemmapPmmRegionList_moveNextLoop]
        simp only [MBMemmapPmmRegionList_isCurrentNodeValid,
          MultibootInfo_isValidMemmapNode_eq mbInfo hp hend]
        rw [if_neg (by simp; omega), MBMemmapNode_getNext_eq mem a (by rw [hn]; omega), hn]
        cases isRam
        · have h1 : (n.Type_ != 1) = false := by
            simpa [MBMemmapNode_isRam] using hk
          simp [h1]
        · have h1 : (n.Type_ == 1) = false := by
            simpa [MBMemmapNode_isRam] using hk
          simp [h1]
      have hfilter : (n :: ns).filter (fun n => MBMemmapNode_isRam n == isRam) =
          ns.filter (fun n => MBMemmapNode_isRam n == isRam) :=
        List.filter_cons_of_neg (by simp [hk])
      rw [hskip, hfilter]
      rcases ih (a + 4 + n.Size) f hrest (by omega) (by omega) with
        ⟨a1, post, h1, h2, h3, h4, h5, h6⟩ | ⟨h1, h2⟩
      · left
        exact ⟨a1, post, h1, h2, h3, h4, h5, by simp only [List.length_cons]; omega⟩
      · right
        exact ⟨h1, h2⟩

/-- On a table laid end to end, a list whose next call of `moveNext` enters
the skipping loop at address `a`, where the entries `es` remain, yields the
regions of the entries of `es` of the wanted kind, in order. -/
theorem MBMemmapPmmRegionList_yields_laid (mem : Nat → MBMemmapNode)
    (mbInfo : MultibootInfo) (isRam : Bool) (hp : mbInfo.MemMapPresent = true)
    (h0 : 0 < mbInfo.MMapAddr)
    (hend : mbInfo.MMapAddr + mbInfo.MMapLength < 4294967296) :
    ∀ (k : Nat) (es : List MBMemmapNode) (a : Nat) (s : MBMemmapPmmRegionList),
      es.length < k →
      MBMemmap_laid mem a es (mbInfo.MMapAddr + mbInfo.MMapLength) → mbInfo.MMapAddr ≤ a →
      MBMemmapPmmRegionList_moveNext mem s =
        MBMemmapPmmRegionList_moveNextLoop mem MEMMAP_WALK_FUEL ⟨a, mbInfo, isRam⟩ →
      IPmmRegionList_yields (MBMemmapPmmRegionList_s_itable mem) s
        ((es.filter (fun n => MBMemmapNode_isRam n == isRam)).map MBMemmapNode_region) =
        true := by
  intro k
  induction k with
  | zero =>
    intro es a s hk
    exact absurd hk (Nat.not_lt_zero _)
  | succ k ih =>
    intro es a s hk hl ha hs
    have hlen := MBMemmap_laid_length mem _ es a hl
    have hfuel : es.length < MEMMAP_WALK_FUEL := by
      simp only [MEMMAP_WALK_FUEL]
      omega
    rcases MBMemmapPmmRegionList_moveNextLoop_laid mem mbInfo isRam hp hend es a
        MEMMAP_WALK_FUEL hl ha hfuel with ⟨a1, post, h1, h2, h3, h4, h5, h6⟩ | ⟨h1, h2⟩
    · rw [h5, List.map_cons, IPmmRegionList_yields_cons]
      refine ⟨⟨a1, mbInfo, isRam⟩, ?_, rfl, ?_⟩
      · show MBMemmapPmmRegionList_moveNext mem s = _
        rw [hs, h1]
      · apply ih post (a1 + 4 + (mem a1).Size) ⟨a1, mbInfo, isRam⟩ (by omega) h4 (by omega)
        unfold MBMemmapPmmRegionList_moveNext
        simp only [MBMemmapPmmRegionList_isCurrentNodeValid,
          MultibootInfo_isValidMemmapNode_eq mbInfo hp hend, hp]
        have hv : decide (mbInfo.MMapAddr ≤ a1 ∧ a1 < mbInfo.MMapAddr + mbInfo.MMapLength) =
            true := by
          simp only [decide_eq_true_eq]
          omega
        have hr : (a1 == 0) = false := by
          simp only [beq_eq_false_iff_ne, ne_eq]
          omega
        rw [hv, hr, MBMemmapNode_getNext_eq mem a1 (by omega)]
        simp
    · rw [h2, List.map_nil, IPmmRegionList_yields_nil]
      refine ⟨⟨mbInfo.MMapAddr + mbInfo.MMapLength, mbInfo, isRam⟩, ?_⟩
      show MBMemmapPmmRegionList_moveNext mem s = _
      rw [hs, h1]

theorem MBMemmapPmmRegionList_moveNextLoop_false (mem : Nat → MBMemmapNode) :
    ∀ (fuel : Nat) (list list1 : MBMemmapPmmRegionList),
      MBMemmapPmmRegionList_moveNextLoop mem fuel list = some (false, list1) →
      MBMemmapPmmRegionList_isCurrentNodeValid list1 = false := by
  intro fuel
  induction fuel with
  | zero =>
    intro list list1 h
    rw [MBMemmapPmmRegionList_moveNextLoop] at h
    exact Option.noConfusion h
  | succ f ih =>
    intro list list1 h
    rw [MBMemmapPmmRegionList_moveNextLoop] at h
    split_ifs at h with h1 h2 h3
    · simp only [Option.some.injEq, Prod.mk.injEq, true_and] at h
      subst h
      simpa using h1
    · simp at h
    · simp at h
    · exact ih _ _ h

/-- Once `moveNext` of a memory-map list has returned false and left a
current node pointer that is not null (or there is no memory map), the next
call returns false and leaves the list as it is. -/
theorem MBMemmapPmmRegionList_moveNext_false_stays (mem : Nat → MBMemmapNode)
    (list list1 : MBMemmapPmmRegionList)
    (h : MBMemmapPmmRegionList_moveNext mem list = some (false, list1))
    (hnz : list1.m_currentMemmapNode ≠ 0 ∨ list1.m_mbInfo.MemMapPresent = false) :
    MBMemmapPmmRegionList_moveNext mem list1 = some (false, list1) := by
  have hcond : (!list1.m_mbInfo.MemMapPresent ||
      (!MBMemmapPmmRegionList_isCurrentNodeValid list1 &&
        !(list1.m_currentMemmapNode == 0))) = true := by
    unfold MBMemmapPmmRegionList_moveNext at h
    simp only [] at h
    split_ifs at h with h1 h2
    · simp only [Option.some.injEq, Prod.mk.injEq, true_and] at h
      subst h
      exact h1
    · rw [MBMemmapPmmRegionList_moveNextLoop_false mem _ _ _ h]
      rcases hnz with hnz | hnz <;> simp [hnz]
    · rw [MBMemmapPmmRegionList_moveNextLoop_false mem _ _ _ h]
      rcases hnz with hnz | hnz <;> simp [hnz]
  unfold MBMemmapPmmRegionList_moveNext
  simp only []
  rw [if_pos hcond]

/-! ## `TextWriter`: lemmas -/

theorem ITextStream_writeAll_append {σ : Type} (stream : ITextStream σ) (xs ys : List Nat) :
    ITextStream_writeAll stream (xs ++ ys) =
      ITextStream_writeAll (ITextStream_writeAll stream xs) ys := by
  unfold ITextStream_writeAll
  rw [List.foldl_append]

theorem ITextStream_writeAll_cons {σ : Type} (stream : ITextStream σ) (c : Nat)
    (cs : List Nat) :
    ITextStream_writeAll stream (c :: cs) =
      ITextStream_writeAll (ITextStream_write stream c) cs := rfl

theorem ITextStream_writeAll_nil {σ : Type} (stream : ITextStream σ) :
    ITextStream_writeAll stream [] = stream := rfl

theorem TextWriter_writePadding_eq {σ : Type} (n : Nat) :
    ∀ stream : ITextStream σ,
      TextWriter_writePadding stream n = ITextStream_writeAll stream (List.replicate n 32) := by
  induction n with
  | zero => intro stream; rfl
  | succ n ih =>
    intro stream
    rw [TextWriter_writePadding, ih, List.replicate_succ, ITextStream_writeAll_cons]

theorem TextWriter_writeChars_eq {σ : Type} (str : List Nat) :
    ∀ stream : ITextStream σ, (∀ c ∈ str, c ≠ 0) →
      TextWriter_writeChars stream str = ITextStream_writeAll stream str := by
  induction str with
  | nil => intro stream _; rfl
  | cons c str ih =>
    intro stream h
    rw [TextWriter_writeChars, if_neg (h c (List.mem_cons_self _ _)),
      ih _ (fun d hd => h d (List.mem_cons_of_mem _ hd)), ITextStream_writeAll_cons]

theorem KString_length_eq (str : List Nat) (h : ∀ c ∈ str, c ≠ 0) :
    KString_length str = str.length := by
  induction str with
  | nil => rfl
  | cons c str ih =>
    rw [KString_length, if_neg (h c (List.mem_cons_self _ _)),
      ih (fun d hd => h d (List.mem_cons_of_mem _ hd)), List.length_cons]

theorem TextWriter_padded_length (leftAlign : Bool) (width : Nat) (str : List Nat) :
    (TextWriter_padded leftAlign width str).length = max width str.length := by
  unfold TextWriter_padded
  cases leftAlign <;> simp <;> omega

/-- The characters that `TextWriter_writeString` sends for a string without
null characters: the string, padded with blanks to the width. -/
theorem TextWriter_writeString_eq {σ : Type} (writer : TextWriter σ) (str : List Nat)
    (h : ∀ c ∈ str, c ≠ 0) :
    TextWriter_writeString writer str =
      { writer with m_stream := (ITextStream_writeAll writer.m_stream
          (TextWriter_padded writer.m_leftAlign writer.m_width str)) } := by
  obtain ⟨stream, hex, width, leftAlign⟩ := writer
  simp only [TextWriter_writeString, KString_length_eq str h, TextWriter_padded]
  congr 1
  by_cases hlt : str.length < width
  · cases leftAlign
    · simp [hlt, TextWriter_writePadding_eq, TextWriter_writeChars_eq _ _ h,
        ITextStream_writeAll_append]
    · simp [hlt, TextWriter_writePadding_eq, TextWriter_writeChars_eq _ _ h,
        ITextStream_writeAll_append]
  · have h0 : width - str.length = 0 := by omega
    cases leftAlign
    · simp [hlt, h0, TextWriter_writeChars_eq _ _ h]
    · simp [hlt, h0, TextWriter_writeChars_eq _ _ h]

/-- The characters that `TextWriter_writeChar` sends: the character, padded
with blanks to the width. -/
theorem TextWriter_writeChar_eq {σ : Type} (writer : TextWriter σ) (c : Nat) :
    TextWriter_writeChar writer c =
      { writer with m_stream := (ITextStream_writeAll writer.m_stream
          (TextWriter_padded writer.m_leftAlign writer.m_width [c])) } := by
  obtain ⟨stream, hex, width, leftAlign⟩ := writer
  simp only [TextWriter_writeChar, TextWriter_padded, List.length_singleton]
  congr 1
  by_cases hlt : width > 1
  · cases leftAlign
    · simp [hlt, TextWriter_writePadding_eq, ITextStream_writeAll_append,
        ITextStream_writeAll_cons, ITextStream_writeAll_nil]
    · simp [hlt, TextWriter_writePadding_eq, ITextStream_writeAll_append,
        ITextStream_writeAll_cons, ITextStream_writeAll_nil]
  · have h0 : width - 1 = 0 := by omega
    cases leftAlign
    · simp [hlt, h0, ITextStream_writeAll_cons, ITextStream_writeAll_nil]
    · simp [hlt, h0, ITextStream_writeAll_cons, ITextStream_writeAll_nil]

theorem RecordingTextStream_writeAll (sent cs : List Nat) :
    ITextStream_writeAll (RecordingTextStream sent) cs = RecordingTextStream (sent ++ cs) := by
  induction cs generalizing sent with
  | nil => simp [ITextStream_writeAll_nil]
  | cons c cs ih =>
    rw [ITextStream_writeAll_cons]
    have h : ITextStream_write (RecordingTextStream sent) c = RecordingTextStream (sent ++ [c]) :=
      rfl
    rw [h, ih]
    simp

/-! ## `KOut`: lemmas -/

/-- On the null character every state of the table goes to `FINAL_STATE`. -/
theorem s_parserStates_null (state : ParserState) :
    (s_parserStates state ParserInputChar.NULL_CHAR).nextState = ParserState.FINAL_STATE := by
  cases state <;> rfl

theorem KOut_convertInputChar_type {c : Nat} (h : KOut_isTypeChar c = true) :
    KOut_convertInputChar c = ParserInputChar.TYPE_CHAR := by
  simp only [KOut_isTypeChar, Bool.or_eq_true, beq_iff_eq] at h
  unfold KOut_convertInputChar
  rw [if_neg (by omega), if_neg (by omega), if_neg (by omega), if_neg (by omega),
    if_pos (by omega)]

theorem KOut_convertInputChar_not_type {c : Nat} (h : KOut_isTypeChar c = false) :
    KOut_convertInputChar c ≠ ParserInputChar.TYPE_CHAR := by
  simp only [KOut_isTypeChar, Bool.or_eq_false_iff, beq_eq_false_iff_ne, ne_eq] at h
  unfold KOut_convertInputChar
  split_ifs <;> first | omega | exact fun h => ParserInputChar.noConfusion h

/-- The writer keeps its width, alignment and hex mode through
`KOut_writeNextArg`, whatever is written. -/
theorem KOut_writeNextArg_flags {σ : Type} (env : KOut_Env σ) (typeSpecifier : Nat)
    (formatSpec : FormatSpec) (writer : TextWriter σ) (args : va_list) :
    (KOut_writeNextArg env typeSpecifier formatSpec writer args).1.m_width = writer.m_width ∧
    (KOut_writeNextArg env typeSpecifier formatSpec writer args).1.m_leftAlign =
      writer.m_leftAlign ∧
    (KOut_writeNextArg env typeSpecifier formatSpec writer args).1.m_isHexMode =
      writer.m_isHexMode :=
  ⟨rfl, rfl, rfl⟩

theorem KOut_doAction_flags {σ : Type} (env : KOut_Env σ) (action : ParserAction) (c : Nat)
    (formatSpec : FormatSpec) (writer : TextWriter σ) (args : va_list) :
    (KOut_doAction env action c formatSpec writer args).2.1.m_width = writer.m_width ∧
    (KOut_doAction env action c formatSpec writer args).2.1.m_leftAlign = writer.m_leftAlign ∧
    (KOut_doAction env action c formatSpec writer args).2.1.m_isHexMode =
      writer.m_isHexMode := by
  cases action <;> exact ⟨rfl, rfl, rfl⟩

/-- The writer keeps its width, alignment and hex mode through the loop of
`KOut_vWriteTo`, from every state and whether the loop ends well or not. -/
theorem KOut_vWriteToLoop_flags {σ : Type} (env : KOut_Env σ) (current : List Nat) :
    ∀ (state : ParserState) (formatSpec : FormatSpec) (writer : TextWriter σ)
      (args : va_list),
      (KOut_vWriteToLoop env state formatSpec writer args current).2.m_width =
        writer.m_width ∧
      (KOut_vWriteToLoop env state formatSpec writer args current).2.m_leftAlign =
        writer.m_leftAlign ∧
      (KOut_vWriteToLoop env state formatSpec writer args current).2.m_isHexMode =
        writer.m_isHexMode := by
  induction current with
  | nil =>
    intro state formatSpec writer args
    rw [KOut_vWriteToLoop]
    split_ifs
    · exact ⟨rfl, rfl, rfl⟩
    · exact KOut_doAction_flags env _ 0 formatSpec writer args
  | cons c current ih =>
    intro state formatSpec writer args
    rw [KOut_vWriteToLoop]
    split_ifs
    · exact ⟨rfl, rfl, rfl⟩
    · exact KOut_doAction_flags env _ c formatSpec writer args
    · have h1 := ih (s_parserStates state (KOut_convertInputChar c)).nextState
        (KOut_doAction env (s_parserStates state (KOut_convertInputChar c)).action c
          formatSpec writer args).1
        (KOut_doAction env (s_parserStates state (KOut_convertInputChar c)).action c
          formatSpec writer args).2.1
        (KOut_doAction env (s_parserStates state (KOut_convertInputChar c)).action c
          formatSpec writer args).2.2
      have h2 := KOut_doAction_flags env
        (s_parserStates state (KOut_convertInputChar c)).action c formatSpec writer args
      exact ⟨h1.1.trans h2.1, h1.2.1.trans h2.2.1, h1.2.2.trans h2.2.2⟩

/-- The loop from `FOUND_MODIFIER_STATE`: the next character must be a
type. -/
theorem KOut_vWriteToLoop_modifier {σ : Type} (env : KOut_Env σ) (formatSpec : FormatSpec)
    (writer : TextWriter σ) (args : va_list) (current : List Nat) :
    KOut_vWriteToLoop env ParserState.FOUND_MODIFIER_STATE formatSpec writer args current =
      match current with
      | [] => (false, writer)
      | t :: rest =>
        if KOut_isTypeChar t then
          KOut_vWriteToLoop env ParserState.FOUND_NOTHING_STATE KOut_initialFormatSpec
            (KOut_writeNextArg env t formatSpec writer args).1
            (KOut_writeNextArg env t formatSpec writer args).2 rest
        else (false, writer) := by
  cases current with
  | nil => rfl
  | cons t rest =>
    rw [KOut_vWriteToLoop]
    by_cases ht : KOut_isTypeChar t = true
    · simp only [KOut_convertInputChar_type ht, ht, if_true]
      rfl
    · have ht1 : KOut_isTypeChar t = false := by simpa using ht
      have hc := KOut_convertInputChar_not_type ht1
      simp only [ht1]
      cases h : KOut_convertInputChar t <;> first | exact absurd h hc | rfl

/-- The class of a character that is none of the characters of a
specifier. -/
theorem KOut_convertInputChar_other {c : Nat} (h37 : c ≠ 37) (h45 : c ≠ 45) (h42 : c ≠ 42)
    (hm : c ≠ 98 ∧ c ≠ 104 ∧ c ≠ 108) (ht : KOut_isTypeChar c = false) :
    KOut_convertInputChar c = ParserInputChar.NULL_CHAR ∨
      KOut_convertInputChar c = ParserInputChar.NORMAL_CHAR := by
  simp only [KOut_isTypeChar, Bool.or_eq_false_iff, beq_eq_false_iff_ne, ne_eq] at ht
  unfold KOut_convertInputChar
  rw [if_neg h37, if_neg h45, if_neg h42, if_neg (by omega), if_neg (by omega)]
  split_ifs
  · exact Or.inl rfl
  · exact Or.inr rfl

theorem KOut_isTypeChar_ne {c : Nat} (h : KOut_isTypeChar c = true) :
    c ≠ 37 ∧ c ≠ 45 ∧ c ≠ 42 ∧ c ≠ 98 ∧ c ≠ 104 ∧ c ≠ 108 ∧ c ≠ 0 := by
  simp only [KOut_isTypeChar, Bool.or_eq_true, beq_iff_eq] at h
  omega

/-- The loop from `FOUND_WIDTH_STATE`: an optional modifier, then as from
`FOUND_MODIFIER_STATE`. -/
theorem KOut_vWriteToLoop_width {σ : Type} (env : KOut_Env σ) (leftAlign : Bool) (width : Nat)
    (writer : TextWriter σ) (args : va_list) (current : List Nat) :
    KOut_vWriteToLoop env ParserState.FOUND_WIDTH_STATE
        ⟨leftAlign, FormatSpecModifier.NO_MODIFIER, width⟩ writer args current =
      KOut_vWriteToLoop env ParserState.FOUND_MODIFIER_STATE
        ⟨leftAlign, (KOut_stripModifier current).1, width⟩ writer args
        (KOut_stripModifier current).2 := by
  cases current with
  | nil => rfl
  | cons d rest =>
    by_cases h98 : d = 98
    · subst h98; rfl
    by_cases h104 : d = 104
    · subst h104; rfl
    by_cases h108 : d = 108
    · subst h108; rfl
    have hs : KOut_stripModifier (d :: rest) = (FormatSpecModifier.NO_MODIFIER, d :: rest) := by
      simp [KOut_stripModifier, h98, h104, h108]
    rw [hs, KOut_vWriteToLoop_modifier]
    simp only []
    by_cases ht : KOut_isTypeChar d = true
    · rw [KOut_vWriteToLoop, if_pos ht]
      simp only [KOut_convertInputChar_type ht]
      rfl
    · have ht1 : KOut_isTypeChar d = false := by simpa using ht
      rw [KOut_vWriteToLoop]
      simp only [ht1]
      by_cases h37 : d = 37
      · subst h37; rfl
      by_cases h45 : d = 45
      · subst h45; rfl
      by_cases h42 : d = 42
      · subst h42; rfl
      rcases KOut_convertInputChar_other h37 h45 h42 ⟨h98, h104, h108⟩ ht1 with h | h <;>
        rw [h] <;> rfl

/-- The loop from `FOUND_LEFTALIGN_STATE`: an optional `*`, which takes the
width from the arguments, then as from `FOUND_WIDTH_STATE`. -/
theorem KOut_vWriteToLoop_leftalign {σ : Type} (env : KOut_Env σ) (leftAlign : Bool)
    (width : Nat) (writer : TextWriter σ) (args : va_list) (current : List Nat) :
    KOut_vWriteToLoop env ParserState.FOUND_LEFTALIGN_STATE
        ⟨leftAlign, FormatSpecModifier.NO_MODIFIER, width⟩ writer args current =
      KOut_vWriteToLoop env ParserState.FOUND_WIDTH_STATE
        ⟨leftAlign, FormatSpecModifier.NO_MODIFIER,
          if (KOut_stripChar 42 current).1 then va_arg args else width⟩ writer
        (if (KOut_stripChar 42 current).1 then va_next args else args)
        (KOut_stripChar 42 current).2 := by
  cases current with
  | nil => rfl
  | cons d rest =>
    by_cases h42 : d = 42
    · subst h42; rfl
    have hs : KOut_stripChar 42 (d :: rest) = (false, d :: rest) := by
      simp [KOut_stripChar, h42]
    rw [hs]
    simp only [Bool.false_eq_true, if_false]
    by_cases h98 : d = 98
    · subst h98; rfl
    by_cases h104 : d = 104
    · subst h104; rfl
    by_cases h108 : d = 108
    · subst h108; rfl
    by_cases h37 : d = 37
    · subst h37; rfl
    by_cases h45 : d = 45
    · subst h45; rfl
    rw [KOut_vWriteToLoop, KOut_vWriteToLoop]
    by_cases ht : KOut_isTypeChar d = true
    · simp only [KOut_convertInputChar_type ht]
      rfl
    · have ht1 : KOut_isTypeChar d = false := by simpa using ht
      rcases KOut_convertInputChar_other h37 h45 h42 ⟨h98, h104, h108⟩ ht1 with h | h <;>
        rw [h] <;> rfl

/-- The loop from `FOUND_PERCENT_STATE` on a character other than `%`: an
optional `-`, then as from `FOUND_LEFTALIGN_STATE`. -/
theorem KOut_vWriteToLoop_percent {σ : Type} (env : KOut_Env σ) (width : Nat)
    (writer : TextWriter σ) (args : va_list) (d : Nat) (rest : List Nat) (hd : d ≠ 37) :
    KOut_vWriteToLoop env ParserState.FOUND_PERCENT_STATE
        ⟨false, FormatSpecModifier.NO_MODIFIER, width⟩ writer args (d :: rest) =
      KOut_vWriteToLoop env ParserState.FOUND_LEFTALIGN_STATE
        ⟨(KOut_stripChar 45 (d :: rest)).1, FormatSpecModifier.NO_MODIFIER, width⟩ writer args
        (KOut_stripChar 45 (d :: rest)).2 := by
  by_cases h45 : d = 45
  · subst h45; rfl
  have hs : KOut_stripChar 45 (d :: rest) = (false, d :: rest) := by
    simp [KOut_stripChar, h45]
  rw [hs]
  by_cases h42 : d = 42
  · subst h42; rfl
  by_cases h98 : d = 98
  · subst h98; rfl
  by_cases h104 : d = 104
  · subst h104; rfl
  by_cases h108 : d = 108
  · subst h108; rfl
  rw [KOut_vWriteToLoop, KOut_vWriteToLoop]
  by_cases ht : KOut_isTypeChar d = true
  · simp only [KOut_convertInputChar_type ht]
    rfl
  · have ht1 : KOut_isTypeChar d = false := by simpa using ht
    rcases KOut_convertInputChar_other hd h45 h42 ⟨h98, h104, h108⟩ ht1 with h | h <;>
      rw [h] <;> rfl

/-- The loop from `FOUND_NOTHING_STATE` on a string that starts with a
character other than the terminator: the piece at the head of the string is
written and the loop goes on after it, or there is no piece there and the
loop gives up with nothing more written. -/
theorem KOut_vWriteToLoop_nextToken {σ : Type} (env : KOut_Env σ) (writer : TextWriter σ)
    (args : va_list) (c : Nat) (rest : List Nat) (hc : c ≠ 0) :
    KOut_vWriteToLoop env ParserState.FOUND_NOTHING_STATE KOut_initialFormatSpec writer args
        (c :: rest) =
      match KOut_nextToken (c :: rest) with
      | some (t, r) =>
        KOut_vWriteToLoop env ParserState.FOUND_NOTHING_STATE KOut_initialFormatSpec
          (KOut_FormatToken_write env t (writer, args)).1
          (KOut_FormatToken_write env t (writer, args)).2 r
      | none => (false, writer) := by
  by_cases h37 : c = 37
  · subst h37
    cases rest with
    | nil => rfl
    | cons d rest1 =>
      by_cases hd : d = 37
      · subst hd; rfl
      have h1 : KOut_vWriteToLoop env ParserState.FOUND_NOTHING_STATE KOut_initialFormatSpec
          writer args (37 :: d :: rest1) =
          KOut_vWriteToLoop env ParserState.FOUND_PERCENT_STATE
            ⟨false, FormatSpecModifier.NO_MODIFIER, 0⟩ writer args (d :: rest1) := rfl
      rw [h1, KOut_vWriteToLoop_percent env 0 writer args d rest1 hd,
        KOut_vWriteToLoop_leftalign, KOut_vWriteToLoop_width, KOut_vWriteToLoop_modifier]
      simp only [KOut_nextToken, hd, if_false, ne_eq, not_true_eq_false, OfNat.ofNat_ne_zero]
      cases hm : (KOut_stripModifier (KOut_stripChar 42 (KOut_stripChar 45 (d :: rest1)).2).2).2 with
      | nil => rfl
      | cons type rest2 =>
        simp only []
        by_cases ht : KOut_isTypeChar type = true
        · simp only [ht, if_true]
          rfl
        · have ht1 : KOut_isTypeChar type = false := by simpa using ht
          simp only [ht1]
          rfl
  · have hn : KOut_nextToken (c :: rest) = some (KOut_FormatToken.ordinary c, rest) := by
      simp [KOut_nextToken, hc, h37]
    rw [hn, KOut_vWriteToLoop]
    by_cases h45 : c = 45
    · subst h45; rfl
    by_cases h42 : c = 42
    · subst h42; rfl
    by_cases h98 : c = 98
    · subst h98; rfl
    by_cases h104 : c = 104
    · subst h104; rfl
    by_cases h108 : c = 108
    · subst h108; rfl
    by_cases ht : KOut_isTypeChar c = true
    · simp only [KOut_convertInputChar_type ht]
      rfl
    · have ht1 : KOut_isTypeChar c = false := by simpa using ht
      have hcls : KOut_convertInputChar c = ParserInputChar.NORMAL_CHAR := by
        unfold KOut_convertInputChar
        simp only [KOut_isTypeChar, Bool.or_eq_false_iff, beq_eq_false_iff_ne, ne_eq] at ht1
        rw [if_neg h37, if_neg h45, if_neg h42, if_neg (by omega), if_neg (by omega), if_neg hc]
      rw [hcls]
      rfl

theorem KOut_stripChar_eq (c : Nat) (current : List Nat) :
    current = (if (KOut_stripChar c current).1 then [c] else []) ++
      (KOut_stripChar c current).2 := by
  cases current with
  | nil => rfl
  | cons d rest =>
    by_cases h : d = c
    · subst h; simp [KOut_stripChar]
    · simp [KOut_stripChar, h]

theorem KOut_stripModifier_eq (current : List Nat) :
    current = KOut_modifierChars (KOut_stripModifier current).1 ++
      (KOut_stripModifier current).2 := by
  cases current with
  | nil => rfl
  | cons d rest =>
    by_cases h98 : d = 98
    · subst h98; rfl
    by_cases h104 : d = 104
    · subst h104; rfl
    by_cases h108 : d = 108
    · subst h108; rfl
    simp [KOut_stripModifier, h98, h104, h108, KOut_modifierChars]

/-- The piece that `KOut_nextToken` finds is a piece of the grammar, and the
string is that piece followed by the rest. -/
theorem KOut_nextToken_sound {current : List Nat} {t : KOut_FormatToken} {r : List Nat}
    (h : KOut_nextToken current = some (t, r)) :
    KOut_FormatToken_valid t = true ∧ current = KOut_FormatToken_chars t ++ r := by
  cases current with
  | nil => exact Option.noConfusion h
  | cons c rest =>
    by_cases hc : c = 0
    · simp [KOut_nextToken, hc] at h
    by_cases h37 : c = 37
    · subst h37
      cases rest with
      | nil => simp [KOut_nextToken] at h
      | cons d rest1 =>
        by_cases hd : d = 37
        · subst hd
          simp only [KOut_nextToken, if_true, if_false, ne_eq, not_true_eq_false,
            OfNat.ofNat_ne_zero, Option.some.injEq, Prod.mk.injEq] at h
          obtain ⟨rfl, rfl⟩ := h
          exact ⟨rfl, rfl⟩
        · simp only [KOut_nextToken, hd, if_false, ne_eq, not_true_eq_false,
            OfNat.ofNat_ne_zero] at h
          have e1 := KOut_stripChar_eq 45 (d :: rest1)
          have e2 := KOut_stripChar_eq 42 (KOut_stripChar 45 (d :: rest1)).2
          have e3 := KOut_stripModifier_eq (KOut_stripChar 42 (KOut_stripChar 45 (d :: rest1)).2).2
          cases hm : (KOut_stripModifier
              (KOut_stripChar 42 (KOut_stripChar 45 (d :: rest1)).2).2).2 with
          | nil => rw [hm] at h; exact Option.noConfusion h
          | cons type rest2 =>
            rw [hm] at h e3
            simp only [] at h
            by_cases ht : KOut_isTypeChar type = true
            · simp only [ht, if_true, Option.some.injEq, Prod.mk.injEq] at h
              obtain ⟨h1, h2⟩ := h
              rw [← h1, ← h2]
              refine ⟨ht, ?_⟩
              rw [KOut_FormatToken_chars, List.cons_append, List.append_assoc, List.append_assoc,
                List.append_assoc, List.singleton_append, ← e3, ← e2, ← e1]
            · have ht1 : KOut_isTypeChar type = false := by simpa using ht
              simp [ht1] at h
    · simp only [KOut_nextToken, hc, h37, if_false, ne_eq, not_false_eq_true, if_true,
        Option.some.injEq, Prod.mk.injEq] at h
      obtain ⟨rfl, rfl⟩ := h
      exact ⟨by simp [KOut_FormatToken_valid, hc, h37], rfl⟩

/-- A string that starts with a piece of the grammar is read back as that
piece and the rest. -/
theorem KOut_nextToken_chars {t : KOut_FormatToken} (h : KOut_FormatToken_valid t = true)
    (rest : List Nat) :
    KOut_nextToken (KOut_FormatToken_chars t ++ rest) = some (t, rest) := by
  cases t with
  | ordinary c =>
    simp only [KOut_FormatToken_valid, Bool.and_eq_true, bne_iff_ne, ne_eq] at h
    simp [KOut_FormatToken_chars, KOut_nextToken, h.1, h.2]
  | percent => rfl
  | specifier leftAlign star modifier type =>
    have hne := KOut_isTypeChar_ne h
    have ht : KOut_isTypeChar type = true := h
    cases leftAlign <;> cases star <;> cases modifier <;>
      simp [KOut_FormatToken_chars, KOut_nextToken, KOut_stripChar, KOut_stripModifier,
        KOut_modifierChars, hne, ht]

theorem KOut_FormatToken_concat_cons (t : KOut_FormatToken) (toks : List KOut_FormatToken) :
    KOut_FormatToken_concat (t :: toks) = KOut_FormatToken_chars t ++ KOut_FormatToken_concat toks := by
  simp [KOut_FormatToken_concat]

theorem KOut_FormatToken_chars_length (t : KOut_FormatToken) :
    0 < (KOut_FormatToken_chars t).length := by
  cases t <;> simp [KOut_FormatToken_chars]

/-- The loop of `KOut_vWriteTo` on a string that starts with well-formed
pieces: it writes what the pieces write and goes on with the rest. -/
theorem KOut_vWriteToLoop_tokens {σ : Type} (env : KOut_Env σ) (toks : List KOut_FormatToken) :
    (∀ t ∈ toks, KOut_FormatToken_valid t = true) →
    ∀ (writer : TextWriter σ) (args : va_list) (rest : List Nat),
      KOut_vWriteToLoop env ParserState.FOUND_NOTHING_STATE KOut_initialFormatSpec writer args
          (KOut_FormatToken_concat toks ++ rest) =
        KOut_vWriteToLoop env ParserState.FOUND_NOTHING_STATE KOut_initialFormatSpec
          (KOut_FormatToken_writeAll env toks (writer, args)).1
          (KOut_FormatToken_writeAll env toks (writer, args)).2 rest := by
  induction toks with
  | nil => intro _ writer args rest; rfl
  | cons t toks ih =>
    intro hv writer args rest
    have ht := hv t (List.mem_cons_self _ _)
    have hn := KOut_nextToken_chars ht (KOut_FormatToken_concat toks ++ rest)
    rw [KOut_FormatToken_concat_cons, List.append_assoc]
    cases hl : KOut_FormatToken_chars t ++ (KOut_FormatToken_concat toks ++ rest) with
    | nil => rw [hl] at hn; exact Option.noConfusion hn
    | cons c r =>
      rw [hl] at hn
      have hc : c ≠ 0 := by
        intro h0
        rw [h0] at hn
        simp [KOut_nextToken] at hn
      rw [KOut_vWriteToLoop_nextToken env writer args c r hc, hn]
      simp only []
      rw [ih (fun u hu => hv u (List.mem_cons_of_mem _ hu))]
      rfl

/-- Every format string without null characters splits into well-formed
pieces followed by nothing, or by a `%` that starts no piece; in the first
case `KOut_vWriteTo` writes what the pieces write, then the null character,
and returns true; in the second it writes what the pieces write, nothing
more, and returns false. -/
theorem KOut_vWriteTo_decompose {σ : Type} (env : KOut_Env σ) (n : Nat) :
    ∀ formatString : List Nat, formatString.length ≤ n → (∀ c ∈ formatString, c ≠ 0) →
      ∃ (toks : List KOut_FormatToken) (rest : List Nat),
        (∀ t ∈ toks, KOut_FormatToken_valid t = true) ∧
        formatString = KOut_FormatToken_concat toks ++ rest ∧
        (rest = [] ∨ (rest.head? = some 37 ∧ KOut_nextToken rest = none)) ∧
        ∀ (writer : TextWriter σ) (args : va_list),
          KOut_vWriteTo env writer formatString args =
            if rest = [] then
              (true, TextWriter_writeChar (KOut_FormatToken_writeAll env toks (writer, args)).1 0)
            else (false, (KOut_FormatToken_writeAll env toks (writer, args)).1) := by
  induction n with
  | zero =>
    intro formatString hlen _
    have h0 : formatString = [] := List.length_eq_zero.mp (Nat.le_zero.mp hlen)
    subst h0
    exact ⟨[], [], fun _ h => absurd h (List.not_mem_nil _), rfl, Or.inl rfl, fun _ _ => rfl⟩
  | succ n ih =>
    intro formatString hlen hz
    cases formatString with
    | nil => exact ⟨[], [], fun _ h => absurd h (List.not_mem_nil _), rfl, Or.inl rfl, fun _ _ => rfl⟩
    | cons c r =>
      have hc : c ≠ 0 := hz c (List.mem_cons_self _ _)
      cases hn : KOut_nextToken (c :: r) with
      | none =>
        have h37 : c = 37 := by
          by_contra h
          simp [KOut_nextToken, hc, h] at hn
        refine ⟨[], c :: r, fun _ h => absurd h (List.not_mem_nil _), rfl,
          Or.inr ⟨by simp [h37], hn⟩, ?_⟩
        intro writer args
        rw [if_neg (List.cons_ne_nil _ _), KOut_vWriteTo,
          KOut_vWriteToLoop_nextToken env writer args c r hc, hn]
        rfl
      | some tr =>
        obtain ⟨t, r1⟩ := tr
        obtain ⟨hv, he⟩ := KOut_nextToken_sound hn
        have hlt := KOut_FormatToken_chars_length t
        have hlen1 : r1.length ≤ n := by
          have := congrArg List.length he
          simp only [List.length_cons, List.length_append] at this hlen
          omega
        have hz1 : ∀ d ∈ r1, d ≠ 0 := by
          intro d hd
          apply hz
          rw [he]
          exact List.mem_append_right _ hd
        obtain ⟨toks, rest, hvs, hes, hrest, hrun⟩ := ih r1 hlen1 hz1
        refine ⟨t :: toks, rest, ?_, ?_, hrest, ?_⟩
        · intro u hu
          rcases List.mem_cons.mp hu with h | h
          · rw [h]; exact hv
          · exact hvs u h
        · rw [he, hes, KOut_FormatToken_concat_cons, List.append_assoc]
        · intro writer args
          rw [KOut_vWriteTo, KOut_vWriteToLoop_nextToken env writer args c r hc, hn]
          simp only []
          have h2 := hrun (KOut_FormatToken_write env t (writer, args)).1
            (KOut_FormatToken_write env t (writer, args)).2
          rw [KOut_vWriteTo] at h2
          rw [h2]
          rfl

/-! ## Digits written by `TextWriter` -/

theorem TextWriter_writeDecimalLoop_acc (n : Nat) :
    ∀ (val : Nat) (strRep : List Nat),
      TextWriter_writeDecimalLoop n val strRep =
        TextWriter_writeDecimalLoop n val [] ++ strRep := by
  induction n with
  | zero => intro val strRep; rfl
  | succ n ih =>
    intro val strRep
    rw [TextWriter_writeDecimalLoop, TextWriter_writeDecimalLoop]
    rw [ih (val / 10) (_ :: strRep), ih (val / 10) [_], List.append_assoc]
    rfl

theorem TextWriter_writeDecimalLoop_succ (n val : Nat) :
    TextWriter_writeDecimalLoop (n + 1) val [] =
      TextWriter_writeDecimalLoop n (val / 10) [] ++ [val % 10 + 48] := by
  rw [TextWriter_writeDecimalLoop]
  rw [TextWriter_writeDecimalLoop_acc]
  have h : (val % 10 % 256 + 48) % 256 = val % 10 + 48 := by omega
  rw [h]

theorem TextWriter_writeDecimalLoop_length (n : Nat) :
    ∀ val : Nat, (TextWriter_writeDecimalLoop n val []).length = n := by
  induction n with
  | zero => intro val; rfl
  | succ n ih =>
    intro val
    rw [TextWriter_writeDecimalLoop_succ, List.length_append, ih, List.length_singleton]

theorem TextWriter_writeDecimalLoop_digits (n : Nat) :
    ∀ val : Nat, ∀ c ∈ TextWriter_writeDecimalLoop n val [], KOut_isDecimalDigit c = true := by
  induction n with
  | zero => intro val c hc; exact absurd hc (List.not_mem_nil _)
  | succ n ih =>
    intro val c hc
    rw [TextWriter_writeDecimalLoop_succ, List.mem_append, List.mem_singleton] at hc
    rcases hc with hc | hc
    · exact ih _ c hc
    · have h : val % 10 < 10 := Nat.mod_lt _ (by decide)
      simp only [KOut_isDecimalDigit, Bool.and_eq_true, decide_eq_true_eq]
      omega

theorem KOut_decimalValue_append (cs : List Nat) (d : Nat) :
    KOut_decimalValue (cs ++ [d]) = 10 * KOut_decimalValue cs + (d - 48) := by
  simp [KOut_decimalValue, List.foldl_append]

theorem TextWriter_writeDecimalLoop_value (n : Nat) :
    ∀ val : Nat, KOut_decimalValue (TextWriter_writeDecimalLoop n val []) = val % 10 ^ n := by
  induction n with
  | zero => intro val; simp [TextWriter_writeDecimalLoop, KOut_decimalValue, Nat.mod_one]
  | succ n ih =>
    intro val
    rw [TextWriter_writeDecimalLoop_succ, KOut_decimalValue_append, ih, Nat.pow_succ,
      Nat.mul_comm (10 ^ n) 10, Nat.mod_mul]
    omega

theorem TextWriter_writeDecimalLoop_head (e : Nat) :
    ∀ val : Nat, 10 ^ e ≤ val → val < 10 ^ (e + 1) →
      (TextWriter_writeDecimalLoop (e + 1) val []).head? ≠ some 48 := by
  induction e with
  | zero =>
    intro val h1 h2
    rw [TextWriter_writeDecimalLoop_succ]
    simp only [TextWriter_writeDecimalLoop, List.nil_append, List.head?_cons, ne_eq,
      Option.some.injEq]
    simp only [pow_zero, zero_add, pow_one] at h1 h2
    omega
  | succ e ih =>
    intro val h1 h2
    rw [TextWriter_writeDecimalLoop_succ]
    have hl := TextWriter_writeDecimalLoop_length (e + 1) (val / 10)
    have h3 : 10 ^ e ≤ val / 10 := by
      rw [Nat.le_div_iff_mul_le (by decide)]
      rw [Nat.pow_succ] at h1
      exact h1
    have h4 : val / 10 < 10 ^ (e + 1) := by
      rw [Nat.div_lt_iff_lt_mul (by decide)]
      rw [Nat.pow_succ] at h2
      exact h2
    have h5 := ih (val / 10) h3 h4
    cases hc : TextWriter_writeDecimalLoop (e + 1) (val / 10) [] with
    | nil => rw [hc] at hl; exact absurd hl (by simp)
    | cons c cs =>
      rw [hc] at h5
      simpa using h5

/-- The digit count of `TextWriter_writeDecimal`: for a value below `10 ^ fuel`
the loop adds the number of decimal digits of the value to the count. -/
theorem TextWriter_countDigits_spec (fuel : Nat) :
    ∀ val numDigits : Nat, val < 10 ^ fuel →
      ∃ d, TextWriter_countDigits fuel val numDigits = numDigits + d ∧
        (val = 0 → d = 0) ∧
        (0 < val → ∃ e, d = e + 1 ∧ 10 ^ e ≤ val ∧ val < 10 ^ (e + 1)) := by
  induction fuel with
  | zero =>
    intro val numDigits h
    have h0 : val = 0 := by simpa using h
    exact ⟨0, rfl, fun _ => rfl, fun hp => absurd h0 (by omega)⟩
  | succ fuel ih =>
    intro val numDigits h
    rw [TextWriter_countDigits]
    by_cases hv : val > 0
    · rw [if_pos hv]
      have h1 : val / 10 < 10 ^ fuel := by
        rw [Nat.div_lt_iff_lt_mul (by decide)]
        rw [Nat.pow_succ] at h
        exact h
      obtain ⟨d, hd, hz, hp⟩ := ih (val / 10) (numDigits + 1) h1
      refine ⟨d + 1, by rw [hd]; omega, fun h0 => absurd h0 (by omega), fun _ => ?_⟩
      by_cases hq : val / 10 = 0
      · refine ⟨0, by rw [hz hq], ?_, ?_⟩
        · simpa using hv
        · simp only [zero_add, pow_one]; omega
      · obtain ⟨e, he, hlo, hhi⟩ := hp (by omega)
        refine ⟨e + 1, by rw [he], ?_, ?_⟩
        · rw [Nat.pow_succ]
          have := (Nat.le_div_iff_mul_le (by decide : 0 < 10)).mp hlo
          exact this
        · rw [Nat.pow_succ]
          exact (Nat.div_lt_iff_lt_mul (by decide : 0 < 10)).mp hhi
    · rw [if_neg hv]
      exact ⟨0, rfl, fun _ => rfl, fun hp => absurd hp hv⟩

theorem TextWriter_writeHexLoop_acc (n : Nat) :
    ∀ (val : Nat) (hexRep : List Nat),
      TextWriter_writeHexLoop n val hexRep = TextWriter_writeHexLoop n val [] ++ hexRep := by
  induction n with
  | zero => intro val hexRep; rfl
  | succ n ih =>
    intro val hexRep
    rw [TextWriter_writeHexLoop, TextWriter_writeHexLoop]
    rw [ih _ (_ :: hexRep), ih _ [_], List.append_assoc]
    rfl

theorem TextWriter_writeHexLoop_succ (n val : Nat) :
    TextWriter_writeHexLoop (n + 1) val [] =
      TextWriter_writeHexLoop n (val / 16) [] ++
        [if val % 16 < 10 then val % 16 + 48 else val % 16 + 55] := by
  rw [TextWriter_writeHexLoop, TextWriter_writeHexLoop_acc]
  have h1 : val &&& 0xF = val % 16 := Nat.and_pow_two_sub_one_eq_mod val 4
  have h2 : val >>> TextWriter_consts.BITS_PER_HEX_DIGIT = val / 16 :=
    Nat.shiftRight_eq_div_pow val 4
  have h3 : val % 16 < 16 := Nat.mod_lt _ (by decide)
  simp only [h1, h2]
  congr 2
  split_ifs <;> omega

theorem TextWriter_writeHexLoop_length (n : Nat) :
    ∀ val : Nat, (TextWriter_writeHexLoop n val []).length = n := by
  induction n with
  | zero => intro val; rfl
  | succ n ih =>
    intro val
    rw [TextWriter_writeHexLoop_succ, List.length_append, ih, List.length_singleton]

theorem TextWriter_writeHexLoop_digits (n : Nat) :
    ∀ val : Nat, ∀ c ∈ TextWriter_writeHexLoop n val [], KOut_isHexDigit c = true := by
  induction n with
  | zero => intro val c hc; exact absurd hc (List.not_mem_nil _)
  | succ n ih =>
    intro val c hc
    rw [TextWriter_writeHexLoop_succ, List.mem_append, List.mem_singleton] at hc
    rcases hc with hc | hc
    · exact ih _ c hc
    · have h : val % 16 < 16 := Nat.mod_lt _ (by decide)
      simp only [KOut_isHexDigit, Bool.or_eq_true, Bool.and_eq_true, decide_eq_true_eq]
      split_ifs at hc <;> omega

theorem KOut_hexValue_append (cs : List Nat) (d : Nat) :
    KOut_hexValue (cs ++ [d]) = 16 * KOut_hexValue cs + (if d ≤ 57 then d - 48 else d - 55) := by
  simp [KOut_hexValue, List.foldl_append]

theorem TextWriter_writeHexLoop_value (n : Nat) :
    ∀ val : Nat, KOut_hexValue (TextWriter_writeHexLoop n val []) = val % 16 ^ n := by
  induction n with
  | zero => intro val; simp [TextWriter_writeHexLoop, KOut_hexValue, Nat.mod_one]
  | succ n ih =>
    intro val
    rw [TextWriter_writeHexLoop_succ, KOut_hexValue_append, ih, Nat.pow_succ,
      Nat.mul_comm (16 ^ n) 16, Nat.mod_mul]
    have h : val % 16 < 16 := Nat.mod_lt _ (by decide)
    split_ifs <;> omega

theorem KOut_isDecimalDigit_ne_zero {c : Nat} (h : KOut_isDecimalDigit c = true) : c ≠ 0 := by
  simp only [KOut_isDecimalDigit, Bool.and_eq_true, decide_eq_true_eq] at h
  omega

theorem KOut_isHexDigit_ne_zero {c : Nat} (h : KOut_isHexDigit c = true) : c ≠ 0 := by
  simp only [KOut_isHexDigit, Bool.or_eq_true, Bool.and_eq_true, decide_eq_true_eq] at h
  omega

/-- The characters that `TextWriter_writeDecimal` sends for a value below
`10 ^ 20`: an optional minus sign and the decimal numeral of the value, padded
with blanks to the width. -/
theorem TextWriter_writeDecimal_eq {σ : Type} (writer : TextWriter σ) (i : Nat)
    (isNegative : Bool) (hi : i < 10 ^ 20) :
    ∃ ds : List Nat, KOut_isDecimalNumeral ds ∧ KOut_decimalValue ds = i ∧
      TextWriter_writeDecimal writer i isNegative =
        { writer with m_stream := (ITextStream_writeAll writer.m_stream
            (TextWriter_padded writer.m_leftAlign writer.m_width
              ((if isNegative then [45] else []) ++ ds))) } := by
  have key : ∃ ds : List Nat, KOut_isDecimalNumeral ds ∧ KOut_decimalValue ds = i ∧
      TextWriter_writeDecimalLoop
        (if i = 0 then 1 else TextWriter_countDigits TextWriter_consts.MAX_DECIMAL_DIGITS i 0)
        i [] = ds := by
    by_cases h0 : i = 0
    · subst h0
      exact ⟨[48], ⟨by simp, by decide, fun _ => rfl⟩, rfl, rfl⟩
    · rw [if_neg h0]
      obtain ⟨d, hd, _, hp⟩ := TextWriter_countDigits_spec 20 i 0 hi
      obtain ⟨e, he, hlo, hhi⟩ := hp (by omega)
      have hn : TextWriter_countDigits TextWriter_consts.MAX_DECIMAL_DIGITS i 0 = e + 1 := by
        rw [hd, he]; omega
      rw [hn]
      refine ⟨_, ⟨?_, TextWriter_writeDecimalLoop_digits _ _, ?_⟩, ?_, rfl⟩
      · intro hnil
        have := TextWriter_writeDecimalLoop_length (e + 1) i
        rw [hnil] at this
        exact absurd this (by simp)
      · intro hh
        exact absurd hh (TextWriter_writeDecimalLoop_head e i hlo hhi)
      · rw [TextWriter_writeDecimalLoop_value, Nat.mod_eq_of_lt hhi]
  obtain ⟨ds, hnum, hval, hds⟩ := key
  refine ⟨ds, hnum, hval, ?_⟩
  have hnz : ∀ c ∈ (if isNegative then [45] else []) ++ ds, c ≠ 0 := by
    intro c hc
    rcases List.mem_append.mp hc with h | h
    · cases isNegative
      · exact absurd h (List.not_mem_nil _)
      · simp only [if_true, List.mem_singleton] at h
        omega
    · exact KOut_isDecimalDigit_ne_zero (hnum.2.1 c h)
  rw [← TextWriter_writeString_eq writer _ hnz]
  unfold TextWriter_writeDecimal
  simp only [hds]
  cases isNegative <;> rfl

/-- The characters that `TextWriter_writeHex` sends: `0x` and `numDigits`
hexadecimal digits whose value is the value written, cut to that many digits,
padded with blanks to the width. -/
theorem TextWriter_writeHex_eq {σ : Type} (writer : TextWriter σ) (i numDigits : Nat) :
    ∃ hs : List Nat, hs.length = numDigits ∧ (∀ c ∈ hs, KOut_isHexDigit c = true) ∧
      KOut_hexValue hs = i % 16 ^ numDigits ∧
      TextWriter_writeHex writer i numDigits =
        { writer with m_stream := (ITextStream_writeAll writer.m_stream
            (TextWriter_padded writer.m_leftAlign writer.m_width (48 :: 120 :: hs))) } := by
  refine ⟨_, TextWriter_writeHexLoop_length numDigits i,
    TextWriter_writeHexLoop_digits numDigits i, TextWriter_writeHexLoop_value numDigits i, ?_⟩
  have hnz : ∀ c ∈ 48 :: 120 :: TextWriter_writeHexLoop numDigits i [], c ≠ 0 := by
    intro c hc
    rcases List.mem_cons.mp hc with h | h
    · omega
    rcases List.mem_cons.mp h with h | h
    · omega
    · exact KOut_isHexDigit_ne_zero (TextWriter_writeHexLoop_digits numDigits i c h)
  rw [← TextWriter_writeString_eq writer _ hnz]
  rfl

/-! ## Single specifiers written to a recording sink -/

theorem KMath_abs_signedOfWord (w : Nat) :
    KMath_abs (signedOfWord 32 w) = (signedOfWord 32 w).natAbs ∧
      (signedOfWord 32 w).natAbs ≤ 2147483648 := by
  unfold KMath_abs uintptrOfInt signedOfWord
  simp only [Nat.reducePow, Nat.reduceSub, Int.ofNat_eq_coe]
  have h : w % 4294967296 < 4294967296 := Nat.mod_lt _ (by decide)
  split_ifs <;> omega

theorem TextWriter_padded_zero (str : List Nat) : TextWriter_padded false 0 str = str := by
  simp [TextWriter_padded]

/-- The end of a format operation on a new writer over a recording sink: the
null character is recorded. -/
theorem TextWriter_writeChar_recording (sent : List Nat) (hex : Bool) (c : Nat) :
    TextWriter_writeChar
        { m_stream := RecordingTextStream sent, m_isHexMode := hex, m_width := 0,
          m_leftAlign := false } c =
      { m_stream := RecordingTextStream (sent ++ [c]), m_isHexMode := hex, m_width := 0,
        m_leftAlign := false } := rfl

/-- The format string `%d` on a new writer over a recording sink. -/
theorem KOut_format_d (env : KOut_Env (List Nat)) (sent : List Nat) (args : va_list) :
    ∃ ds : List Nat, KOut_isDecimalNumeral ds ∧
      KOut_decimalValue ds = (signedOfWord 32 (va_arg args)).natAbs ∧
      KOut_vWriteTo env (TextWriter_create (RecordingTextStream sent)) [37, 100] args =
        (true, TextWriter_create (RecordingTextStream
          (sent ++ ((if signedOfWord 32 (va_arg args) < 0 then [45] else []) ++ ds ++ [0])))) := by
  obtain ⟨habs, hle⟩ := KMath_abs_signedOfWord (va_arg args)
  obtain ⟨ds, hnum, hval, hw⟩ := TextWriter_writeDecimal_eq
    (TextWriter_create (RecordingTextStream sent)) (KMath_abs (signedOfWord 32 (va_arg args)))
    (decide (signedOfWord 32 (va_arg args) < 0)) (by rw [habs]; omega)
  refine ⟨ds, hnum, by rw [hval, habs], ?_⟩
  have h1 : KOut_vWriteTo env (TextWriter_create (RecordingTextStream sent)) [37, 100] args =
      (true, TextWriter_writeChar
        { TextWriter_writeDecimal (TextWriter_create (RecordingTextStream sent))
            (KMath_abs (signedOfWord 32 (va_arg args)))
            (decide (signedOfWord 32 (va_arg args) < 0)) with
          m_isHexMode := false, m_leftAlign := false, m_width := 0 } 0) := rfl
  rw [h1, hw]
  simp only [TextWriter_create, TextWriter_padded_zero, RecordingTextStream_writeAll,
    TextWriter_writeChar_recording, decide_eq_true_eq, List.append_assoc]

/-- The format string `%u` on a new writer over a recording sink. -/
theorem KOut_format_u (env : KOut_Env (List Nat)) (sent : List Nat) (args : va_list) :
    ∃ ds : List Nat, KOut_isDecimalNumeral ds ∧ KOut_decimalValue ds = va_arg args ∧
      KOut_vWriteTo env (TextWriter_create (RecordingTextStream sent)) [37, 117] args =
        (true, TextWriter_create (RecordingTextStream (sent ++ (ds ++ [0])))) := by
  have hlt : va_arg args < 4294967296 := Nat.mod_lt _ (by decide)
  obtain ⟨ds, hnum, hval, hw⟩ := TextWriter_writeDecimal_eq
    (TextWriter_create (RecordingTextStream sent)) (va_arg args) false (by omega)
  refine ⟨ds, hnum, hval, ?_⟩
  have h1 : KOut_vWriteTo env (TextWriter_create (RecordingTextStream sent)) [37, 117] args =
      (true, TextWriter_writeChar
        { TextWriter_writeDecimal (TextWriter_create (RecordingTextStream sent))
            (va_arg args) false with
          m_isHexMode := false, m_leftAlign := false, m_width := 0 } 0) := rfl
  rw [h1, hw]
  simp only [TextWriter_create, TextWriter_padded_zero, RecordingTextStream_writeAll,
    TextWriter_writeChar_recording, List.append_assoc, Bool.false_eq_true, if_false,
    List.nil_append]

/-- What a hexadecimal specifier without flags sends to a recording sink, and
the null character after it. -/
theorem TextWriter_writeHex_recording (sent : List Nat) (hex : Bool) (i numDigits : Nat) :
    ∃ hs : List Nat, hs.length = numDigits ∧ (∀ c ∈ hs, KOut_isHexDigit c = true) ∧
      KOut_hexValue hs = i % 16 ^ numDigits ∧
      TextWriter_writeChar
          { TextWriter_writeHex
              { m_stream := RecordingTextStream sent, m_isHexMode := hex, m_width := 0,
                m_leftAlign := false } i numDigits with
            m_isHexMode := false, m_leftAlign := false, m_width := 0 } 0 =
        TextWriter_create (RecordingTextStream (sent ++ (48 :: 120 :: hs ++ [0]))) := by
  obtain ⟨hs, hlen, hdig, hval, hw⟩ := TextWriter_writeHex_eq
    { m_stream := RecordingTextStream sent, m_isHexMode := hex, m_width := 0,
      m_leftAlign := false } i numDigits
  refine ⟨hs, hlen, hdig, hval, ?_⟩
  rw [hw]
  simp only [TextWriter_create, TextWriter_padded_zero, RecordingTextStream_writeAll,
    TextWriter_writeChar_recording, List.append_assoc, List.cons_append]

/-- The format strings `%x`, `%lx` and `%p` on a new writer over a recording
sink: eight hexadecimal digits. -/
theorem KOut_format_x (env : KOut_Env (List Nat)) (sent : List Nat) (args : va_list)
    (formatString : List Nat)
    (hf : formatString = [37, 120] ∨ formatString = [37, 108, 120] ∨ formatString = [37, 112]) :
    ∃ hs : List Nat, hs.length = 8 ∧ (∀ c ∈ hs, KOut_isHexDigit c = true) ∧
      KOut_hexValue hs = va_arg args ∧
      KOut_vWriteTo env (TextWriter_create (RecordingTextStream sent)) formatString args =
        (true, TextWriter_create (RecordingTextStream (sent ++ (48 :: 120 :: hs ++ [0])))) := by
  have hlt : va_arg args < 4294967296 := Nat.mod_lt _ (by decide)
  rcases hf with hf | hf | hf
  · obtain ⟨hs, hlen, hdig, hval, hw⟩ := TextWriter_writeHex_recording sent true (va_arg args) 8
    refine ⟨hs, hlen, hdig, by rw [hval]; exact Nat.mod_eq_of_lt (by norm_num; omega), ?_⟩
    rw [← hw, hf]
    rfl
  · obtain ⟨hs, hlen, hdig, hval, hw⟩ := TextWriter_writeHex_recording sent true (va_arg args) 8
    refine ⟨hs, hlen, hdig, by rw [hval]; exact Nat.mod_eq_of_lt (by norm_num; omega), ?_⟩
    rw [← hw, hf]
    rfl
  · obtain ⟨hs, hlen, hdig, hval, hw⟩ := TextWriter_writeHex_recording sent false (va_arg args) 8
    refine ⟨hs, hlen, hdig, by rw [hval]; exact Nat.mod_eq_of_lt (by norm_num; omega), ?_⟩
    rw [← hw, hf]
    rfl

/-- The format string `%bx` on a new writer over a recording sink: two
hexadecimal digits for the low byte of the argument. -/
theorem KOut_format_bx (env : KOut_Env (List Nat)) (sent : List Nat) (args : va_list) :
    ∃ hs : List Nat, hs.length = 2 ∧ (∀ c ∈ hs, KOut_isHexDigit c = true) ∧
      KOut_hexValue hs = va_arg args % 256 ∧
      KOut_vWriteTo env (TextWriter_create (RecordingTextStream sent)) [37, 98, 120] args =
        (true, TextWriter_create (RecordingTextStream (sent ++ (48 :: 120 :: hs ++ [0])))) := by
  obtain ⟨hs, hlen, hdig, hval, hw⟩ :=
    TextWriter_writeHex_recording sent true (va_arg args % 256) 2
  refine ⟨hs, hlen, hdig, by rw [hval]; exact Nat.mod_eq_of_lt (by norm_num; omega), ?_⟩
  rw [← hw]
  rfl

/-- The format string `%hx` on a new writer over a recording sink: four
hexadecimal digits for the low half of the argument. -/
theorem KOut_format_hx (env : KOut_Env (List Nat)) (sent : List Nat) (args : va_list) :
    ∃ hs : List Nat, hs.length = 4 ∧ (∀ c ∈ hs, KOut_isHexDigit c = true) ∧
      KOut_hexValue hs = va_arg args % 65536 ∧
      KOut_vWriteTo env (TextWriter_create (RecordingTextStream sent)) [37, 104, 120] args =
        (true, TextWriter_create (RecordingTextStream (sent ++ (48 :: 120 :: hs ++ [0])))) := by
  obtain ⟨hs, hlen, hdig, hval, hw⟩ :=
    TextWriter_writeHex_recording sent true (va_arg args % 65536) 4
  refine ⟨hs, hlen, hdig, by rw [hval]; exact Nat.mod_eq_of_lt (by norm_num; omega), ?_⟩
  rw [← hw]
  rfl

/-! ## `DisplayTextStream`: lemmas -/

theorem List_take_succ_set (l : List Nat) (n a : Nat) (h : n < l.length) :
    (l.set n a).take (n + 1) = l.take n ++ [a] := by
  rw [List.set_eq_take_append_cons_drop, if_pos h, List.take_append_eq_append_take]
  simp [List.length_take, Nat.min_eq_left (Nat.le_of_lt h)]

/-- A character other than the tab, the new line and the null character that
finds room in the buffer is added to the pending characters; nothing goes to
the display. -/
theorem DisplayTextStream_write_ordinary (s : DisplayTextStream) (c : Nat)
    (hc : c ≠ 0 ∧ c ≠ 9 ∧ c ≠ 10)
    (hbuf : s.m_buffer.length = DisplayTextStream_consts.BUFFER_SIZE)
    (hfit : s.m_currentBufferIndex < DisplayTextStream_consts.BUFFER_SIZE) :
    (DisplayTextStream_write s c).m_kernelDisplay = s.m_kernelDisplay ∧
    (DisplayTextStream_write s c).m_currentBufferIndex = s.m_currentBufferIndex + 1 ∧
    (DisplayTextStream_write s c).m_buffer.length = DisplayTextStream_consts.BUFFER_SIZE ∧
    DisplayTextStream_pending (DisplayTextStream_write s c) =
      DisplayTextStream_pending s ++ [c] := by
  have hne : s.m_currentBufferIndex ≠ DisplayTextStream_consts.BUFFER_UPPER_BOUND :=
    Nat.ne_of_lt hfit
  unfold DisplayTextStream_write
  rw [if_neg hc.2.1, if_neg hc.2.2, if_neg hc.1]
  simp only [if_neg hne, DisplayTextStream_pending, List.length_set]
  exact ⟨trivial, trivial, hbuf, List_take_succ_set _ _ _ (by rw [hbuf]; exact hfit)⟩

/-- Characters other than the tab, the new line and the null character that
find room in the buffer are added to the pending characters; nothing goes to
the display. -/
theorem DisplayTextStream_writeAll_ordinary (cs : List Nat) :
    ∀ s : DisplayTextStream, (∀ c ∈ cs, c ≠ 0 ∧ c ≠ 9 ∧ c ≠ 10) →
      s.m_buffer.length = DisplayTextStream_consts.BUFFER_SIZE →
      s.m_currentBufferIndex + cs.length ≤ DisplayTextStream_consts.BUFFER_SIZE →
      (ITextStream_writeAll (DisplayTextStream_getTextStream s) cs).obj.m_kernelDisplay =
        s.m_kernelDisplay ∧
      (ITextStream_writeAll (DisplayTextStream_getTextStream s) cs).obj.m_currentBufferIndex =
        s.m_currentBufferIndex + cs.length ∧
      DisplayTextStream_pending (ITextStream_writeAll (DisplayTextStream_getTextStream s) cs).obj =
        DisplayTextStream_pending s ++ cs := by
  induction cs with
  | nil => intro s _ _ _; simp [ITextStream_writeAll_nil, DisplayTextStream_getTextStream]
  | cons c cs ih =>
    intro s hc hbuf hfit
    rw [List.length_cons] at hfit
    obtain ⟨h1, h2, h3, h4⟩ := DisplayTextStream_write_ordinary s c
      (hc c (List.mem_cons_self _ _)) hbuf (by omega)
    have hstep : ITextStream_write (DisplayTextStream_getTextStream s) c =
        DisplayTextStream_getTextStream (DisplayTextStream_write s c) := rfl
    rw [ITextStream_writeAll_cons, hstep]
    obtain ⟨i1, i2, i3⟩ := ih (DisplayTextStream_write s c)
      (fun d hd => hc d (List.mem_cons_of_mem _ hd)) h3 (by rw [h2]; omega)
    refine ⟨i1.trans h1, ?_, ?_⟩
    · rw [i2, h2, List.length_cons]; omega
    · rw [i3, h4, List.append_assoc]; rfl

theorem TextWriter_writeChar_width_zero {σ : Type} (writer : TextWriter σ) (c : Nat)
    (hw : writer.m_width = 0) :
    TextWriter_writeChar writer c =
      { writer with m_stream := ITextStream_write writer.m_stream c } := by
  obtain ⟨stream, hex, width, leftAlign⟩ := writer
  simp only at hw
  subst hw
  cases leftAlign <;> rfl

/-- A format string that starts with ordinary characters followed by a `%`
that starts no piece: `KOut_vWriteTo` on a writer without width sends the
ordinary characters to the stream, nothing more, and returns false. -/
theorem KOut_vWriteTo_ordinary_then_malformed {σ : Type} (env : KOut_Env σ)
    (lead rest : List Nat) (args : va_list) (hbad : KOut_nextToken (37 :: rest) = none) :
    ∀ writer : TextWriter σ, writer.m_width = 0 → (∀ c ∈ lead, c ≠ 0 ∧ c ≠ 37) →
      KOut_vWriteTo env writer (lead ++ 37 :: rest) args =
        (false, { writer with m_stream := ITextStream_writeAll writer.m_stream lead }) := by
  induction lead with
  | nil =>
    intro writer _ _
    rw [List.nil_append, KOut_vWriteTo,
      KOut_vWriteToLoop_nextToken env writer args 37 rest (by decide), hbad]
    rfl
  | cons c lead ih =>
    intro writer hw hc
    obtain ⟨h0, h37⟩ := hc c (List.mem_cons_self _ _)
    have hn : KOut_nextToken (c :: (lead ++ 37 :: rest)) =
        some (KOut_FormatToken.ordinary c, lead ++ 37 :: rest) := by
      simp [KOut_nextToken, h0, h37]
    rw [List.cons_append, KOut_vWriteTo, KOut_vWriteToLoop_nextToken env writer args c _ h0, hn]
    simp only [KOut_FormatToken_write]
    have h := ih (TextWriter_writeChar writer c)
      (by rw [TextWriter_writeChar_width_zero writer c hw]; exact hw)
      (fun d hd => hc d (List.mem_cons_of_mem _ hd))
    rw [KOut_vWriteTo] at h
    rw [h, TextWriter_writeChar_width_zero writer c hw]
    rfl

/-! ## `BootLoaderInfoTranslator`: lemmas -/

theorem MM_MB_four : MM_MB 4 = 4194304 := by decide

theorem u32_of_lt {x : Nat} (h : x < 4294967296) : u32 x = x := Nat.mod_eq_of_lt h

/-- The loop of `BootLoaderInfoTranslator_mapString` ends: from an address
below `kEnd` and with fuel for the bytes up to `kEnd`, it reads consecutive
addresses below `kEnd`, the last of them being the first that holds a null
character, or the address before `kEnd` when there is none. -/
theorem BootLoaderInfoTranslator_mapStringLoop_spec (mem : Memory) (kEnd : Nat)
    (hk : kEnd < 4294967296) (fuel : Nat) :
    ∀ (str : Nat) (reads : List Nat), str < kEnd → kEnd - str ≤ fuel →
      ∃ (found : Bool) (n : Nat),
        BootLoaderInfoTranslator_mapStringLoop mem kEnd fuel str reads =
          some (found, reads ++ List.range' str (n + 1)) ∧
        str + n < kEnd ∧
        (∀ j, j < n → Memory_read8 mem (str + j) ≠ 0) ∧
        (found = true → Memory_read8 mem (str + n) = 0) ∧
        (found = false → str + n + 1 = kEnd ∧ Memory_read8 mem (str + n) ≠ 0) := by
  induction fuel with
  | zero => intro str reads h1 h2; omega
  | succ fuel ih =>
    intro str reads h1 h2
    have hs : u32 str = str := u32_of_lt (by omega)
    have hs1 : u32 (str + 1) = str + 1 := u32_of_lt (by omega)
    rw [BootLoaderInfoTranslator_mapStringLoop, hs, hs1]
    by_cases hc : Memory_read8 mem str ≠ 0
    · rw [if_pos hc]
      by_cases he : kEnd ≤ str + 1
      · rw [if_pos he]
        exact ⟨false, 0, rfl, by omega, fun j hj => absurd hj (by omega),
          fun h => Bool.noConfusion h, fun _ => ⟨by omega, hc⟩⟩
      · rw [if_neg he]
        obtain ⟨found, n, hrun, hlt, hnz, ht, hf⟩ :=
          ih (str + 1) (reads ++ [str]) (by omega) (by omega)
        refine ⟨found, n + 1, ?_, by omega, ?_, ?_, ?_⟩
        · rw [hrun, List.append_assoc, List.singleton_append, ← List.range'_succ]
        · intro j hj
          cases j with
          | zero => exact hc
          | succ j =>
            have := hnz j (by omega)
            rwa [show str + 1 + j = str + (j + 1) by omega] at this
        · intro h
          have := ht h
          rwa [show str + 1 + n = str + (n + 1) by omega] at this
        · intro h
          obtain ⟨h3, h4⟩ := hf h
          refine ⟨by omega, ?_⟩
          rwa [show str + 1 + n = str + (n + 1) by omega] at h4
    · rw [if_neg hc]
      exact ⟨true, 0, rfl, by omega, fun j hj => absurd hj (by omega),
        fun _ => by simpa using hc, fun h => Bool.noConfusion h⟩

/-- What `BootLoaderInfoTranslator_mapString` returns and reads for a string
address below 4 MiB. -/
theorem BootLoaderInfoTranslator_mapString_spec (mem : Memory) (p : Nat) (hp : p < 4194304) :
    ∃ (found : Bool) (n : Nat),
      BootLoaderInfoTranslator_mapString mem p =
        some (if found then p + MM_KERNEL_VIRTUAL_BASE else 0,
          List.range' (p + MM_KERNEL_VIRTUAL_BASE) (n + 1)) ∧
      p + n < 4194304 ∧
      (∀ j, j < n → Memory_read8 mem (p + MM_KERNEL_VIRTUAL_BASE + j) ≠ 0) ∧
      (found = true → Memory_read8 mem (p + MM_KERNEL_VIRTUAL_BASE + n) = 0) ∧
      (found = false → p + n + 1 = 4194304 ∧
        Memory_read8 mem (p + MM_KERNEL_VIRTUAL_BASE + n) ≠ 0) := by
  have hb : u32 (p + MM_KERNEL_VIRTUAL_BASE) = p + MM_KERNEL_VIRTUAL_BASE :=
    u32_of_lt (by simp only [MM_KERNEL_VIRTUAL_BASE]; omega)
  have he : u32 (4194304 + MM_KERNEL_VIRTUAL_BASE) = 3762290688 := by decide
  obtain ⟨found, n, hrun, hlt, hnz, ht, hf⟩ :=
    BootLoaderInfoTranslator_mapStringLoop_spec mem 3762290688 (by decide) ADDRESS_SPACE_FUEL
      (p + MM_KERNEL_VIRTUAL_BASE) [] (by simp only [MM_KERNEL_VIRTUAL_BASE]; omega)
      (by simp only [ADDRESS_SPACE_FUEL]; omega)
  refine ⟨found, n, ?_, ?_, hnz, ht, ?_⟩
  · unfold BootLoaderInfoTranslator_mapString
    simp only [MM_MB_four, if_neg (Nat.not_le.mpr hp), hb, he, hrun, List.nil_append]
  · simp only [MM_KERNEL_VIRTUAL_BASE] at hlt; omega
  · intro h
    obtain ⟨h1, h2⟩ := hf h
    refine ⟨?_, h2⟩
    simp only [MM_KERNEL_VIRTUAL_BASE] at h1; omega

/-! ## Memory: lemmas -/

theorem Memory_read8_lt (mem : Memory) (a : Nat) : Memory_read8 mem a < 256 :=
  Nat.mod_lt _ (by decide)

theorem Memory_read32_lt (mem : Memory) (a : Nat) : Memory_read32 mem a < 4294967296 := by
  unfold Memory_read32
  have h0 := Memory_read8_lt mem a
  have h1 := Memory_read8_lt mem (a + 1)
  have h2 := Memory_read8_lt mem (a + 2)
  have h3 := Memory_read8_lt mem (a + 3)
  omega

theorem Memory_read8_write8 (mem : Memory) (a b v : Nat) (ha : a < 4294967296)
    (hb : b < 4294967296) :
    Memory_read8 (Memory_write8 mem b v) a = if a = b then v % 256 else Memory_read8 mem a := by
  unfold Memory_read8 Memory_write8
  rw [u32_of_lt ha, u32_of_lt hb]
  by_cases h : a = b
  · simp [h]
  · simp [h]

/-- A byte away from a stored word is what it was. -/
theorem Memory_read8_write32_of_ne (mem : Memory) (a b v : Nat) (ha : a < 4294967296)
    (hb : b + 4 ≤ 4294967296) (h : a < b ∨ b + 4 ≤ a) :
    Memory_read8 (Memory_write32 mem b v) a = Memory_read8 mem a := by
  unfold Memory_write32
  rw [Memory_read8_write8 _ _ _ _ ha (by omega), if_neg (by omega),
    Memory_read8_write8 _ _ _ _ ha (by omega), if_neg (by omega),
    Memory_read8_write8 _ _ _ _ ha (by omega), if_neg (by omega),
    Memory_read8_write8 _ _ _ _ ha (by omega), if_neg (by omega)]

/-- A stored word is read back. -/
theorem Memory_read32_write32_same (mem : Memory) (b v : Nat) (hb : b + 4 ≤ 4294967296)
    (hv : v < 4294967296) :
    Memory_read32 (Memory_write32 mem b v) b = v := by
  unfold Memory_read32 Memory_write32
  rw [Memory_read8_write8 _ _ _ _ (by omega) (by omega), if_neg (by omega),
    Memory_read8_write8 _ _ _ _ (by omega) (by omega), if_neg (by omega),
    Memory_read8_write8 _ _ _ _ (by omega) (by omega), if_neg (by omega),
    Memory_read8_write8 _ _ _ _ (by omega) (by omega), if_pos rfl,
    Memory_read8_write8 _ _ _ _ (by omega) (by omega), if_neg (by omega),
    Memory_read8_write8 _ _ _ _ (by omega) (by omega), if_neg (by omega),
    Memory_read8_write8 _ _ _ _ (by omega) (by omega), if_pos rfl,
    Memory_read8_write8 _ _ _ _ (by omega) (by omega), if_neg (by omega),
    Memory_read8_write8 _ _ _ _ (by omega) (by omega), if_pos rfl,
    Memory_read8_write8 _ _ _ _ (by omega) (by omega), if_pos rfl]
  omega

/-- Words made of the same bytes are equal. -/
theorem Memory_read32_congr (m1 m2 : Memory) (a1 a2 : Nat)
    (h : ∀ k, k < 4 → Memory_read8 m1 (a1 + k) = Memory_read8 m2 (a2 + k)) :
    Memory_read32 m1 a1 = Memory_read32 m2 a2 := by
  unfold Memory_read32
  have h0 := h 0 (by omega)
  rw [Nat.add_zero, Nat.add_zero] at h0
  rw [h0, h 1 (by omega), h 2 (by omega), h 3 (by omega)]

/-- A word away from a stored word is what it was. -/
theorem Memory_read32_write32_of_ne (mem : Memory) (a b v : Nat) (ha : a + 4 ≤ 4294967296)
    (hb : b + 4 ≤ 4294967296) (h : a + 4 ≤ b ∨ b + 4 ≤ a) :
    Memory_read32 (Memory_write32 mem b v) a = Memory_read32 mem a :=
  Memory_read32_congr _ _ _ _ fun k hk =>
    Memory_read8_write32_of_ne mem (a + k) b v (by omega) hb (by omega)

/-- The bytes of a memory after `KMem_copy`. -/
theorem Memory_read8_copy (mem : Memory) (d s n a : Nat) (ha : a < 4294967296)
    (hd : d + n ≤ 4294967296) :
    Memory_read8 (KMem_copy mem d s n) a =
      if d ≤ a ∧ a < d + n then Memory_read8 mem (s + (a - d)) else Memory_read8 mem a := by
  by_cases hn : n = 0
  · subst hn
    have h1 : ¬ (d ≤ a ∧ a < d + 0) := by omega
    rw [if_neg h1]
    unfold Memory_read8 KMem_copy
    rw [if_neg (by omega)]
  have hdl : d < 4294967296 := by omega
  unfold KMem_copy
  by_cases h : d ≤ a ∧ a < d + n
  · rw [if_pos h]
    have e : u32 (a + 4294967296 - u32 d) = a - d := by
      rw [u32_of_lt hdl]
      unfold u32
      omega
    show (if u32 a < 4294967296 ∧ u32 (u32 a + 4294967296 - u32 d) < n then _ else _) % 256 = _
    rw [u32_of_lt ha, e, if_pos ⟨ha, by omega⟩]
    exact Nat.mod_eq_of_lt (Memory_read8_lt _ _)
  · rw [if_neg h]
    have e : ¬ (u32 (a + 4294967296 - u32 d) < n) := by
      rw [u32_of_lt hdl]
      unfold u32
      omega
    show (if u32 a < 4294967296 ∧ u32 (u32 a + 4294967296 - u32 d) < n then _ else _) % 256 = _
    rw [u32_of_lt ha, if_neg (fun hh => e hh.2)]
    unfold Memory_read8
    rw [u32_of_lt ha]

/-- The bytes of a memory after `KMem_set`. -/
theorem Memory_read8_set (mem : Memory) (d v n a : Nat) (ha : a < 4294967296)
    (hd : d + n ≤ 4294967296) :
    Memory_read8 (KMem_set mem d v n) a =
      if d ≤ a ∧ a < d + n then v % 256 else Memory_read8 mem a := by
  by_cases hn : n = 0
  · subst hn
    have h1 : ¬ (d ≤ a ∧ a < d + 0) := by omega
    rw [if_neg h1]
    unfold Memory_read8 KMem_set
    rw [if_neg (by omega)]
  have hdl : d < 4294967296 := by omega
  unfold KMem_set
  by_cases h : d ≤ a ∧ a < d + n
  · rw [if_pos h]
    have e : u32 (a + 4294967296 - u32 d) = a - d := by
      rw [u32_of_lt hdl]
      unfold u32
      omega
    show (if u32 a < 4294967296 ∧ u32 (u32 a + 4294967296 - u32 d) < n then _ else _) % 256 = _
    rw [u32_of_lt ha, e, if_pos ⟨ha, by omega⟩]
    exact Nat.mod_mod _ _
  · rw [if_neg h]
    have e : ¬ (u32 (a + 4294967296 - u32 d) < n) := by
      rw [u32_of_lt hdl]
      unfold u32
      omega
    show (if u32 a < 4294967296 ∧ u32 (u32 a + 4294967296 - u32 d) < n then _ else _) % 256 = _
    rw [u32_of_lt ha, if_neg (fun hh => e hh.2)]
    unfold Memory_read8
    rw [u32_of_lt ha]

/-! ## `BootLoaderInfoTranslator_copyMultibootInfo`: lemmas -/

theorem KMem_isAligned32_iff (x : Nat) : KMem_isAligned32 x = true ↔ x % 4 = 0 := by
  unfold KMem_isAligned32
  have h : x &&& 3 = x % 4 := Nat.and_pow_two_sub_one_eq_mod x 2
  rw [h]
  simp

theorem alignMask32_eq : (4294967295 ^^^ 3 : Nat) = 1073741823 <<< 2 := by decide

theorem KMem_makeAligned32_eq {x : Nat} (hx : x + 3 < 4294967296) :
    KMem_makeAligned32 x = BootLoaderInfoTranslator_roundUp x := by
  unfold KMem_makeAligned32 BootLoaderInfoTranslator_roundUp
  rw [u32_of_lt hx, alignMask32_eq]
  have h1 : (x + 3) / 4 * 4 = ((x + 3) >>> 2) <<< 2 := by
    rw [Nat.shiftLeft_eq, Nat.shiftRight_eq_div_pow]
  rw [h1]
  apply Nat.eq_of_testBit_eq
  intro j
  have h30 : (1073741823 : Nat) = 2 ^ 30 - 1 := by norm_num
  rw [Nat.testBit_and, Nat.testBit_shiftLeft, Nat.testBit_shiftLeft, Nat.testBit_shiftRight, h30,
    Nat.testBit_two_pow_sub_one]
  by_cases hj : 2 ≤ j
  · have e : 2 + (j - 2) = j := by omega
    rw [e]
    by_cases hj2 : j - 2 < 30
    · simp [hj, hj2]
    · have hx0 : (x + 3).testBit j = false := testBit_eq_false_of_lt_word hx (by omega)
      simp [hx0]
  · simp [hj]

theorem BootLoaderInfoTranslator_roundUp_spec (x : Nat) :
    x ≤ BootLoaderInfoTranslator_roundUp x ∧ BootLoaderInfoTranslator_roundUp x < x + 4 ∧
      BootLoaderInfoTranslator_roundUp x % 4 = 0 := by
  unfold BootLoaderInfoTranslator_roundUp
  omega

/-- The loop of `KString_length` on a string in memory finds its length. -/
theorem KString_lengthLoop_spec (mem : Memory) (s len : Nat) (hs : Memory_isCString mem s len)
    (hlt : s + len < 4294967296) (fuel : Nat) :
    ∀ k, k ≤ len → len - k < fuel → KString_lengthLoop mem fuel (s + k) k = some len := by
  induction fuel with
  | zero => intro k _ h; omega
  | succ fuel ih =>
    intro k hk hf
    rw [KString_lengthLoop]
    by_cases hkl : k = len
    · subst hkl
      rw [if_neg (by rw [hs.2]; exact fun h => h rfl)]
    · have hk1 : k < len := by omega
      rw [if_pos (hs.1 k hk1), u32_of_lt (by omega), u32_of_lt (by omega)]
      exact ih (k + 1) (by omega) (by omega)

theorem KString_lengthAt_spec (mem : Memory) (s len : Nat) (hs : Memory_isCString mem s len)
    (hlt : s + len < 4294967296) : KString_lengthAt mem s = some len := by
  have h := KString_lengthLoop_spec mem s len hs hlt ADDRESS_SPACE_FUEL 0 (Nat.zero_le _)
    (by simp only [ADDRESS_SPACE_FUEL]; omega)
  rwa [Nat.add_zero] at h

/-- What `BootLoaderInfoTranslator_copyStructurePart` does at an aligned place
of the buffer. -/
theorem BootLoaderInfoTranslator_copyStructurePart_spec (S : Nat) (mem : Memory)
    (dest source bytes : Nat) (hS : S + 1024 < 4294967296) (hS4 : S % 4 = 0) (hd1 : S ≤ dest)
    (hd2 : dest ≤ S + 1024) (hd4 : dest % 4 = 0) :
    BootLoaderInfoTranslator_copyStructurePart S mem dest source bytes =
      if dest + bytes ≤ S + 1024 then
        (BootLoaderInfoTranslator_roundUp (dest + bytes), KMem_copy mem dest source bytes)
      else (0, mem) := by
  unfold BootLoaderInfoTranslator_copyStructurePart
  have h1 : u32 (S + s_mbInfoSpace_sizeof) = S + 1024 :=
    u32_of_lt (by simp only [s_mbInfoSpace_sizeof]; omega)
  have h2 : u32 (S + 1024 + 4294967296 - dest) = S + 1024 - dest := by
    unfold u32
    omega
  have h3 : KMem_isAligned32 dest = true := (KMem_isAligned32_iff dest).mpr hd4
  simp only [h1, h2, h3, not_true_eq_false, or_false]
  by_cases hfit : dest + bytes ≤ S + 1024
  · rw [if_neg (by omega), if_pos hfit, u32_of_lt (by omega), KMem_makeAligned32_eq (by omega)]
  · rw [if_pos (by omega), if_neg hfit]

/-- A copy to `[d, d + n)` followed by the store of `d` in the word at `f`,
which lies apart from the copy. -/
theorem Memory_copy_then_point (m : Memory) (d src n f : Nat) (hd : d + n ≤ 4294967296)
    (hdl : d < 4294967296) (hf : f + 4 ≤ 4294967296) (hfd : f + 4 ≤ d ∨ d + n ≤ f) :
    Memory_agreeExcept m (Memory_write32 (KMem_copy m d src n) f d) d (d + n) f ∧
    Memory_read32 (Memory_write32 (KMem_copy m d src n) f d) f = d ∧
    ∀ j, j < n → Memory_read8 (Memory_write32 (KMem_copy m d src n) f d) (d + j) =
      Memory_read8 m (src + j) := by
  refine ⟨?_, Memory_read32_write32_same _ f d hf hdl, ?_⟩
  · intro a ha h1 h2
    rw [Memory_read8_write32_of_ne _ a f d ha hf (by omega), Memory_read8_copy _ _ _ _ _ ha hd,
      if_neg h1]
  · intro j hj
    rw [Memory_read8_write32_of_ne _ (d + j) f d (by omega) hf (by omega),
      Memory_read8_copy _ _ _ _ _ (by omega) hd, if_pos ⟨by omega, by omega⟩]
    congr 2
    omega

/-- The store of a null pointer in the word at `f`. -/
theorem Memory_point_null (m : Memory) (f : Nat) (hf : f + 4 ≤ 4294967296) :
    Memory_agreeExcept m (Memory_write32 m f 0) 0 0 f ∧
    Memory_read32 (Memory_write32 m f 0) f = 0 := by
  refine ⟨?_, Memory_read32_write32_same _ f 0 hf (by decide)⟩
  intro a ha _ h2
  rw [Memory_read8_write32_of_ne _ a f 0 ha hf (by omega)]

theorem Memory_agreeExcept_read32 {m m' : Memory} {lo hi f : Nat}
    (h : Memory_agreeExcept m m' lo hi f) (a : Nat) (ha : a + 4 ≤ 4294967296)
    (h1 : a + 4 ≤ lo ∨ hi ≤ a) (h2 : a + 4 ≤ f ∨ f + 4 ≤ a) :
    Memory_read32 m' a = Memory_read32 m a :=
  Memory_read32_congr _ _ _ _ fun k hk => h (a + k) (by omega) (by omega) (by omega)

theorem Memory_agreeExcept_sameBytes {m m' : Memory} {lo hi f : Nat}
    (h : Memory_agreeExcept m m' lo hi f) (mem : Memory) (x y n : Nat)
    (hx : x + n ≤ 4294967296) (h1 : x + n ≤ lo ∨ hi ≤ x) (h2 : x + n ≤ f ∨ f + 4 ≤ x)
    (hs : Memory_sameBytes m x mem y n) : Memory_sameBytes m' x mem y n := by
  intro j hj
  rw [h (x + j) (by omega) (by omega) (by omega)]
  exact hs j hj

theorem Memory_agreeExcept_frame {m m' : Memory} {lo hi f : Nat}
    (h : Memory_agreeExcept m m' lo hi f) (S : Nat) (mem : Memory) (h1 : S ≤ lo ∨ hi ≤ lo)
    (h2 : hi ≤ S + 1024) (h3 : S ≤ f) (h4 : f + 4 ≤ S + 1024)
    (hm : BootLoaderInfoTranslator_frame S mem m) : BootLoaderInfoTranslator_frame S mem m' := by
  intro a ha hout
  simp only [s_mbInfoSpace_sizeof] at hout
  rw [h a ha (by omega) (by omega)]
  exact hm a ha hout

/-- A word outside the buffer is the same in a memory that is the source
memory outside the buffer. -/
theorem BootLoaderInfoTranslator_frame_read32 {S : Nat} {mem m : Memory}
    (hm : BootLoaderInfoTranslator_frame S mem m) (a : Nat)
    (ha : BootLoaderInfoTranslator_apart S a 4) : Memory_read32 m a = Memory_read32 mem a :=
  Memory_read32_congr _ _ _ _ fun k hk =>
    hm (a + k) (by have := ha.1; omega)
      (by have := ha.2; simp only [s_mbInfoSpace_sizeof] at this ⊢; omega)

/-- A string outside the buffer is the same in a memory that is the source
memory outside the buffer. -/
theorem BootLoaderInfoTranslator_frame_strlen {S : Nat} {mem m : Memory}
    (hm : BootLoaderInfoTranslator_frame S mem m) (s len : Nat)
    (hs : Memory_isCString mem s len) (ha : BootLoaderInfoTranslator_apart S s (len + 1)) :
    KString_lengthAt m s = some len ∧ Memory_strlen mem s = len := by
  have hlt : s + len < 4294967296 := by have := ha.1; omega
  have hout : ∀ j, j ≤ len → Memory_read8 m (s + j) = Memory_read8 mem (s + j) := by
    intro j hj
    exact hm (s + j) (by omega)
      (by have := ha.2; simp only [s_mbInfoSpace_sizeof] at this ⊢; omega)
  have hs' : Memory_isCString m s len :=
    ⟨fun j hj => by rw [hout j (by omega)]; exact hs.1 j hj, by rw [hout len (Nat.le_refl _)]; exact hs.2⟩
  refine ⟨KString_lengthAt_spec m s len hs' hlt, ?_⟩
  unfold Memory_strlen
  rw [KString_lengthAt_spec mem s len hs hlt]
  rfl

theorem BootLoaderInfoTranslator_namePlace_le_succ (mem : Memory) (R S i : Nat) :
    BootLoaderInfoTranslator_namePlace mem R S i ≤
      BootLoaderInfoTranslator_namePlace mem R S (i + 1) := by
  rw [BootLoaderInfoTranslator_namePlace]
  split_ifs
  · exact Nat.le_refl _
  · have := (BootLoaderInfoTranslator_roundUp_spec
      (BootLoaderInfoTranslator_namePlace mem R S i +
        (Memory_strlen mem (MultibootInfo_modString mem R i) + 1))).1
    omega

theorem BootLoaderInfoTranslator_namePlace_mono (mem : Memory) (R S : Nat) {i j : Nat}
    (h : i ≤ j) :
    BootLoaderInfoTranslator_namePlace mem R S i ≤ BootLoaderInfoTranslator_namePlace mem R S j := by
  induction j with
  | zero =>
    have : i = 0 := by omega
    rw [this]
  | succ j ih =>
    by_cases hij : i = j + 1
    · rw [hij]
    · exact Nat.le_trans (ih (by omega)) (BootLoaderInfoTranslator_namePlace_le_succ mem R S j)

/-- The name of the module `j` ends before the place of the next name. -/
theorem BootLoaderInfoTranslator_namePlace_end (mem : Memory) (R S j : Nat)
    (h : MultibootInfo_modString mem R j ≠ 0) :
    BootLoaderInfoTranslator_namePlace mem R S j +
        (Memory_strlen mem (MultibootInfo_modString mem R j) + 1) ≤
      BootLoaderInfoTranslator_namePlace mem R S (j + 1) := by
  rw [BootLoaderInfoTranslator_namePlace.eq_2, if_neg h]
  exact (BootLoaderInfoTranslator_roundUp_spec _).1

theorem BootLoaderInfoTranslator_namePlace_aligned (mem : Memory) (R S : Nat)
    (h : BootLoaderInfoTranslator_namesStart mem R S % 4 = 0) (i : Nat) :
    BootLoaderInfoTranslator_namePlace mem R S i % 4 = 0 := by
  induction i with
  | zero => exact h
  | succ i ih =>
    rw [BootLoaderInfoTranslator_namePlace]
    split_ifs
    · exact ih
    · exact (BootLoaderInfoTranslator_roundUp_spec _).2.2

theorem BootLoaderInfoTranslator_roundUp_le {x B : Nat} (hB : B % 4 = 0) :
    BootLoaderInfoTranslator_roundUp x ≤ B ↔ x ≤ B := by
  unfold BootLoaderInfoTranslator_roundUp
  omega

/-- The loop over the module names from the module `i` on: it ends; when all
the names find room it returns the tail after the last name, with every name
copied to its place; when they do not, it returns 0. -/
theorem BootLoaderInfoTranslator_copyModuleNames_spec (S : Nat) (mem : Memory) (R : Nat)
    (hbuf : BootLoaderInfoTranslator_bufferOk S)
    (hnames : BootLoaderInfoTranslator_namesApart S mem R)
    (ht1 : S + 96 ≤ BootLoaderInfoTranslator_moduleListPlace mem R S)
    (ht2 : BootLoaderInfoTranslator_moduleListPlace mem R S +
      16 * Memory_read32 mem (R + 20) ≤ BootLoaderInfoTranslator_namesStart mem R S)
    (ht3 : BootLoaderInfoTranslator_namesStart mem R S ≤ S + 1024)
    (ht4 : BootLoaderInfoTranslator_namesStart mem R S % 4 = 0) (fuel : Nat) :
    ∀ (i : Nat) (m : Memory), i ≤ Memory_read32 mem (R + 20) →
      Memory_read32 mem (R + 20) - i < fuel →
      BootLoaderInfoTranslator_namePlace mem R S i ≤ S + 1024 →
      BootLoaderInfoTranslator_namesInv S mem R i m →
      ∃ (res : Nat) (m' : Memory),
        BootLoaderInfoTranslator_copyModuleNames S fuel i
          (BootLoaderInfoTranslator_namePlace mem R S i) m = some (res, m') ∧
        (BootLoaderInfoTranslator_namePlace mem R S (Memory_read32 mem (R + 20)) ≤ S + 1024 →
          res = BootLoaderInfoTranslator_namePlace mem R S (Memory_read32 mem (R + 20)) ∧
          BootLoaderInfoTranslator_namesInv S mem R (Memory_read32 mem (R + 20)) m' ∧
          BootLoaderInfoTranslator_namesAgree S mem R m m') ∧
        (S + 1024 < BootLoaderInfoTranslator_namePlace mem R S (Memory_read32 mem (R + 20)) →
          res = 0) := by
  obtain ⟨hS4, hS0, hSlt⟩ := hbuf
  simp only [s_mbInfoSpace_sizeof] at hSlt
  induction fuel with
  | zero => intro i m _ hf; omega
  | succ fuel ih =>
    intro i m hi hf hd hinv
    obtain ⟨hfr, hN, hM, hge, hlt, hsame⟩ := hinv
    simp only [MultibootInfo_layout.ModsCount, MultibootInfo_layout.ModsAddr,
      MBModuleInfo_layout.sizeof, MBModuleInfo_layout.ModString] at hN hM hge hlt hsame
    rw [BootLoaderInfoTranslator_copyModuleNames]
    simp only [MultibootInfo_layout.ModsCount, MultibootInfo_layout.ModsAddr,
      MBModuleInfo_layout.sizeof, MBModuleInfo_layout.ModString, hN]
    by_cases hiN : i < Memory_read32 mem (R + 20)
    · rw [if_pos hiN]
      have hmod : MultibootInfo_module m S i =
          BootLoaderInfoTranslator_moduleListPlace mem R S + 16 * i := by
        unfold MultibootInfo_module
        simp only [MultibootInfo_layout.ModsAddr, MBModuleInfo_layout.sizeof, hM]
        exact u32_of_lt (by omega)
      have hms := hge i (Nat.le_refl _) hiN
      rw [hmod, hms]
      by_cases h0 : MultibootInfo_modString mem R i = 0
      · rw [if_neg (fun h => h h0)]
        have hnp : BootLoaderInfoTranslator_namePlace mem R S (i + 1) =
            BootLoaderInfoTranslator_namePlace mem R S i := by
          rw [BootLoaderInfoTranslator_namePlace.eq_2, if_pos h0]
        have hinv' : BootLoaderInfoTranslator_namesInv S mem R (i + 1) m := by
          refine ⟨hfr, hN, hM, fun j hj1 hj2 => hge j (by omega) hj2, ?_, ?_⟩
          · intro j hj1 hj2
            by_cases hji : j = i
            · subst hji
              rw [if_pos h0, ← h0]
              exact hms
            · exact hlt j (by omega) hj2
          · intro j hj1 hj2 hj3
            by_cases hji : j = i
            · subst hji
              exact absurd h0 hj3
            · exact hsame j (by omega) hj2 hj3
        have hrec := ih (i + 1) m (by omega) (by omega) (by rw [hnp]; exact hd) hinv'
        rw [hnp] at hrec
        exact hrec
      · rw [if_pos h0]
        obtain ⟨len, hcs, hap⟩ := hnames i hiN h0
        obtain ⟨hlen, hstr⟩ := BootLoaderInfoTranslator_frame_strlen hfr _ len hcs hap
        have hap1 := hap.1
        have hu : u32 (len + 1) = len + 1 := u32_of_lt (by omega)
        have hal := BootLoaderInfoTranslator_namePlace_aligned mem R S ht4 i
        have hlo : BootLoaderInfoTranslator_namesStart mem R S ≤
            BootLoaderInfoTranslator_namePlace mem R S i :=
          BootLoaderInfoTranslator_namePlace_mono mem R S (Nat.zero_le i)
        rw [hlen]
        simp only [hu]
        rw [BootLoaderInfoTranslator_copyStructurePart_spec S m _ _ (len + 1) hSlt hS4
          (by omega) hd hal]
        have hnp : BootLoaderInfoTranslator_namePlace mem R S (i + 1) =
            BootLoaderInfoTranslator_roundUp
              (BootLoaderInfoTranslator_namePlace mem R S i + (len + 1)) := by
          rw [BootLoaderInfoTranslator_namePlace.eq_2, if_neg h0, hstr]
        have hr := BootLoaderInfoTranslator_roundUp_spec
          (BootLoaderInfoTranslator_namePlace mem R S i + (len + 1))
        by_cases hfit : BootLoaderInfoTranslator_namePlace mem R S i + (len + 1) ≤ S + 1024
        · rw [if_pos hfit]
          simp only []
          rw [if_neg (by omega), ← hnp]
          obtain ⟨hag, hptr, hbytes⟩ := Memory_copy_then_point m
            (BootLoaderInfoTranslator_namePlace mem R S i) (MultibootInfo_modString mem R i)
            (len + 1) (BootLoaderInfoTranslator_moduleListPlace mem R S + 16 * i + 8)
            (by omega) (by omega) (by omega) (Or.inl (by omega))
          have hinv' : BootLoaderInfoTranslator_namesInv S mem R (i + 1)
              (Memory_write32 (KMem_copy m (BootLoaderInfoTranslator_namePlace mem R S i)
                (MultibootInfo_modString mem R i) (len + 1))
                (BootLoaderInfoTranslator_moduleListPlace mem R S + 16 * i + 8)
                (BootLoaderInfoTranslator_namePlace mem R S i)) := by
            have c1 := Memory_agreeExcept_frame hag S mem (Or.inl (by omega)) (by omega)
              (by omega) (by omega) hfr
            have c2 := (Memory_agreeExcept_read32 hag (S + 20) (by omega) (Or.inl (by omega))
              (Or.inl (by omega))).trans hN
            have c3 := (Memory_agreeExcept_read32 hag (S + 24) (by omega) (Or.inl (by omega))
              (Or.inl (by omega))).trans hM
            unfold BootLoaderInfoTranslator_namesInv
            simp only [MultibootInfo_layout.ModsCount, MultibootInfo_layout.ModsAddr,
              MBModuleInfo_layout.sizeof, MBModuleInfo_layout.ModString]
            refine ⟨c1, c2, c3, ?_, ?_, ?_⟩
            · intro j hj1 hj2
              exact (Memory_agreeExcept_read32 hag
                (BootLoaderInfoTranslator_moduleListPlace mem R S + 16 * j + 8) (by omega)
                (Or.inl (by omega)) (Or.inr (by omega))).trans (hge j (by omega) hj2)
            · intro j hj1 hj2
              by_cases hji : j = i
              · subst hji
                rw [if_neg h0]
                exact hptr
              · exact (Memory_agreeExcept_read32 hag
                  (BootLoaderInfoTranslator_moduleListPlace mem R S + 16 * j + 8) (by omega)
                  (Or.inl (by omega)) (Or.inl (by omega))).trans (hlt j (by omega) hj2)
            · intro j hj1 hj2 hj3
              by_cases hji : j = i
              · subst hji
                rw [hstr]
                intro k hk
                rw [hbytes k hk]
                exact hfr _ (by omega)
                  (by have := hap.2; simp only [s_mbInfoSpace_sizeof] at this ⊢; omega)
              · have hend := BootLoaderInfoTranslator_namePlace_end mem R S j hj3
                have hmono : BootLoaderInfoTranslator_namePlace mem R S (j + 1) ≤
                    BootLoaderInfoTranslator_namePlace mem R S i :=
                  BootLoaderInfoTranslator_namePlace_mono mem R S (by omega)
                have hlo2 : BootLoaderInfoTranslator_namesStart mem R S ≤
                    BootLoaderInfoTranslator_namePlace mem R S j :=
                  BootLoaderInfoTranslator_namePlace_mono mem R S (Nat.zero_le j)
                exact Memory_agreeExcept_sameBytes hag mem
                  (BootLoaderInfoTranslator_namePlace mem R S j) _ _ (by omega)
                  (Or.inl (by omega)) (Or.inr (by omega)) (hsame j (by omega) hj2 hj3)
          obtain ⟨res, m'', hrun, hok, hbad⟩ := ih (i + 1) _ (by omega) (by omega)
            (by rw [hnp]; exact (BootLoaderInfoTranslator_roundUp_le
              (by omega : (S + 1024) % 4 = 0)).mpr hfit) hinv'
          refine ⟨res, m'', hrun, fun h => ?_, hbad⟩
          obtain ⟨h1, h2, h3⟩ := hok h
          refine ⟨h1, h2, ?_⟩
          intro a ha1 ha2
          rw [h3 a ha1 ha2]
          exact hag a (by omega) (by omega)
            (by
              have := ha2 i hiN
              simp only [MBModuleInfo_layout.sizeof, MBModuleInfo_layout.ModString] at this
              exact this)
        · rw [if_neg hfit]
          simp only []
          have hmono : BootLoaderInfoTranslator_namePlace mem R S (i + 1) ≤
              BootLoaderInfoTranslator_namePlace mem R S (Memory_read32 mem (R + 20)) :=
            BootLoaderInfoTranslator_namePlace_mono mem R S (by omega)
          exact ⟨0, m, rfl, fun h => absurd h (by omega), fun _ => rfl⟩
    · rw [if_neg hiN]
      have hiN' : i = Memory_read32 mem (R + 20) := by omega
      refine ⟨_, m, rfl, fun _ => ⟨by rw [← hiN'], ?_, fun a _ _ => rfl⟩, fun h => ?_⟩
      · rw [← hiN']
        exact ⟨hfr, by simpa [MultibootInfo_layout.ModsCount] using hN,
          by simpa [MultibootInfo_layout.ModsAddr] using hM, hge, hlt, hsame⟩
      · rw [← hiN'] at h
        omega

/-- The copy of the root to the start of the cleared buffer. -/
theorem BootLoaderInfoTranslator_copy_root (S : Nat) (mem : Memory) (R : Nat)
    (hbuf : BootLoaderInfoTranslator_bufferOk S)
    (hR : BootLoaderInfoTranslator_apart S R 96) :
    BootLoaderInfoTranslator_frame S mem
        (KMem_copy (KMem_set mem S 0 s_mbInfoSpace_sizeof) S R 96) ∧
    ∀ off, off < 96 →
      Memory_read8 (KMem_copy (KMem_set mem S 0 s_mbInfoSpace_sizeof) S R 96) (S + off) =
        Memory_read8 mem (R + off) := by
  obtain ⟨hS4, hS0, hSlt⟩ := hbuf
  obtain ⟨hR1, hR2⟩ := hR
  simp only [s_mbInfoSpace_sizeof] at hSlt hR2 ⊢
  constructor
  · intro a ha hout
    simp only [s_mbInfoSpace_sizeof] at hout
    rw [Memory_read8_copy _ _ _ _ _ ha (by omega), if_neg (by omega),
      Memory_read8_set _ _ _ _ _ ha (by omega), if_neg (by omega)]
  · intro off hoff
    rw [Memory_read8_copy _ _ _ _ _ (by omega) (by omega), if_pos ⟨by omega, by omega⟩,
      Memory_read8_set _ _ _ _ _ (by omega) (by omega), if_neg (by omega)]
    congr 2
    omega

/-- The fields of the copy of the root that are not pointers are those of the
source. -/
theorem BootLoaderInfoTranslator_rootCopied_fields {S : Nat} {mem : Memory} {R : Nat}
    {m : Memory} (h : BootLoaderInfoTranslator_rootCopied S mem R m) :
    Memory_read32 m (S + 20) = Memory_read32 mem (R + 20) ∧
    Memory_read32 m (S + 44) = Memory_read32 mem (R + 44) ∧
    MultibootInfo_CommandLinePresent m S = MultibootInfo_CommandLinePresent mem R ∧
    MultibootInfo_ModulesPresent m S = MultibootInfo_ModulesPresent mem R ∧
    MultibootInfo_MemMapPresent m S = MultibootInfo_MemMapPresent mem R := by
  have h20 : Memory_read32 m (S + 20) = Memory_read32 mem (R + 20) :=
    Memory_read32_congr _ _ _ _ fun k hk => by
      have := h.2 (20 + k) (by omega) (by omega) (by omega) (by omega)
      rwa [← Nat.add_assoc, ← Nat.add_assoc] at this
  have h44 : Memory_read32 m (S + 44) = Memory_read32 mem (R + 44) :=
    Memory_read32_congr _ _ _ _ fun k hk => by
      have := h.2 (44 + k) (by omega) (by omega) (by omega) (by omega)
      rwa [← Nat.add_assoc, ← Nat.add_assoc] at this
  have h0 : Memory_read32 m (S + 0) = Memory_read32 mem (R + 0) :=
    Memory_read32_congr _ _ _ _ fun k hk => by
      have := h.2 (0 + k) (by omega) (by omega) (by omega) (by omega)
      rwa [← Nat.add_assoc, ← Nat.add_assoc] at this
  refine ⟨h20, h44, ?_, ?_, ?_⟩
  · unfold MultibootInfo_CommandLinePresent
    simp only [MultibootInfo_layout.flags, h0]
  · unfold MultibootInfo_ModulesPresent
    simp only [MultibootInfo_layout.flags, h0]
  · unfold MultibootInfo_MemMapPresent
    simp only [MultibootInfo_layout.flags, h0]

/-- A step that leaves the copy of the root alone, but for one of its three
pointers, keeps it a copy of the root. -/
theorem BootLoaderInfoTranslator_rootCopied_carry {S : Nat} {mem : Memory} {R : Nat}
    {m m' : Memory} {lo hi f : Nat} (hag : Memory_agreeExcept m m' lo hi f)
    (hlo : S + 96 ≤ lo ∨ hi ≤ lo) (hhi : hi ≤ S + 1024)
    (hf : f = S + 16 ∨ f = S + 24 ∨ f = S + 48 ∨ (S + 96 ≤ f ∧ f + 4 ≤ S + 1024))
    (hS : S + 1024 < 4294967296)
    (h : BootLoaderInfoTranslator_rootCopied S mem R m) :
    BootLoaderInfoTranslator_rootCopied S mem R m' := by
  constructor
  · exact Memory_agreeExcept_frame hag S mem (by omega) hhi (by omega) (by omega) h.1
  · intro off h1 h2 h3 h4
    rw [hag (S + off) (by omega) (by omega) (by omega)]
    exact h.2 off h1 h2 h3 h4

/-- A step that leaves the buffer alone below the place of the module list,
but for the pointers to the command line and to the module list, keeps the
copy of the memory map. -/
theorem BootLoaderInfoTranslator_memMapCopied_carry {S : Nat} {mem : Memory} {R : Nat}
    {m m' : Memory} {lo hi f : Nat} (hag : Memory_agreeExcept m m' lo hi f)
    (hlo : BootLoaderInfoTranslator_moduleListPlace mem R S ≤ lo ∨ hi = 0)
    (hf : f = S + 16 ∨ f = S + 24 ∨ BootLoaderInfoTranslator_moduleListPlace mem R S ≤ f)
    (hS : S + 1024 < 4294967296) (ht1 : BootLoaderInfoTranslator_moduleListPlace mem R S ≤ S + 1024)
    (h : BootLoaderInfoTranslator_memMapCopied S mem R m) :
    BootLoaderInfoTranslator_memMapCopied S mem R m' := by
  have hge : S + 96 ≤ BootLoaderInfoTranslator_moduleListPlace mem R S := by
    unfold BootLoaderInfoTranslator_moduleListPlace BootLoaderInfoTranslator_memMapPlace
    split_ifs
    · have := (BootLoaderInfoTranslator_roundUp_spec
        (S + MultibootInfo_layout.sizeof + Memory_read32 mem (R + MultibootInfo_layout.MMapLength))).1
      simp only [MultibootInfo_layout.sizeof] at this ⊢
      omega
    · simp only [MultibootInfo_layout.sizeof]
      omega
  constructor
  · rw [Memory_agreeExcept_read32 hag (S + 48) (by omega) (by omega) (by omega)]
    exact h.1
  · intro hp
    have hend : BootLoaderInfoTranslator_memMapPlace S + Memory_read32 mem (R + 44) ≤
        BootLoaderInfoTranslator_moduleListPlace mem R S := by
      unfold BootLoaderInfoTranslator_moduleListPlace
      rw [if_pos hp]
      exact (BootLoaderInfoTranslator_roundUp_spec _).1
    have hpl : BootLoaderInfoTranslator_memMapPlace S = S + 96 := rfl
    exact Memory_agreeExcept_sameBytes hag mem _ _ _ (by omega) (by omega) (by omega) (h.2 hp)

theorem BootLoaderInfoTranslator_moduleListPlace_eq (mem : Memory) (R S : Nat) :
    BootLoaderInfoTranslator_moduleListPlace mem R S =
      if MultibootInfo_MemMapPresent mem R then
        BootLoaderInfoTranslator_roundUp (S + 96 + Memory_read32 mem (R + 44))
      else S + 96 := rfl

/-- The part of the copy that copies the memory map. -/
theorem BootLoaderInfoTranslator_copyMemMap_spec (S : Nat) (mem : Memory) (R : Nat)
    (m : Memory) (hbuf : BootLoaderInfoTranslator_bufferOk S)
    (hMM : MultibootInfo_MemMapPresent mem R = true →
      BootLoaderInfoTranslator_apart S (Memory_read32 mem (R + 48)) (Memory_read32 mem (R + 44)))
    (hroot : BootLoaderInfoTranslator_rootCopied S mem R m)
    (hA : Memory_read32 m (S + 48) = Memory_read32 mem (R + 48)) :
    ∃ m' : Memory,
      BootLoaderInfoTranslator_copyMemMap S m (S + 96) =
        (if BootLoaderInfoTranslator_moduleListPlace mem R S ≤ S + 1024 then
          BootLoaderInfoTranslator_moduleListPlace mem R S else 0, m') ∧
      (BootLoaderInfoTranslator_moduleListPlace mem R S ≤ S + 1024 →
        BootLoaderInfoTranslator_rootCopied S mem R m' ∧
        BootLoaderInfoTranslator_memMapCopied S mem R m' ∧
        Memory_read32 m' (S + 16) = Memory_read32 m (S + 16) ∧
        Memory_read32 m' (S + 24) = Memory_read32 m (S + 24)) := by
  obtain ⟨h20, h44, hpc, hpm, hpmm⟩ := BootLoaderInfoTranslator_rootCopied_fields hroot
  obtain ⟨hS4, hS0, hSlt⟩ := hbuf
  simp only [s_mbInfoSpace_sizeof] at hSlt
  unfold BootLoaderInfoTranslator_copyMemMap
  simp only [MultibootInfo_layout.MMapAddr, MultibootInfo_layout.MMapLength, hpmm, hA, h44]
  rw [BootLoaderInfoTranslator_moduleListPlace_eq]
  by_cases hp : MultibootInfo_MemMapPresent mem R = true
  · simp only [hp, if_true]
    obtain ⟨hap1, hap2⟩ := hMM hp
    simp only [s_mbInfoSpace_sizeof] at hap2
    rw [BootLoaderInfoTranslator_copyStructurePart_spec S m (S + 96) _ _ hSlt hS4 (by omega)
      (by omega) (by omega)]
    have hr := BootLoaderInfoTranslator_roundUp_spec (S + 96 + Memory_read32 mem (R + 44))
    by_cases hfit : S + 96 + Memory_read32 mem (R + 44) ≤ S + 1024
    · have hfit' : BootLoaderInfoTranslator_roundUp (S + 96 + Memory_read32 mem (R + 44)) ≤
          S + 1024 := (BootLoaderInfoTranslator_roundUp_le (by omega)).mpr hfit
      rw [if_pos hfit]
      simp only []
      rw [if_neg (by omega), if_pos hfit']
      refine ⟨_, rfl, fun _ => ?_⟩
      obtain ⟨hag, hptr, hbytes⟩ := Memory_copy_then_point m (S + 96)
        (Memory_read32 mem (R + 48)) (Memory_read32 mem (R + 44)) (S + 48) (by omega) (by omega)
        (by omega) (Or.inl (by omega))
      refine ⟨BootLoaderInfoTranslator_rootCopied_carry hag (Or.inl (by omega)) (by omega)
        (Or.inr (Or.inr (Or.inl rfl))) hSlt hroot, ⟨?_, ?_⟩,
        Memory_agreeExcept_read32 hag (S + 16) (by omega) (Or.inl (by omega)) (Or.inl (by omega)),
        Memory_agreeExcept_read32 hag (S + 24) (by omega) (Or.inl (by omega))
          (Or.inl (by omega))⟩
      · rw [if_pos hp]
        exact hptr
      · intro _ j hj
        show Memory_read8 _ (S + 96 + j) = _
        rw [hbytes j hj]
        exact hroot.1 _ (by omega) (by simp only [s_mbInfoSpace_sizeof]; omega)
    · have hfit' : ¬ BootLoaderInfoTranslator_roundUp (S + 96 + Memory_read32 mem (R + 44)) ≤
          S + 1024 := fun h => hfit ((BootLoaderInfoTranslator_roundUp_le (by omega)).mp h)
      rw [if_neg hfit]
      simp only []
      rw [if_neg hfit']
      exact ⟨_, rfl, fun h => absurd h (fun h => hfit' h)⟩
  · have hp' : MultibootInfo_MemMapPresent mem R = false := by simpa using hp
    simp only [hp', Bool.false_eq_true, if_false]
    rw [if_pos (by omega)]
    refine ⟨_, rfl, fun _ => ?_⟩
    obtain ⟨hag, hptr⟩ := Memory_point_null m (S + 48) (by omega)
    refine ⟨BootLoaderInfoTranslator_rootCopied_carry hag (Or.inr (Nat.le_refl _)) (by omega)
      (Or.inr (Or.inr (Or.inl rfl))) hSlt hroot, ⟨?_, ?_⟩,
      Memory_agreeExcept_read32 hag (S + 16) (by omega) (Or.inr (by omega)) (Or.inl (by omega)),
      Memory_agreeExcept_read32 hag (S + 24) (by omega) (Or.inr (by omega))
        (Or.inl (by omega))⟩
    · rw [if_neg hp]
      exact hptr
    · intro h
      exact absurd h hp

theorem BootLoaderInfoTranslator_namesStart_eq (mem : Memory) (R S : Nat) :
    BootLoaderInfoTranslator_namesStart mem R S =
      if MultibootInfo_ModulesPresent mem R then
        BootLoaderInfoTranslator_roundUp
          (BootLoaderInfoTranslator_moduleListPlace mem R S + 16 * Memory_read32 mem (R + 20))
      else BootLoaderInfoTranslator_moduleListPlace mem R S := rfl

theorem BootLoaderInfoTranslator_moduleListPlace_spec (mem : Memory) (R S : Nat)
    (hS4 : S % 4 = 0) :
    S + 96 ≤ BootLoaderInfoTranslator_moduleListPlace mem R S ∧
      BootLoaderInfoTranslator_moduleListPlace mem R S % 4 = 0 := by
  rw [BootLoaderInfoTranslator_moduleListPlace_eq]
  have hr := BootLoaderInfoTranslator_roundUp_spec (S + 96 + Memory_read32 mem (R + 44))
  split_ifs <;> omega

/-- The part of the copy that copies the module list. -/
theorem BootLoaderInfoTranslator_copyModuleList_spec (S : Nat) (mem : Memory) (R : Nat)
    (m : Memory) (hbuf : BootLoaderInfoTranslator_bufferOk S)
    (hMod : MultibootInfo_ModulesPresent mem R = true →
      BootLoaderInfoTranslator_apart S (Memory_read32 mem (R + 24))
        (16 * Memory_read32 mem (R + 20)))
    (ht1 : BootLoaderInfoTranslator_moduleListPlace mem R S ≤ S + 1024)
    (hroot : BootLoaderInfoTranslator_rootCopied S mem R m)
    (hmm : BootLoaderInfoTranslator_memMapCopied S mem R m)
    (hM : Memory_read32 m (S + 24) = Memory_read32 mem (R + 24)) :
    ∃ m' : Memory,
      BootLoaderInfoTranslator_copyModuleList S m
          (BootLoaderInfoTranslator_moduleListPlace mem R S) =
        (if BootLoaderInfoTranslator_namesStart mem R S ≤ S + 1024 then
          BootLoaderInfoTranslator_namesStart mem R S else 0, m') ∧
      (BootLoaderInfoTranslator_namesStart mem R S ≤ S + 1024 →
        BootLoaderInfoTranslator_rootCopied S mem R m' ∧
        BootLoaderInfoTranslator_memMapCopied S mem R m' ∧
        Memory_read32 m' (S + 16) = Memory_read32 m (S + 16) ∧
        Memory_read32 m' (S + 24) =
          (if MultibootInfo_ModulesPresent mem R then
            BootLoaderInfoTranslator_moduleListPlace mem R S else 0) ∧
        (MultibootInfo_ModulesPresent mem R = true →
          ∀ i, i < Memory_read32 mem (R + 20) → ∀ off, off < 16 →
            Memory_read8 m' (BootLoaderInfoTranslator_moduleListPlace mem R S + 16 * i + off) =
              Memory_read8 mem (Memory_read32 mem (R + 24) + 16 * i + off))) := by
  obtain ⟨h20, h44, hpc, hpm, hpmm⟩ := BootLoaderInfoTranslator_rootCopied_fields hroot
  obtain ⟨hS4, hS0, hSlt⟩ := hbuf
  simp only [s_mbInfoSpace_sizeof] at hSlt
  obtain ⟨hge, hal⟩ := BootLoaderInfoTranslator_moduleListPlace_spec mem R S hS4
  unfold BootLoaderInfoTranslator_copyModuleList
  simp only [MultibootInfo_layout.ModsAddr, MultibootInfo_layout.ModsCount,
    MBModuleInfo_layout.sizeof, hpm, hM, h20]
  rw [BootLoaderInfoTranslator_namesStart_eq]
  by_cases hp : MultibootInfo_ModulesPresent mem R = true
  · simp only [hp, if_true]
    obtain ⟨hap1, hap2⟩ := hMod hp
    simp only [s_mbInfoSpace_sizeof] at hap2
    have hu : u32 (Memory_read32 mem (R + 20) * 16) = 16 * Memory_read32 mem (R + 20) := by
      unfold u32
      omega
    rw [hu, BootLoaderInfoTranslator_copyStructurePart_spec S m _ _ _ hSlt hS4 (by omega) ht1 hal]
    have hr := BootLoaderInfoTranslator_roundUp_spec
      (BootLoaderInfoTranslator_moduleListPlace mem R S + 16 * Memory_read32 mem (R + 20))
    by_cases hfit : BootLoaderInfoTranslator_moduleListPlace mem R S +
        16 * Memory_read32 mem (R + 20) ≤ S + 1024
    · have hfit' := (BootLoaderInfoTranslator_roundUp_le (by omega : (S + 1024) % 4 = 0)).mpr hfit
      rw [if_pos hfit]
      simp only []
      rw [if_neg (by omega), if_pos hfit']
      refine ⟨_, rfl, fun _ => ?_⟩
      obtain ⟨hag, hptr, hbytes⟩ := Memory_copy_then_point m
        (BootLoaderInfoTranslator_moduleListPlace mem R S) (Memory_read32 mem (R + 24))
        (16 * Memory_read32 mem (R + 20)) (S + 24) (by omega) (by omega) (by omega)
        (Or.inl (by omega))
      refine ⟨BootLoaderInfoTranslator_rootCopied_carry hag (Or.inl (by omega)) (by omega)
        (Or.inr (Or.inl rfl)) hSlt hroot,
        BootLoaderInfoTranslator_memMapCopied_carry hag (Or.inl (Nat.le_refl _))
          (Or.inr (Or.inl rfl)) hSlt ht1 hmm,
        Memory_agreeExcept_read32 hag (S + 16) (by omega) (Or.inl (by omega)) (Or.inl (by omega)),
        hptr, ?_⟩
      intro _ i hi off hoff
      have e1 : BootLoaderInfoTranslator_moduleListPlace mem R S + 16 * i + off =
          BootLoaderInfoTranslator_moduleListPlace mem R S + (16 * i + off) := by omega
      have e2 : Memory_read32 mem (R + 24) + 16 * i + off =
          Memory_read32 mem (R + 24) + (16 * i + off) := by omega
      rw [e1, e2, hbytes (16 * i + off) (by omega)]
      exact hroot.1 _ (by omega) (by simp only [s_mbInfoSpace_sizeof]; omega)
    · have hfit' : ¬ BootLoaderInfoTranslator_roundUp
          (BootLoaderInfoTranslator_moduleListPlace mem R S + 16 * Memory_read32 mem (R + 20)) ≤
          S + 1024 :=
        fun h => hfit ((BootLoaderInfoTranslator_roundUp_le (by omega)).mp h)
      rw [if_neg hfit]
      simp only []
      rw [if_neg hfit']
      exact ⟨_, rfl, fun h => absurd h (fun h => hfit' h)⟩
  · have hp' : MultibootInfo_ModulesPresent mem R = false := by simpa using hp
    simp only [hp', Bool.false_eq_true, if_false]
    rw [if_pos ht1]
    refine ⟨_, rfl, fun _ => ?_⟩
    obtain ⟨hag, hptr⟩ := Memory_point_null m (S + 24) (by omega)
    refine ⟨BootLoaderInfoTranslator_rootCopied_carry hag (Or.inr (Nat.le_refl _)) (by omega)
      (Or.inr (Or.inl rfl)) hSlt hroot,
      BootLoaderInfoTranslator_memMapCopied_carry hag (Or.inr rfl) (Or.inr (Or.inl rfl)) hSlt
        ht1 hmm,
      Memory_agreeExcept_read32 hag (S + 16) (by omega) (Or.inr (by omega)) (Or.inl (by omega)),
      hptr, fun h => False.elim h⟩

theorem BootLoaderInfoTranslator_commandLinePlace_eq (mem : Memory) (R S : Nat) :
    BootLoaderInfoTranslator_commandLinePlace mem R S =
      if MultibootInfo_ModulesPresent mem R then
        BootLoaderInfoTranslator_namePlace mem R S (Memory_read32 mem (R + 20))
      else BootLoaderInfoTranslator_namesStart mem R S := rfl

theorem MultibootInfo_modString_eq (mem : Memory) (R i : Nat) :
    MultibootInfo_modString mem R i =
      Memory_read32 mem (Memory_read32 mem (R + 24) + 16 * i + 8) := rfl

/-- The loop over the module names leaves the buffer alone below the copy of
the module list. -/
theorem BootLoaderInfoTranslator_namesAgree_below {S : Nat} {mem : Memory} {R : Nat}
    {m m' : Memory} (h : BootLoaderInfoTranslator_namesAgree S mem R m m') (a : Nat)
    (ha : a < BootLoaderInfoTranslator_moduleListPlace mem R S)
    (ht : BootLoaderInfoTranslator_moduleListPlace mem R S ≤
      BootLoaderInfoTranslator_namesStart mem R S) :
    Memory_read8 m' a = Memory_read8 m a := by
  apply h a (by omega)
  intro j _
  simp only [MBModuleInfo_layout.sizeof, MBModuleInfo_layout.ModString]
  omega

/-- The part of the copy that copies the module names. -/
theorem BootLoaderInfoTranslator_copyNames_spec (S : Nat) (mem : Memory) (R : Nat)
    (m : Memory) (hbuf : BootLoaderInfoTranslator_bufferOk S)
    (hMod : MultibootInfo_ModulesPresent mem R = true →
      BootLoaderInfoTranslator_apart S (Memory_read32 mem (R + 24))
        (16 * Memory_read32 mem (R + 20)) ∧
      BootLoaderInfoTranslator_namesApart S mem R)
    (ht2 : BootLoaderInfoTranslator_namesStart mem R S ≤ S + 1024)
    (hroot : BootLoaderInfoTranslator_rootCopied S mem R m)
    (hmm : BootLoaderInfoTranslator_memMapCopied S mem R m)
    (hM : Memory_read32 m (S + 24) =
      (if MultibootInfo_ModulesPresent mem R then
        BootLoaderInfoTranslator_moduleListPlace mem R S else 0))
    (hrec : MultibootInfo_ModulesPresent mem R = true →
      ∀ i, i < Memory_read32 mem (R + 20) → ∀ off, off < 16 →
        Memory_read8 m (BootLoaderInfoTranslator_moduleListPlace mem R S + 16 * i + off) =
          Memory_read8 mem (Memory_read32 mem (R + 24) + 16 * i + off)) :
    ∃ m' : Memory,
      (if MultibootInfo_ModulesPresent m S then
          BootLoaderInfoTranslator_copyModuleNames S ADDRESS_SPACE_FUEL 0
            (BootLoaderInfoTranslator_namesStart mem R S) m
        else some (BootLoaderInfoTranslator_namesStart mem R S, m)) =
        some (if BootLoaderInfoTranslator_commandLinePlace mem R S ≤ S + 1024 then
          BootLoaderInfoTranslator_commandLinePlace mem R S else 0, m') ∧
      (BootLoaderInfoTranslator_commandLinePlace mem R S ≤ S + 1024 →
        BootLoaderInfoTranslator_rootCopied S mem R m' ∧
        BootLoaderInfoTranslator_memMapCopied S mem R m' ∧
        BootLoaderInfoTranslator_moduleListCopied S mem R m' ∧
        BootLoaderInfoTranslator_namesCopied S mem R m' ∧
        Memory_read32 m' (S + 16) = Memory_read32 m (S + 16)) := by
  obtain ⟨h20, h44, hpc, hpm, hpmm⟩ := BootLoaderInfoTranslator_rootCopied_fields hroot
  have hbuf' := hbuf
  obtain ⟨hS4, hS0, hSlt⟩ := hbuf
  simp only [s_mbInfoSpace_sizeof] at hSlt
  obtain ⟨hge, hal⟩ := BootLoaderInfoTranslator_moduleListPlace_spec mem R S hS4
  rw [hpm, BootLoaderInfoTranslator_commandLinePlace_eq]
  by_cases hp : MultibootInfo_ModulesPresent mem R = true
  · simp only [hp, if_true] at hM ⊢
    obtain ⟨⟨hap1, hap2⟩, hnames⟩ := hMod hp
    have hns := BootLoaderInfoTranslator_namesStart_eq mem R S
    rw [if_pos hp] at hns
    have hr := BootLoaderInfoTranslator_roundUp_spec
      (BootLoaderInfoTranslator_moduleListPlace mem R S + 16 * Memory_read32 mem (R + 20))
    have hN := Memory_read32_lt mem (R + 20)
    have hinv : BootLoaderInfoTranslator_namesInv S mem R 0 m := by
      unfold BootLoaderInfoTranslator_namesInv
      simp only [MultibootInfo_layout.ModsCount, MultibootInfo_layout.ModsAddr,
        MBModuleInfo_layout.sizeof, MBModuleInfo_layout.ModString]
      refine ⟨hroot.1, h20, hM, ?_, fun j hj => absurd hj (by omega),
        fun j hj => absurd hj (by omega)⟩
      intro j _ hj
      rw [MultibootInfo_modString_eq]
      exact Memory_read32_congr _ _ _ _ fun k hk => by
        have := hrec hp j hj (8 + k) (by omega)
        rwa [← Nat.add_assoc, ← Nat.add_assoc] at this
    obtain ⟨res, m', hrun, hok, hbad⟩ := BootLoaderInfoTranslator_copyModuleNames_spec S mem R
      hbuf' hnames hge (by rw [hns]; exact hr.1) ht2 (by rw [hns]; exact hr.2.2)
      ADDRESS_SPACE_FUEL 0 m (Nat.zero_le _) (by simp only [ADDRESS_SPACE_FUEL]; omega) ht2 hinv
    have hrun' : BootLoaderInfoTranslator_copyModuleNames S ADDRESS_SPACE_FUEL 0
        (BootLoaderInfoTranslator_namesStart mem R S) m = some (res, m') := hrun
    rw [hrun']
    refine ⟨m', ?_, ?_⟩
    · by_cases hfit : BootLoaderInfoTranslator_namePlace mem R S (Memory_read32 mem (R + 20)) ≤
          S + 1024
      · rw [if_pos hfit, (hok hfit).1]
      · rw [if_neg hfit, hbad (by omega)]
    · intro hfit
      obtain ⟨_, hinvN, hagree⟩ := hok hfit
      obtain ⟨hfr, hN', hM', _, hlt, hsame⟩ := hinvN
      have ht12 : BootLoaderInfoTranslator_moduleListPlace mem R S ≤
          BootLoaderInfoTranslator_namesStart mem R S := by rw [hns]; omega
      have hlow : ∀ a, a < BootLoaderInfoTranslator_moduleListPlace mem R S →
          Memory_read8 m' a = Memory_read8 m a :=
        fun a ha => BootLoaderInfoTranslator_namesAgree_below hagree a ha ht12
      refine ⟨⟨hfr, ?_⟩, ⟨?_, ?_⟩, ⟨?_, ?_⟩, ?_, ?_⟩
      · intro off h1 h2 h3 h4
        rw [hlow (S + off) (by omega)]
        exact hroot.2 off h1 h2 h3 h4
      · rw [Memory_read32_congr m' m (S + 48) (S + 48) fun k hk => hlow _ (by omega)]
        exact hmm.1
      · intro hpm1
        have hend : S + 96 + Memory_read32 mem (R + 44) ≤
            BootLoaderInfoTranslator_moduleListPlace mem R S := by
          rw [BootLoaderInfoTranslator_moduleListPlace_eq, if_pos hpm1]
          exact (BootLoaderInfoTranslator_roundUp_spec _).1
        intro j hj
        have hpl : BootLoaderInfoTranslator_memMapPlace S = S + 96 := rfl
        rw [hlow _ (by omega)]
        exact hmm.2 hpm1 j hj
      · rw [if_pos hp]
        exact hM'
      · intro _ i hi off hoff hnot
        rw [← hrec hp i hi off hoff]
        apply hagree _ (by omega)
        intro j _
        simp only [MBModuleInfo_layout.sizeof, MBModuleInfo_layout.ModString]
        omega
      · intro _ i hi
        exact ⟨hlt i hi hi, hsame i hi hi⟩
      · exact Memory_read32_congr m' m (S + 16) (S + 16) fun k hk => hlow _ (by omega)
  · have hp' : MultibootInfo_ModulesPresent mem R = false := by simpa using hp
    simp only [hp', Bool.false_eq_true, if_false] at hM ⊢
    rw [if_pos ht2]
    refine ⟨m, rfl, fun _ => ⟨hroot, hmm, ⟨?_, fun h => absurd h hp⟩, fun h => absurd h hp, rfl⟩⟩
    rw [if_neg hp]
    exact hM

theorem BootLoaderInfoTranslator_tail_eq (mem : Memory) (R S : Nat) :
    BootLoaderInfoTranslator_tail mem R S =
      if MultibootInfo_hasCommandLine mem R then
        BootLoaderInfoTranslator_roundUp (BootLoaderInfoTranslator_commandLinePlace mem R S +
          (Memory_strlen mem (Memory_read32 mem (R + 16)) + 1))
      else BootLoaderInfoTranslator_commandLinePlace mem R S := rfl

/-- The places of the copies follow one another and are multiples of four. -/
theorem BootLoaderInfoTranslator_places_chain (mem : Memory) (R S : Nat) (hS4 : S % 4 = 0) :
    S + 96 ≤ BootLoaderInfoTranslator_moduleListPlace mem R S ∧
    BootLoaderInfoTranslator_moduleListPlace mem R S % 4 = 0 ∧
    BootLoaderInfoTranslator_moduleListPlace mem R S ≤
      BootLoaderInfoTranslator_namesStart mem R S ∧
    BootLoaderInfoTranslator_namesStart mem R S % 4 = 0 ∧
    (MultibootInfo_ModulesPresent mem R = true →
      BootLoaderInfoTranslator_moduleListPlace mem R S + 16 * Memory_read32 mem (R + 20) ≤
        BootLoaderInfoTranslator_namesStart mem R S) ∧
    BootLoaderInfoTranslator_namesStart mem R S ≤
      BootLoaderInfoTranslator_commandLinePlace mem R S ∧
    BootLoaderInfoTranslator_commandLinePlace mem R S % 4 = 0 ∧
    BootLoaderInfoTranslator_commandLinePlace mem R S ≤ BootLoaderInfoTranslator_tail mem R S ∧
    (MultibootInfo_hasCommandLine mem R →
      BootLoaderInfoTranslator_commandLinePlace mem R S +
          (Memory_strlen mem (Memory_read32 mem (R + 16)) + 1) ≤
        BootLoaderInfoTranslator_tail mem R S) := by
  obtain ⟨h1, h2⟩ := BootLoaderInfoTranslator_moduleListPlace_spec mem R S hS4
  have hr2 := BootLoaderInfoTranslator_roundUp_spec
    (BootLoaderInfoTranslator_moduleListPlace mem R S + 16 * Memory_read32 mem (R + 20))
  have h3 : BootLoaderInfoTranslator_moduleListPlace mem R S ≤
      BootLoaderInfoTranslator_namesStart mem R S := by
    rw [BootLoaderInfoTranslator_namesStart_eq]
    split_ifs <;> omega
  have h4 : BootLoaderInfoTranslator_namesStart mem R S % 4 = 0 := by
    rw [BootLoaderInfoTranslator_namesStart_eq]
    split_ifs <;> omega
  have h5 : MultibootInfo_ModulesPresent mem R = true →
      BootLoaderInfoTranslator_moduleListPlace mem R S + 16 * Memory_read32 mem (R + 20) ≤
        BootLoaderInfoTranslator_namesStart mem R S := by
    intro hp
    rw [BootLoaderInfoTranslator_namesStart_eq, if_pos hp]
    exact hr2.1
  have h6 : BootLoaderInfoTranslator_namesStart mem R S ≤
      BootLoaderInfoTranslator_commandLinePlace mem R S := by
    rw [BootLoaderInfoTranslator_commandLinePlace_eq]
    split_ifs
    · exact BootLoaderInfoTranslator_namePlace_mono mem R S (Nat.zero_le _)
    · exact Nat.le_refl _
  have h7 : BootLoaderInfoTranslator_commandLinePlace mem R S % 4 = 0 := by
    rw [BootLoaderInfoTranslator_commandLinePlace_eq]
    split_ifs
    · exact BootLoaderInfoTranslator_namePlace_aligned mem R S h4 _
    · exact h4
  have hr3 := BootLoaderInfoTranslator_roundUp_spec
    (BootLoaderInfoTranslator_commandLinePlace mem R S +
      (Memory_strlen mem (Memory_read32 mem (R + 16)) + 1))
  refine ⟨h1, h2, h3, h4, h5, h6, h7, ?_, ?_⟩
  · rw [BootLoaderInfoTranslator_tail_eq]
    split_ifs <;> omega
  · intro hc
    rw [BootLoaderInfoTranslator_tail_eq, if_pos hc]
    exact hr3.1

/-- The place of a module name lies between the end of the module list and
the place of the command line. -/
theorem BootLoaderInfoTranslator_namePlace_bounds (mem : Memory) (R S i : Nat)
    (hp : MultibootInfo_ModulesPresent mem R = true) (hi : i ≤ Memory_read32 mem (R + 20)) :
    BootLoaderInfoTranslator_namesStart mem R S ≤ BootLoaderInfoTranslator_namePlace mem R S i ∧
    BootLoaderInfoTranslator_namePlace mem R S i ≤
      BootLoaderInfoTranslator_commandLinePlace mem R S := by
  constructor
  · exact BootLoaderInfoTranslator_namePlace_mono mem R S (Nat.zero_le _)
  · rw [BootLoaderInfoTranslator_commandLinePlace_eq, if_pos hp]
    exact BootLoaderInfoTranslator_namePlace_mono mem R S hi

/-- A step that leaves the buffer alone below the place of the command line,
but for the pointer to the command line, keeps the copies of the module list
and of the module names. -/
theorem BootLoaderInfoTranslator_modules_carry {S : Nat} {mem : Memory} {R : Nat}
    {m m' : Memory} {lo hi : Nat} (hag : Memory_agreeExcept m m' lo hi (S + 16))
    (hlo : BootLoaderInfoTranslator_commandLinePlace mem R S ≤ lo ∨ hi = 0)
    (hS4 : S % 4 = 0) (hS : S + 1024 < 4294967296)
    (ht3 : BootLoaderInfoTranslator_commandLinePlace mem R S ≤ S + 1024)
    (hl : BootLoaderInfoTranslator_moduleListCopied S mem R m)
    (hn : BootLoaderInfoTranslator_namesCopied S mem R m) :
    BootLoaderInfoTranslator_moduleListCopied S mem R m' ∧
      BootLoaderInfoTranslator_namesCopied S mem R m' := by
  obtain ⟨c1, c2, c3, c4, c5, c6, c7, c8, c9⟩ :=
    BootLoaderInfoTranslator_places_chain mem R S hS4
  refine ⟨⟨?_, ?_⟩, ?_⟩
  · rw [Memory_agreeExcept_read32 hag (S + 24) (by omega) (by omega) (by omega)]
    exact hl.1
  · intro hp i hi off hoff hnot
    have := c5 hp
    rw [hag _ (by omega) (by omega) (by omega)]
    exact hl.2 hp i hi off hoff hnot
  · intro hp i hi
    have h5 := c5 hp
    obtain ⟨hptr, hbytes⟩ := hn hp i hi
    refine ⟨?_, ?_⟩
    · rw [Memory_agreeExcept_read32 hag _ (by omega) (by omega) (by omega)]
      exact hptr
    · intro hms
      have hend := BootLoaderInfoTranslator_namePlace_end mem R S i hms
      have hb1 := BootLoaderInfoTranslator_namePlace_bounds mem R S i hp (by omega)
      have hb2 := BootLoaderInfoTranslator_namePlace_bounds mem R S (i + 1) hp (by omega)
      exact Memory_agreeExcept_sameBytes hag mem _ _ _ (by omega) (by omega) (by omega)
        (hbytes hms)

/-- The part of the copy that copies the kernel command line. -/
theorem BootLoaderInfoTranslator_copyCommandLine_spec (S : Nat) (mem : Memory) (R : Nat)
    (m : Memory) (hbuf : BootLoaderInfoTranslator_bufferOk S)
    (hCmd : MultibootInfo_hasCommandLine mem R →
      ∃ len, Memory_isCString mem (Memory_read32 mem (R + 16)) len ∧
        BootLoaderInfoTranslator_apart S (Memory_read32 mem (R + 16)) (len + 1))
    (ht3 : BootLoaderInfoTranslator_commandLinePlace mem R S ≤ S + 1024)
    (hroot : BootLoaderInfoTranslator_rootCopied S mem R m)
    (hmm : BootLoaderInfoTranslator_memMapCopied S mem R m)
    (hl : BootLoaderInfoTranslator_moduleListCopied S mem R m)
    (hn : BootLoaderInfoTranslator_namesCopied S mem R m)
    (hC : Memory_read32 m (S + 16) = Memory_read32 mem (R + 16)) :
    ∃ m' : Memory,
      BootLoaderInfoTranslator_copyCommandLine S m
          (BootLoaderInfoTranslator_commandLinePlace mem R S) =
        some (if BootLoaderInfoTranslator_tail mem R S ≤ S + 1024 then
          BootLoaderInfoTranslator_tail mem R S else 0, m') ∧
      (BootLoaderInfoTranslator_tail mem R S ≤ S + 1024 →
        BootLoaderInfoTranslator_rootCopied S mem R m' ∧
        BootLoaderInfoTranslator_memMapCopied S mem R m' ∧
        BootLoaderInfoTranslator_moduleListCopied S mem R m' ∧
        BootLoaderInfoTranslator_namesCopied S mem R m' ∧
        BootLoaderInfoTranslator_commandLineCopied S mem R m') := by
  obtain ⟨h20, h44, hpc, hpm, hpmm⟩ := BootLoaderInfoTranslator_rootCopied_fields hroot
  obtain ⟨hS4, hS0, hSlt⟩ := hbuf
  simp only [s_mbInfoSpace_sizeof] at hSlt
  obtain ⟨c1, c2, c3, c4, c5, c6, c7, c8, c9⟩ :=
    BootLoaderInfoTranslator_places_chain mem R S hS4
  have hcond : (MultibootInfo_CommandLinePresent m S = true ∧ Memory_read32 m (S + 16) ≠ 0) ↔
      MultibootInfo_hasCommandLine mem R := by
    rw [hpc, hC]
    rfl
  unfold BootLoaderInfoTranslator_copyCommandLine
  simp only [MultibootInfo_layout.CommandLine]
  rw [BootLoaderInfoTranslator_tail_eq]
  by_cases hc : MultibootInfo_hasCommandLine mem R
  · rw [if_pos (hcond.mpr hc), if_pos hc, hC]
    obtain ⟨len, hcs, hap⟩ := hCmd hc
    obtain ⟨hlen, hstr⟩ := BootLoaderInfoTranslator_frame_strlen hroot.1 _ len hcs hap
    obtain ⟨hap1, hap2⟩ := hap
    simp only [s_mbInfoSpace_sizeof] at hap2
    have hu : u32 (len + 1) = len + 1 := u32_of_lt (by omega)
    rw [hlen, hstr]
    simp only [hu]
    rw [BootLoaderInfoTranslator_copyStructurePart_spec S m _ _ (len + 1) hSlt hS4 (by omega) ht3
      c7]
    have hr := BootLoaderInfoTranslator_roundUp_spec
      (BootLoaderInfoTranslator_commandLinePlace mem R S + (len + 1))
    by_cases hfit : BootLoaderInfoTranslator_commandLinePlace mem R S + (len + 1) ≤ S + 1024
    · have hfit' := (BootLoaderInfoTranslator_roundUp_le (by omega : (S + 1024) % 4 = 0)).mpr hfit
      rw [if_pos hfit]
      simp only []
      rw [if_neg (by omega), if_pos hfit']
      refine ⟨_, rfl, fun _ => ?_⟩
      obtain ⟨hag, hptr, hbytes⟩ := Memory_copy_then_point m
        (BootLoaderInfoTranslator_commandLinePlace mem R S) (Memory_read32 mem (R + 16))
        (len + 1) (S + 16) (by omega) (by omega) (by omega) (Or.inl (by omega))
      obtain ⟨hl', hn'⟩ := BootLoaderInfoTranslator_modules_carry hag (Or.inl (Nat.le_refl _))
        hS4 hSlt ht3 hl hn
      refine ⟨BootLoaderInfoTranslator_rootCopied_carry hag (Or.inl (by omega)) (by omega)
        (Or.inl rfl) hSlt hroot,
        BootLoaderInfoTranslator_memMapCopied_carry hag (Or.inl (by omega)) (Or.inl rfl) hSlt
          (by omega) hmm, hl', hn', ⟨?_, ?_⟩⟩
      · rw [if_pos hc]
        exact hptr
      · intro _ j hj
        rw [hstr] at hj
        rw [hbytes j hj]
        exact hroot.1 _ (by omega) (by simp only [s_mbInfoSpace_sizeof]; omega)
    · have hfit' : ¬ BootLoaderInfoTranslator_roundUp
          (BootLoaderInfoTranslator_commandLinePlace mem R S + (len + 1)) ≤ S + 1024 :=
        fun h => hfit ((BootLoaderInfoTranslator_roundUp_le (by omega)).mp h)
      rw [if_neg hfit]
      simp only []
      rw [if_neg hfit']
      exact ⟨_, rfl, fun h => absurd h (fun h => hfit' h)⟩
  · rw [if_neg (fun h => hc (hcond.mp h)), if_neg hc, if_pos ht3]
    refine ⟨_, rfl, fun _ => ?_⟩
    obtain ⟨hag, hptr⟩ := Memory_point_null m (S + 16) (by omega)
    obtain ⟨hl', hn'⟩ := BootLoaderInfoTranslator_modules_carry hag (Or.inr rfl)
      hS4 hSlt ht3 hl hn
    refine ⟨BootLoaderInfoTranslator_rootCopied_carry hag (Or.inr (Nat.le_refl _)) (by omega)
      (Or.inl rfl) hSlt hroot,
      BootLoaderInfoTranslator_memMapCopied_carry hag (Or.inr rfl) (Or.inl rfl) hSlt
        (by omega) hmm, hl', hn', ⟨?_, fun h => absurd h hc⟩⟩
    rw [if_neg hc]
    exact hptr

/-- The copy of the Multiboot structures whose source lies outside the
buffer: it ends, it succeeds exactly when the tail after all the copies lies
in the buffer, and then every copy is at its place. -/
theorem BootLoaderInfoTranslator_copyMultibootInfo_spec (S : Nat) (mem : Memory) (R : Nat)
    (hbuf : BootLoaderInfoTranslator_bufferOk S)
    (hsrc : BootLoaderInfoTranslator_sourceApart S mem R) :
    ∃ m : Memory,
      BootLoaderInfoTranslator_copyMultibootInfo S mem R =
        some (if BootLoaderInfoTranslator_tail mem R S ≤ S + 1024 then S else 0, m) ∧
      (BootLoaderInfoTranslator_tail mem R S ≤ S + 1024 →
        BootLoaderInfoTranslator_rootCopied S mem R m ∧
        BootLoaderInfoTranslator_memMapCopied S mem R m ∧
        BootLoaderInfoTranslator_moduleListCopied S mem R m ∧
        BootLoaderInfoTranslator_namesCopied S mem R m ∧
        BootLoaderInfoTranslator_commandLineCopied S mem R m) := by
  have hbuf' := hbuf
  obtain ⟨hS4, hS0, hSlt⟩ := hbuf
  simp only [s_mbInfoSpace_sizeof] at hSlt
  obtain ⟨hR, hMM, hMod, hCmd⟩ := hsrc
  simp only [MultibootInfo_layout.sizeof, MultibootInfo_layout.MMapAddr,
    MultibootInfo_layout.MMapLength, MultibootInfo_layout.ModsAddr,
    MultibootInfo_layout.ModsCount, MultibootInfo_layout.CommandLine,
    MBModuleInfo_layout.sizeof] at hR hMM hMod hCmd
  obtain ⟨c1, c2, c3, c4, c5, c6, c7, c8, c9⟩ :=
    BootLoaderInfoTranslator_places_chain mem R S hS4
  obtain ⟨hfr1, hb1⟩ := BootLoaderInfoTranslator_copy_root S mem R hbuf' hR
  have hroot1 : BootLoaderInfoTranslator_rootCopied S mem R
      (KMem_copy (KMem_set mem S 0 s_mbInfoSpace_sizeof) S R 96) :=
    ⟨hfr1, fun off h _ _ _ => hb1 off h⟩
  have hw : ∀ f, f + 4 ≤ 96 →
      Memory_read32 (KMem_copy (KMem_set mem S 0 s_mbInfoSpace_sizeof) S R 96) (S + f) =
        Memory_read32 mem (R + f) := fun f hf =>
    Memory_read32_congr _ _ _ _ fun k hk => by
      have := hb1 (f + k) (by omega)
      rwa [← Nat.add_assoc, ← Nat.add_assoc] at this
  have hru : BootLoaderInfoTranslator_roundUp (S + 96) = S + 96 := by
    unfold BootLoaderInfoTranslator_roundUp
    omega
  obtain ⟨m2, hrun2, hok2⟩ := BootLoaderInfoTranslator_copyMemMap_spec S mem R _ hbuf' hMM hroot1
    (hw 48 (by omega))
  have hle0 : S + 96 ≤ S + 1024 := by omega
  have hne0 : ¬ (S + 96 = 0) := by omega
  have hneS : ¬ (S = 0) := by omega
  unfold BootLoaderInfoTranslator_copyMultibootInfo
  simp only [MultibootInfo_layout.sizeof]
  rw [BootLoaderInfoTranslator_copyStructurePart_spec S _ S R 96 hSlt hS4 (Nat.le_refl _)
    (by omega) hS4]
  simp only [if_pos hle0, hru, if_neg hne0, hrun2]
  by_cases ht1 : BootLoaderInfoTranslator_moduleListPlace mem R S ≤ S + 1024
  · have hne1 : ¬ (BootLoaderInfoTranslator_moduleListPlace mem R S = 0) := by omega
    obtain ⟨hroot2, hmm2, hC2, hM2⟩ := hok2 ht1
    obtain ⟨m3, hrun3, hok3⟩ := BootLoaderInfoTranslator_copyModuleList_spec S mem R m2 hbuf'
      (fun hp => (hMod hp).1) ht1 hroot2 hmm2 (hM2.trans (hw 24 (by omega)))
    simp only [if_pos ht1, if_neg hne1, hrun3]
    by_cases ht2 : BootLoaderInfoTranslator_namesStart mem R S ≤ S + 1024
    · have hne2 : ¬ (BootLoaderInfoTranslator_namesStart mem R S = 0) := by omega
      obtain ⟨hroot3, hmm3, hC3, hM3, hrec3⟩ := hok3 ht2
      obtain ⟨m4, hrun4, hok4⟩ := BootLoaderInfoTranslator_copyNames_spec S mem R m3 hbuf'
        hMod ht2 hroot3 hmm3 hM3 hrec3
      simp only [if_pos ht2] at hrun4 ⊢
      simp only [if_neg hne2, hrun4]
      by_cases ht3 : BootLoaderInfoTranslator_commandLinePlace mem R S ≤ S + 1024
      · have hne3 : ¬ (BootLoaderInfoTranslator_commandLinePlace mem R S = 0) := by omega
        obtain ⟨hroot4, hmm4, hl4, hn4, hC4⟩ := hok4 ht3
        obtain ⟨m5, hrun5, hok5⟩ := BootLoaderInfoTranslator_copyCommandLine_spec S mem R m4
          hbuf' hCmd ht3 hroot4 hmm4 hl4 hn4
          (hC4.trans (hC3.trans (hC2.trans (hw 16 (by omega)))))
        simp only [if_pos ht3, if_neg hne3, hrun5]
        by_cases ht4 : BootLoaderInfoTranslator_tail mem R S ≤ S + 1024
        · have hne4 : ¬ (BootLoaderInfoTranslator_tail mem R S = 0) := by omega
          simp only [if_pos ht4, if_neg hne4]
          exact ⟨m5, rfl, fun _ => hok5 ht4⟩
        · simp only [if_neg ht4, if_true]
          exact ⟨m5, rfl, fun h => absurd h ht4⟩
      · have ht4 : ¬ BootLoaderInfoTranslator_tail mem R S ≤ S + 1024 := by omega
        simp only [if_neg ht3, if_neg ht4, if_true]
        exact ⟨m4, rfl, fun h => absurd h ht4⟩
    · have ht4 : ¬ BootLoaderInfoTranslator_tail mem R S ≤ S + 1024 := by omega
      simp only [if_neg ht2, if_neg ht4, if_true]
      exact ⟨m3, rfl, fun h => absurd h ht4⟩
  · have ht4 : ¬ BootLoaderInfoTranslator_tail mem R S ≤ S + 1024 := by omega
    simp only [if_neg ht1, if_neg ht4, if_true]
    exact ⟨m2, rfl, fun h => absurd h ht4⟩

/-- When the tail after all the copies lies in the buffer, the places of the
copies are multiples of four and follow one another in the buffer. -/
theorem BootLoaderInfoTranslator_layoutOk_of_tail (mem : Memory) (R S : Nat) (hS4 : S % 4 = 0)
    (ht : BootLoaderInfoTranslator_tail mem R S ≤ S + 1024) :
    BootLoaderInfoTranslator_layoutOk S mem R := by
  obtain ⟨c1, c2, c3, c4, c5, c6, c7, c8, c9⟩ :=
    BootLoaderInfoTranslator_places_chain mem R S hS4
  refine ⟨rfl, ?_, c2, c1, ?_, c7, c6, c3, c9, c8, ht⟩
  · intro hp
    rw [BootLoaderInfoTranslator_moduleListPlace_eq, if_pos hp]
    exact (BootLoaderInfoTranslator_roundUp_spec _).1
  · intro hp
    refine ⟨c5 hp, fun i hi => ?_⟩
    obtain ⟨b1, b2⟩ := BootLoaderInfoTranslator_namePlace_bounds mem R S i hp (by omega)
    obtain ⟨_, b4⟩ := BootLoaderInfoTranslator_namePlace_bounds mem R S (i + 1) hp (by omega)
    exact ⟨BootLoaderInfoTranslator_namePlace_aligned mem R S c4 i, b1,
      BootLoaderInfoTranslator_namePlace_le_succ mem R S i, b4,
      fun hms => BootLoaderInfoTranslator_namePlace_end mem R S i hms⟩

/-! ## `DisplayTextStream`: the buffer is transparent -/

theorem DisplayTextStream_init_wellFormed (kdisplay : KernelDisplay) :
    DisplayTextStream_wellFormed (DisplayTextStream_init kdisplay) := by
  refine ⟨List.length_replicate _ _, Nat.zero_le _, ?_⟩
  intro c hc
  simp [DisplayTextStream_pending, DisplayTextStream_init] at hc

/-- A flush sends the pending characters and empties the buffer. -/
theorem DisplayTextStream_flush_spec (s : DisplayTextStream) :
    (DisplayTextStream_flush s).m_kernelDisplay.received =
      s.m_kernelDisplay.received ++ DisplayTextStream_pending s ∧
    (DisplayTextStream_flush s).m_currentBufferIndex = 0 ∧
    (DisplayTextStream_flush s).m_buffer = s.m_buffer ∧
    DisplayTextStream_pending (DisplayTextStream_flush s) = [] := by
  refine ⟨rfl, rfl, rfl, ?_⟩
  simp [DisplayTextStream_pending, DisplayTextStream_flush]

/-- A tab, a new line or a null character flushes the buffer, then the tab
or the new line goes to the display. -/
theorem DisplayTextStream_write_control (s : DisplayTextStream) (c : Nat)
    (hc : c = 0 ∨ c = 9 ∨ c = 10) :
    (DisplayTextStream_write s c).m_kernelDisplay.received =
      s.m_kernelDisplay.received ++ DisplayTextStream_pending s ++
        (if c = 0 then [] else [c]) ∧
    (DisplayTextStream_write s c).m_currentBufferIndex = 0 ∧
    (DisplayTextStream_write s c).m_buffer = s.m_buffer ∧
    DisplayTextStream_pending (DisplayTextStream_write s c) = [] := by
  rcases hc with hc | hc | hc <;> subst hc <;>
    simp [DisplayTextStream_write, DisplayTextStream_flush, DisplayTextStream_pending,
      KernelDisplay_print, KernelDisplay_tab, KernelDisplay_newLine]

/-- Another character that finds the buffer full: the buffer is flushed
first, and the character is then the only one that waits. -/
theorem DisplayTextStream_write_full (s : DisplayTextStream) (c : Nat)
    (hc : c ≠ 0 ∧ c ≠ 9 ∧ c ≠ 10)
    (hbuf : s.m_buffer.length = DisplayTextStream_consts.BUFFER_SIZE)
    (hfull : s.m_currentBufferIndex = DisplayTextStream_consts.BUFFER_SIZE) :
    (DisplayTextStream_write s c).m_kernelDisplay =
      KernelDisplay_print s.m_kernelDisplay s.m_buffer DisplayTextStream_consts.BUFFER_SIZE ∧
    (DisplayTextStream_write s c).m_kernelDisplay.received =
      s.m_kernelDisplay.received ++ DisplayTextStream_pending s ∧
    (DisplayTextStream_write s c).m_currentBufferIndex = 1 ∧
    (DisplayTextStream_write s c).m_buffer.length = DisplayTextStream_consts.BUFFER_SIZE ∧
    DisplayTextStream_pending (DisplayTextStream_write s c) = [c] := by
  have hfull1 : s.m_currentBufferIndex = DisplayTextStream_consts.BUFFER_UPPER_BOUND := hfull
  unfold DisplayTextStream_write
  rw [if_neg hc.2.1, if_neg hc.2.2, if_neg hc.1]
  simp only [if_pos hfull1, DisplayTextStream_flush, DisplayTextStream_pending, List.length_set]
  refine ⟨by rw [hfull], by rw [hfull]; rfl, trivial, hbuf, ?_⟩
  have h := List_take_succ_set s.m_buffer 0 c (by rw [hbuf]; decide)
  simpa using h

/-- One write keeps the invariant, and what the display has received followed
by what waits in the buffer grows by the character written, unless it is the
null character. -/
theorem DisplayTextStream_write_step (s : DisplayTextStream) (c : Nat)
    (hs : DisplayTextStream_wellFormed s) :
    DisplayTextStream_wellFormed (DisplayTextStream_write s c) ∧
    (DisplayTextStream_write s c).m_kernelDisplay.received ++
        DisplayTextStream_pending (DisplayTextStream_write s c) =
      s.m_kernelDisplay.received ++ DisplayTextStream_pending s ++
        (if c = 0 then [] else [c]) := by
  obtain ⟨hbuf, hidx, hpend⟩ := hs
  by_cases hc : c = 0 ∨ c = 9 ∨ c = 10
  · obtain ⟨h1, h2, h3, h4⟩ := DisplayTextStream_write_control s c hc
    refine ⟨⟨by rw [h3]; exact hbuf, by rw [h2]; exact Nat.zero_le _, ?_⟩, ?_⟩
    · intro d hd
      rw [h4] at hd
      exact absurd hd (List.not_mem_nil d)
    · rw [h1, h4, List.append_nil]
  · have hc1 : c ≠ 0 ∧ c ≠ 9 ∧ c ≠ 10 := by
      refine ⟨fun h => hc (Or.inl h), fun h => hc (Or.inr (Or.inl h)),
        fun h => hc (Or.inr (Or.inr h))⟩
    rw [if_neg hc1.1]
    by_cases hfull : s.m_currentBufferIndex = DisplayTextStream_consts.BUFFER_SIZE
    · obtain ⟨_, h1, h2, h3, h4⟩ := DisplayTextStream_write_full s c hc1 hbuf hfull
      refine ⟨⟨h3, by rw [h2]; decide, ?_⟩, ?_⟩
      · intro d hd
        rw [h4, List.mem_singleton] at hd
        rw [hd]
        exact hc1
      · rw [h1, h4]
    · obtain ⟨h1, h2, h3, h4⟩ := DisplayTextStream_write_ordinary s c hc1 hbuf
        (Nat.lt_of_le_of_ne hidx hfull)
      refine ⟨⟨h3, by rw [h2]; exact Nat.lt_of_le_of_ne hidx hfull, ?_⟩, ?_⟩
      · intro d hd
        rw [h4, List.mem_append, List.mem_singleton] at hd
        rcases hd with hd | hd
        · exact hpend d hd
        · rw [hd]
          exact hc1
      · rw [h1, h4, List.append_assoc]

theorem DisplayTextStream_writeAll_cons (s : DisplayTextStream) (c : Nat) (cs : List Nat) :
    DisplayTextStream_writeAll s (c :: cs) =
      DisplayTextStream_writeAll (DisplayTextStream_write s c) cs := rfl

theorem DisplayTextStream_writeAll_append (s : DisplayTextStream) (xs ys : List Nat) :
    DisplayTextStream_writeAll s (xs ++ ys) =
      DisplayTextStream_writeAll (DisplayTextStream_writeAll s xs) ys := by
  unfold DisplayTextStream_writeAll
  rw [List.foldl_append]

theorem DisplayTextStream_writeAll_eq (s : DisplayTextStream) (cs : List Nat) :
    DisplayTextStream_writeAll s cs =
      (ITextStream_writeAll (DisplayTextStream_getTextStream s) cs).obj := by
  induction cs generalizing s with
  | nil => rfl
  | cons c cs ih =>
    rw [DisplayTextStream_writeAll_cons, ih, ITextStream_writeAll_cons]
    rfl

/-- Any sequence of writes keeps the invariant, and what the display has
received followed by what waits in the buffer grows by the characters written
other than null characters. -/
theorem DisplayTextStream_writeAll_spec (cs : List Nat) :
    ∀ s : DisplayTextStream, DisplayTextStream_wellFormed s →
      DisplayTextStream_wellFormed (DisplayTextStream_writeAll s cs) ∧
      (DisplayTextStream_writeAll s cs).m_kernelDisplay.received ++
          DisplayTextStream_pending (DisplayTextStream_writeAll s cs) =
        s.m_kernelDisplay.received ++ DisplayTextStream_pending s ++
          cs.filter (fun c => c != 0) := by
  induction cs with
  | nil =>
    intro s hs
    exact ⟨hs, by simp [DisplayTextStream_writeAll]⟩
  | cons c cs ih =>
    intro s hs
    obtain ⟨h1, h2⟩ := DisplayTextStream_write_step s c hs
    obtain ⟨i1, i2⟩ := ih (DisplayTextStream_write s c) h1
    rw [DisplayTextStream_writeAll_cons]
    refine ⟨i1, ?_⟩
    rw [i2, h2]
    by_cases hc : c = 0
    · subst hc
      simp
    · rw [if_neg hc, List.filter_cons_of_pos (by simpa using hc)]
      simp

/-- What the display is sent without buffering: the characters other than
null characters, added to what it had. -/
theorem KernelDisplay_unbuffered_received (cs : List Nat) :
    ∀ kdisplay : KernelDisplay,
      (KernelDisplay_unbuffered kdisplay cs).received =
        kdisplay.received ++ cs.filter (fun c => c != 0) := by
  induction cs with
  | nil => intro kdisplay; simp [KernelDisplay_unbuffered]
  | cons c cs ih =>
    intro kdisplay
    have hstep : KernelDisplay_unbuffered kdisplay (c :: cs) =
        KernelDisplay_unbuffered
          (if c = 9 then KernelDisplay_tab kdisplay
            else if c = 10 then KernelDisplay_newLine kdisplay
            else if c = 0 then kdisplay
            else KernelDisplay_print kdisplay [c] 1) cs := rfl
    rw [hstep, ih]
    by_cases h9 : c = 9
    · subst h9; simp [KernelDisplay_tab]
    by_cases h10 : c = 10
    · subst h10; simp [KernelDisplay_newLine]
    by_cases h0 : c = 0
    · subst h0; simp
    rw [if_neg h9, if_neg h10, if_neg h0, List.filter_cons_of_pos (by simpa using h0)]
    simp [KernelDisplay_print]

/-! ## `Processor`: lemmas -/

/-- The loop of `Processor_initDispatchTable` with `n` turns left from the
index `i`, when it runs to the end of the table: the entries from `i` on hold
the default handler, and the others are kept. -/
theorem Processor_initDispatchTableLoop_spec {τ : Type} (defaultHandler : IInterruptHandler τ)
    (n : Nat) :
    ∀ (i : Nat) (processor : Processor τ), i + n = Processor_consts.NUM_IDT_ENTRIES →
      (∀ w : Fin Processor_consts.NUM_IDT_ENTRIES,
        (Processor_initDispatchTableLoop defaultHandler n i processor).m_dispatchTable w =
          if i ≤ w.val then defaultHandler else processor.m_dispatchTable w) ∧
      (Processor_initDispatchTableLoop defaultHandler n i processor).m_tss_ESP0 =
        processor.m_tss_ESP0 := by
  induction n with
  | zero =>
    intro i processor hi
    refine ⟨fun w => ?_, rfl⟩
    have hw := w.isLt
    rw [if_neg (by omega)]
    rfl
  | succ n ih =>
    intro i processor hi
    have hlt : i < Processor_consts.NUM_IDT_ENTRIES := by omega
    rw [Processor_initDispatchTableLoop, dif_pos hlt]
    obtain ⟨h1, h2⟩ := ih (i + 1)
      { processor with
        m_dispatchTable := Function.update processor.m_dispatchTable ⟨i, hlt⟩ defaultHandler }
      (by omega)
    refine ⟨fun w => ?_, h2⟩
    rw [h1 w]
    by_cases hw : w = ⟨i, hlt⟩
    · subst hw
      simp
    · have hne : w.val ≠ i := fun h => hw (Fin.ext h)
      simp only [Function.update_noteq hw]
      by_cases hle : i + 1 ≤ w.val
      · rw [if_pos hle, if_pos (by omega)]
      · rw [if_neg hle, if_neg (by omega)]

/-- Registration of a handler for a vector of the table changes the entry of
that vector only. -/
theorem Processor_registerHandler_spec {τ : Type} (processor : Processor τ)
    (handler : IInterruptHandler τ) (intrVector : Nat)
    (h : intrVector < Processor_consts.NUM_IDT_ENTRIES) :
    ∃ processor1, Processor_registerHandler processor handler intrVector = some processor1 ∧
      processor1.m_dispatchTable ⟨intrVector, h⟩ = handler ∧
      (∀ w : Fin Processor_consts.NUM_IDT_ENTRIES, w.val ≠ intrVector →
        processor1.m_dispatchTable w = processor.m_dispatchTable w) ∧
      processor1.m_tss_ESP0 = processor.m_tss_ESP0 := by
  refine ⟨_, dif_pos h, ?_, ?_, rfl⟩
  · simp
  · intro w hw
    exact Function.update_noteq (fun e => hw (by rw [e])) _ _

/-- Registration of a handler for each vector of a list of vectors of the
table: the entries of these vectors hold the handler, the others are kept. -/
theorem Processor_registerHandlers_spec {τ : Type} (handler : IInterruptHandler τ)
    (vectors : List Nat) :
    ∀ processor : Processor τ, (∀ v ∈ vectors, v < Processor_consts.NUM_IDT_ENTRIES) →
      ∃ processor1, Processor_registerHandlers handler vectors processor = some processor1 ∧
        (∀ w : Fin Processor_consts.NUM_IDT_ENTRIES, processor1.m_dispatchTable w =
          if w.val ∈ vectors then handler else processor.m_dispatchTable w) ∧
        processor1.m_tss_ESP0 = processor.m_tss_ESP0 := by
  induction vectors with
  | nil =>
    intro processor _
    exact ⟨processor, rfl, fun w => by simp, rfl⟩
  | cons v vectors ih =>
    intro processor hv
    have hlt := hv v (List.mem_cons_self _ _)
    obtain ⟨p1, e1, a1, b1, c1⟩ := Processor_registerHandler_spec processor handler v hlt
    obtain ⟨p2, e2, a2, c2⟩ := ih p1 (fun u hu => hv u (List.mem_cons_of_mem _ hu))
    refine ⟨p2, ?_, ?_, c2.trans c1⟩
    · rw [Processor_registerHandlers, e1]
      exact e2
    · intro w
      rw [a2 w]
      by_cases hmem : w.val ∈ vectors
      · rw [if_pos hmem, if_pos (List.mem_cons_of_mem _ hmem)]
      · rw [if_neg hmem]
        by_cases hwv : w.val = v
        · rw [if_pos (by rw [hwv]; exact List.mem_cons_self _ _)]
          have hw : w = ⟨v, hlt⟩ := Fin.ext hwv
          rw [hw]
          exact a1
        · rw [if_neg (by
            intro hc
            rcases List.mem_cons.mp hc with hc | hc
            · exact hwv hc
            · exact hmem hc)]
          exact b1 w hwv

/-- The dispatch table once the processor and the two dispatchers are
initialized. -/
theorem Processor_afterInit_spec (s_instance : Nat)
    (processor : Processor IInterruptHandler_itable) :
    ∃ processor1, Processor_afterInit s_instance processor = some processor1 ∧
      (∀ w : Fin Processor_consts.NUM_IDT_ENTRIES,
        processor1.m_dispatchTable w = Processor_expectedHandler s_instance w.val) ∧
      processor1.m_tss_ESP0 = processor.m_tss_ESP0 := by
  obtain ⟨i1, i2⟩ := Processor_initDispatchTableLoop_spec DefaultHandler_getHandler
    Processor_consts.NUM_IDT_ENTRIES 0 processor (Nat.zero_add _)
  obtain ⟨p1, e1, a1, c1⟩ := Processor_registerHandlers_spec
    ExceptionDispatcher.deliverableHandler ExceptionDispatcher.deliverableVectors
    (Processor_initDispatchTable processor) (by decide)
  obtain ⟨p2, e2, a2, c2⟩ := Processor_registerHandlers_spec
    ExceptionDispatcher.unrecoverableHandler ExceptionDispatcher.unrecoverableVectors
    p1 (by decide)
  obtain ⟨p3, e3, a3, c3⟩ := Processor_registerHandlers_spec
    (InterruptDispatcher.deliverableHandler s_instance) InterruptDispatcher.deliverableVectors
    p2 (by decide)
  obtain ⟨p4, e4, a4, b4, c4⟩ := Processor_registerHandler_spec p3
    (InterruptDispatcher.timerHandler s_instance) InterruptDispatcher.INT_HW_IRQ0 (by decide)
  refine ⟨p4, ?_, ?_, ?_⟩
  · unfold Processor_afterInit ExceptionDispatcher_initForCurrentProcessor
      InterruptDispatcher_initForCurrentProcessor
    simp only [e1, e2, e3, e4]
  · intro w
    have hinit : ∀ u : Fin Processor_consts.NUM_IDT_ENTRIES,
        (Processor_initDispatchTable processor).m_dispatchTable u = DefaultHandler_getHandler := by
      intro u
      have h := i1 u
      rw [if_pos (Nat.zero_le _)] at h
      exact h
    by_cases h32 : w.val = InterruptDispatcher.INT_HW_IRQ0
    · have hw : w = ⟨InterruptDispatcher.INT_HW_IRQ0, by decide⟩ := Fin.ext h32
      rw [hw, a4]
      rfl
    · rw [b4 w h32, a3 w, a2 w, a1 w, hinit w]
      have hlt := w.isLt
      simp only [InterruptDispatcher.INT_HW_IRQ0] at h32
      generalize w.val = v at hlt h32
      simp only [Processor_consts.NUM_IDT_ENTRIES] at hlt
      interval_cases v <;> first | exact absurd rfl h32 | rfl
  · rw [c4, c3, c2, c1]
    exact i2

/-! ## `KShutdown`: lemmas -/

theorem uintptrOfInt_neg_one : uintptrOfInt (-1) = 4294967295 := by decide

theorem uintptrOfInt_lt (x : Int) : uintptrOfInt x < 4294967296 := by
  unfold uintptrOfInt
  omega

theorem uintptrOfInt_processorID {p : Int} (hp : KShutdown_isProcessorID p) :
    uintptrOfInt p ≠ 4294967295 := by
  obtain ⟨h1, h2, h3⟩ := hp
  unfold uintptrOfInt
  omega

theorem signedOfWord_uintptrOfInt {p : Int} (h1 : -2147483648 ≤ p) (h2 : p < 2147483648) :
    signedOfWord 32 (uintptrOfInt p) = p := by
  unfold signedOfWord uintptrOfInt
  have hpow : (2 : Nat) ^ 32 = 4294967296 := by norm_num
  have hpow1 : (2 : Nat) ^ (32 - 1) = 2147483648 := by norm_num
  rw [hpow, hpow1]
  split_ifs with h
  · simp only [Int.ofNat_eq_coe]
    omega
  · simp only [Int.ofNat_eq_coe]
    omega

theorem signedOfWord_neg_one_iff {w : Nat} (hw : w < 4294967296) :
    signedOfWord 32 w = -1 ↔ w = 4294967295 := by
  unfold signedOfWord
  have hpow : (2 : Nat) ^ 32 = 4294967296 := by norm_num
  have hpow1 : (2 : Nat) ^ (32 - 1) = 2147483648 := by norm_num
  rw [hpow, hpow1]
  split_ifs with h
  · refine ⟨False.elim, fun h2 => ?_⟩
    omega
  · simp only [Int.ofNat_eq_coe]
    omega

/-- In shutdown mode the field of the initiator is not the word of -1. -/
theorem KShutdown_isInShutdownMode_ne {kshutdown : KShutdown}
    (h : KShutdown_isInShutdownMode kshutdown = true) :
    kshutdown.m_shutdownProcessorID ≠ 4294967295 := by
  intro hc
  unfold KShutdown_isInShutdownMode Atomic_read at h
  rw [hc] at h
  exact absurd h (by decide)

theorem KShutdown_isInShutdownMode_iff {kshutdown : KShutdown}
    (hw : kshutdown.m_shutdownProcessorID < 4294967296) :
    KShutdown_isInShutdownMode kshutdown = true ↔
      kshutdown.m_shutdownProcessorID ≠ 4294967295 := by
  show (signedOfWord 32 kshutdown.m_shutdownProcessorID != -1) = true ↔ _
  rw [bne_iff_ne, Ne, signedOfWord_neg_one_iff hw]

/-- A step other than the compare-and-swap leaves the `KShutdown` object as
it is. -/
theorem KShutdown_step_object (p : Int) (kshutdown : KShutdown) (pc : KShutdown_pc)
    (hpc : ∀ entry, pc ≠ KShutdown_pc.initiate_compareAndSwap entry) :
    (KShutdown_step p kshutdown pc).1 = kshutdown := by
  cases pc with
  | initiate_compareAndSwap entry => exact absurd rfl (hpc entry)
  | doReboot_write i d =>
    show (if i < d then _ else _ : KShutdown × KShutdown_pc × List KShutdown_Event).1 = _
    split_ifs <;> rfl
  | _ => rfl

/-- The compare-and-swap of the processor `p` on an object whose initiator
field is -1: the field becomes the ID of `p`, and `p` goes on. -/
theorem KShutdown_step_swap (p : Int) (kshutdown : KShutdown) (entry : KShutdown_Entry)
    (h : kshutdown.m_shutdownProcessorID = 4294967295) :
    KShutdown_step p kshutdown (KShutdown_pc.initiate_compareAndSwap entry) =
      ({ kshutdown with m_shutdownProcessorID := uintptrOfInt p },
        KShutdown_pc.initiate_haltAllOtherProcessors entry, []) := by
  simp [KShutdown_step, Atomic_compareAndSwap, h, uintptrOfInt_neg_one]

/-- The compare-and-swap on an object whose initiator field is not -1: the
object is left as it is, and the processor goes to the read. -/
theorem KShutdown_step_noswap (p : Int) (kshutdown : KShutdown) (entry : KShutdown_Entry)
    (h : kshutdown.m_shutdownProcessorID ≠ 4294967295) :
    KShutdown_step p kshutdown (KShutdown_pc.initiate_compareAndSwap entry) =
      (kshutdown, KShutdown_pc.initiate_read entry, []) := by
  simp [KShutdown_step, Atomic_compareAndSwap, h, uintptrOfInt_neg_one]

/-- What one step does to the fields of the `KShutdown` object: the two
configuration fields are kept, and the initiator field is kept or goes from
-1 to the ID of the processor, at the compare-and-swap. -/
theorem KShutdown_step_fields (p : Int) (kshutdown : KShutdown) (pc : KShutdown_pc) :
    (KShutdown_step p kshutdown pc).1.m_rebootOnFail = kshutdown.m_rebootOnFail ∧
    (KShutdown_step p kshutdown pc).1.m_rebootDelayInMilliseconds =
      kshutdown.m_rebootDelayInMilliseconds ∧
    ((KShutdown_step p kshutdown pc).1.m_shutdownProcessorID =
        kshutdown.m_shutdownProcessorID ∨
      ((∃ entry, pc = KShutdown_pc.initiate_compareAndSwap entry) ∧
        kshutdown.m_shutdownProcessorID = 4294967295 ∧
        (KShutdown_step p kshutdown pc).1.m_shutdownProcessorID = uintptrOfInt p)) := by
  by_cases hpc : ∀ entry, pc ≠ KShutdown_pc.initiate_compareAndSwap entry
  · rw [KShutdown_step_object p kshutdown pc hpc]
    exact ⟨rfl, rfl, Or.inl rfl⟩
  · obtain ⟨entry, he⟩ : ∃ entry, pc = KShutdown_pc.initiate_compareAndSwap entry := by
      by_contra hcon
      exact hpc (fun entry he => hcon ⟨entry, he⟩)
    subst he
    by_cases h : kshutdown.m_shutdownProcessorID = 4294967295
    · rw [KShutdown_step_swap p kshutdown entry h]
      exact ⟨rfl, rfl, Or.inr ⟨⟨entry, rfl⟩, h, rfl⟩⟩
    · rw [KShutdown_step_noswap p kshutdown entry h]
      exact ⟨rfl, rfl, Or.inl rfl⟩

/-- What one action does to the initiator field: it is kept, or it goes from
-1 to the ID of the processor that acts, which is then at its
compare-and-swap and takes a step. -/
theorem KShutdown_System_act_field (sys : KShutdown_System) (action : Int × KShutdown_Action) :
    (KShutdown_System_act sys action).s_instance.m_shutdownProcessorID =
        sys.s_instance.m_shutdownProcessorID ∨
      (action.2 = KShutdown_Action.step ∧
        (∃ entry, sys.pc action.1 = KShutdown_pc.initiate_compareAndSwap entry) ∧
        sys.s_instance.m_shutdownProcessorID = 4294967295 ∧
        (KShutdown_System_act sys action).s_instance.m_shutdownProcessorID =
          uintptrOfInt action.1) := by
  obtain ⟨p, act⟩ := action
  unfold KShutdown_System_act
  by_cases hs : sys.pc p = KShutdown_pc.stopped
  · rw [if_pos hs]
    exact Or.inl rfl
  · rw [if_neg hs]
    cases act with
    | step =>
      rcases (KShutdown_step_fields p sys.s_instance (sys.pc p)).2.2 with h | ⟨h1, h2, h3⟩
      · exact Or.inl h
      · exact Or.inr ⟨rfl, h1, h2, h3⟩
    | _ => exact Or.inl rfl

theorem KShutdown_System_run_append (sys : KShutdown_System)
    (xs ys : List (Int × KShutdown_Action)) :
    KShutdown_System_run sys (xs ++ ys) =
      KShutdown_System_run (KShutdown_System_run sys xs) ys := by
  unfold KShutdown_System_run
  rw [List.foldl_append]

theorem KShutdown_System_run_snoc (sys : KShutdown_System)
    (xs : List (Int × KShutdown_Action)) (action : Int × KShutdown_Action) :
    KShutdown_System_run sys (xs ++ [action]) =
      KShutdown_System_act (KShutdown_System_run sys xs) action := by
  rw [KShutdown_System_run_append]
  rfl

/-- Shutdown mode is kept by every sequence of actions, from every state of
the system. -/
theorem KShutdown_System_run_monotonic (actions : List (Int × KShutdown_Action)) :
    ∀ sys : KShutdown_System, KShutdown_isInShutdownMode sys.s_instance = true →
      KShutdown_isInShutdownMode (KShutdown_System_run sys actions).s_instance = true ∧
      (KShutdown_System_run sys actions).s_instance.m_shutdownProcessorID =
        sys.s_instance.m_shutdownProcessorID := by
  induction actions with
  | nil => intro sys h; exact ⟨h, rfl⟩
  | cons action actions ih =>
    intro sys h
    have hne := KShutdown_isInShutdownMode_ne h
    have hkeep : (KShutdown_System_act sys action).s_instance.m_shutdownProcessorID =
        sys.s_instance.m_shutdownProcessorID := by
      rcases KShutdown_System_act_field sys action with h1 | ⟨_, _, h2, _⟩
      · exact h1
      · exact absurd h2 hne
    have hmode : KShutdown_isInShutdownMode (KShutdown_System_act sys action).s_instance =
        true := by
      unfold KShutdown_isInShutdownMode Atomic_read at h ⊢
      rw [hkeep]
      exact h
    obtain ⟨i1, i2⟩ := ih (KShutdown_System_act sys action) hmode
    exact ⟨i1, i2.trans hkeep⟩

/-- The initiator field is a 32-bit word in every state that the system
reaches. -/
theorem KShutdown_System_run_word (actions : List (Int × KShutdown_Action)) :
    ∀ sys : KShutdown_System, sys.s_instance.m_shutdownProcessorID < 4294967296 →
      (KShutdown_System_run sys actions).s_instance.m_shutdownProcessorID < 4294967296 := by
  induction actions with
  | nil => intro sys h; exact h
  | cons action actions ih =>
    intro sys h
    refine ih (KShutdown_System_act sys action) ?_
    rcases KShutdown_System_act_field sys action with h1 | ⟨_, _, _, h2⟩
    · rw [h1]; exact h
    · rw [h2]; exact uintptrOfInt_lt _

/-! ## `KShutdown`: one processor alone -/

/-- A processor that enters a shutdown function and takes its first step on
the object of `KShutdown_init` puts its ID in the initiator field. -/
theorem KShutdown_System_first_swap (p : Int) (entry : KShutdown_Entry) :
    (KShutdown_System_run KShutdown_System_init
        [(p, KShutdown_Action.enter entry), (p, KShutdown_Action.step)]).s_instance =
      { KShutdown_init with m_shutdownProcessorID := uintptrOfInt p } ∧
    (KShutdown_System_run KShutdown_System_init
        [(p, KShutdown_Action.enter entry), (p, KShutdown_Action.step)]).pc p =
      KShutdown_pc.initiate_haltAllOtherProcessors entry := by
  have h1 : KShutdown_System_act KShutdown_System_init (p, KShutdown_Action.enter entry) =
      { KShutdown_System_init with
        pc := Function.update KShutdown_System_init.pc p
          (KShutdown_pc.initiate_compareAndSwap entry) } := by
    unfold KShutdown_System_act
    rw [if_neg (by simp [KShutdown_System_init])]
  have h2 : KShutdown_System_run KShutdown_System_init
      [(p, KShutdown_Action.enter entry), (p, KShutdown_Action.step)] =
      KShutdown_System_act
        (KShutdown_System_act KShutdown_System_init (p, KShutdown_Action.enter entry))
        (p, KShutdown_Action.step) := rfl
  rw [h2, h1]
  unfold KShutdown_System_act
  simp only [Function.update_same]
  rw [if_neg (by simp)]
  simp only [KShutdown_step_swap p KShutdown_System_init.s_instance entry rfl,
    Function.update_same]
  exact ⟨rfl, trivial⟩

theorem KShutdown_solo_zero (p : Int) (kshutdown : KShutdown) (pc : KShutdown_pc)
    (events : List KShutdown_Event) :
    KShutdown_solo p 0 kshutdown pc events = (kshutdown, pc, events) := rfl

theorem KShutdown_solo_succ (p : Int) (n : Nat) (kshutdown : KShutdown) (pc : KShutdown_pc)
    (events : List KShutdown_Event) :
    KShutdown_solo p (n + 1) kshutdown pc events =
      KShutdown_solo p n (KShutdown_step p kshutdown pc).1 (KShutdown_step p kshutdown pc).2.1
        (events ++ (KShutdown_step p kshutdown pc).2.2) := rfl

/-- One more step at the end of a run of a processor alone. -/
theorem KShutdown_solo_last (p : Int) (n : Nat) :
    ∀ (kshutdown : KShutdown) (pc : KShutdown_pc) (events : List KShutdown_Event),
      KShutdown_solo p (n + 1) kshutdown pc events =
        ((KShutdown_step p (KShutdown_solo p n kshutdown pc events).1
            (KShutdown_solo p n kshutdown pc events).2.1).1,
          (KShutdown_step p (KShutdown_solo p n kshutdown pc events).1
            (KShutdown_solo p n kshutdown pc events).2.1).2.1,
          (KShutdown_solo p n kshutdown pc events).2.2 ++
            (KShutdown_step p (KShutdown_solo p n kshutdown pc events).1
              (KShutdown_solo p n kshutdown pc events).2.1).2.2) := by
  induction n with
  | zero => intro kshutdown pc events; rfl
  | succ n ih =>
    intro kshutdown pc events
    rw [KShutdown_solo_succ, ih, ← KShutdown_solo_succ]

/-- A processor in the loop that waits for interrupts stays there, and does
nothing but wait. -/
theorem KShutdown_solo_wait (p : Int) (kshutdown : KShutdown) (n : Nat) :
    ∀ events : List KShutdown_Event,
      KShutdown_solo p n kshutdown KShutdown_pc.initiate_waitForInterrupt events =
        (kshutdown, KShutdown_pc.initiate_waitForInterrupt,
          events ++ List.replicate n KShutdown_Event.Processor_waitForInterrupt) := by
  induction n with
  | zero => intro events; simp [KShutdown_solo]
  | succ n ih =>
    intro events
    rw [KShutdown_solo_succ]
    simp only [KShutdown_step]
    rw [ih, List.append_assoc, List.replicate_succ]
    rfl

/-- A stopped processor does nothing more. -/
theorem KShutdown_solo_stopped (p : Int) (kshutdown : KShutdown) (n : Nat) :
    ∀ events : List KShutdown_Event,
      KShutdown_solo p n kshutdown KShutdown_pc.stopped events =
        (kshutdown, KShutdown_pc.stopped, events) := by
  induction n with
  | zero => intro events; rfl
  | succ n ih =>
    intro events
    rw [KShutdown_solo_succ]
    simp only [KShutdown_step]
    rw [ih, List.append_nil]

/-- The processor whose compare-and-swap finds the field -1: the field takes
its ID, it asks the other processors to halt, resets the display, and is then
at the first point after `KShutdown_initiateShutdownMode`. -/
theorem KShutdown_solo_initiator (p : Int) (kshutdown : KShutdown) (entry : KShutdown_Entry)
    (h : kshutdown.m_shutdownProcessorID = 4294967295) :
    KShutdown_solo p 3 kshutdown (KShutdown_pc.initiate_compareAndSwap entry) [] =
      ({ kshutdown with m_shutdownProcessorID := uintptrOfInt p },
        KShutdown_afterInitiate entry,
        [KShutdown_Event.ShutdownHardware_haltAllOtherProcessors,
          KShutdown_Event.DisplayTextStream_reset]) := by
  rw [KShutdown_solo_succ, KShutdown_step_swap p kshutdown entry h]
  rfl

/-- The processor whose compare-and-swap finds its own ID in the field: the
object is left as it is, the system is hard reset, and nothing else
happens. -/
theorem KShutdown_solo_reentry (p : Int) (kshutdown : KShutdown) (entry : KShutdown_Entry)
    (n : Nat) (h : kshutdown.m_shutdownProcessorID ≠ 4294967295)
    (hp : signedOfWord 32 kshutdown.m_shutdownProcessorID = p) :
    KShutdown_solo p (n + 3) kshutdown (KShutdown_pc.initiate_compareAndSwap entry) [] =
      (kshutdown, KShutdown_pc.stopped, [KShutdown_Event.Processor_hardReset]) := by
  rw [KShutdown_solo_succ, KShutdown_step_noswap p kshutdown entry h, KShutdown_solo_succ]
  have hread : KShutdown_step p kshutdown (KShutdown_pc.initiate_read entry) =
      (kshutdown, KShutdown_pc.initiate_hardReset, []) := by
    simp [KShutdown_step, Atomic_read, hp]
  rw [hread, KShutdown_solo_succ]
  simp only [KShutdown_step, List.append_nil, List.nil_append]
  exact KShutdown_solo_stopped p kshutdown n _

/-- The processor whose compare-and-swap finds the ID of another processor
in the field: the object is left as it is, and the processor waits for
interrupts for ever. -/
theorem KShutdown_solo_waiter (p : Int) (kshutdown : KShutdown) (entry : KShutdown_Entry)
    (n : Nat) (h : kshutdown.m_shutdownProcessorID ≠ 4294967295)
    (hp : signedOfWord 32 kshutdown.m_shutdownProcessorID ≠ p) :
    KShutdown_solo p (n + 2) kshutdown (KShutdown_pc.initiate_compareAndSwap entry) [] =
      (kshutdown, KShutdown_pc.initiate_waitForInterrupt,
        List.replicate n KShutdown_Event.Processor_waitForInterrupt) := by
  rw [KShutdown_solo_succ, KShutdown_step_noswap p kshutdown entry h, KShutdown_solo_succ]
  have hread : KShutdown_step p kshutdown (KShutdown_pc.initiate_read entry) =
      (kshutdown, KShutdown_pc.initiate_waitForInterrupt, []) := by
    have hne : ¬ p = signedOfWord 32 kshutdown.m_shutdownProcessorID := fun e => hp e.symm
    simp [KShutdown_step, Atomic_read, hne]
  rw [hread]
  simp only [List.append_nil]
  rw [KShutdown_solo_wait]
  rfl

/-- In the source every caller of the shutdown functions has the ID that
`Processor_getID` returns. Once a caller has initiated shutdown mode, so that
the field holds that ID, every caller that enters a shutdown function finds
its own ID in the field: the system is hard reset, and the loop that waits
for interrupts is not entered. -/
theorem KShutdown_solo_entry_after_initiation {τ : Type} (processor : Processor τ)
    (kshutdown : KShutdown) (entry : KShutdown_Entry) (n : Nat)
    (h : kshutdown.m_shutdownProcessorID = uintptrOfInt (Processor_getID processor)) :
    KShutdown_solo (Processor_getID processor) (n + 3) kshutdown
        (KShutdown_pc.initiate_compareAndSwap entry) [] =
      (kshutdown, KShutdown_pc.stopped, [KShutdown_Event.Processor_hardReset]) := by
  have h0 : kshutdown.m_shutdownProcessorID = 0 := by
    rw [h]
    rfl
  exact KShutdown_solo_reentry _ kshutdown entry n (by rw [h0]; decide) (by rw [h0]; rfl)

/-! ## The bitmap of a window, frame by frame -/

/-- A bitmap whose bits are those of the available frames, read through the
index functions of the bitmap allocator. -/
theorem PmmWatermarkAllocator_marksAvailable_of_bits {B : Nat} {alloc : PmmBitmapAllocator}
    (hwin : WinAlloc B alloc) (ram reserved modules : List PmmRegion)
    (hbits : ∀ w j, w < 128 → j < 32 → bitAt alloc.m_bitmap w j =
      frameAvailable ram (reserved ++ modules) (winAddr B w j)) :
    PmmWatermarkAllocator_marksAvailable alloc B ram reserved modules := by
  intro f ha hlo hhi
  simp only [PAGE_SIZE] at ha
  simp only [REGION_SIZE_IN_BYTES, NUM_BLOCKS, BITS_PER_BLOCK, BITS_PER_BYTE, PAGE_SIZE] at hhi
  obtain ⟨hi, hiff⟩ := WinAlloc_index hwin ha hlo (by omega)
  have hj : PmmBitmapAllocator_getBitInBlockForFrameNumber (MM_getFrameNumber f) < 32 := by
    rw [getBitInBlock_eq]
    omega
  have haddr := (hiff _ _ hj).mp ⟨rfl, rfl⟩
  rw [hwin.2.1] at hi
  have hb := hbits _ _ hi hj
  rw [haddr] at hb
  rw [KMem_isBitSet_eq_testBit _ hj]
  unfold bitAt at hb
  rw [hb, frameAvailable_iff]
  constructor
  · rintro ⟨h1, h2, h3⟩
    exact ⟨h1, h2, fun r hr => h3 r (List.mem_append_left _ hr),
      fun r hr => h3 r (List.mem_append_right _ hr)⟩
  · rintro ⟨h1, h2, h3, h4⟩
    refine ⟨h1, h2, fun r hr => ?_⟩
    rcases List.mem_append.mp hr with hr | hr
    · exact h3 r hr
    · exact h4 r hr

/-! ## The walk over the frames of a region -/

/-- The loop of `PmmWatermarkAllocator_freeRegion` frees, in order, the
frames that the walk goes through. -/
theorem PmmWatermarkAllocator_freeRegionLoop_walk (region : PmmRegion) (fuel : Nat) :
    ∀ (frameRegion : PmmRegion) (alloc : PmmBitmapAllocator),
      PmmWatermarkAllocator_freeRegionLoop region fuel frameRegion alloc =
        (PmmWatermarkAllocator_frameWalk region fuel frameRegion).map
          (fun frames => frames.foldl PmmWatermarkAllocator_freeFrame alloc) := by
  induction fuel with
  | zero => intro frameRegion alloc; rfl
  | succ fuel ih =>
    intro frameRegion alloc
    unfold PmmWatermarkAllocator_freeRegionLoop PmmWatermarkAllocator_frameWalk
    simp only []
    rcases hadv : PmmRegion_advance frameRegion with ⟨moved, frameRegion1⟩
    cases moved with
    | false => rfl
    | true =>
      simp only []
      by_cases hb : (!PmmRegion_below region (PmmRegion_base frameRegion1)) = true
      · rw [if_pos hb, if_pos hb, ih, Option.map_map]
        rfl
      · rw [if_neg hb, if_neg hb]
        rfl

/-- The loop of `PmmWatermarkAllocator_allocateRegion` allocates, in order,
the frames that the walk goes through. -/
theorem PmmWatermarkAllocator_allocateRegionLoop_walk (region : PmmRegion) (fuel : Nat) :
    ∀ (frameRegion : PmmRegion) (alloc : PmmBitmapAllocator),
      PmmWatermarkAllocator_allocateRegionLoop region fuel frameRegion alloc =
        (PmmWatermarkAllocator_frameWalk region fuel frameRegion).map
          (fun frames => frames.foldl PmmWatermarkAllocator_allocateFrame alloc) := by
  induction fuel with
  | zero => intro frameRegion alloc; rfl
  | succ fuel ih =>
    intro frameRegion alloc
    unfold PmmWatermarkAllocator_allocateRegionLoop PmmWatermarkAllocator_frameWalk
    simp only []
    rcases hadv : PmmRegion_advance frameRegion with ⟨moved, frameRegion1⟩
    cases moved with
    | false => rfl
    | true =>
      simp only []
      by_cases hb : (!PmmRegion_below region (PmmRegion_base frameRegion1)) = true
      · rw [if_pos hb, if_pos hb, ih, Option.map_map]
        rfl
      · rw [if_neg hb, if_neg hb]
        rfl

/-- The walk from the page-aligned address `f` through a region that ends at
the end of a page: one turn for each frame from `f` to the end of the region,
in increasing order. -/
theorem PmmWatermarkAllocator_frameWalk_eq (region : PmmRegion)
    (hl : region.m_last % 4096 = 4095) (hlw : region.m_last < 4294967296) :
    ∀ (fuel f : Nat), f % 4096 = 0 → f ≤ region.m_last →
      (region.m_last + 1 - f) / 4096 ≤ fuel →
      PmmWatermarkAllocator_frameWalk region fuel ⟨f, f + 4095⟩ =
        some (List.range' f ((region.m_last + 1 - f) / 4096) 4096) := by
  intro fuel
  induction fuel with
  | zero =>
    intro f ha hfl hfuel
    omega
  | succ fuel ih =>
    intro f ha hfl hfuel
    unfold PmmWatermarkAllocator_frameWalk
    simp only [PmmRegion_base]
    rw [PmmRegion_advance_frame (by omega) ha]
    by_cases htop : f + 4095 = 4294967295
    · rw [if_pos htop]
      have hn : (region.m_last + 1 - f) / 4096 = 1 := by omega
      rw [hn]
      rfl
    · rw [if_neg htop]
      simp only [PmmRegion_below]
      by_cases hdone : region.m_last < f + 4096
      · simp only [hdone, decide_True, Bool.not_true, Bool.false_eq_true, if_false]
        have hn : (region.m_last + 1 - f) / 4096 = 1 := by omega
        rw [hn]
        rfl
      · simp only [hdone, decide_False, Bool.not_false, if_true]
        rw [ih (f + 4096) (by omega) (by omega) (by omega)]
        have hn : (region.m_last + 1 - f) / 4096 =
            (region.m_last + 1 - (f + 4096)) / 4096 + 1 := by omega
        rw [hn, List.range'_succ]
        rfl

/-- The frames of a walk: each page-aligned address from `f` to the end of
the region, once. -/
theorem PmmWatermarkAllocator_frameWalk_frames {f last : Nat} (ha : f % 4096 = 0)
    (hl : last % 4096 = 4095) (hfl : f ≤ last) :
    (List.range' f ((last + 1 - f) / 4096) 4096).Nodup ∧
    (∀ a : Nat, a ∈ List.range' f ((last + 1 - f) / 4096) 4096 ↔
      a % 4096 = 0 ∧ f ≤ a ∧ a ≤ last) ∧
    (List.range' f ((last + 1 - f) / 4096) 4096).getLast? = some (last - 4095) := by
  refine ⟨List.nodup_range' f _ 4096 (by decide), ?_, ?_⟩
  · intro a
    rw [List.mem_range']
    constructor
    · rintro ⟨i, hi, rfl⟩
      omega
    · rintro ⟨h1, h2, h3⟩
      exact ⟨(a - f) / 4096, by omega, by omega⟩
  · have hn : (last + 1 - f) / 4096 = (last - 4095 - f) / 4096 + 1 := by omega
    have hlast : f + 4096 * ((last - 4095 - f) / 4096) = last - 4095 := by omega
    rw [hn, List.range'_concat, List.getLast?_concat, hlast]

theorem PmmWatermarkAllocator_window_eq (k : Nat) :
    PmmWatermarkAllocator_window k = ⟨k * 16777216, k * 16777216 + 16777215⟩ := by
  unfold PmmWatermarkAllocator_window
  simp only [REGION_SIZE_IN_BYTES, NUM_BLOCKS, BITS_PER_BLOCK, BITS_PER_BYTE, PAGE_SIZE]
  apply PmmRegion_mk_congr rfl
  omega

/-- The clipped, page-aligned form of a valid region in the window that
starts at `B`: it starts and ends with a page and lies in the window. -/
theorem PmmRegion_clip_aligned {B : Nat} (hB : B % 16777216 = 0)
    {r region2 : PmmRegion} (hr : PmmRegion_valid r)
    (hclip : PmmRegion_clip (PmmRegion_makePageAligned r) ⟨B, B + 16777215⟩ = (true, region2)) :
    region2 = ⟨max (r.m_base / 4096 * 4096) B,
      min (r.m_last / 4096 * 4096 + 4095) (B + 16777215)⟩ ∧
    region2.m_base % 4096 = 0 ∧ region2.m_last % 4096 = 4095 ∧ B ≤ region2.m_base ∧
    region2.m_base ≤ region2.m_last ∧ region2.m_last < B + 16777216 ∧
    ¬ (r.m_last / 4096 * 4096 + 4095 < B ∨ B + 16777215 < r.m_base / 4096 * 4096) := by
  obtain ⟨hr1, hr2⟩ := hr
  simp only [MAX_PHYS_ADDR] at hr2
  rw [PmmRegion_makePageAligned_eq ⟨hr1, hr2⟩, PmmRegion_clip_eq] at hclip
  simp only [] at hclip
  by_cases hdis : r.m_last / 4096 * 4096 + 4095 < B ∨ B + 16777215 < r.m_base / 4096 * 4096
  · rw [if_pos hdis] at hclip
    exact Bool.noConfusion (congrArg Prod.fst hclip)
  · rw [if_neg hdis] at hclip
    have h2 : region2 = ⟨max (r.m_base / 4096 * 4096) B,
        min (r.m_last / 4096 * 4096 + 4095) (B + 16777215)⟩ := (congrArg Prod.snd hclip).symm
    have hb : region2.m_base = max (r.m_base / 4096 * 4096) B := by rw [h2]
    have hl : region2.m_last = min (r.m_last / 4096 * 4096 + 4095) (B + 16777215) := by rw [h2]
    refine ⟨h2, ?_, ?_, ?_, ?_, ?_, hdis⟩ <;> omega

/-- The loops of `PmmWatermarkAllocator_freeRegion` and
`PmmWatermarkAllocator_allocateRegion` for a valid region that overlaps the
window that starts at `B`: one turn for each frame of the clipped region, in
increasing order. -/
theorem PmmWatermarkAllocator_region_walk {B : Nat} (hB : B % 16777216 = 0)
    (hBfit : B + 16777216 ≤ 4294967296) {r region2 : PmmRegion} (hr : PmmRegion_valid r)
    (hclip : PmmRegion_clip (PmmRegion_makePageAligned r) ⟨B, B + 16777215⟩ = (true, region2))
    (alloc : PmmBitmapAllocator) :
    PmmWatermarkAllocator_frameWalk region2 FRAME_WALK_FUEL
        (PmmRegion_create (PmmRegion_base region2) PAGE_SIZE) =
      some (List.range' region2.m_base ((region2.m_last + 1 - region2.m_base) / 4096) 4096) ∧
    PmmWatermarkAllocator_freeRegion alloc ⟨B, B + 16777215⟩ r =
      some (true, (List.range' region2.m_base
        ((region2.m_last + 1 - region2.m_base) / 4096) 4096).foldl
          PmmWatermarkAllocator_freeFrame alloc) ∧
    PmmWatermarkAllocator_allocateRegion alloc ⟨B, B + 16777215⟩ r =
      some ((List.range' region2.m_base
        ((region2.m_last + 1 - region2.m_base) / 4096) 4096).foldl
          PmmWatermarkAllocator_allocateFrame alloc) := by
  obtain ⟨_, c2, c3, c4, c5, c6, _⟩ := PmmRegion_clip_aligned hB hr hclip
  have hwalk : PmmWatermarkAllocator_frameWalk region2 FRAME_WALK_FUEL
      (PmmRegion_create (PmmRegion_base region2) PAGE_SIZE) =
      some (List.range' region2.m_base
        ((region2.m_last + 1 - region2.m_base) / 4096) 4096) := by
    unfold PmmRegion_base
    rw [PmmRegion_create_frame (by omega)]
    exact PmmWatermarkAllocator_frameWalk_eq region2 c3 (by omega) FRAME_WALK_FUEL
      region2.m_base c2 c5 (by simp only [FRAME_WALK_FUEL]; omega)
  refine ⟨hwalk, ?_, ?_⟩
  · unfold PmmWatermarkAllocator_freeRegion
    simp only [hclip]
    rw [PmmWatermarkAllocator_freeRegionLoop_walk, hwalk]
    rfl
  · unfold PmmWatermarkAllocator_allocateRegion
    simp only [hclip]
    rw [PmmWatermarkAllocator_allocateRegionLoop_walk, hwalk]
    rfl

/-- Every sequence of calls of `PmmWatermarkAllocator_allocate` returns, and
leaves the allocator on a window that is not below the one it was on. -/
theorem allocateMany_shape (n : Nat) :
    ∀ (st : PmmWatermarkAllocator) (B : Nat), WatermarkShape B st →
      ∃ results st' B', PmmWatermarkAllocator_allocateMany n st = some (results, st') ∧
        WatermarkShape B' st' ∧ B ≤ B' ∧ results.length = n := by
  induction n with
  | zero =>
    intro st B h
    exact ⟨[], st, B, rfl, h, Nat.le_refl _, rfl⟩
  | succ n ih =>
    intro st B h
    obtain ⟨a, st1, B1, h1, h2, h3⟩ := allocate_outcome
      (fun s => B ≤ s.m_currentRegion.m_base) (fun _ s => B ≤ s.m_currentRegion.m_base)
      (fun _ s => B ≤ s.m_currentRegion.m_base)
      (fun s _ _ _ hJ _ _ => hJ)
      (fun s B2 _ hI hs _ _ _ _ => by
        have hI2 : B ≤ s.m_currentRegion.m_base := hI
        rw [hs.1] at hI2
        exact Nat.le_trans hI2 (Nat.le_add_right _ _))
      (fun _ _ hI _ => hI) (fun _ _ hI _ _ => hI) (fun _ _ hJ _ _ => hJ)
      st B h (Nat.le_of_eq (by rw [h.1]))
    obtain ⟨rest, st2, B2, i1, i2, i3, i4⟩ := ih st1 B1 h3
    refine ⟨a :: rest, st2, B2, ?_, i2, ?_, by rw [List.length_cons, i4]⟩
    · unfold PmmWatermarkAllocator_allocateMany
      simp only [h1, i1]
    · have h4 : B ≤ st1.m_currentRegion.m_base := h2
      rw [h3.1] at h4
      exact Nat.le_trans h4 i3

/-! ## Window initialisation in a checked build -/

theorem MM_isFrameAligned_iff (a : Nat) : MM_isFrameAligned a = true ↔ a % 4096 = 0 := by
  unfold MM_isFrameAligned
  have h : a &&& FRAME_OFFSET_MASK = a % 4096 := Nat.and_pow_two_sub_one_eq_mod a 12
  rw [h, beq_iff_eq]

theorem getBlockNumber_checked_window {B : Nat} {alloc : PmmBitmapAllocator}
    (h : WinAlloc B alloc) {f : Nat} (ha : f % 4096 = 0) (hlo : B ≤ f)
    (hhi : f < B + 16777216) :
    PmmBitmapAllocator_getBlockNumberForFrameNumber_checked alloc (MM_getFrameNumber f) =
      some (PmmBitmapAllocator_getBlockNumberForFrameNumber alloc (MM_getFrameNumber f)) := by
  have hidx := (WinAlloc_index h ha hlo hhi).1
  have hbase : alloc.m_baseFrameNumber * 4096 = B := h.2.2.1
  have hge : MM_getFrameNumber f ≥ alloc.m_baseFrameNumber := by
    rw [MM_getFrameNumber_eq]
    omega
  unfold PmmBitmapAllocator_getBlockNumberForFrameNumber_checked
  rw [if_pos hge]
  simp only []
  rw [if_pos hidx]

/-- In the window at `B` the checked release of an aligned non-null frame of
the window whose bit is clear is the release of the model. -/
theorem free_checked_window {B : Nat} {alloc : PmmBitmapAllocator} (h : WinAlloc B alloc)
    {f : Nat} (ha : f % 4096 = 0) (hlo : B ≤ f) (hhi : f < B + 16777216) (hf0 : f ≠ 0)
    (hclear : ∀ w j, w < 128 → j < 32 → winAddr B w j = f → bitAt alloc.m_bitmap w j = false) :
    PmmBitmapAllocator_free_checked alloc f = some (PmmBitmapAllocator_free alloc f) := by
  obtain ⟨hidx, hiff⟩ := WinAlloc_index h ha hlo hhi
  have hbit : PmmBitmapAllocator_getBitInBlockForFrameNumber (MM_getFrameNumber f) < 32 := by
    rw [getBitInBlock_eq]
    omega
  have hn : alloc.m_numBlocks = 128 := h.2.1
  have hc := hclear _ _ (by omega) hbit ((hiff _ _ hbit).1 ⟨rfl, rfl⟩)
  unfold bitAt at hc
  rw [← KMem_isBitSet_eq_testBit _ hbit] at hc
  unfold PmmBitmapAllocator_free_checked
  rw [if_pos ⟨by simpa [PHYS_NULL] using hf0, (MM_isFrameAligned_iff f).2 ha⟩]
  simp only []
  rw [getBlockNumber_checked_window h ha hlo hhi]
  simp only [hc, Bool.not_false, if_true]
  rfl

/-- In the window at `B` the checked allocation of an aligned non-null frame
of the window is the allocation of the model. -/
theorem allocateFrame_checked_window {B : Nat} {alloc : PmmBitmapAllocator}
    (h : WinAlloc B alloc) {f : Nat} (ha : f % 4096 = 0) (hlo : B ≤ f)
    (hhi : f < B + 16777216) (hf0 : f ≠ 0) :
    PmmBitmapAllocator_allocateFrame_checked alloc f =
      some (PmmBitmapAllocator_allocateFrame alloc f) := by
  unfold PmmBitmapAllocator_allocateFrame_checked
  rw [if_pos ⟨by simpa [PHYS_NULL] using hf0, (MM_isFrameAligned_iff f).2 ha⟩]
  simp only []
  rw [getBlockNumber_checked_window h ha hlo hhi]
  simp only []
  unfold PmmBitmapAllocator_allocateFrame
  simp only []
  split_ifs <;> rfl

/-- The checked loop of `PmmWatermarkAllocator_freeRegion` agrees with the
loop of the model when the frames it walks are marked allocated. -/
theorem freeRegionLoop_checked_eq (B : Nat) (region : PmmRegion)
    (hl : region.m_last % 4096 = 4095) (hlw : region.m_last < B + 16777216) :
    ∀ (fuel f : Nat) (alloc : PmmBitmapAllocator), WinAlloc B alloc → f % 4096 = 0 → B ≤ f →
      f ≤ region.m_last → (region.m_last + 1 - f) / 4096 ≤ fuel →
      (∀ w j, w < 128 → j < 32 → f ≤ winAddr B w j → winAddr B w j ≤ region.m_last →
        bitAt alloc.m_bitmap w j = false) →
      PmmWatermarkAllocator_freeRegionLoop_checked region fuel ⟨f, f + 4095⟩ alloc =
        PmmWatermarkAllocator_freeRegionLoop region fuel ⟨f, f + 4095⟩ alloc := by
  intro fuel
  induction fuel with
  | zero =>
    intro f alloc _ ha _ hfl hfuel
    omega
  | succ fuel ih =>
    intro f alloc hwin ha hlo hfl hfuel hclear
    have hBfit := hwin.2.2.2.2
    have hB := hwin.2.2.2.1
    have hstep : ∃ alloc1, (if PmmRegion_base ⟨f, f + 4095⟩ ≠ PHYS_NULL
          then PmmBitmapAllocator_free_checked alloc (PmmRegion_base ⟨f, f + 4095⟩)
          else some alloc) = some alloc1 ∧
        (if PmmRegion_base ⟨f, f + 4095⟩ ≠ PHYS_NULL
          then PmmBitmapAllocator_free alloc (PmmRegion_base ⟨f, f + 4095⟩) else alloc) = alloc1 ∧
        WinAlloc B alloc1 ∧
        ∀ w j, j < 32 → bitAt alloc1.m_bitmap w j =
          (bitAt alloc.m_bitmap w j || decide (winAddr B w j ≠ 0 ∧ winAddr B w j = f)) := by
      simp only [PmmRegion_base, PHYS_NULL]
      by_cases hf0 : f = 0
      · refine ⟨alloc, by simp [hf0], by simp [hf0], hwin, ?_⟩
        intro w j _
        have hd : decide (winAddr B w j ≠ 0 ∧ winAddr B w j = f) = false := by
          rw [decide_eq_false_iff_not]; omega
        rw [hd, Bool.or_false]
      · obtain ⟨h1, _, h3⟩ := free_window hwin ha hlo (by omega)
        have hc := free_checked_window hwin ha hlo (by omega) hf0
          (fun w j hw hj e => hclear w j hw hj (by omega) (by omega))
        refine ⟨_, by simp only [ne_eq, hf0, not_false_eq_true, if_true]; exact hc,
          by simp [hf0], h1, ?_⟩
        intro w j hj
        rw [h3 w j hj]
        exact or_decide_congr _ (by omega)
    obtain ⟨alloc1, hc1, halloc1, hwin1, hbits1⟩ := hstep
    unfold PmmWatermarkAllocator_freeRegionLoop_checked PmmWatermarkAllocator_freeRegionLoop
    simp only [hc1, halloc1]
    rw [PmmRegion_advance_frame (by omega) ha]
    by_cases htop : f + 4095 = 4294967295
    · rw [if_pos htop]
    · rw [if_neg htop]
      simp only [PmmRegion_below, PmmRegion_base]
      by_cases hdone : region.m_last < f + 4096
      · simp only [hdone, decide_True, Bool.not_true, Bool.false_eq_true, if_false]
      · simp only [hdone, decide_False, Bool.not_false, if_true]
        refine ih (f + 4096) alloc1 hwin1 (by omega) (by omega) (by omega) (by omega) ?_
        intro w j hw hj h1 h2
        rw [hbits1 w j hj, hclear w j hw hj (by omega) h2, Bool.false_or,
          decide_eq_false_iff_not]
        omega

/-- The checked loop of `PmmWatermarkAllocator_allocateRegion` agrees with
the loop of the model. -/
theorem allocateRegionLoop_checked_eq (B : Nat) (region : PmmRegion)
    (hl : region.m_last % 4096 = 4095) (hlw : region.m_last < B + 16777216) :
    ∀ (fuel f : Nat) (alloc : PmmBitmapAllocator), WinAlloc B alloc → f % 4096 = 0 → B ≤ f →
      f ≤ region.m_last → (region.m_last + 1 - f) / 4096 ≤ fuel →
      PmmWatermarkAllocator_allocateRegionLoop_checked region fuel ⟨f, f + 4095⟩ alloc =
        PmmWatermarkAllocator_allocateRegionLoop region fuel ⟨f, f + 4095⟩ alloc := by
  intro fuel
  induction fuel with
  | zero =>
    intro f alloc _ ha _ hfl hfuel
    omega
  | succ fuel ih =>
    intro f alloc hwin ha hlo hfl hfuel
    have hBfit := hwin.2.2.2.2
    have hB := hwin.2.2.2.1
    have hstep : ∃ alloc1, (if PmmRegion_base ⟨f, f + 4095⟩ ≠ PHYS_NULL
          then (PmmBitmapAllocator_allocateFrame_checked alloc
            (PmmRegion_base ⟨f, f + 4095⟩)).map (fun r => r.2)
          else some alloc) = some alloc1 ∧
        (if PmmRegion_base ⟨f, f + 4095⟩ ≠ PHYS_NULL
          then (PmmBitmapAllocator_allocateFrame alloc (PmmRegion_base ⟨f, f + 4095⟩)).2
          else alloc) = alloc1 ∧
        WinAlloc B alloc1 := by
      simp only [PmmRegion_base, PHYS_NULL]
      by_cases hf0 : f = 0
      · exact ⟨alloc, by simp [hf0], by simp [hf0], hwin⟩
      · obtain ⟨h1, _, _⟩ := allocateFrame_window hwin ha hlo (by omega : f < B + 16777216)
        have hc := allocateFrame_checked_window hwin ha hlo (by omega) hf0
        refine ⟨_, ?_, by simp [hf0], h1⟩
        simp only [ne_eq, hf0, not_false_eq_true, if_true]
        rw [hc]
        rfl
    obtain ⟨alloc1, hc1, halloc1, hwin1⟩ := hstep
    unfold PmmWatermarkAllocator_allocateRegionLoop_checked
      PmmWatermarkAllocator_allocateRegionLoop
    simp only [hc1, halloc1]
    rw [PmmRegion_advance_frame (by omega) ha]
    by_cases htop : f + 4095 = 4294967295
    · rw [if_pos htop]
    · rw [if_neg htop]
      simp only [PmmRegion_below, PmmRegion_base]
      by_cases hdone : region.m_last < f + 4096
      · simp only [hdone, decide_True, Bool.not_true, Bool.false_eq_true, if_false]
      · simp only [hdone, decide_False, Bool.not_false, if_true]
        exact ih (f + 4096) alloc1 hwin1 (by omega) (by omega) (by omega) (by omega)

theorem inAligned_of_clip {r : PmmRegion} (hr : PmmRegion_valid r) {B a : Nat}
    (h1 : max (r.m_base / 4096 * 4096) B ≤ a)
    (h2 : a ≤ min (r.m_last / 4096 * 4096 + 4095) (B + 16777215)) : inAligned r a = true := by
  rw [inAligned_iff hr]
  omega

/-- The checked `PmmWatermarkAllocator_freeRegion` agrees with the model when
no frame of the region is marked free in the window. -/
theorem freeRegion_checked_eq {B : Nat} {alloc : PmmBitmapAllocator} (hwin : WinAlloc B alloc)
    {r : PmmRegion} (hr : PmmRegion_valid r)
    (hclear : ∀ w j, w < 128 → j < 32 → inAligned r (winAddr B w j) = true →
      bitAt alloc.m_bitmap w j = false) :
    PmmWatermarkAllocator_freeRegion_checked alloc ⟨B, B + 16777215⟩ r =
      PmmWatermarkAllocator_freeRegion alloc ⟨B, B + 16777215⟩ r := by
  have hBfit := hwin.2.2.2.2
  have hB := hwin.2.2.2.1
  have hr0 := hr
  obtain ⟨hr1, hr2⟩ := hr
  simp only [MAX_PHYS_ADDR] at hr2
  unfold PmmWatermarkAllocator_freeRegion_checked PmmWatermarkAllocator_freeRegion
  rw [PmmRegion_makePageAligned_eq ⟨hr1, hr2⟩]
  simp only []
  rw [PmmRegion_clip_eq]
  simp only [PmmRegion_below, PmmRegion_base]
  by_cases hdis : r.m_last / 4096 * 4096 + 4095 < B ∨ B + 16777215 < r.m_base / 4096 * 4096
  · simp only [if_pos hdis]
  · rw [if_neg hdis]
    simp only
    rw [PmmRegion_create_frame (by omega)]
    have hside : ∀ w j, w < 128 → j < 32 → max (r.m_base / 4096 * 4096) B ≤ winAddr B w j →
        winAddr B w j ≤ min (r.m_last / 4096 * 4096 + 4095) (B + 16777215) →
        bitAt alloc.m_bitmap w j = false := by
      intro w j hw hj h1 h2
      exact hclear w j hw hj (inAligned_of_clip hr0 h1 h2)
    have hloop := freeRegionLoop_checked_eq B
      ⟨max (r.m_base / 4096 * 4096) B, min (r.m_last / 4096 * 4096 + 4095) (B + 16777215)⟩
      (by simp only; omega) (by simp only; omega) FRAME_WALK_FUEL
      (max (r.m_base / 4096 * 4096) B) alloc hwin (by omega) (by omega) (by simp only; omega)
      (by simp only [FRAME_WALK_FUEL]; omega) hside
    exact congrArg (Option.map (fun alloc1 => (true, alloc1))) hloop

/-- The checked `PmmWatermarkAllocator_allocateRegion` agrees with the
model. -/
theorem allocateRegion_checked_eq {B : Nat} {alloc : PmmBitmapAllocator}
    (hwin : WinAlloc B alloc) {r : PmmRegion} (hr : PmmRegion_valid r) :
    PmmWatermarkAllocator_allocateRegion_checked alloc ⟨B, B + 16777215⟩ r =
      PmmWatermarkAllocator_allocateRegion alloc ⟨B, B + 16777215⟩ r := by
  have hBfit := hwin.2.2.2.2
  have hB := hwin.2.2.2.1
  obtain ⟨hr1, hr2⟩ := hr
  simp only [MAX_PHYS_ADDR] at hr2
  unfold PmmWatermarkAllocator_allocateRegion_checked PmmWatermarkAllocator_allocateRegion
  rw [PmmRegion_makePageAligned_eq ⟨hr1, hr2⟩]
  simp only []
  rw [PmmRegion_clip_eq]
  simp only [PmmRegion_base]
  by_cases hdis : r.m_last / 4096 * 4096 + 4095 < B ∨ B + 16777215 < r.m_base / 4096 * 4096
  · simp only [if_pos hdis]
  · rw [if_neg hdis]
    simp only
    rw [PmmRegion_create_frame (by omega)]
    exact allocateRegionLoop_checked_eq B
      ⟨max (r.m_base / 4096 * 4096) B, min (r.m_last / 4096 * 4096 + 4095) (B + 16777215)⟩
      (by simp only; omega) (by simp only; omega) FRAME_WALK_FUEL
      (max (r.m_base / 4096 * 4096) B) alloc hwin (by omega) (by omega) (by simp only; omega)
      (by simp only [FRAME_WALK_FUEL]; omega)

/-- The checked walk over the RAM list agrees with the model when no two
regions of the list touch the same page frame and no frame of a region of the
list is marked free at the start. -/
theorem freeRamList_checked_eq {B : Nat} :
    ∀ (ram : List PmmRegion) (flag : Bool) (alloc : PmmBitmapAllocator),
      (∀ r ∈ ram, PmmRegion_valid r) → WinAlloc B alloc → PmmRegion_framesApart ram →
      (∀ w j, w < 128 → j < 32 → bitAt alloc.m_bitmap w j = true →
        ∀ r ∈ ram, inAligned r (winAddr B w j) = false) →
      PmmWatermarkAllocator_freeRamList_checked ⟨B, B + 16777215⟩ ram flag alloc =
        PmmWatermarkAllocator_freeRamList ⟨B, B + 16777215⟩ ram flag alloc := by
  intro ram
  induction ram with
  | nil =>
    intro flag alloc _ _ _ _
    rfl
  | cons r rest ih =>
    intro flag alloc hval hwin hapart hclear
    have hvr := hval r (List.mem_cons_self _ _)
    have hval' : ∀ x ∈ rest, PmmRegion_valid x := fun x hx => hval x (List.mem_cons_of_mem _ hx)
    obtain ⟨alloc1, h1, h2, _, h4⟩ := freeRegion_spec hwin hvr
    have hc : PmmWatermarkAllocator_freeRegion_checked alloc ⟨B, B + 16777215⟩ r =
        PmmWatermarkAllocator_freeRegion alloc ⟨B, B + 16777215⟩ r := by
      refine freeRegion_checked_eq hwin hvr ?_
      intro w j hw hj hin
      cases hb : bitAt alloc.m_bitmap w j
      · rfl
      · have hf := hclear w j hw hj hb r (List.mem_cons_self _ _)
        rw [hin] at hf
        exact Bool.noConfusion hf
    unfold PmmRegion_framesApart at hapart
    rw [List.pairwise_cons] at hapart
    have hrest : ∀ w j, w < 128 → j < 32 → bitAt alloc1.m_bitmap w j = true →
        ∀ s ∈ rest, inAligned s (winAddr B w j) = false := by
      intro w j hw hj hb s hs
      rw [h4 w j hw hj, Bool.or_eq_true] at hb
      rcases hb with hb | hb
      · exact hclear w j hw hj hb s (List.mem_cons_of_mem _ hs)
      · rw [Bool.and_eq_true] at hb
        cases hin : inAligned s (winAddr B w j)
        · rfl
        · exact absurd ⟨hb.2, hin⟩ (hapart.1 s hs (winAddr B w j))
    unfold PmmWatermarkAllocator_freeRamList_checked PmmWatermarkAllocator_freeRamList
    rw [hc, h1]
    cases decide (B ≤ r.m_last / 4096 * 4096 + 4095)
    · simp only []
      exact ih flag alloc1 hval' h2 hapart.2 hrest
    · simp only []
      exact ih true alloc1 hval' h2 hapart.2 hrest

/-- The checked walk over the reserved list agrees with the model. -/
theorem allocateReservedList_checked_eq {B : Nat} :
    ∀ (res : List PmmRegion) (alloc : PmmBitmapAllocator),
      (∀ r ∈ res, PmmRegion_valid r) → WinAlloc B alloc →
      PmmWatermarkAllocator_allocateReservedList_checked ⟨B, B + 16777215⟩ res alloc =
        PmmWatermarkAllocator_allocateReservedList ⟨B, B + 16777215⟩ res alloc := by
  intro res
  induction res with
  | nil =>
    intro alloc _ _
    rfl
  | cons r rest ih =>
    intro alloc hval hwin
    have hvr := hval r (List.mem_cons_self _ _)
    have hval' : ∀ x ∈ rest, PmmRegion_valid x := fun x hx => hval x (List.mem_cons_of_mem _ hx)
    obtain ⟨alloc1, h1, h2, _, _⟩ := allocateRegion_spec hwin hvr
    unfold PmmWatermarkAllocator_allocateReservedList_checked
      PmmWatermarkAllocator_allocateReservedList
    rw [allocateRegion_checked_eq hwin hvr, h1]
    simp only []
    exact ih alloc1 hval' h2

/-- In a checked build the initialisation of the window at `B` runs through
without a failing assertion of the bitmap allocator and gives the result of
the model, provided no two regions of the RAM list touch the same page
frame. -/
theorem initCurrentRegion_checked_eq (st : PmmWatermarkAllocator) {B : Nat}
    (hcur : st.m_currentRegion = ⟨B, B + 16777215⟩) (hB : B % 16777216 = 0)
    (hfit : B + 16777216 ≤ 4294967296)
    (hram : ∀ r ∈ st.m_ramList, PmmRegion_valid r)
    (hres : ∀ r ∈ st.m_reservedList, PmmRegion_valid r)
    (hapart : PmmRegion_framesApart st.m_ramList) :
    PmmWatermarkAllocator_initCurrentRegion_checked st =
      PmmWatermarkAllocator_initCurrentRegion st := by
  obtain ⟨hwin0, _, hbits0⟩ := WinAlloc_create hB hfit
  have hcreate : PmmBitmapAllocator_create_checked NUM_BLOCKS B =
      some (PmmBitmapAllocator_create NUM_BLOCKS B) := by
    unfold PmmBitmapAllocator_create_checked
    rw [if_pos ⟨by decide, (MM_isFrameAligned_iff B).2 (by omega)⟩]
  obtain ⟨alloc1, h1, h2, _, _⟩ :=
    freeRamList_spec st.m_ramList false (PmmBitmapAllocator_create NUM_BLOCKS B) hram hwin0
  have hfree := freeRamList_checked_eq st.m_ramList false
    (PmmBitmapAllocator_create NUM_BLOCKS B) hram hwin0 hapart
    (fun w j _ _ hb => by rw [hbits0 w j] at hb; exact Bool.noConfusion hb)
  unfold PmmWatermarkAllocator_initCurrentRegion_checked PmmWatermarkAllocator_initCurrentRegion
  rw [hcur]
  simp only [PmmRegion_base]
  rw [hcreate]
  simp only []
  rw [hfree, h1]
  cases st.m_ramList.any (fun r => decide (B ≤ r.m_last / 4096 * 4096 + 4095))
  · rfl
  · simp only [Bool.false_or]
    rw [allocateReservedList_checked_eq st.m_reservedList alloc1 hres h2]

/-- A result of the checked `PmmBitmapAllocator_getBlockNumberForFrameNumber`
is the block number of the model, and the two assertions hold. -/
theorem getBlockNumber_checked_some {this : PmmBitmapAllocator} {frameNumber i : Nat}
    (h : PmmBitmapAllocator_getBlockNumberForFrameNumber_checked this frameNumber = some i) :
    frameNumber ≥ this.m_baseFrameNumber ∧
      i = PmmBitmapAllocator_getBlockNumberForFrameNumber this frameNumber ∧
      i < this.m_numBlocks := by
  unfold PmmBitmapAllocator_getBlockNumberForFrameNumber_checked at h
  by_cases h1 : frameNumber ≥ this.m_baseFrameNumber
  · rw [if_pos h1] at h
    simp only [] at h
    by_cases h2 : PmmBitmapAllocator_getBlockNumberForFrameNumber this frameNumber
        < this.m_numBlocks
    · rw [if_pos h2] at h
      have hi : PmmBitmapAllocator_getBlockNumberForFrameNumber this frameNumber = i :=
        Option.some.inj h
      exact ⟨h1, hi.symm, by rw [← hi]; exact h2⟩
    · rw [if_neg h2] at h
      exact Option.noConfusion h
  · rw [if_neg h1] at h
    exact Option.noConfusion h

/-- A result of the checked `PmmBitmapAllocator_free` is the result of the
model, and every assertion of the function holds. -/
theorem free_checked_some {this this1 : PmmBitmapAllocator} {frameAddr : Nat}
    (h : PmmBitmapAllocator_free_checked this frameAddr = some this1) :
    frameAddr ≠ PHYS_NULL ∧ MM_isFrameAligned frameAddr = true ∧
      MM_getFrameNumber frameAddr ≥ this.m_baseFrameNumber ∧
      PmmBitmapAllocator_getBlockNumberForFrameNumber this (MM_getFrameNumber frameAddr)
        < this.m_numBlocks ∧
      KMem_isBitSet
        (this.m_bitmap.getD
          (PmmBitmapAllocator_getBlockNumberForFrameNumber this (MM_getFrameNumber frameAddr)) 0)
        (PmmBitmapAllocator_getBitInBlockForFrameNumber (MM_getFrameNumber frameAddr)) = false ∧
      this1 = PmmBitmapAllocator_free this frameAddr := by
  unfold PmmBitmapAllocator_free_checked at h
  by_cases h1 : frameAddr ≠ PHYS_NULL ∧ MM_isFrameAligned frameAddr = true
  · rw [if_pos h1] at h
    simp only [] at h
    cases hb : PmmBitmapAllocator_getBlockNumberForFrameNumber_checked this
        (MM_getFrameNumber frameAddr) with
    | none =>
      rw [hb] at h
      exact Option.noConfusion h
    | some i =>
      rw [hb] at h
      simp only [] at h
      obtain ⟨g1, g2, g3⟩ := getBlockNumber_checked_some hb
      rw [g2] at h g3
      cases hs : KMem_isBitSet
        (this.m_bitmap.getD
          (PmmBitmapAllocator_getBlockNumberForFrameNumber this (MM_getFrameNumber frameAddr)) 0)
        (PmmBitmapAllocator_getBitInBlockForFrameNumber (MM_getFrameNumber frameAddr))
      · rw [hs] at h
        exact ⟨h1.1, h1.2, g1, g3, rfl, (Option.some.inj h).symm⟩
      · rw [hs] at h
        exact Option.noConfusion h
  · rw [if_neg h1] at h
    exact Option.noConfusion h

/-- A result of the checked `PmmBitmapAllocator_allocateFrame` is the result
of the model, and every assertion of the function holds. -/
theorem allocateFrame_checked_some {this : PmmBitmapAllocator} {frameAddr : Nat}
    {result : Nat × PmmBitmapAllocator}
    (h : PmmBitmapAllocator_allocateFrame_checked this frameAddr = some result) :
    frameAddr ≠ PHYS_NULL ∧ MM_isFrameAligned frameAddr = true ∧
      MM_getFrameNumber frameAddr ≥ this.m_baseFrameNumber ∧
      PmmBitmapAllocator_getBlockNumberForFrameNumber this (MM_getFrameNumber frameAddr)
        < this.m_numBlocks ∧
      result = PmmBitmapAllocator_allocateFrame this frameAddr := by
  unfold PmmBitmapAllocator_allocateFrame_checked at h
  by_cases h1 : frameAddr ≠ PHYS_NULL ∧ MM_isFrameAligned frameAddr = true
  · rw [if_pos h1] at h
    simp only [] at h
    cases hb : PmmBitmapAllocator_getBlockNumberForFrameNumber_checked this
        (MM_getFrameNumber frameAddr) with
    | none =>
      rw [hb] at h
      exact Option.noConfusion h
    | some i =>
      rw [hb] at h
      simp only [] at h
      obtain ⟨g1, g2, g3⟩ := getBlockNumber_checked_some hb
      rw [g2] at h g3
      refine ⟨h1.1, h1.2, g1, g3, ?_⟩
      unfold PmmBitmapAllocator_allocateFrame
      simp only []
      split_ifs at h ⊢ <;> exact (Option.some.inj h).symm
  · rw [if_neg h1] at h
    exact Option.noConfusion h

/-- Regions whose page-aligned forms lie one after the other, in some order,
touch no common page frame. -/
theorem PmmRegion_framesApart_of_disjoint {regions : List PmmRegion}
    (h : regions.Pairwise (fun r s =>
      (PmmRegion_makePageAligned r).m_last < (PmmRegion_makePageAligned s).m_base ∨
        (PmmRegion_makePageAligned s).m_last < (PmmRegion_makePageAligned r).m_base)) :
    PmmRegion_framesApart regions := by
  refine List.Pairwise.imp ?_ h
  intro r s hrs a ha
  unfold inAligned at ha
  simp only [Bool.and_eq_true, decide_eq_true_eq] at ha
  omega

/-! ## The traced translator computes what the translator computes -/

theorem BootLoaderInfoTranslator_mapCommandLine_traced_fst (mem : Memory) (mbInfo : Nat) :
    (BootLoaderInfoTranslator_mapCommandLine_traced mem mbInfo).map Prod.fst =
      BootLoaderInfoTranslator_mapCommandLine mem mbInfo := by
  unfold BootLoaderInfoTranslator_mapCommandLine_traced BootLoaderInfoTranslator_mapCommandLine
  by_cases h1 : MultibootInfo_CommandLinePresent mem mbInfo = true
  · by_cases h2 : Memory_read32 mem (mbInfo + MultibootInfo_layout.CommandLine) ≠ 0
    · simp only [h1, h2, if_true, and_self, not_false_eq_true, ne_eq]
      cases BootLoaderInfoTranslator_mapString mem
          (Memory_read32 mem (mbInfo + MultibootInfo_layout.CommandLine)) with
      | none => rfl
      | some r =>
        obtain ⟨commandLine, reads⟩ := r
        simp only []
        by_cases h3 : commandLine = 0
        · simp only [h3, if_true, Option.map_some']
        · simp only [h3, if_false, Option.map_some']
    · have h2' : Memory_read32 mem (mbInfo + MultibootInfo_layout.CommandLine) = 0 := by
        simpa using h2
      simp [h1, h2']
  · simp [h1]

theorem BootLoaderInfoTranslator_mapMemMap_traced_fst (mem : Memory) (mbInfo : Nat) :
    (BootLoaderInfoTranslator_mapMemMap_traced mem mbInfo).1 =
      BootLoaderInfoTranslator_mapMemMap mem mbInfo := by
  unfold BootLoaderInfoTranslator_mapMemMap_traced BootLoaderInfoTranslator_mapMemMap
  simp only []
  split_ifs <;> rfl

theorem BootLoaderInfoTranslator_mapModuleNames_traced_fst (mbInfo : Nat) :
    ∀ (fuel i : Nat) (mem : Memory) (accesses : List Memory_Access),
      (BootLoaderInfoTranslator_mapModuleNames_traced mbInfo fuel i mem accesses).map Prod.fst =
        BootLoaderInfoTranslator_mapModuleNames mbInfo fuel i mem := by
  intro fuel
  induction fuel with
  | zero =>
    intro i mem accesses
    rfl
  | succ fuel ih =>
    intro i mem accesses
    unfold BootLoaderInfoTranslator_mapModuleNames_traced
      BootLoaderInfoTranslator_mapModuleNames
    simp only []
    by_cases h1 : i < Memory_read32 mem (mbInfo + MultibootInfo_layout.ModsCount)
    · simp only [h1, if_true]
      by_cases h2 : Memory_read32 mem
          (MultibootInfo_module mem mbInfo i + MBModuleInfo_layout.ModString) ≠ 0
      · simp only [h2, if_true, not_false_eq_true, ne_eq]
        cases BootLoaderInfoTranslator_mapString mem
            (Memory_read32 mem
              (MultibootInfo_module mem mbInfo i + MBModuleInfo_layout.ModString)) with
        | none => rfl
        | some r =>
          obtain ⟨modName, reads⟩ := r
          simp only []
          by_cases h3 : modName = 0
          · simp only [h3, if_true, Option.map_some']
          · simp only [h3, if_false]
            exact ih _ _ _
      · have h2' : Memory_read32 mem
            (MultibootInfo_module mem mbInfo i + MBModuleInfo_layout.ModString) = 0 := by
          simpa using h2
        simp only [h2', ne_eq, not_true_eq_false, if_false]
        exact ih _ _ _
    · simp only [h1, if_false, Option.map_some']

theorem BootLoaderInfoTranslator_mapModules_traced_fst (mem : Memory) (mbInfo : Nat) :
    (BootLoaderInfoTranslator_mapModules_traced mem mbInfo).map Prod.fst =
      BootLoaderInfoTranslator_mapModules mem mbInfo := by
  unfold BootLoaderInfoTranslator_mapModules_traced BootLoaderInfoTranslator_mapModules
  simp only []
  split_ifs
  · rfl
  · rfl
  · exact BootLoaderInfoTranslator_mapModuleNames_traced_fst _ _ _ _ _
  · rfl

theorem BootLoaderInfoTranslator_mapMultibootInfo_traced_fst (mem : Memory)
    (mbInfoPhysAddr : Nat) :
    (BootLoaderInfoTranslator_mapMultibootInfo_traced mem mbInfoPhysAddr).map Prod.fst =
      BootLoaderInfoTranslator_mapMultibootInfo mem mbInfoPhysAddr := by
  unfold BootLoaderInfoTranslator_mapMultibootInfo_traced
    BootLoaderInfoTranslator_mapMultibootInfo
  simp only []
  split_ifs
  · rfl
  · rfl
  · rw [← BootLoaderInfoTranslator_mapCommandLine_traced_fst]
    cases BootLoaderInfoTranslator_mapCommandLine_traced mem
        (u32 (mbInfoPhysAddr + MM_KERNEL_VIRTUAL_BASE)) with
    | none => rfl
    | some r1 =>
      obtain ⟨⟨ok1, mem1⟩, accesses1⟩ := r1
      cases ok1
      · rfl
      · simp only [Option.map_some']
        rw [← BootLoaderInfoTranslator_mapMemMap_traced_fst]
        cases h2 : BootLoaderInfoTranslator_mapMemMap_traced mem1
            (u32 (mbInfoPhysAddr + MM_KERNEL_VIRTUAL_BASE)) with
        | mk r2 accesses2 =>
          obtain ⟨ok2, mem2⟩ := r2
          cases ok2
          · rfl
          · simp only []
            rw [← BootLoaderInfoTranslator_mapModules_traced_fst]
            cases BootLoaderInfoTranslator_mapModules_traced mem2
                (u32 (mbInfoPhysAddr + MM_KERNEL_VIRTUAL_BASE)) with
            | none => rfl
            | some r3 =>
              obtain ⟨⟨ok3, mem3⟩, accesses3⟩ := r3
              cases ok3 <;> rfl

theorem BootLoaderInfoTranslator_copyStructurePart_traced_fst (s_mbInfoSpace : Nat)
    (mem : Memory) (dest source bytes : Nat) :
    (BootLoaderInfoTranslator_copyStructurePart_traced s_mbInfoSpace mem dest source bytes).1 =
      BootLoaderInfoTranslator_copyStructurePart s_mbInfoSpace mem dest source bytes := by
  unfold BootLoaderInfoTranslator_copyStructurePart_traced
    BootLoaderInfoTranslator_copyStructurePart
  simp only []
  split_ifs <;> rfl

theorem BootLoaderInfoTranslator_copyMemMap_traced_fst (s_mbInfoSpace : Nat) (mem : Memory)
    (dest : Nat) :
    (BootLoaderInfoTranslator_copyMemMap_traced s_mbInfoSpace mem dest).1 =
      BootLoaderInfoTranslator_copyMemMap s_mbInfoSpace mem dest := by
  unfold BootLoaderInfoTranslator_copyMemMap_traced BootLoaderInfoTranslator_copyMemMap
  simp only [BootLoaderInfoTranslator_copyStructurePart_traced_fst]
  split_ifs <;> rfl

theorem BootLoaderInfoTranslator_copyModuleList_traced_fst (s_mbInfoSpace : Nat) (mem : Memory)
    (dest : Nat) :
    (BootLoaderInfoTranslator_copyModuleList_traced s_mbInfoSpace mem dest).1 =
      BootLoaderInfoTranslator_copyModuleList s_mbInfoSpace mem dest := by
  unfold BootLoaderInfoTranslator_copyModuleList_traced BootLoaderInfoTranslator_copyModuleList
  simp only [BootLoaderInfoTranslator_copyStructurePart_traced_fst]
  split_ifs <;> rfl

theorem BootLoaderInfoTranslator_copyModuleNames_traced_fst (s_mbInfoSpace : Nat) :
    ∀ (fuel i dest : Nat) (mem : Memory) (accesses : List Memory_Access),
      (BootLoaderInfoTranslator_copyModuleNames_traced s_mbInfoSpace fuel i dest mem
          accesses).map Prod.fst =
        BootLoaderInfoTranslator_copyModuleNames s_mbInfoSpace fuel i dest mem := by
  intro fuel
  induction fuel with
  | zero =>
    intro i dest mem accesses
    rfl
  | succ fuel ih =>
    intro i dest mem accesses
    unfold BootLoaderInfoTranslator_copyModuleNames_traced
      BootLoaderInfoTranslator_copyModuleNames
    simp only [BootLoaderInfoTranslator_copyStructurePart_traced_fst]
    by_cases h1 : i < Memory_read32 mem (s_mbInfoSpace + MultibootInfo_layout.ModsCount)
    · simp only [h1, if_true]
      by_cases h2 : Memory_read32 mem
          (MultibootInfo_module mem s_mbInfoSpace i + MBModuleInfo_layout.ModString) ≠ 0
      · simp only [h2, if_true, not_false_eq_true, ne_eq]
        cases KString_lengthAt mem
            (Memory_read32 mem
              (MultibootInfo_module mem s_mbInfoSpace i + MBModuleInfo_layout.ModString)) with
        | none => rfl
        | some len =>
          simp only []
          split_ifs
          · rfl
          · exact ih _ _ _ _
      · have h2' : Memory_read32 mem
            (MultibootInfo_module mem s_mbInfoSpace i + MBModuleInfo_layout.ModString) = 0 := by
          simpa using h2
        simp only [h2', ne_eq, not_true_eq_false, if_false]
        exact ih _ _ _ _
    · simp only [h1, if_false, Option.map_some']

theorem BootLoaderInfoTranslator_copyCommandLine_traced_fst (s_mbInfoSpace : Nat)
    (mem : Memory) (dest : Nat) :
    (BootLoaderInfoTranslator_copyCommandLine_traced s_mbInfoSpace mem dest).map Prod.fst =
      BootLoaderInfoTranslator_copyCommandLine s_mbInfoSpace mem dest := by
  unfold BootLoaderInfoTranslator_copyCommandLine_traced
    BootLoaderInfoTranslator_copyCommandLine
  simp only [BootLoaderInfoTranslator_copyStructurePart_traced_fst]
  by_cases h1 : MultibootInfo_CommandLinePresent mem s_mbInfoSpace = true
  · by_cases h2 : Memory_read32 mem (s_mbInfoSpace + MultibootInfo_layout.CommandLine) ≠ 0
    · simp only [h1, h2, if_true, and_self, not_false_eq_true, ne_eq]
      cases KString_lengthAt mem
          (Memory_read32 mem (s_mbInfoSpace + MultibootInfo_layout.CommandLine)) with
      | none => rfl
      | some len =>
        simp only []
        split_ifs <;> rfl
    · have h2' : Memory_read32 mem (s_mbInfoSpace + MultibootInfo_layout.CommandLine) = 0 := by
        simpa using h2
      simp [h1, h2']
  · simp [h1]

/-- What is left of `BootLoaderInfoTranslator_copyMultibootInfo` after the
module names, with and without the accesses. -/
theorem BootLoaderInfoTranslator_copyTail_traced_fst (s_mbInfoSpace : Nat)
    (names : Option ((Nat × Memory) × List Memory_Access)) :
    Option.map Prod.fst
      (match names with
      | none => none
      | some names =>
        if names.1.1 = 0 then some ((0, names.1.2), names.2)
        else
          match BootLoaderInfoTranslator_copyCommandLine_traced s_mbInfoSpace names.1.2
              names.1.1 with
          | none => none
          | some commandLine =>
            if commandLine.1.1 = 0 then some ((0, commandLine.1.2), names.2 ++ commandLine.2)
            else some ((s_mbInfoSpace, commandLine.1.2), names.2 ++ commandLine.2)) =
      (match names.map Prod.fst with
      | none => none
      | some names =>
        if names.1 = 0 then some (0, names.2)
        else
          match BootLoaderInfoTranslator_copyCommandLine s_mbInfoSpace names.2 names.1 with
          | none => none
          | some commandLine =>
            if commandLine.1 = 0 then some (0, commandLine.2)
            else some (s_mbInfoSpace, commandLine.2)) := by
  cases names with
  | none => rfl
  | some names =>
    obtain ⟨⟨d, m⟩, acc⟩ := names
    simp only [Option.map_some']
    by_cases hd : d = 0
    · simp only [hd, if_true, Option.map_some']
    · simp only [hd, if_false]
      rw [← BootLoaderInfoTranslator_copyCommandLine_traced_fst]
      cases BootLoaderInfoTranslator_copyCommandLine_traced s_mbInfoSpace m d with
      | none => rfl
      | some commandLine =>
        obtain ⟨⟨d2, m2⟩, acc2⟩ := commandLine
        simp only [Option.map_some']
        split_ifs <;> rfl

theorem BootLoaderInfoTranslator_copyMultibootInfo_traced_fst (s_mbInfoSpace : Nat)
    (mem : Memory) (originalMbInfo : Nat) :
    (BootLoaderInfoTranslator_copyMultibootInfo_traced s_mbInfoSpace mem originalMbInfo).map
        Prod.fst =
      BootLoaderInfoTranslator_copyMultibootInfo s_mbInfoSpace mem originalMbInfo := by
  unfold BootLoaderInfoTranslator_copyMultibootInfo_traced
    BootLoaderInfoTranslator_copyMultibootInfo
  simp only [BootLoaderInfoTranslator_copyStructurePart_traced_fst,
    BootLoaderInfoTranslator_copyMemMap_traced_fst,
    BootLoaderInfoTranslator_copyModuleList_traced_fst]
  generalize BootLoaderInfoTranslator_copyStructurePart s_mbInfoSpace
    (KMem_set mem s_mbInfoSpace 0 s_mbInfoSpace_sizeof) s_mbInfoSpace originalMbInfo
    MultibootInfo_layout.sizeof = root
  generalize (BootLoaderInfoTranslator_copyStructurePart_traced s_mbInfoSpace
    (KMem_set mem s_mbInfoSpace 0 s_mbInfoSpace_sizeof) s_mbInfoSpace originalMbInfo
    MultibootInfo_layout.sizeof).2 = rootAccesses
  generalize BootLoaderInfoTranslator_copyMemMap s_mbInfoSpace root.2 root.1 = memMap
  generalize (BootLoaderInfoTranslator_copyMemMap_traced s_mbInfoSpace root.2 root.1).2 =
    memMapAccesses
  generalize BootLoaderInfoTranslator_copyModuleList s_mbInfoSpace memMap.2 memMap.1 =
    moduleList
  generalize (BootLoaderInfoTranslator_copyModuleList_traced s_mbInfoSpace memMap.2
    memMap.1).2 = moduleListAccesses
  by_cases h1 : root.1 = 0
  · simp only [h1, if_true, Option.map_some']
  · by_cases h2 : memMap.1 = 0
    · simp only [h1, h2, if_true, if_false, Option.map_some']
    · by_cases h3 : moduleList.1 = 0
      · simp only [h1, h2, h3, if_true, if_false, Option.map_some']
      · simp only [h1, h2, h3, if_false]
        rw [BootLoaderInfoTranslator_copyTail_traced_fst]
        by_cases h4 : MultibootInfo_ModulesPresent moduleList.2 s_mbInfoSpace = true
        · simp only [h4, if_true]
          rw [BootLoaderInfoTranslator_copyModuleNames_traced_fst]
          try rfl
        · have h4' : MultibootInfo_ModulesPresent moduleList.2 s_mbInfoSpace = false := by
            simpa using h4
          simp only [h4', Bool.false_eq_true, if_false, Option.map_some']
          try rfl

theorem BootLoaderInfoTranslator_translate_traced_fst (s_mbInfoSpace : Nat) (mem : Memory)
    (mbInfoPhysAddr magic : Nat) :
    (BootLoaderInfoTranslator_translate_traced s_mbInfoSpace mem mbInfoPhysAddr magic).map
        Prod.fst =
      BootLoaderInfoTranslator_translate s_mbInfoSpace mem mbInfoPhysAddr magic := by
  unfold BootLoaderInfoTranslator_translate_traced BootLoaderInfoTranslator_translate
  by_cases hm : magic ≠ 0x2BADB002
  · rw [if_pos hm, if_pos hm]
    rfl
  · rw [if_neg hm, if_neg hm, ← BootLoaderInfoTranslator_mapMultibootInfo_traced_fst]
    cases BootLoaderInfoTranslator_mapMultibootInfo_traced mem mbInfoPhysAddr with
    | none => rfl
    | some mapped =>
      obtain ⟨⟨mbInfo, mem1⟩, accesses1⟩ := mapped
      simp only [Option.map_some']
      by_cases h0 : mbInfo = 0
      · simp only [h0, if_true, Option.map_some']
      · simp only [h0, if_false]
        rw [← BootLoaderInfoTranslator_copyMultibootInfo_traced_fst]
        cases BootLoaderInfoTranslator_copyMultibootInfo_traced s_mbInfoSpace mem1 mbInfo with
        | none => rfl
        | some copied =>
          obtain ⟨⟨copy, mem2⟩, accesses2⟩ := copied
          simp only [Option.map_some']
          split_ifs <;> rfl

/-- Every run of the mapping of the command line starts with the read of the
flags of the structure. -/
theorem BootLoaderInfoTranslator_mapCommandLine_traced_head (mem : Memory) (mbInfo : Nat)
    (r : (Bool × Memory) × List Memory_Access)
    (h : BootLoaderInfoTranslator_mapCommandLine_traced mem mbInfo = some r) :
    ∃ rest, r.2 = Memory_Access.read (mbInfo + MultibootInfo_layout.flags) 4 :: rest := by
  unfold BootLoaderInfoTranslator_mapCommandLine_traced at h
  simp only [] at h
  split_ifs at h with h1 h2
  · cases hs : BootLoaderInfoTranslator_mapString mem
        (Memory_read32 mem (mbInfo + MultibootInfo_layout.CommandLine)) with
    | none =>
      rw [hs] at h
      exact Option.noConfusion h
    | some s =>
      obtain ⟨commandLine, reads⟩ := s
      rw [hs] at h
      simp only [] at h
      split_ifs at h
      · rw [← Option.some.inj h]
        exact ⟨_, rfl⟩
      · rw [← Option.some.inj h]
        exact ⟨_, rfl⟩
  · rw [← Option.some.inj h]
    exact ⟨_, rfl⟩
  · rw [← Option.some.inj h]
    exact ⟨_, rfl⟩

/-- When the root structure lies in the first 4 MiB, every run of the mapping
starts with the read of the flags of the structure at its virtual
address. -/
theorem BootLoaderInfoTranslator_mapMultibootInfo_traced_head (mem : Memory)
    (mbInfoPhysAddr : Nat)
    (hin : mbInfoPhysAddr + MultibootInfo_layout.sizeof ≤ 4194304)
    (r : (Nat × Memory) × List Memory_Access)
    (h : BootLoaderInfoTranslator_mapMultibootInfo_traced mem mbInfoPhysAddr = some r) :
    ∃ rest, r.2 =
      Memory_Access.read
        (u32 (mbInfoPhysAddr + MM_KERNEL_VIRTUAL_BASE) + MultibootInfo_layout.flags) 4 ::
        rest := by
  unfold BootLoaderInfoTranslator_mapMultibootInfo_traced at h
  simp only [MM_MB_four] at h
  have hu : u32 (mbInfoPhysAddr + MultibootInfo_layout.sizeof) =
      mbInfoPhysAddr + MultibootInfo_layout.sizeof :=
    u32_of_lt (by simp only [MultibootInfo_layout.sizeof] at hin ⊢; omega)
  have h1 : ¬ 4194304 ≤ mbInfoPhysAddr := by
    simp only [MultibootInfo_layout.sizeof] at hin
    omega
  have h2 : ¬ 4194304 < mbInfoPhysAddr + MultibootInfo_layout.sizeof := by omega
  rw [if_neg h1, hu, if_neg h2] at h
  cases hc : BootLoaderInfoTranslator_mapCommandLine_traced mem
      (u32 (mbInfoPhysAddr + MM_KERNEL_VIRTUAL_BASE)) with
  | none =>
    rw [hc] at h
    exact Option.noConfusion h
  | some r1 =>
    obtain ⟨rest1, hrest1⟩ := BootLoaderInfoTranslator_mapCommandLine_traced_head _ _ r1 hc
    obtain ⟨⟨ok1, mem1⟩, accesses1⟩ := r1
    simp only [] at hrest1
    rw [hc] at h
    cases ok1
    · simp only [] at h
      rw [← Option.some.inj h]
      exact ⟨rest1, hrest1⟩
    · simp only [] at h
      cases hm : BootLoaderInfoTranslator_mapMemMap_traced mem1
          (u32 (mbInfoPhysAddr + MM_KERNEL_VIRTUAL_BASE)) with
      | mk r2 accesses2 =>
        obtain ⟨ok2, mem2⟩ := r2
        rw [hm] at h
        cases ok2
        · simp only [] at h
          rw [← Option.some.inj h, hrest1]
          exact ⟨_, rfl⟩
        · simp only [] at h
          cases hmod : BootLoaderInfoTranslator_mapModules_traced mem2
              (u32 (mbInfoPhysAddr + MM_KERNEL_VIRTUAL_BASE)) with
          | none =>
            rw [hmod] at h
            exact Option.noConfusion h
          | some r3 =>
            obtain ⟨⟨ok3, mem3⟩, accesses3⟩ := r3
            rw [hmod] at h
            cases ok3
            · simp only [] at h
              rw [← Option.some.inj h, hrest1]
              exact ⟨_, rfl⟩
            · simp only [] at h
              rw [← Option.some.inj h, hrest1]
              exact ⟨_, rfl⟩

/-- With the right magic number and the root structure in the first 4 MiB,
every run of the translation starts with the read of the flags of the
structure at its virtual address. -/
theorem BootLoaderInfoTranslator_translate_traced_head (s_mbInfoSpace : Nat) (mem : Memory)
    (mbInfoPhysAddr : Nat) (hin : mbInfoPhysAddr + MultibootInfo_layout.sizeof ≤ 4194304)
    (r : (Option BootLoaderInfoStruct × Memory) × List Memory_Access)
    (h : BootLoaderInfoTranslator_translate_traced s_mbInfoSpace mem mbInfoPhysAddr 0x2BADB002
      = some r) :
    ∃ rest, r.2 =
      Memory_Access.read
        (u32 (mbInfoPhysAddr + MM_KERNEL_VIRTUAL_BASE) + MultibootInfo_layout.flags) 4 ::
        rest := by
  unfold BootLoaderInfoTranslator_translate_traced at h
  rw [if_neg (fun hne => hne rfl)] at h
  cases hmap : BootLoaderInfoTranslator_mapMultibootInfo_traced mem mbInfoPhysAddr with
  | none =>
    rw [hmap] at h
    exact Option.noConfusion h
  | some mapped =>
    obtain ⟨rest1, hrest1⟩ :=
      BootLoaderInfoTranslator_mapMultibootInfo_traced_head mem mbInfoPhysAddr hin mapped hmap
    rw [hmap] at h
    simp only [] at h
    split_ifs at h
    · rw [← Option.some.inj h]
      exact ⟨rest1, hrest1⟩
    · cases hcopy : BootLoaderInfoTranslator_copyMultibootInfo_traced s_mbInfoSpace mapped.1.2
          mapped.1.1 with
      | none =>
        rw [hcopy] at h
        exact Option.noConfusion h
      | some copied =>
        rw [hcopy] at h
        simp only [] at h
        split_ifs at h
        · rw [← Option.some.inj h, hrest1]
          exact ⟨_, rfl⟩
        · rw [← Option.some.inj h, hrest1]
          exact ⟨_, rfl⟩

/-! ## Claims -/

/-- C1. In a sequential run `PmmBitmapAllocator_allocate` always returns, and
whenever the address `a` it returns is not `PHYS_NULL`: `a` is page-aligned
and lies inside the managed window; `a` is the address of bit `bit` of the
word at rotation distance `dist` from the last-allocated hint; that bit was
set before the call and is clear after it; it is the lowest set bit of that
word, and every word met earlier in the rotation is zero; no other bit of the
bitmap changes; the hint becomes the index of that word, and the block count
and base frame stay as they were. -/
theorem C1_allocate_frame_effect (this : PmmBitmapAllocator)
    (hwf : PmmBitmapAllocator_wellFormed this) (hfit : PmmBitmapAllocator_windowFits this) :
    ∃ a this', PmmBitmapAllocator_allocate this = some (a, this') ∧
      (a ≠ PHYS_NULL →
        a % PAGE_SIZE = 0 ∧
        this.m_baseFrameNumber * PAGE_SIZE ≤ a ∧
        a < (this.m_baseFrameNumber + this.m_numBlocks * BITS_PER_BLOCK) * PAGE_SIZE ∧
        ∃ dist bit, dist < this.m_numBlocks ∧ bit < BITS_PER_BLOCK ∧
          a = PmmBitmapAllocator_getPhysAddrForBlockNumberAndBitInBlock this
            (rotIndex this dist) bit ∧
          bitAt this.m_bitmap (rotIndex this dist) bit = true ∧
          bitAt this'.m_bitmap (rotIndex this dist) bit = false ∧
          (∀ j, j < bit → bitAt this.m_bitmap (rotIndex this dist) j = false) ∧
          (∀ e, e < dist → this.m_bitmap.getD (rotIndex this e) 0 = 0) ∧
          (∀ w k, (w, k) ≠ (rotIndex this dist, bit) →
            bitAt this'.m_bitmap w k = bitAt this.m_bitmap w k) ∧
          this'.m_lastAllocatedIndex = rotIndex this dist ∧
          this'.m_numBlocks = this.m_numBlocks ∧
          this'.m_baseFrameNumber = this.m_baseFrameNumber ∧
          this'.m_bitmap.length = this.m_bitmap.length) := by
  rcases PmmBitmapAllocator_allocate_spec this hwf with ⟨h, _⟩ | ⟨dist, hd, hne, hz, h⟩
  · exact ⟨PHYS_NULL, this, h, fun hc => absurd rfl hc⟩
  · refine ⟨_, _, h, fun _ => ?_⟩
    have hi := rotIndex_lt this hwf.1 dist
    obtain ⟨bit, hb, hu, hset, hlow, hbits, _⟩ := PmmBitmapAllocator_taken_spec this hwf hi hne
    have haddr : PmmBitmapAllocator_takenAddr this (rotIndex this dist) =
        (this.m_baseFrameNumber + rotIndex this dist * 32 + bit) * 4096 := by
      unfold PmmBitmapAllocator_takenAddr
      rw [hu]
      exact getPhysAddr_eq this hfit hi hb
    refine ⟨?_, ?_, ?_, dist, bit, by omega, hb, ?_, hset, ?_, hlow, hz, ?_, rfl, rfl, rfl, ?_⟩
    · rw [haddr]; simp only [PAGE_SIZE]; omega
    · rw [haddr]; simp only [PAGE_SIZE]; omega
    · rw [haddr]
      simp only [BITS_PER_BLOCK, BITS_PER_BYTE, PAGE_SIZE]
      omega
    · unfold PmmBitmapAllocator_takenAddr
      rw [hu]
    · rw [hbits]; simp
    · intro w k hwk
      rw [hbits]
      have hnot : ¬ (w = rotIndex this dist ∧ k = bit) := by
        rintro ⟨rfl, rfl⟩
        exact hwk rfl
      by_cases h1 : w = rotIndex this dist
      · have h2 : ¬ k = bit := fun hk => hnot ⟨h1, hk⟩
        simp [h2]
      · simp [h1]
    · unfold PmmBitmapAllocator_taken
      simp only [List.length_set]

/-- C1, at the allocator with base frame 256 whose two words are `6` and
`0`: the call returns `0x101000` (frame 257, bit 1 of word 0). -/
theorem C1_allocate_frame_effect_witness :
    PmmBitmapAllocator_wellFormed ⟨[6, 0], 2, 0, 256⟩ ∧
    PmmBitmapAllocator_windowFits ⟨[6, 0], 2, 0, 256⟩ ∧
    PmmBitmapAllocator_allocate ⟨[6, 0], 2, 0, 256⟩ = some (0x101000, ⟨[4, 0], 2, 0, 256⟩) ∧
    ∃ a this', PmmBitmapAllocator_allocate ⟨[6, 0], 2, 0, 256⟩ = some (a, this') ∧
      (a ≠ PHYS_NULL → a % PAGE_SIZE = 0 ∧ 256 * PAGE_SIZE ≤ a) := by
  refine ⟨by decide, by decide, by decide, ?_⟩
  obtain ⟨a, this', h1, h2⟩ :=
    C1_allocate_frame_effect ⟨[6, 0], 2, 0, 256⟩ (by decide) (by decide)
  exact ⟨a, this', h1, fun h => ⟨(h2 h).1, (h2 h).2.1⟩⟩

/-- C2. For every RAM list and every reserved list of valid regions, and for
every number of calls: the calls of `PmmWatermarkAllocator_allocate` on the
freshly created allocator all return; each non-null result is a multiple of
`PAGE_SIZE`; the non-null results, taken in call order, are strictly
increasing, so none of them was returned by an earlier call. With the RAM,
reserved and module lists of scenario 1, handed over by
`PhysicalMemoryManager_initStageOne`, the first two results are `0x00001000`
and `0x00002000`. -/
theorem C2_results_aligned_and_increasing (ram used : List PmmRegion)
    (hram : ∀ r ∈ ram, PmmRegion_valid r) (hused : ∀ r ∈ used, PmmRegion_valid r) (n : Nat) :
    (∃ st results st', PmmWatermarkAllocator_create ram used = some st ∧
      PmmWatermarkAllocator_allocateMany n st = some (results, st') ∧
      (∀ a ∈ results, a ≠ PHYS_NULL → a % PAGE_SIZE = 0) ∧
      (results.filter (fun a => decide (a ≠ PHYS_NULL))).Pairwise (fun a b => a < b) ∧
      (results.filter (fun a => decide (a ≠ PHYS_NULL))).Nodup) ∧
    (∃ numFrames st st',
      PhysicalMemoryManager_initStageOne scenario1Ram scenario1Reserved scenario1Modules =
        some (numFrames, st) ∧
      PmmWatermarkAllocator_allocateMany 2 st = some ([0x00001000, 0x00002000], st')) := by
  constructor
  · obtain ⟨alloc0, h1, h2, h3, _⟩ := PmmWatermarkAllocator_create_spec hram hused
    have hAbove : WatermarkAbove 0 ⟨alloc0, ⟨0, 16777215⟩, ram, used⟩ := by
      intro B _
      refine ⟨by omega, ?_, fun _ _ _ _ _ => by omega⟩
      intro w k hw
      simp only [h3] at hw
      omega
    obtain ⟨results, st', g1, g2, g3⟩ := allocateMany_increasing n 0 _ 0 h2 hAbove
    refine ⟨_, results, st', h1, g1, fun a ha hn => (g2 a ha hn).2, g3, ?_⟩
    exact g3.imp (fun hab => Nat.ne_of_lt hab)
  · obtain ⟨st, st', h1, h2⟩ := scenario1_first_two
    refine ⟨32768, st, st', ?_, h2⟩
    unfold PhysicalMemoryManager_initStageOne
    simp only []
    rw [h1]
    rfl

/-- C2, at the lists of scenario 1 and three calls. -/
theorem C2_results_aligned_and_increasing_witness :
    (∀ r ∈ scenario1Ram, PmmRegion_valid r) ∧
    (∀ r ∈ scenario1Reserved ++ scenario1Modules, PmmRegion_valid r) ∧
    ∃ st results st',
      PmmWatermarkAllocator_create scenario1Ram (scenario1Reserved ++ scenario1Modules)
        = some st ∧
      PmmWatermarkAllocator_allocateMany 3 st = some (results, st') ∧
      (∀ a ∈ results, a ≠ PHYS_NULL → a % PAGE_SIZE = 0) ∧
      (results.filter (fun a => decide (a ≠ PHYS_NULL))).Pairwise (fun a b => a < b) ∧
      (results.filter (fun a => decide (a ≠ PHYS_NULL))).Nodup :=
  ⟨by decide, by decide,
    (C2_results_aligned_and_increasing scenario1Ram
      (scenario1Reserved ++ scenario1Modules) (by decide) (by decide) 3).1⟩

/-- C3. For every RAM list and every reserved-plus-module list of valid
regions, and for every number of calls: the calls of
`PmmWatermarkAllocator_allocate` on the freshly created allocator all return,
and every non-null address `a` they return is the base of a frame
`[a, a + PAGE_SIZE - 1]` that (a) lies inside the page-aligned, outward-grown
form of some RAM region and (b) meets the page-aligned, outward-grown form of no
reserved or module region. With the lists of scenario 1, handed over by
`PhysicalMemoryManager_initStageOne`, no returned address lies in
`[0x000A0000, 0x000FFFFF]` or in `[0x00100000, 0x0012FFFF]`. -/
theorem C3_returned_frames_in_ram_outside_reserved (ram used : List PmmRegion)
    (hram : ∀ r ∈ ram, PmmRegion_valid r) (hused : ∀ r ∈ used, PmmRegion_valid r) (n : Nat) :
    (∃ st results st', PmmWatermarkAllocator_create ram used = some st ∧
      PmmWatermarkAllocator_allocateMany n st = some (results, st') ∧
      ∀ a ∈ results, a ≠ PHYS_NULL →
        (∃ r ∈ ram, ∀ x, a ≤ x → x ≤ a + (PAGE_SIZE - 1) → inAligned r x = true) ∧
        (∀ r ∈ used, ∀ x, a ≤ x → x ≤ a + (PAGE_SIZE - 1) → inAligned r x = false)) ∧
    (∃ numFrames st results st',
      PhysicalMemoryManager_initStageOne scenario1Ram scenario1Reserved scenario1Modules =
        some (numFrames, st) ∧
      PmmWatermarkAllocator_allocateMany n st = some (results, st') ∧
      ∀ a ∈ results, ¬ (0x000A0000 ≤ a ∧ a ≤ 0x000FFFFF) ∧
        ¬ (0x00100000 ≤ a ∧ a ≤ 0x0012FFFF)) := by
  constructor
  · obtain ⟨st, results, st', h1, h2, h3⟩ := watermark_results_available hram hused n
    refine ⟨st, results, st', h1, h2, ?_⟩
    intro a ha hnull
    obtain ⟨hav, halign⟩ := h3 a ha hnull
    obtain ⟨_, ⟨r, hr, hin⟩, hout⟩ := (frameAvailable_iff ram used a).mp hav
    refine ⟨⟨r, hr, ?_⟩, ?_⟩
    · intro x hx1 hx2
      rw [inAligned_frame (hram r hr) halign hx1 (by simp only [PAGE_SIZE] at hx2; omega)]
      exact hin
    · intro r' hr' x hx1 hx2
      rw [inAligned_frame (hused r' hr') halign hx1 (by simp only [PAGE_SIZE] at hx2; omega)]
      exact hout r' hr'
  · have hram1 : ∀ r ∈ scenario1Ram, PmmRegion_valid r := by decide
    have hused1 : ∀ r ∈ scenario1Reserved ++ scenario1Modules, PmmRegion_valid r := by decide
    obtain ⟨st, results, st', h1, h2, h3⟩ := watermark_results_available hram1 hused1 n
    refine ⟨32768, st, results, st', ?_, h2, ?_⟩
    · unfold PhysicalMemoryManager_initStageOne
      simp only []
      rw [h1]
      rfl
    · intro a ha
      by_cases hnull : a = PHYS_NULL
      · rw [hnull]
        decide
      · obtain ⟨hav, _⟩ := h3 a ha hnull
        obtain ⟨_, _, hout⟩ := (frameAvailable_iff _ _ a).mp hav
        have o1 := hout ⟨0x000A0000, 0x000FFFFF⟩ (by decide)
        have o2 := hout ⟨0x00100000, 0x0012FFFF⟩ (by decide)
        rw [← Bool.not_eq_true, inAligned_iff (by decide)] at o1 o2
        simp only at o1 o2
        omega

/-- C3, at the lists of scenario 1 and two calls. -/
theorem C3_returned_frames_in_ram_outside_reserved_witness :
    (∀ r ∈ scenario1Ram, PmmRegion_valid r) ∧
    (∀ r ∈ scenario1Reserved ++ scenario1Modules, PmmRegion_valid r) ∧
    ∃ st results st',
      PmmWatermarkAllocator_create scenario1Ram (scenario1Reserved ++ scenario1Modules)
        = some st ∧
      PmmWatermarkAllocator_allocateMany 2 st = some (results, st') ∧
      ∀ a ∈ results, a ≠ PHYS_NULL →
        (∃ r ∈ scenario1Ram, ∀ x, a ≤ x → x ≤ a + (PAGE_SIZE - 1) → inAligned r x = true) ∧
        (∀ r ∈ scenario1Reserved ++ scenario1Modules,
          ∀ x, a ≤ x → x ≤ a + (PAGE_SIZE - 1) → inAligned r x = false) :=
  ⟨by decide, by decide,
    (C3_returned_frames_in_ram_outside_reserved scenario1Ram
      (scenario1Reserved ++ scenario1Modules) (by decide) (by decide) 2).1⟩

/-- C4. With a RAM list holding the single region `[0, 4 × REGION_SIZE_IN_BYTES)`
and an empty reserved-plus-module list, the first
`REGION_SIZE_IN_BYTES / PAGE_SIZE × 4 − 1 = 16383` calls of
`PmmWatermarkAllocator_allocate` succeed, returning the frames
`1 × PAGE_SIZE, ..., 16383 × PAGE_SIZE` in this order (frame 0 is skipped), and
every later call returns `PHYS_NULL`, however many calls `m` follow. -/
theorem C4_exhaustion_after_16383_frames (m : Nat) :
    REGION_SIZE_IN_BYTES / PAGE_SIZE * 4 - 1 = 16383 ∧
    ∃ st results st', PmmWatermarkAllocator_create exhaustionRam [] = some st ∧
      PmmWatermarkAllocator_allocateMany (16383 + m) st = some (results, st') ∧
      results = (List.range 16383).map (fun i => (i + 1) * PAGE_SIZE) ++
        List.replicate m PHYS_NULL ∧
      (∀ a ∈ results.take 16383, a ≠ PHYS_NULL) ∧
      (∀ a ∈ results.drop 16383, a = PHYS_NULL) := by
  refine ⟨by decide, ?_⟩
  obtain ⟨st, h1, h2, h3⟩ := exhaust_initial
  obtain ⟨st1, B1, g1, g2, g3⟩ := exhaust_phase_one 16383 0 st 0 (by omega) h2 h3
  obtain ⟨st2, k1⟩ := exhaust_phase_two m st1 B1 g3 (exhaust_done_of_all g2)
  have hall := allocateMany_append 16383 m st st1 st2 _ _ g1 k1
  have hmap : (List.range 16383).map (fun i => (0 + i + 1) * 4096) =
      (List.range 16383).map (fun i => (i + 1) * PAGE_SIZE) := by
    apply List.map_congr_left
    intro i _
    simp only [PAGE_SIZE]
    omega
  rw [hmap] at hall
  have hlen : ((List.range 16383).map (fun i => (i + 1) * PAGE_SIZE)).length = 16383 := by
    rw [List.length_map, List.length_range]
  refine ⟨st, _, st2, h1, hall, rfl, ?_, ?_⟩
  · rw [List.take_left' hlen]
    intro a ha
    obtain ⟨i, _, hi⟩ := List.mem_map.mp ha
    rw [← hi]
    simp only [PAGE_SIZE, PHYS_NULL]
    omega
  · rw [List.drop_left' hlen]
    intro a ha
    exact List.eq_of_mem_replicate ha

set_option maxRecDepth 100000 in
/-- C5. With the single RAM region `[0xFE0000, 0xFFFFFF]` and no reserved
region, the 32 frames of that region are marked free in the first window
(word 127 of its bitmap is all ones), yet the first call of
`PmmWatermarkAllocator_allocate` returns `PHYS_NULL` and moves on to the next
window, and so does the second call: none of the 32 frames is ever handed
out. -/
theorem C5_null_with_frames_left :
    PmmWatermarkAllocator_create [⟨0xFE0000, 0xFFFFFF⟩] [] =
      some ⟨⟨List.replicate 127 0 ++ [0xFFFFFFFF], 128, 0, 0⟩, ⟨0, 0xFFFFFF⟩,
        [⟨0xFE0000, 0xFFFFFF⟩], []⟩ ∧
    PmmWatermarkAllocator_allocate
      ⟨⟨List.replicate 127 0 ++ [0xFFFFFFFF], 128, 0, 0⟩, ⟨0, 0xFFFFFF⟩,
        [⟨0xFE0000, 0xFFFFFF⟩], []⟩ =
      some (PHYS_NULL, ⟨⟨List.replicate 128 0, 128, 0, 4096⟩, ⟨0x1000000, 0x1FFFFFF⟩,
        [⟨0xFE0000, 0xFFFFFF⟩], []⟩) ∧
    PmmWatermarkAllocator_allocate
      ⟨⟨List.replicate 128 0, 128, 0, 4096⟩, ⟨0x1000000, 0x1FFFFFF⟩,
        [⟨0xFE0000, 0xFFFFFF⟩], []⟩ =
      some (PHYS_NULL, ⟨⟨List.replicate 128 0, 128, 0, 8192⟩, ⟨0x2000000, 0x2FFFFFF⟩,
        [⟨0xFE0000, 0xFFFFFF⟩], []⟩) := by
  refine ⟨?_, ?_, ?_⟩
  · decide
  · decide
  · decide

/-- C6. A one-block allocator all of whose 32 frames have been freed hands
out nothing: the very first `PmmBitmapAllocator_allocate` returns `PHYS_NULL`
and leaves all 32 bits set. -/
theorem C6_one_block_allocates_nothing :
    (List.range 32).foldl (fun a k => PmmBitmapAllocator_free a (0x20000 + k * PAGE_SIZE))
        (PmmBitmapAllocator_create 1 0x20000) = ⟨[0xFFFFFFFF], 1, 0, 32⟩ ∧
    PmmBitmapAllocator_blocksToFrames 1 = 32 ∧
    PmmBitmapAllocator_allocate ⟨[0xFFFFFFFF], 1, 0, 32⟩ =
      some (PHYS_NULL, ⟨[0xFFFFFFFF], 1, 0, 32⟩) := by
  decide

/-- C7. In the two-block allocator based at `0x20000` in which only the frame
`0x40000` (word 1, bit 0) has been freed, `PmmBitmapAllocator_allocate` returns
`PHYS_NULL` although a bit of the bitmap is set: with the hint at word 0 the
rotation stops before it reaches word 1. -/
theorem C7_null_with_free_frame :
    PmmBitmapAllocator_free (PmmBitmapAllocator_create 2 0x20000) 0x40000 = ⟨[0, 1], 2, 0, 32⟩ ∧
    bitAt [0, 1] 1 0 = true ∧
    PmmBitmapAllocator_allocate ⟨[0, 1], 2, 0, 32⟩ = some (PHYS_NULL, ⟨[0, 1], 2, 0, 32⟩) := by
  decide

/-- C8. For every frame address `f` inside the window of a well-formed
allocator (in particular every page-aligned non-null one), with `(i, k)` the
word and bit that the allocator's index functions give for `f`: `PmmBitmapAllocator_allocateFrame` returns `f`
and clears exactly bit `(i, k)` when that bit is set, and returns `PHYS_NULL`
leaving the allocator unchanged when it is clear; `PmmBitmapAllocator_free`
sets exactly bit `(i, k)`; `free` followed by `allocateFrame` returns `f` and,
for a frame that was allocated, restores the allocator; a second
`allocateFrame` returns `PHYS_NULL`. -/
theorem C8_allocateFrame_free_single_bit (this : PmmBitmapAllocator) (f : Nat)
    (hwf : PmmBitmapAllocator_wellFormed this) (hfit : PmmBitmapAllocator_windowFits this)
    (hlo : this.m_baseFrameNumber * PAGE_SIZE ≤ f)
    (hhi : f < (this.m_baseFrameNumber + this.m_numBlocks * BITS_PER_BLOCK) * PAGE_SIZE) :
    ∃ i k, i = PmmBitmapAllocator_getBlockNumberForFrameNumber this (MM_getFrameNumber f) ∧
      k = PmmBitmapAllocator_getBitInBlockForFrameNumber (MM_getFrameNumber f) ∧
      i < this.m_numBlocks ∧ k < BITS_PER_BLOCK ∧
      (bitAt this.m_bitmap i k = true →
        (PmmBitmapAllocator_allocateFrame this f).1 = f ∧
        ∀ w j, bitAt (PmmBitmapAllocator_allocateFrame this f).2.m_bitmap w j =
          (bitAt this.m_bitmap w j && !(decide (w = i) && decide (j = k)))) ∧
      (bitAt this.m_bitmap i k = false →
        PmmBitmapAllocator_allocateFrame this f = (PHYS_NULL, this)) ∧
      (∀ w j, bitAt (PmmBitmapAllocator_free this f).m_bitmap w j =
        (bitAt this.m_bitmap w j || (decide (w = i) && decide (j = k)))) ∧
      (PmmBitmapAllocator_allocateFrame (PmmBitmapAllocator_free this f) f).1 = f ∧
      (bitAt this.m_bitmap i k = false →
        (PmmBitmapAllocator_allocateFrame (PmmBitmapAllocator_free this f) f).2 = this) ∧
      (PmmBitmapAllocator_allocateFrame
        (PmmBitmapAllocator_allocateFrame (PmmBitmapAllocator_free this f) f).2 f).1
          = PHYS_NULL := by
  simp only [PAGE_SIZE, BITS_PER_BLOCK, BITS_PER_BYTE] at hlo hhi
  norm_num at hlo hhi
  obtain ⟨_, hi⟩ := frame_index_in_window this hfit hlo hhi
  have hk : PmmBitmapAllocator_getBitInBlockForFrameNumber (MM_getFrameNumber f) < 32 := by
    rw [getBitInBlock_eq]; omega
  obtain ⟨ha1, ha2, ha3, _⟩ := PmmBitmapAllocator_allocateFrame_spec this hwf f hi
  obtain ⟨hf1, hf2, _, _, hf5⟩ := PmmBitmapAllocator_free_spec this hwf f hi
  have hi' : PmmBitmapAllocator_getBlockNumberForFrameNumber (PmmBitmapAllocator_free this f)
      (MM_getFrameNumber f) < (PmmBitmapAllocator_free this f).m_numBlocks := hi
  obtain ⟨hb1, _, hb3, hb4, hb5, _, hb7⟩ :=
    PmmBitmapAllocator_allocateFrame_spec (PmmBitmapAllocator_free this f) hf2 f hi'
  have hsame : PmmBitmapAllocator_getBlockNumberForFrameNumber (PmmBitmapAllocator_free this f)
      (MM_getFrameNumber f) =
      PmmBitmapAllocator_getBlockNumberForFrameNumber this (MM_getFrameNumber f) := rfl
  rw [hsame] at hb1 hb3
  have hfset : bitAt (PmmBitmapAllocator_free this f).m_bitmap
      (PmmBitmapAllocator_getBlockNumberForFrameNumber this (MM_getFrameNumber f))
      (PmmBitmapAllocator_getBitInBlockForFrameNumber (MM_getFrameNumber f)) = true := by
    rw [hf1]; simp
  refine ⟨_, _, rfl, rfl, hi, hk, ?_, ?_, hf1, ?_, ?_, ?_⟩
  · intro hset
    rw [ha1, if_pos hset]
    exact ⟨rfl, ha3⟩
  · intro hclear
    refine Prod.ext ?_ (ha2 hclear)
    rw [ha1, hclear]
    rfl
  · rw [hb1, if_pos hfset]
  · intro hclear
    rw [allocateFrame_free_restores this hwf f hi hclear]
  · have hi'' : PmmBitmapAllocator_getBlockNumberForFrameNumber
        (PmmBitmapAllocator_allocateFrame (PmmBitmapAllocator_free this f) f).2
        (MM_getFrameNumber f) <
        (PmmBitmapAllocator_allocateFrame (PmmBitmapAllocator_free this f) f).2.m_numBlocks := by
      rw [hb5]
      unfold PmmBitmapAllocator_getBlockNumberForFrameNumber
      rw [hb7]
      exact hi
    obtain ⟨hc1, _⟩ := PmmBitmapAllocator_allocateFrame_spec _ hb4 f hi''
    rw [hc1]
    have hsame2 : PmmBitmapAllocator_getBlockNumberForFrameNumber
        (PmmBitmapAllocator_allocateFrame (PmmBitmapAllocator_free this f) f).2
        (MM_getFrameNumber f) =
        PmmBitmapAllocator_getBlockNumberForFrameNumber this (MM_getFrameNumber f) := by
      unfold PmmBitmapAllocator_getBlockNumberForFrameNumber
      rw [hb7]
      rfl
    rw [hsame2, hb3]
    simp

/-- C8, at the fresh two-block allocator based at `0x20000` and the frame
`0x21000` (word 0, bit 1). -/
theorem C8_allocateFrame_free_single_bit_witness :
    PmmBitmapAllocator_free (PmmBitmapAllocator_create 2 0x20000) 0x21000 = ⟨[2, 0], 2, 0, 32⟩ ∧
    PmmBitmapAllocator_allocateFrame ⟨[2, 0], 2, 0, 32⟩ 0x21000 =
      (0x21000, PmmBitmapAllocator_create 2 0x20000) ∧
    ∃ i k, i = 0 ∧ k = 1 ∧
      (PmmBitmapAllocator_allocateFrame
        (PmmBitmapAllocator_free (PmmBitmapAllocator_create 2 0x20000) 0x21000) 0x21000).1
          = 0x21000 ∧
      (bitAt (PmmBitmapAllocator_create 2 0x20000).m_bitmap i k = false →
        (PmmBitmapAllocator_allocateFrame
          (PmmBitmapAllocator_free (PmmBitmapAllocator_create 2 0x20000) 0x21000) 0x21000).2
            = PmmBitmapAllocator_create 2 0x20000) := by
  refine ⟨by decide, by decide, ?_⟩
  obtain ⟨i, k, hi, hk, _, _, _, _, _, h1, h2, _⟩ :=
    C8_allocateFrame_free_single_bit (PmmBitmapAllocator_create 2 0x20000) 0x21000
      (by decide) (by decide) (by decide) (by decide)
  refine ⟨i, k, ?_, ?_, h1, h2⟩
  · rw [hi]; decide
  · rw [hk]; decide

/-- C9. In the two-block allocator based at `0x1000`, after `free(0x1000)` and
`free(0x2000)` a call of `allocate` returns `0x2000` and a following
`allocateFrame(0x2000)` returns `0x2000` again, with no `free` in between. -/
theorem C9_frame_handed_out_twice :
    PmmBitmapAllocator_free (PmmBitmapAllocator_free (PmmBitmapAllocator_create 2 0x1000) 0x1000)
        0x2000 = ⟨[6, 0], 2, 0, 1⟩ ∧
    PmmBitmapAllocator_allocate ⟨[6, 0], 2, 0, 1⟩ = some (0x2000, ⟨[4, 0], 2, 0, 1⟩) ∧
    PmmBitmapAllocator_allocateFrame ⟨[4, 0], 2, 0, 1⟩ 0x2000 = (0x2000, ⟨[0, 0], 2, 0, 1⟩) := by
  decide

/-- C10. With base frame 1, `free` and `allocateFrame` address frame 1 at bit
`1 % 32 = 1` of word 0 rather than at bit `(1 - 1) % 32 = 0`; the frame that
`allocate` returns for word 0, bit 1 is frame 2 (`0x2000`), which `free` and
`allocateFrame` track at bit 2. -/
theorem C10_bit_index_ignores_base :
    PmmBitmapAllocator_getBlockNumberForFrameNumber (PmmBitmapAllocator_create 2 0x1000) 1 = 0 ∧
    PmmBitmapAllocator_getBitInBlockForFrameNumber 1 = 1 ∧
    (1 - 1) % BITS_PER_BLOCK = 0 ∧
    PmmBitmapAllocator_getPhysAddrForBlockNumberAndBitInBlock
      (PmmBitmapAllocator_create 2 0x1000) 0 1 = 0x2000 ∧
    PmmBitmapAllocator_getBitInBlockForFrameNumber (MM_getFrameNumber 0x2000) = 2 ∧
    PmmBitmapAllocator_free (PmmBitmapAllocator_create 2 0x1000) 0x1000 = ⟨[2, 0], 2, 0, 1⟩ ∧
    PmmBitmapAllocator_allocate ⟨[2, 0], 2, 0, 1⟩ = some (0x2000, ⟨[0, 0], 2, 0, 1⟩) := by
  decide

/-- Every region made by `PmmRegion_create` under its precondition and then
modified by any sequence of `PmmRegion_advance`, `PmmRegion_clip` (with valid
clipping regions) and `PmmRegion_makePageAligned` satisfies
`base ≤ last ≤ MAX_PHYS_ADDR`, so its length `last − base + 1` is at least 1;
`PmmRegion_length` computes that length without 32-bit overflow for every
such region except the whole address space `[0, MAX_PHYS_ADDR]`, for which it
returns 0. -/
theorem PmmRegionOp_run_invariant (b n : Nat) (ops : List PmmRegionOp) (hn : n < 4294967296)
    (hcreate : PmmRegion_isValidRegion b n = true)
    (hops : ∀ op ∈ ops, PmmRegionOp_ok op) :
    (PmmRegionOp_run (PmmRegion_create b n) ops).m_base ≤
      (PmmRegionOp_run (PmmRegion_create b n) ops).m_last ∧
    (PmmRegionOp_run (PmmRegion_create b n) ops).m_last ≤ MAX_PHYS_ADDR ∧
    1 ≤ PmmRegion_trueLength (PmmRegionOp_run (PmmRegion_create b n) ops) ∧
    (PmmRegionOp_run (PmmRegion_create b n) ops ≠ ⟨0, MAX_PHYS_ADDR⟩ →
      PmmRegion_length (PmmRegionOp_run (PmmRegion_create b n) ops) =
        PmmRegion_trueLength (PmmRegionOp_run (PmmRegion_create b n) ops)) ∧
    (PmmRegionOp_run (PmmRegion_create b n) ops = ⟨0, MAX_PHYS_ADDR⟩ →
      PmmRegion_length (PmmRegionOp_run (PmmRegion_create b n) ops) = 0) := by
  have hv := PmmRegionOp_run_valid ops _ (PmmRegion_create_valid hn hcreate) hops
  have hlen := PmmRegion_length_eq hv
  refine ⟨hv.1, hv.2, ?_, ?_, ?_⟩
  · unfold PmmRegion_trueLength
    omega
  · intro hne
    rw [hlen, if_neg hne]
  · intro he
    rw [hlen, if_pos he]

/-- C12. For 32-bit `b` and `n`, `PmmRegion_create` accepts `(b, n)` exactly
when `n ≥ 1` and `b + n − 1 ≤ MAX_PHYS_ADDR` in unbounded integers, and for
every accepted pair the created region has base `b` and last `b + n − 1`. -/
theorem C12_create_accepts_exactly (b n : Nat) (hn : n < 4294967296) :
    (PmmRegion_isValidRegion b n = true ↔ 1 ≤ n ∧ b + n - 1 ≤ MAX_PHYS_ADDR) ∧
    (PmmRegion_isValidRegion b n = true →
      PmmRegion_base (PmmRegion_create b n) = b ∧
      PmmRegion_last (PmmRegion_create b n) = b + n - 1) := by
  refine ⟨PmmRegion_isValidRegion_iff b n hn, ?_⟩
  intro h
  rw [PmmRegion_create_eq hn h]
  exact ⟨rfl, rfl⟩

/-- Witness of C12: base `0xFFFFF000` and length `0x1000` reach
`MAX_PHYS_ADDR` exactly. -/
theorem C12_create_accepts_exactly_witness :
    PmmRegion_isValidRegion 4294963200 4096 = true ∧
    PmmRegion_last (PmmRegion_create 4294963200 4096) = 4294967295 :=
  ⟨by decide, ((C12_create_accepts_exactly 4294963200 4096 (by decide)).2 (by decide)).2⟩

/-- C13. For valid regions `r` and `s`, `PmmRegion_clip r s` returns false
exactly when `r` and `s` share no byte, and then leaves `r` unchanged;
otherwise it returns true and `r` becomes the intersection
`[max (base r) (base s), min (last r) (last s)]`, whose bytes are the bytes
common to `r` and `s`, so that `base r ≥ base s` and `last r ≤ last s`
afterwards; and clipping `r` with itself returns true and leaves `r`
unchanged. -/
theorem C13_clip_is_intersection (r s : PmmRegion) (hr : PmmRegion_valid r)
    (hs : PmmRegion_valid s) :
    ((PmmRegion_clip r s).1 = false ↔
      ¬ ∃ a, PmmRegion_contains r a ∧ PmmRegion_contains s a) ∧
    ((PmmRegion_clip r s).1 = false → (PmmRegion_clip r s).2 = r) ∧
    ((PmmRegion_clip r s).1 = true →
      (PmmRegion_clip r s).2 = ⟨max r.m_base s.m_base, min r.m_last s.m_last⟩ ∧
      (∀ a, PmmRegion_contains (PmmRegion_clip r s).2 a ↔
        PmmRegion_contains r a ∧ PmmRegion_contains s a) ∧
      PmmRegion_base s ≤ PmmRegion_base (PmmRegion_clip r s).2 ∧
      PmmRegion_last (PmmRegion_clip r s).2 ≤ PmmRegion_last s) ∧
    PmmRegion_clip r r = (true, r) := by
  obtain ⟨rb, rl⟩ := r
  obtain ⟨sb, sl⟩ := s
  simp only [PmmRegion_valid, MAX_PHYS_ADDR] at hr hs
  simp only [PmmRegion_clip_eq, PmmRegion_contains, PmmRegion_base, PmmRegion_last]
  refine ⟨?_, ?_, ?_, ?_⟩
  · by_cases h : rl < sb ∨ sl < rb
    · rw [if_pos h]
      simp only [true_iff]
      rintro ⟨a, h1, h2⟩
      omega
    · rw [if_neg h]
      simp only [Bool.true_eq_false, false_iff, not_not]
      exact ⟨max rb sb, by omega, by omega⟩
  · by_cases h : rl < sb ∨ sl < rb
    · rw [if_pos h]
      intro _
      trivial
    · rw [if_neg h]
      intro hc
      exact Bool.noConfusion hc
  · by_cases h : rl < sb ∨ sl < rb
    · rw [if_pos h]
      intro hc
      exact Bool.noConfusion hc
    · rw [if_neg h]
      intro _
      refine ⟨rfl, ?_, ?_, ?_⟩
      · intro a
        simp only []
        omega
      · simp only []
        omega
      · simp only []
        omega
  · rw [if_neg (by omega)]
    exact congrArg (Prod.mk true) (PmmRegion_mk_congr (by omega) (by omega))

/-- Witness of C13: `[0x1000, 0x2FFF]` clipped with `[0x2000, 0x3FFF]`. -/
theorem C13_clip_is_intersection_witness :
    (PmmRegion_clip ⟨4096, 12287⟩ ⟨8192, 16383⟩).2 = ⟨max 4096 8192, min 12287 16383⟩ :=
  ((C13_clip_is_intersection ⟨4096, 12287⟩ ⟨8192, 16383⟩
    (by decide) (by decide)).2.2.1 (by decide)).1

/-- C14. For every valid region `r`, `PmmRegion_makePageAligned` gives a
valid region whose base is a multiple of `PAGE_SIZE`, whose last address plus
one (in unbounded integers) is a multiple of `PAGE_SIZE`, and which contains
`r`; it is the smallest such region (every page-aligned region that contains
`r` contains it), so a region that is already page-aligned is left as it is
and the operation is idempotent. -/
theorem C14_makePageAligned_smallest_aligned_cover (r : PmmRegion) (hr : PmmRegion_valid r) :
    (PmmRegion_makePageAligned r).m_base % PAGE_SIZE = 0 ∧
    ((PmmRegion_makePageAligned r).m_last + 1) % PAGE_SIZE = 0 ∧
    PmmRegion_valid (PmmRegion_makePageAligned r) ∧
    (∀ a, PmmRegion_contains r a → PmmRegion_contains (PmmRegion_makePageAligned r) a) ∧
    (∀ t : PmmRegion, t.m_base % PAGE_SIZE = 0 → (t.m_last + 1) % PAGE_SIZE = 0 →
      (∀ a, PmmRegion_contains r a → PmmRegion_contains t a) →
      ∀ a, PmmRegion_contains (PmmRegion_makePageAligned r) a → PmmRegion_contains t a) ∧
    (r.m_base % PAGE_SIZE = 0 → (r.m_last + 1) % PAGE_SIZE = 0 →
      PmmRegion_makePageAligned r = r) ∧
    PmmRegion_makePageAligned (PmmRegion_makePageAligned r) = PmmRegion_makePageAligned r := by
  have hv := PmmRegion_makePageAligned_valid hr
  rw [PmmRegion_makePageAligned_eq hv, PmmRegion_makePageAligned_eq hr] at *
  obtain ⟨b, l⟩ := r
  simp only [PmmRegion_valid, MAX_PHYS_ADDR] at hr hv
  simp only [PmmRegion_valid, PmmRegion_contains, PAGE_SIZE, MAX_PHYS_ADDR]
  refine ⟨by omega, by omega, by omega, ?_, ?_, ?_, ?_⟩
  · intro a ha
    omega
  · intro t ht1 ht2 hsub a ha
    have h1 := hsub b (by omega)
    have h2 := hsub l (by omega)
    omega
  · intro h1 h2
    exact PmmRegion_mk_congr (by omega) (by omega)
  · exact PmmRegion_mk_congr (by omega) (by omega)

/-- Witness of C14: `[0x1234, 0x5678]` grows to `[0x1000, 0x5FFF]`. -/
theorem C14_makePageAligned_smallest_aligned_cover_witness :
    (PmmRegion_makePageAligned ⟨4660, 22136⟩).m_base % PAGE_SIZE = 0 ∧
    ((PmmRegion_makePageAligned ⟨4660, 22136⟩).m_last + 1) % PAGE_SIZE = 0 :=
  ⟨(C14_makePageAligned_smallest_aligned_cover ⟨4660, 22136⟩ (by decide)).1,
    (C14_makePageAligned_smallest_aligned_cover ⟨4660, 22136⟩ (by decide)).2.1⟩

/-- C15. For every valid region `r` of length `n = last − base + 1`,
`PmmRegion_advance` returns true exactly when `last + n ≤ MAX_PHYS_ADDR` in
unbounded integers; on success `r` becomes `[last + 1, last + n]`, the same
length shifted up by exactly `n` bytes; on failure `r` is left unchanged. -/
theorem C15_advance_shifts_by_length (r : PmmRegion) (hr : PmmRegion_valid r) :
    ((PmmRegion_advance r).1 = true ↔
      r.m_last + PmmRegion_trueLength r ≤ MAX_PHYS_ADDR) ∧
    ((PmmRegion_advance r).1 = true →
      (PmmRegion_advance r).2 = ⟨r.m_last + 1, r.m_last + PmmRegion_trueLength r⟩ ∧
      PmmRegion_base (PmmRegion_advance r).2 = PmmRegion_base r + PmmRegion_trueLength r ∧
      PmmRegion_last (PmmRegion_advance r).2 = PmmRegion_last r + PmmRegion_trueLength r ∧
      PmmRegion_trueLength (PmmRegion_advance r).2 = PmmRegion_trueLength r) ∧
    ((PmmRegion_advance r).1 = false → (PmmRegion_advance r).2 = r) := by
  rw [PmmRegion_advance_eq hr]
  obtain ⟨b, l⟩ := r
  simp only [PmmRegion_valid, MAX_PHYS_ADDR] at hr
  simp only [PmmRegion_trueLength, PmmRegion_base, PmmRegion_last, MAX_PHYS_ADDR]
  by_cases h1 : l = 4294967295
  · rw [if_pos h1]
    refine ⟨?_, ?_, ?_⟩
    · constructor
      · intro hc
        exact Bool.noConfusion hc
      · intro hc
        omega
    · intro hc
      exact Bool.noConfusion hc
    · intro _
      trivial
  · rw [if_neg h1]
    by_cases h2 : 2 * l + 1 - b ≤ 4294967295
    · rw [if_pos h2]
      refine ⟨?_, ?_, ?_⟩
      · constructor
        · intro _
          omega
        · intro _
          trivial
      · intro _
        refine ⟨PmmRegion_mk_congr rfl (by omega), ?_, ?_, ?_⟩
        · simp only []
          omega
        · simp only []
          omega
        · simp only []
          omega
      · intro hc
        exact Bool.noConfusion hc
    · rw [if_neg h2]
      refine ⟨?_, ?_, ?_⟩
      · constructor
        · intro hc
          exact Bool.noConfusion hc
        · intro hc
          omega
      · intro hc
        exact Bool.noConfusion hc
      · intro _
        trivial

/-- Witness of C15: `[0x1000, 0x1FFF]` advances to `[0x2000, 0x2FFF]`. -/
theorem C15_advance_shifts_by_length_witness :
    (PmmRegion_advance ⟨4096, 8191⟩).2 =
      ⟨8191 + 1, 8191 + PmmRegion_trueLength ⟨4096, 8191⟩⟩ :=
  ((C15_advance_shifts_by_length ⟨4096, 8191⟩ (by decide)).2.1 (by decide)).1

/-- C16. For region lists `a` and `b` (two separate objects) that, once
reset, yield the finite sequences `la` and `lb`: after
`ConcatPmmRegionList_reset` the successive `moveNext`/`getCurrent` calls on
the concatenated list yield exactly `la` followed by `lb`, in order, and then
`moveNext` returns false; the reset resets both children. -/
theorem C16_concat_yields_first_then_second {α β : Type} (a : IPmmRegionList α)
    (b : IPmmRegionList β) (la lb : List PmmRegion)
    (ha : IPmmRegionList_yields a.iptr (a.iptr.reset a.obj) la = true)
    (hb : IPmmRegionList_yields b.iptr (b.iptr.reset b.obj) lb = true) :
    IPmmRegionList_yields (ConcatPmmRegionList_s_itable α β)
      (ConcatPmmRegionList_reset (ConcatPmmRegionList_create a b)) (la ++ lb) = true ∧
    (ConcatPmmRegionList_reset (ConcatPmmRegionList_create a b)).m_firstList.obj =
      a.iptr.reset a.obj ∧
    (ConcatPmmRegionList_reset (ConcatPmmRegionList_create a b)).m_secondList.obj =
      b.iptr.reset b.obj := by
  refine ⟨?_, rfl, rfl⟩
  obtain ⟨ai, ao⟩ := a
  obtain ⟨bi, bo⟩ := b
  exact ConcatPmmRegionList_yields_reset _ _ _
    (ConcatPmmRegionList_yields_on_first ai bi (bi.reset bo) la lb hb (ai.reset ao) ha)

/-- Witness of C16: the memory-fields list of a machine with 640 KB of lower
and 31 MB of upper memory, followed by the module list of a kernel image that
ends at 2 MB and has no boot modules. -/
theorem C16_concat_yields_first_then_second_witness :
    IPmmRegionList_yields
      (ConcatPmmRegionList_s_itable MBMemFieldsPmmRegionList MBModulePmmRegionList)
      (ConcatPmmRegionList_reset (ConcatPmmRegionList_create
        ⟨MBMemFieldsPmmRegionList_s_itable,
          MBMemFieldsPmmRegionList_create (MultibootInfo_memFieldsOnly 640 31744)⟩
        ⟨MBModulePmmRegionList_s_itable 2097152 (fun _ => ⟨0, 0⟩),
          MBModulePmmRegionList_create (MultibootInfo_memFieldsOnly 640 31744)⟩))
      ([⟨0, 655359⟩, ⟨1048576, 33554431⟩] ++ [⟨1048576, 2097151⟩]) = true :=
  (C16_concat_yields_first_then_second
    ⟨MBMemFieldsPmmRegionList_s_itable,
      MBMemFieldsPmmRegionList_create (MultibootInfo_memFieldsOnly 640 31744)⟩
    ⟨MBModulePmmRegionList_s_itable 2097152 (fun _ => ⟨0, 0⟩),
      MBModulePmmRegionList_create (MultibootInfo_memFieldsOnly 640 31744)⟩
    [⟨0, 655359⟩, ⟨1048576, 33554431⟩] [⟨1048576, 2097151⟩] (by decide) (by decide)).1

/-- C17 fails for the memory-map list: on a memory map whose single entry,
at `0x1000`, has the size field `0xFFFFEFFC`, the cursor wraps to the null
pointer that marks the reset state, so `moveNext` returns true, then false,
and then true again without any reset in between. -/
theorem C17_memmap_moveNext_true_after_false :
    MBMemmapPmmRegionList_reset
        (MBMemmapPmmRegionList_create (MultibootInfo_memmapOnly 4096 24) true) =
      ⟨0, MultibootInfo_memmapOnly 4096 24, true⟩ ∧
    MBMemmapPmmRegionList_moveNext (MBMemmap_store 4096 [⟨4294963196, 0, 0, 4096, 0, 1⟩])
        ⟨0, MultibootInfo_memmapOnly 4096 24, true⟩ =
      some (true, ⟨4096, MultibootInfo_memmapOnly 4096 24, true⟩) ∧
    MBMemmapPmmRegionList_moveNext (MBMemmap_store 4096 [⟨4294963196, 0, 0, 4096, 0, 1⟩])
        ⟨4096, MultibootInfo_memmapOnly 4096 24, true⟩ =
      some (false, ⟨0, MultibootInfo_memmapOnly 4096 24, true⟩) ∧
    MBMemmapPmmRegionList_moveNext (MBMemmap_store 4096 [⟨4294963196, 0, 0, 4096, 0, 1⟩])
        ⟨0, MultibootInfo_memmapOnly 4096 24, true⟩ ≠
      some (false, ⟨0, MultibootInfo_memmapOnly 4096 24, true⟩) := by
  decide

/-- A memory map at the null address, which no list of the kernel is created
on (the lists are created on the copy that the boot-information translator
makes in its static buffer): the single RAM entry of the table is laid end to
end in `[0, 24)`, yet the RAM list does not yield it once and then stop; the
null current node is taken for the reset state, so every `moveNext` returns
true on that same entry. -/
theorem MBMemmapPmmRegionList_table_at_address_zero_repeats :
    MBMemmap_laid (MBMemmap_store 0 [⟨20, 0, 0, 4096, 0, 1⟩]) 0 [⟨20, 0, 0, 4096, 0, 1⟩]
      (0 + 24) ∧
    IPmmRegionList_yields (MBMemmapPmmRegionList_s_itable
        (MBMemmap_store 0 [⟨20, 0, 0, 4096, 0, 1⟩]))
      (MBMemmapPmmRegionList_reset
        (MBMemmapPmmRegionList_create (MultibootInfo_memmapOnly 0 24) true))
      (([⟨20, 0, 0, 4096, 0, 1⟩].filter MBMemmapNode_isRam).map MBMemmapNode_region) =
      false ∧
    MBMemmapPmmRegionList_moveNext (MBMemmap_store 0 [⟨20, 0, 0, 4096, 0, 1⟩])
        ⟨0, MultibootInfo_memmapOnly 0 24, true⟩ =
      some (true, ⟨0, MultibootInfo_memmapOnly 0 24, true⟩) := by
  decide

/-- C18. For every memory map that is present, starts at a non-null address
and ends below `2^32` (as does every memory map that a list is created on:
the copy that the boot-information translator makes inside its static
buffer) and whose entries `es` are laid end to end in
`[MMapAddr, MMapAddr + MMapLength)`: the RAM list yields exactly the regions
of the entries of Type 1, in table order, and the reserved list yields
exactly the regions of the entries of every other Type, in table order, each
region starting at `BaseAddrLow` with the adjusted length of the entry; every
entry is in exactly one of the two lists. -/
theorem C18_memmap_lists_split_table (mem : Nat → MBMemmapNode) (mbInfo : MultibootInfo)
    (es : List MBMemmapNode) (hp : mbInfo.MemMapPresent = true) (h0 : 0 < mbInfo.MMapAddr)
    (hend : mbInfo.MMapAddr + mbInfo.MMapLength < 4294967296)
    (hl : MBMemmap_laid mem mbInfo.MMapAddr es (mbInfo.MMapAddr + mbInfo.MMapLength)) :
    IPmmRegionList_yields (MBMemmapPmmRegionList_s_itable mem)
      (MBMemmapPmmRegionList_reset (MBMemmapPmmRegionList_create mbInfo true))
      ((es.filter (fun n => n.Type_ == 1)).map MBMemmapNode_region) = true ∧
    IPmmRegionList_yields (MBMemmapPmmRegionList_s_itable mem)
      (MBMemmapPmmRegionList_reset (MBMemmapPmmRegionList_create mbInfo false))
      ((es.filter (fun n => n.Type_ != 1)).map MBMemmapNode_region) = true ∧
    (∀ n ∈ es, (n ∈ es.filter (fun n => n.Type_ == 1) ↔
      ¬ n ∈ es.filter (fun n => n.Type_ != 1))) := by
  have hstart : ∀ isRam : Bool,
      MBMemmapPmmRegionList_moveNext mem
          (MBMemmapPmmRegionList_reset (MBMemmapPmmRegionList_create mbInfo isRam)) =
        MBMemmapPmmRegionList_moveNextLoop mem MEMMAP_WALK_FUEL
          ⟨mbInfo.MMapAddr, mbInfo, isRam⟩ := by
    intro isRam
    simp [MBMemmapPmmRegionList_moveNext, MBMemmapPmmRegionList_reset,
      MBMemmapPmmRegionList_create, hp]
  have hram : (fun n : MBMemmapNode => MBMemmapNode_isRam n == true) =
      (fun n => n.Type_ == 1) := by
    funext n
    simp [MBMemmapNode_isRam]
  have hres : (fun n : MBMemmapNode => MBMemmapNode_isRam n == false) =
      (fun n => n.Type_ != 1) := by
    funext n
    cases h : n.Type_ == 1 <;> simp [MBMemmapNode_isRam, bne, h]
  have h1 := MBMemmapPmmRegionList_yields_laid mem mbInfo true hp h0 hend (es.length + 1) es
    mbInfo.MMapAddr _ (Nat.lt_succ_self _) hl (Nat.le_refl _) (hstart true)
  have h2 := MBMemmapPmmRegionList_yields_laid mem mbInfo false hp h0 hend (es.length + 1) es
    mbInfo.MMapAddr _ (Nat.lt_succ_self _) hl (Nat.le_refl _) (hstart false)
  rw [hram] at h1
  rw [hres] at h2
  refine ⟨h1, h2, ?_⟩
  intro n hn
  simp [List.mem_filter, hn]

/-- Witness of C18: a table of three entries at `0x1000` (RAM, reserved,
RAM). -/
theorem C18_memmap_lists_split_table_witness :
    IPmmRegionList_yields (MBMemmapPmmRegionList_s_itable (MBMemmap_store 4096
        [⟨20, 0, 0, 654336, 0, 1⟩, ⟨20, 654336, 0, 1024, 0, 2⟩,
          ⟨20, 1048576, 0, 32505856, 0, 1⟩]))
      (MBMemmapPmmRegionList_reset
        (MBMemmapPmmRegionList_create (MultibootInfo_memmapOnly 4096 72) true))
      ((([⟨20, 0, 0, 654336, 0, 1⟩, ⟨20, 654336, 0, 1024, 0, 2⟩,
          ⟨20, 1048576, 0, 32505856, 0, 1⟩] : List MBMemmapNode).filter
        (fun n => n.Type_ == 1)).map MBMemmapNode_region) = true :=
  (C18_memmap_lists_split_table
    (MBMemmap_store 4096 [⟨20, 0, 0, 654336, 0, 1⟩, ⟨20, 654336, 0, 1024, 0, 2⟩,
      ⟨20, 1048576, 0, 32505856, 0, 1⟩])
    (MultibootInfo_memmapOnly 4096 72)
    [⟨20, 0, 0, 654336, 0, 1⟩, ⟨20, 654336, 0, 1024, 0, 2⟩, ⟨20, 1048576, 0, 32505856, 0, 1⟩]
    rfl (by decide) (by decide) (by decide)).1

/-- For every memory-map entry with 32-bit fields, base `B = BaseAddrLow` and
64-bit length `L`, `MBMemmapNode_getAdjustedLength` returns
`min (L, MAX_PHYS_ADDR − B + 1, MAX_PHYS_ADDR)`; hence for `L ≥ 1` the result
`n` satisfies `n ≥ 1` and `B + n − 1 ≤ MAX_PHYS_ADDR` and is accepted by
`PmmRegion_create`, and for a zero base it is capped at `MAX_PHYS_ADDR`. -/
theorem MBMemmapNode_getAdjustedLength_is_min (node : MBMemmapNode)
    (hB : node.BaseAddrLow < 4294967296) (hL : node.LengthLow < 4294967296) :
    MBMemmapNode_getAdjustedLength node =
      min (MBMemmapNode_fullLength node)
        (min (MAX_PHYS_ADDR - node.BaseAddrLow + 1) MAX_PHYS_ADDR) ∧
    (1 ≤ MBMemmapNode_fullLength node →
      1 ≤ MBMemmapNode_getAdjustedLength node ∧
      node.BaseAddrLow + MBMemmapNode_getAdjustedLength node - 1 ≤ MAX_PHYS_ADDR ∧
      PmmRegion_isValidRegion node.BaseAddrLow (MBMemmapNode_getAdjustedLength node) = true) ∧
    (node.BaseAddrLow = 0 →
      MBMemmapNode_getAdjustedLength node = min (MBMemmapNode_fullLength node) MAX_PHYS_ADDR) := by
  obtain ⟨sz, B, bh, ll, lh, ty⟩ := node
  simp only [] at hB hL
  have hadj : MBMemmapNode_getAdjustedLength ⟨sz, B, bh, ll, lh, ty⟩ =
      min (lh * 4294967296 + ll) (min (4294967295 - B + 1) 4294967295) := by
    simp only [MBMemmapNode_getAdjustedLength, MAX_PHYS_ADDR, u32]
    split_ifs <;> omega
  simp only [MBMemmapNode_fullLength, MAX_PHYS_ADDR, hadj, PmmRegion_isValidRegion,
    Bool.and_eq_true, decide_eq_true_eq]
  refine ⟨trivial, ?_, ?_⟩
  · intro h1
    omega
  · intro h0
    omega

/-- C19. The result of `MBMemmapNode_getAdjustedLength` is not always
acceptable to `PmmRegion_create`: for every memory-map entry of length zero
with 32-bit base `B` the result is 0, which `PmmRegion_isValidRegion` rejects
for every base, and `MBMemmapPmmRegionList_getCurrent` passes it to
`PmmRegion_create` nevertheless. The region made is `[B, B − 1]` in 32 bits:
its last byte lies below its base when `B ≥ 1`, and it is the whole address
space `[0, MAX_PHYS_ADDR]` when `B = 0`. For the table whose single entry is
a RAM entry of length zero at 0x100000, the RAM list yields the region
`[0x100000, 0xFFFFF]`, and the allocator created over that list hands out
the frame at 0x100000, which the memory map does not describe as RAM. -/
theorem C19_zero_length_entry_is_passed_to_create :
    (∀ node : MBMemmapNode, node.BaseAddrLow < 4294967296 →
      MBMemmapNode_fullLength node = 0 →
      MBMemmapNode_getAdjustedLength node = 0 ∧
      PmmRegion_isValidRegion node.BaseAddrLow (MBMemmapNode_getAdjustedLength node) = false ∧
      (∀ (mem : Nat → MBMemmapNode) (list : MBMemmapPmmRegionList),
        mem list.m_currentMemmapNode = node →
        MBMemmapPmmRegionList_getCurrent mem list =
          some ⟨node.BaseAddrLow, u32 (node.BaseAddrLow + 4294967295)⟩) ∧
      (1 ≤ node.BaseAddrLow → u32 (node.BaseAddrLow + 4294967295) = node.BaseAddrLow - 1) ∧
      (node.BaseAddrLow = 0 → u32 (node.BaseAddrLow + 4294967295) = MAX_PHYS_ADDR)) ∧
    (∀ baseAddr : Nat, PmmRegion_isValidRegion baseAddr 0 = false) ∧
    IPmmRegionList_yields
        (MBMemmapPmmRegionList_s_itable (MBMemmap_store 4096 [⟨20, 0x100000, 0, 0, 0, 1⟩]))
        (MBMemmapPmmRegionList_reset
          (MBMemmapPmmRegionList_create (MultibootInfo_memmapOnly 4096 24) true))
        [⟨0x100000, 0xFFFFF⟩] = true ∧
    MBMemmapPmmRegionList_getCurrent (MBMemmap_store 4096 [⟨20, 0, 0, 0, 0, 1⟩])
        ⟨4096, MultibootInfo_memmapOnly 4096 24, true⟩ = some ⟨0, MAX_PHYS_ADDR⟩ ∧
    (PmmWatermarkAllocator_create [⟨0x100000, 0xFFFFF⟩] []).bind
        (fun allocator =>
          (PmmWatermarkAllocator_allocate allocator).map (fun result => result.1)) =
      some 0x100000 := by
  refine ⟨?_, fun _ => rfl, by decide, by decide, by decide⟩
  intro node hB hL
  obtain ⟨sz, B, bh, ll, lh, ty⟩ := node
  simp only [] at hB
  simp only [MBMemmapNode_fullLength] at hL
  have hll : ll = 0 := by omega
  have hlh : lh = 0 := by
    rcases Nat.eq_zero_or_pos lh with h | h
    · exact h
    · exfalso
      have h2 : 4294967296 ≤ lh * 4294967296 := Nat.le_mul_of_pos_left _ h
      omega
  subst hll
  subst hlh
  have hadj : MBMemmapNode_getAdjustedLength ⟨sz, B, bh, 0, 0, ty⟩ = 0 := by
    simp only [MBMemmapNode_getAdjustedLength, MAX_PHYS_ADDR]
    rw [if_neg (by omega)]
  refine ⟨hadj, ?_, ?_, ?_, ?_⟩
  · rw [hadj]
    rfl
  · intro mem list hnode
    unfold MBMemmapPmmRegionList_getCurrent
    rw [hnode, hadj]
    rfl
  · intro h1
    simp only [] at h1 ⊢
    simp only [u32]
    omega
  · intro h0
    simp only [] at h0 ⊢
    simp only [u32, MAX_PHYS_ADDR]
    omega

/-- C20, as stated, fails for a zero base: for the entry with base 0 and
64-bit length `2^32 + 1`, `B + L − 1` exceeds `MAX_PHYS_ADDR`, yet the region
that the memory-map list yields for it ends at `MAX_PHYS_ADDR − 1`. -/
theorem C20_zero_base_ends_one_below_max :
    (⟨20, 0, 0, 1, 1, 1⟩ : MBMemmapNode).BaseAddrLow +
        MBMemmapNode_fullLength ⟨20, 0, 0, 1, 1, 1⟩ - 1 > MAX_PHYS_ADDR ∧
    MBMemmapPmmRegionList_getCurrent (MBMemmap_store 4096 [⟨20, 0, 0, 1, 1, 1⟩])
        ⟨4096, MultibootInfo_memmapOnly 4096 24, true⟩ =
      some ⟨0, MAX_PHYS_ADDR - 1⟩ := by
  decide

/-- C20 (amended). For every memory-map entry with 32-bit fields whose length
at face value would carry the region past `MAX_PHYS_ADDR`
(`B + L − 1 > MAX_PHYS_ADDR`), the region that the memory-map list yields for
it starts at `B` and ends at `MAX_PHYS_ADDR` exactly when `B ≠ 0`, and at
`MAX_PHYS_ADDR − 1` when `B = 0`. -/
theorem C20_clamped_region_last (mem : Nat → MBMemmapNode) (list : MBMemmapPmmRegionList)
    (hB : (mem list.m_currentMemmapNode).BaseAddrLow < 4294967296)
    (hL : (mem list.m_currentMemmapNode).LengthLow < 4294967296)
    (hover : (mem list.m_currentMemmapNode).BaseAddrLow +
      MBMemmapNode_fullLength (mem list.m_currentMemmapNode) - 1 > MAX_PHYS_ADDR) :
    MBMemmapPmmRegionList_getCurrent mem list =
      some ⟨(mem list.m_currentMemmapNode).BaseAddrLow,
        if (mem list.m_currentMemmapNode).BaseAddrLow = 0 then MAX_PHYS_ADDR - 1
        else MAX_PHYS_ADDR⟩ := by
  unfold MBMemmapPmmRegionList_getCurrent
  generalize mem list.m_currentMemmapNode = node at hB hL hover
  obtain ⟨sz, B, bh, ll, lh, ty⟩ := node
  simp only [] at hB hL
  simp only [MBMemmapNode_fullLength, MAX_PHYS_ADDR] at hover
  simp only [MBMemmapNode_getAdjustedLength, MAX_PHYS_ADDR, u32, PmmRegion_create]
  refine congrArg some (PmmRegion_mk_congr rfl ?_)
  split_ifs <;> omega

/-- Witness of C20: an entry at `0xFFFF0000` that claims 1 MB yields a region
that ends at `MAX_PHYS_ADDR`. -/
theorem C20_clamped_region_last_witness :
    MBMemmapPmmRegionList_getCurrent
        (MBMemmap_store 4096 [⟨20, 4294901760, 0, 1048576, 0, 1⟩])
        ⟨4096, MultibootInfo_memmapOnly 4096 24, true⟩ =
      some ⟨(MBMemmap_store 4096 [⟨20, 4294901760, 0, 1048576, 0, 1⟩] 4096).BaseAddrLow,
        if (MBMemmap_store 4096 [⟨20, 4294901760, 0, 1048576, 0, 1⟩] 4096).BaseAddrLow = 0
        then MAX_PHYS_ADDR - 1 else MAX_PHYS_ADDR⟩ :=
  C20_clamped_region_last (MBMemmap_store 4096 [⟨20, 4294901760, 0, 1048576, 0, 1⟩])
    ⟨4096, MultibootInfo_memmapOnly 4096 24, true⟩ (by decide) (by decide) (by decide)

/-- C21. `BootLoaderInfoTranslator_translate` returns `NULL` whenever the
magic number is not 0x2BADB002, and whenever the root structure does not lie
entirely inside the first 4 MiB of physical memory (the sum taken in
unbounded integers). In both cases it returns without a single access to
memory: nothing is read at the address that the boot loader passed, or
anywhere else, and nothing is written, so the memory is what it was, the
static buffer included. The accesses are those of the translator with its
list of accesses, which computes what the translator computes on every
input; with the right magic number and the root structure inside the first
4 MiB every run of it starts with the read of the flags of the structure at
the address that the boot loader passed, and on a memory of zeroes it makes
the sixteen accesses listed, the write of `KMem_set` to the static buffer
among them. -/
theorem C21_translate_rejects (s_mbInfoSpace : Nat) (mem : Memory)
    (mbInfoPhysAddr magic : Nat) (hp : mbInfoPhysAddr < 4294967296)
    (h : magic ≠ 0x2BADB002 ∨ 4194304 < mbInfoPhysAddr + 96) :
    BootLoaderInfoTranslator_translate s_mbInfoSpace mem mbInfoPhysAddr magic =
        some (none, mem) ∧
    BootLoaderInfoTranslator_translate_traced s_mbInfoSpace mem mbInfoPhysAddr magic =
        some ((none, mem), []) ∧
    (∀ (mem1 : Memory) (mbInfoPhysAddr1 magic1 : Nat),
      (BootLoaderInfoTranslator_translate_traced s_mbInfoSpace mem1 mbInfoPhysAddr1
          magic1).map Prod.fst =
        BootLoaderInfoTranslator_translate s_mbInfoSpace mem1 mbInfoPhysAddr1 magic1) ∧
    (∀ (mem1 : Memory) (mbInfoPhysAddr1 : Nat)
        (r : (Option BootLoaderInfoStruct × Memory) × List Memory_Access),
      mbInfoPhysAddr1 + 96 ≤ 4194304 →
      BootLoaderInfoTranslator_translate_traced s_mbInfoSpace mem1 mbInfoPhysAddr1 0x2BADB002 =
        some r →
      ∃ rest, r.2 = Memory_Access.read (mbInfoPhysAddr1 + 0xE0000000) 4 :: rest) ∧
    (BootLoaderInfoTranslator_translate_traced 0xE0200000 Memory_zero 0x2000 0x2BADB002).map
        (fun r => (r.1.1, r.2)) =
      some (some { m_mbInfo := 0xE0200000 },
        [Memory_Access.read 0xE0002000 4, Memory_Access.write 0xE0002010 4,
          Memory_Access.read 0xE0002000 4, Memory_Access.write 0xE0002030 4,
          Memory_Access.read 0xE0002000 4, Memory_Access.write 0xE0002018 4,
          Memory_Access.write 0xE0200000 1024,
          Memory_Access.read 0xE0002000 96, Memory_Access.write 0xE0200000 96,
          Memory_Access.read 0xE0200000 4, Memory_Access.write 0xE0200030 4,
          Memory_Access.read 0xE0200000 4, Memory_Access.write 0xE0200018 4,
          Memory_Access.read 0xE0200000 4,
          Memory_Access.read 0xE0200000 4, Memory_Access.write 0xE0200010 4]) := by
  have hmap : magic = 0x2BADB002 →
      BootLoaderInfoTranslator_mapMultibootInfo mem mbInfoPhysAddr = some (0, mem) ∧
      BootLoaderInfoTranslator_mapMultibootInfo_traced mem mbInfoPhysAddr =
        some ((0, mem), []) := by
    intro hm
    have hsum : 4194304 < mbInfoPhysAddr + MultibootInfo_layout.sizeof := by
      rcases h with h | h
      · exact absurd hm h
      · exact h
    unfold BootLoaderInfoTranslator_mapMultibootInfo
      BootLoaderInfoTranslator_mapMultibootInfo_traced
    simp only [MM_MB_four]
    by_cases h4 : 4194304 ≤ mbInfoPhysAddr
    · rw [if_pos h4, if_pos h4]
      exact ⟨rfl, rfl⟩
    · rw [if_neg h4, if_neg h4]
      have hu : u32 (mbInfoPhysAddr + MultibootInfo_layout.sizeof) =
          mbInfoPhysAddr + MultibootInfo_layout.sizeof :=
        u32_of_lt (by simp only [MultibootInfo_layout.sizeof]; omega)
      rw [hu, if_pos hsum, if_pos hsum]
      exact ⟨rfl, rfl⟩
  refine ⟨?_, ?_, fun mem1 mbInfoPhysAddr1 magic1 =>
      BootLoaderInfoTranslator_translate_traced_fst s_mbInfoSpace mem1 mbInfoPhysAddr1 magic1,
    ?_, by decide⟩
  · unfold BootLoaderInfoTranslator_translate
    by_cases hm : magic ≠ 0x2BADB002
    · rw [if_pos hm]
    · rw [if_neg hm, (hmap (by simpa using hm)).1]
      rfl
  · unfold BootLoaderInfoTranslator_translate_traced
    by_cases hm : magic ≠ 0x2BADB002
    · rw [if_pos hm]
    · rw [if_neg hm, (hmap (by simpa using hm)).2]
      rfl
  · intro mem1 mbInfoPhysAddr1 r hin hr
    obtain ⟨rest, hrest⟩ :=
      BootLoaderInfoTranslator_translate_traced_head s_mbInfoSpace mem1 mbInfoPhysAddr1 hin r hr
    refine ⟨rest, ?_⟩
    rw [hrest]
    have hu : u32 (mbInfoPhysAddr1 + MM_KERNEL_VIRTUAL_BASE) + MultibootInfo_layout.flags =
        mbInfoPhysAddr1 + 0xE0000000 := by
      simp only [u32, MM_KERNEL_VIRTUAL_BASE, MultibootInfo_layout.flags]
      omega
    rw [hu]

/-- Witness of C21 with a wrong magic number, and with the right magic
number and a root structure that ends 32 bytes past the first 4 MiB. -/
theorem C21_translate_rejects_witness :
    BootLoaderInfoTranslator_translate_traced 0xE0200000 Memory_zero 0x2000 0x2BADB003 =
        some ((none, Memory_zero), []) ∧
    BootLoaderInfoTranslator_translate_traced 0xE0200000 Memory_zero 0x3FFFC0 0x2BADB002 =
        some ((none, Memory_zero), []) :=
  ⟨(C21_translate_rejects 0xE0200000 Memory_zero 0x2000 0x2BADB003
      (by decide) (Or.inl (by decide))).2.1,
    (C21_translate_rejects 0xE0200000 Memory_zero 0x3FFFC0 0x2BADB002
      (by decide) (Or.inr (by decide))).2.1⟩

/-- C22, as stated, fails: with the static buffer at 0xE0200000, the
translation of `BootLoaderInfoTranslator_overlapExample` succeeds and returns
the copy at the start of the buffer, whose memory map pointer points into the
buffer, but the four bytes there are zero, while the memory map that the boot
loader supplied holds 1, 2, 3, 4: it lay where the buffer is, and the buffer
is cleared before the copy. -/
theorem C22_memory_map_in_buffer_is_cleared :
    (BootLoaderInfoTranslator_translate 0xE0200000 BootLoaderInfoTranslator_overlapExample
        0x2000 0x2BADB002).map
      (fun r => (r.1, Memory_read32 r.2 (0xE0200000 + 48),
        Memory_bytes r.2 (0xE0200000 + 96) 4)) =
      some (some { m_mbInfo := 0xE0200000 }, 0xE0200000 + 96, [0, 0, 0, 0]) ∧
    Memory_bytes BootLoaderInfoTranslator_overlapExample 0xE0200100 4 = [1, 2, 3, 4] := by
  decide

/-- C22, amended. When the mapping step has accepted the root and what the
mapped root refers to (the memory map, the module list, the module names, the
command line, as far as they are present) lies outside the static buffer,
`BootLoaderInfoTranslator_translate` ends; it succeeds exactly when the tail
of the buffer after all the copies, each placed at the tail before it rounded
up to a multiple of four, lies in the buffer, and fails otherwise; when it
succeeds, the root it returns is the copy at the start of the buffer, the
places of the copies are multiples of four, follow one another in the buffer
and end in it, every present pointer of the copy points to the place of what
it refers to (and is null otherwise), and the bytes at each place are those
of the mapped memory, but for the pointers, which have been replaced. -/
theorem C22_translate_copies_into_buffer (S : Nat) (mem : Memory) (mbInfoPhysAddr : Nat)
    (mapped : Nat × Memory) (hbuf : BootLoaderInfoTranslator_bufferOk S)
    (hmap : BootLoaderInfoTranslator_mapMultibootInfo mem mbInfoPhysAddr = some mapped)
    (hR : mapped.1 ≠ 0)
    (hsrc : BootLoaderInfoTranslator_sourceApart S mapped.2 mapped.1) :
    ∃ m : Memory,
      BootLoaderInfoTranslator_translate S mem mbInfoPhysAddr 0x2BADB002 =
        some (if BootLoaderInfoTranslator_tail mapped.2 mapped.1 S ≤ S + s_mbInfoSpace_sizeof
          then some { m_mbInfo := S } else none, m) ∧
      (BootLoaderInfoTranslator_tail mapped.2 mapped.1 S ≤ S + s_mbInfoSpace_sizeof →
        BootLoaderInfoTranslator_layoutOk S mapped.2 mapped.1 ∧
        BootLoaderInfoTranslator_rootCopied S mapped.2 mapped.1 m ∧
        BootLoaderInfoTranslator_memMapCopied S mapped.2 mapped.1 m ∧
        BootLoaderInfoTranslator_moduleListCopied S mapped.2 mapped.1 m ∧
        BootLoaderInfoTranslator_namesCopied S mapped.2 mapped.1 m ∧
        BootLoaderInfoTranslator_commandLineCopied S mapped.2 mapped.1 m) := by
  obtain ⟨m, hrun, hok⟩ :=
    BootLoaderInfoTranslator_copyMultibootInfo_spec S mapped.2 mapped.1 hbuf hsrc
  have hS0 : ¬ (S = 0) := by have := hbuf.2.1; omega
  refine ⟨m, ?_, fun h => ⟨BootLoaderInfoTranslator_layoutOk_of_tail _ _ _ hbuf.1 h, hok h⟩⟩
  unfold BootLoaderInfoTranslator_translate
  simp only [ne_eq, not_true_eq_false, if_false, hmap, if_neg hR, hrun, s_mbInfoSpace_sizeof]
  by_cases ht : BootLoaderInfoTranslator_tail mapped.2 mapped.1 S ≤ S + 1024
  · simp only [if_pos ht, if_neg hS0]
  · simp only [if_neg ht, if_true]

/-- Witness of the amended C22 on `BootLoaderInfoTranslator_example`, with the
static buffer at 0xE0200000. -/
theorem C22_translate_copies_into_buffer_witness :
    ∃ m : Memory,
      BootLoaderInfoTranslator_translate 0xE0200000 BootLoaderInfoTranslator_example 0x2000
          0x2BADB002 =
        some (if BootLoaderInfoTranslator_tail BootLoaderInfoTranslator_exampleMapped.2
            BootLoaderInfoTranslator_exampleMapped.1 0xE0200000 ≤
            0xE0200000 + s_mbInfoSpace_sizeof
          then some { m_mbInfo := 0xE0200000 } else none, m) ∧
      (BootLoaderInfoTranslator_tail BootLoaderInfoTranslator_exampleMapped.2
          BootLoaderInfoTranslator_exampleMapped.1 0xE0200000 ≤
          0xE0200000 + s_mbInfoSpace_sizeof →
        BootLoaderInfoTranslator_layoutOk 0xE0200000 BootLoaderInfoTranslator_exampleMapped.2
          BootLoaderInfoTranslator_exampleMapped.1 ∧
        BootLoaderInfoTranslator_rootCopied 0xE0200000 BootLoaderInfoTranslator_exampleMapped.2
          BootLoaderInfoTranslator_exampleMapped.1 m ∧
        BootLoaderInfoTranslator_memMapCopied 0xE0200000 BootLoaderInfoTranslator_exampleMapped.2
          BootLoaderInfoTranslator_exampleMapped.1 m ∧
        BootLoaderInfoTranslator_moduleListCopied 0xE0200000
          BootLoaderInfoTranslator_exampleMapped.2 BootLoaderInfoTranslator_exampleMapped.1 m ∧
        BootLoaderInfoTranslator_namesCopied 0xE0200000 BootLoaderInfoTranslator_exampleMapped.2
          BootLoaderInfoTranslator_exampleMapped.1 m ∧
        BootLoaderInfoTranslator_commandLineCopied 0xE0200000
          BootLoaderInfoTranslator_exampleMapped.2 BootLoaderInfoTranslator_exampleMapped.1 m) :=
  C22_translate_copies_into_buffer 0xE0200000 BootLoaderInfoTranslator_example 0x2000
    BootLoaderInfoTranslator_exampleMapped ⟨by decide, by decide, by decide⟩ rfl (by decide)
    ⟨by decide, fun _ => by decide,
      fun _ => ⟨by decide, fun i hi _ => by
        have hN : Memory_read32 BootLoaderInfoTranslator_exampleMapped.2
            (BootLoaderInfoTranslator_exampleMapped.1 + MultibootInfo_layout.ModsCount) = 1 := by
          decide
        rw [hN] at hi
        have h0 : i = 0 := by omega
        subst h0
        exact ⟨1, by decide, by decide⟩⟩,
      fun h => absurd h (by decide)⟩

/-- C23. The mapping step accepts the root of `BootLoaderInfoTranslator_wrapExample`,
in which only a memory map is present with `MMapAddr` = 0x1000 and
`MMapLength` = 0xFFFFF000: the sum of the two exceeds 4 MiB in unbounded
integers, and wraps to 0 in the 32 bits that the code compares with the
bound. -/
theorem C23_mapping_accepts_wrapped_sum :
    (BootLoaderInfoTranslator_mapMultibootInfo BootLoaderInfoTranslator_wrapExample 0x2000).map
        Prod.fst = some 0xE0002000 ∧
    MultibootInfo_MemMapPresent BootLoaderInfoTranslator_wrapExample 0xE0002000 = true ∧
    Memory_read32 BootLoaderInfoTranslator_wrapExample
        (0xE0002000 + MultibootInfo_layout.MMapAddr) = 0x1000 ∧
    Memory_read32 BootLoaderInfoTranslator_wrapExample
        (0xE0002000 + MultibootInfo_layout.MMapLength) = 0xFFFFF000 ∧
    4194304 < 0x1000 + 0xFFFFF000 := by
  decide

/-- C24. For every physical string address `p` and every memory content,
`BootLoaderInfoTranslator_mapString` ends, and the addresses it reads are
consecutive from the one of `p` on and all lie in the window of the physical
addresses `[p, 4 MiB)` (mapped at the kernel's virtual base), so that every
read after the first is of an address found below the bound; it reads nothing
when `p ≥ 4 MiB`; and it returns a non-null pointer, the virtual address of
`p`, if and only if `p < 4 MiB` and some byte in `[p, 4 MiB)` is zero. -/
theorem C24_mapString_safe (mem : Memory) (p : Nat)
    (hp : p < 4294967296) :
    ∃ (res : Nat) (reads : List Nat),
      BootLoaderInfoTranslator_mapString mem p = some (res, reads) ∧
      (∀ a ∈ reads, p + MM_KERNEL_VIRTUAL_BASE ≤ a ∧ a < 4194304 + MM_KERNEL_VIRTUAL_BASE) ∧
      (∃ n, reads = List.range' (p + MM_KERNEL_VIRTUAL_BASE) n) ∧
      (4194304 ≤ p → reads = []) ∧
      (res ≠ 0 → res = p + MM_KERNEL_VIRTUAL_BASE) ∧
      (res ≠ 0 ↔ p < 4194304 ∧
        ∃ q, p ≤ q ∧ q < 4194304 ∧ Memory_read8 mem (q + MM_KERNEL_VIRTUAL_BASE) = 0) := by
  by_cases h4 : 4194304 ≤ p
  · refine ⟨0, [], ?_, fun a ha => absurd ha (List.not_mem_nil _), ⟨0, rfl⟩, fun _ => rfl,
      fun h => absurd rfl h, ?_⟩
    · unfold BootLoaderInfoTranslator_mapString
      simp only [MM_MB_four, if_pos h4]
    · constructor
      · intro h; exact absurd rfl h
      · rintro ⟨h, _⟩; omega
  · have hlt : p < 4194304 := Nat.lt_of_not_le h4
    obtain ⟨found, n, hrun, hn, hnz, ht, hf⟩ := BootLoaderInfoTranslator_mapString_spec mem p hlt
    refine ⟨_, _, hrun, ?_, ⟨n + 1, rfl⟩, fun h => absurd h h4, ?_, ?_⟩
    · intro a ha
      rw [List.mem_range'_1] at ha
      omega
    · cases found
      · intro h; exact absurd rfl h
      · intro _; rfl
    · cases found
      · simp only [Bool.false_eq_true, if_false, ne_eq, not_true_eq_false, false_iff, not_and,
          not_exists]
        intro _ q hq1 hq2 hq3
        obtain ⟨h1, h2⟩ := hf rfl
        by_cases hqn : q = p + n
        · subst hqn
          rw [show p + n + MM_KERNEL_VIRTUAL_BASE = p + MM_KERNEL_VIRTUAL_BASE + n by omega] at hq3
          exact h2 hq3
        · have := hnz (q - p) (by omega)
          rw [show p + MM_KERNEL_VIRTUAL_BASE + (q - p) = q + MM_KERNEL_VIRTUAL_BASE by omega]
            at this
          exact this hq3
      · simp only [if_true]
        constructor
        · intro _
          refine ⟨hlt, p + n, by omega, hn, ?_⟩
          have := ht rfl
          rwa [show p + MM_KERNEL_VIRTUAL_BASE + n = p + n + MM_KERNEL_VIRTUAL_BASE by omega]
            at this
        · intro _
          simp only [MM_KERNEL_VIRTUAL_BASE]
          omega

/-- Witness of C24 at the physical address 0x3000. -/
theorem C24_mapString_safe_witness :
    ∃ (res : Nat) (reads : List Nat),
      BootLoaderInfoTranslator_mapString (Memory_store Memory_zero 0xE0003000 [109, 0]) 0x3000 =
        some (res, reads) ∧
      (∀ a ∈ reads, 0x3000 + MM_KERNEL_VIRTUAL_BASE ≤ a ∧
        a < 4194304 + MM_KERNEL_VIRTUAL_BASE) ∧
      (∃ n, reads = List.range' (0x3000 + MM_KERNEL_VIRTUAL_BASE) n) ∧
      (4194304 ≤ 0x3000 → reads = []) ∧
      (res ≠ 0 → res = 0x3000 + MM_KERNEL_VIRTUAL_BASE) ∧
      (res ≠ 0 ↔ 0x3000 < 4194304 ∧
        ∃ q, 0x3000 ≤ q ∧ q < 4194304 ∧
          Memory_read8 (Memory_store Memory_zero 0xE0003000 [109, 0])
            (q + MM_KERNEL_VIRTUAL_BASE) = 0) :=
  C24_mapString_safe (Memory_store Memory_zero 0xE0003000 [109, 0]) 0x3000
    (by decide)

/-- C25. For every format string (a C string, so without null characters
before its end) and every argument list, `KOut_vWriteTo` returns true if and
only if the string is a concatenation of ordinary characters, escapes `%%`
and specifiers `% [-] [*] [b|h|l] type` with the type one of
`c d i s u x p O`; the strings `%q`, `%`, `%-%`, `%--d`, `%**d`, `%*-d` and
`%hld` make it return false. -/
theorem C25_vWriteTo_true_iff_wellFormed {σ : Type} (env : KOut_Env σ)
    (writer : TextWriter σ) (formatString : List Nat) (args : va_list)
    (hz : ∀ c ∈ formatString, c ≠ 0) :
    ((KOut_vWriteTo env writer formatString args).1 = true ↔ KOut_wellFormed formatString) ∧
    (KOut_vWriteTo env writer [37, 113] args).1 = false ∧
    (KOut_vWriteTo env writer [37] args).1 = false ∧
    (KOut_vWriteTo env writer [37, 45, 37] args).1 = false ∧
    (KOut_vWriteTo env writer [37, 45, 45, 100] args).1 = false ∧
    (KOut_vWriteTo env writer [37, 42, 42, 100] args).1 = false ∧
    (KOut_vWriteTo env writer [37, 42, 45, 100] args).1 = false ∧
    (KOut_vWriteTo env writer [37, 104, 108, 100] args).1 = false := by
  refine ⟨⟨?_, ?_⟩, rfl, rfl, rfl, rfl, rfl, rfl, rfl⟩
  · intro h
    obtain ⟨toks, rest, hv, he, _, hrun⟩ :=
      KOut_vWriteTo_decompose env formatString.length formatString (Nat.le_refl _) hz
    rw [hrun writer args] at h
    by_cases hr : rest = []
    · rw [hr, List.append_nil] at he
      exact ⟨toks, hv, he⟩
    · rw [if_neg hr] at h
      exact Bool.noConfusion h
  · rintro ⟨toks, hv, he⟩
    have h := KOut_vWriteToLoop_tokens env toks hv writer args []
    rw [List.append_nil, ← he] at h
    rw [KOut_vWriteTo, h]
    rfl

/-- Witness of C25 on the format string `%-*d|`. -/
theorem C25_vWriteTo_true_iff_wellFormed_witness :
    (∀ c ∈ [37, 45, 42, 100, 124], c ≠ 0) ∧
    ((KOut_vWriteTo (KOut_Env_const (List Nat) []) (TextWriter_create (RecordingTextStream []))
        [37, 45, 42, 100, 124] (va_list_of [5, 7])).1 = true ↔
      KOut_wellFormed [37, 45, 42, 100, 124]) :=
  ⟨by decide,
    (C25_vWriteTo_true_iff_wellFormed (KOut_Env_const (List Nat) [])
      (TextWriter_create (RecordingTextStream [])) [37, 45, 42, 100, 124] (va_list_of [5, 7])
      (by decide)).1⟩

/-- C26. On a writer that is left-aligned with width 3, `KOut_vWriteTo` on the
format string `a` returns true, and the characters it has sent to the sink are
`a`, two blanks, the null character and two blanks more: the last character
sent is a blank that follows the null character. -/
theorem C26_null_then_blanks :
    KOut_vWriteTo (KOut_Env_const (List Nat) [])
        { m_stream := RecordingTextStream [], m_isHexMode := false, m_width := 3,
          m_leftAlign := true } [97] (va_list_of []) =
      (true, { m_stream := RecordingTextStream [97, 32, 32, 0, 32, 32], m_isHexMode := false,
               m_width := 3, m_leftAlign := true }) := by
  rfl

/-- C27, as stated, fails: on the format string `abc%q` the format operation
on a new display text stream returns false with the three characters `abc`
still in the buffer (the index is 3) and nothing received by the display. -/
theorem C27_malformed_not_flushed :
    (KOut_vWrite (KOut_Env_const DisplayTextStream []) (DisplayTextStream_init ⟨[]⟩)
        [97, 98, 99, 37, 113] (va_list_of [])).1 = false ∧
    (KOut_vWrite (KOut_Env_const DisplayTextStream []) (DisplayTextStream_init ⟨[]⟩)
        [97, 98, 99, 37, 113] (va_list_of [])).2.m_currentBufferIndex = 3 ∧
    DisplayTextStream_pending (KOut_vWrite (KOut_Env_const DisplayTextStream [])
        (DisplayTextStream_init ⟨[]⟩) [97, 98, 99, 37, 113] (va_list_of [])).2 = [97, 98, 99] ∧
    (KOut_vWrite (KOut_Env_const DisplayTextStream []) (DisplayTextStream_init ⟨[]⟩)
        [97, 98, 99, 37, 113] (va_list_of [])).2.m_kernelDisplay.received = [] := by
  refine ⟨rfl, rfl, ?_, rfl⟩
  decide

/-- C27, amended. When a format operation on the display stream fails on a
malformed specifier that follows ordinary characters (none of them a tab or a
new line) that find room in the buffer, it returns false, nothing is sent for
the `%` or after it, and the ordinary characters are not flushed: on return
the display has received nothing more, and the ordinary characters have been
added to the characters that wait in the buffer. -/
theorem C27_malformed_keeps_pending (env : KOut_Env DisplayTextStream)
    (s : DisplayTextStream) (lead rest : List Nat) (args : va_list)
    (hbuf : s.m_buffer.length = DisplayTextStream_consts.BUFFER_SIZE)
    (hfit : s.m_currentBufferIndex + lead.length ≤ DisplayTextStream_consts.BUFFER_SIZE)
    (hord : ∀ c ∈ lead, c ≠ 0 ∧ c ≠ 37 ∧ c ≠ 9 ∧ c ≠ 10)
    (hbad : KOut_nextToken (37 :: rest) = none) :
    (KOut_vWrite env s (lead ++ 37 :: rest) args).1 = false ∧
    (KOut_vWrite env s (lead ++ 37 :: rest) args).2.m_kernelDisplay = s.m_kernelDisplay ∧
    (KOut_vWrite env s (lead ++ 37 :: rest) args).2.m_currentBufferIndex =
      s.m_currentBufferIndex + lead.length ∧
    DisplayTextStream_pending (KOut_vWrite env s (lead ++ 37 :: rest) args).2 =
      DisplayTextStream_pending s ++ lead := by
  have h := KOut_vWriteTo_ordinary_then_malformed env lead rest args hbad
    (TextWriter_create (DisplayTextStream_getTextStream s)) rfl
    (fun c hc => ⟨(hord c hc).1, (hord c hc).2.1⟩)
  obtain ⟨h1, h2, h3⟩ := DisplayTextStream_writeAll_ordinary lead s
    (fun c hc => ⟨(hord c hc).1, (hord c hc).2.2.1, (hord c hc).2.2.2⟩) hbuf hfit
  unfold KOut_vWrite
  simp only [h]
  exact ⟨trivial, h1, h2, h3⟩

/-- Witness of the amended C27 on the format string `abc%q`. -/
theorem C27_malformed_keeps_pending_witness :
    (KOut_vWrite (KOut_Env_const DisplayTextStream []) (DisplayTextStream_init ⟨[]⟩)
        ([97, 98, 99] ++ 37 :: [113]) (va_list_of [])).1 = false ∧
    (KOut_vWrite (KOut_Env_const DisplayTextStream []) (DisplayTextStream_init ⟨[]⟩)
        ([97, 98, 99] ++ 37 :: [113]) (va_list_of [])).2.m_kernelDisplay =
      (DisplayTextStream_init ⟨[]⟩).m_kernelDisplay ∧
    (KOut_vWrite (KOut_Env_const DisplayTextStream []) (DisplayTextStream_init ⟨[]⟩)
        ([97, 98, 99] ++ 37 :: [113]) (va_list_of [])).2.m_currentBufferIndex =
      (DisplayTextStream_init ⟨[]⟩).m_currentBufferIndex + [97, 98, 99].length ∧
    DisplayTextStream_pending (KOut_vWrite (KOut_Env_const DisplayTextStream [])
        (DisplayTextStream_init ⟨[]⟩) ([97, 98, 99] ++ 37 :: [113]) (va_list_of [])).2 =
      DisplayTextStream_pending (DisplayTextStream_init ⟨[]⟩) ++ [97, 98, 99] :=
  C27_malformed_keeps_pending (KOut_Env_const DisplayTextStream [])
    (DisplayTextStream_init ⟨[]⟩) [97, 98, 99] [113] (va_list_of [])
    (List.length_replicate _ _) (by decide) (by decide) (by decide)

/-- C28. For every format string and argument list, whether `KOut_vWriteTo`
succeeds or fails, the width, the alignment and the hex mode of the writer on
return are those on entry, whatever the objects written through `%O` do; and
a well-formed format string writes what its pieces write one after the other,
each specifier with its own `-`, `*` and modifier only, then the null
character. -/
theorem C28_vWriteTo_restores_flags {σ : Type} (env : KOut_Env σ) (writer : TextWriter σ)
    (formatString : List Nat) (args : va_list) :
    ((KOut_vWriteTo env writer formatString args).2.m_width = writer.m_width ∧
      (KOut_vWriteTo env writer formatString args).2.m_leftAlign = writer.m_leftAlign ∧
      (KOut_vWriteTo env writer formatString args).2.m_isHexMode = writer.m_isHexMode) ∧
    (∀ toks : List KOut_FormatToken, (∀ t ∈ toks, KOut_FormatToken_valid t = true) →
      KOut_vWriteTo env writer (KOut_FormatToken_concat toks) args =
        (true, TextWriter_writeChar (KOut_FormatToken_writeAll env toks (writer, args)).1 0)) ∧
    (∀ (leftAlign star : Bool) (modifier : FormatSpecModifier) (type : Nat)
        (wa : TextWriter σ × va_list),
      KOut_FormatToken_write env (KOut_FormatToken.specifier leftAlign star modifier type) wa =
        KOut_writeNextArg env type
          { leftAlign := leftAlign, modifier := modifier,
            width := if star then va_arg wa.2 else 0 }
          wa.1 (if star then va_next wa.2 else wa.2)) := by
  refine ⟨KOut_vWriteToLoop_flags env formatString _ _ writer args, ?_, fun _ _ _ _ _ => rfl⟩
  intro toks hv
  have h := KOut_vWriteToLoop_tokens env toks hv writer args []
  rw [List.append_nil] at h
  rw [KOut_vWriteTo, h]
  rfl

/-- Witness of C28 on the format string `%-*d%d`: the second specifier is
written right-aligned without width. -/
theorem C28_vWriteTo_restores_flags_witness :
    (∀ t ∈ [KOut_FormatToken.specifier true true FormatSpecModifier.NO_MODIFIER 100,
        KOut_FormatToken.specifier false false FormatSpecModifier.NO_MODIFIER 100],
      KOut_FormatToken_valid t = true) ∧
    KOut_vWriteTo (KOut_Env_const (List Nat) []) (TextWriter_create (RecordingTextStream []))
        (KOut_FormatToken_concat
          [KOut_FormatToken.specifier true true FormatSpecModifier.NO_MODIFIER 100,
            KOut_FormatToken.specifier false false FormatSpecModifier.NO_MODIFIER 100])
        (va_list_of [3, 7, 8]) =
      (true, TextWriter_writeChar (KOut_FormatToken_writeAll (KOut_Env_const (List Nat) [])
        [KOut_FormatToken.specifier true true FormatSpecModifier.NO_MODIFIER 100,
          KOut_FormatToken.specifier false false FormatSpecModifier.NO_MODIFIER 100]
        (TextWriter_create (RecordingTextStream []), va_list_of [3, 7, 8])).1 0) :=
  ⟨by decide,
    (C28_vWriteTo_restores_flags (KOut_Env_const (List Nat) [])
      (TextWriter_create (RecordingTextStream []))
      (KOut_FormatToken_concat
        [KOut_FormatToken.specifier true true FormatSpecModifier.NO_MODIFIER 100,
          KOut_FormatToken.specifier false false FormatSpecModifier.NO_MODIFIER 100])
      (va_list_of [3, 7, 8])).2.1 _ (by decide)⟩

/-- C29. For every width and every string, `TextWriter_writeString` sends
exactly max(width, length) characters to the sink: the whole string, with
width − length blanks before it when the writer is right-aligned and after it
when it is left-aligned; and on a new writer the format string `%-*d|` with
the arguments 5 and 7 sends `7`, four blanks and `|`, the format string `%*d|`
sends four blanks, `7` and `|` (each followed by the null character that ends
a format operation). -/
theorem C29_writeString_padded (sent : List Nat) (hex leftAlign : Bool) (width : Nat)
    (str : List Nat) (env : KOut_Env (List Nat)) (hstr : ∀ c ∈ str, c ≠ 0) :
    TextWriter_writeString
        { m_stream := RecordingTextStream sent, m_isHexMode := hex, m_width := width,
          m_leftAlign := leftAlign } str =
      { m_stream := RecordingTextStream (sent ++
          (if leftAlign then str ++ List.replicate (width - str.length) 32
           else List.replicate (width - str.length) 32 ++ str)),
        m_isHexMode := hex, m_width := width, m_leftAlign := leftAlign } ∧
    (if leftAlign then str ++ List.replicate (width - str.length) 32
      else List.replicate (width - str.length) 32 ++ str).length = max width str.length ∧
    KOut_vWriteTo env (TextWriter_create (RecordingTextStream [])) [37, 45, 42, 100, 124]
        (va_list_of [5, 7]) =
      (true, TextWriter_create (RecordingTextStream [55, 32, 32, 32, 32, 124, 0])) ∧
    KOut_vWriteTo env (TextWriter_create (RecordingTextStream [])) [37, 42, 100, 124]
        (va_list_of [5, 7]) =
      (true, TextWriter_create (RecordingTextStream [32, 32, 32, 32, 55, 124, 0])) := by
  refine ⟨?_, TextWriter_padded_length leftAlign width str,
    (KOut_vWriteToLoop_tokens env
      [KOut_FormatToken.specifier true true FormatSpecModifier.NO_MODIFIER 100,
        KOut_FormatToken.ordinary 124] (by decide)
      (TextWriter_create (RecordingTextStream [])) (va_list_of [5, 7]) []).trans rfl,
    (KOut_vWriteToLoop_tokens env
      [KOut_FormatToken.specifier false true FormatSpecModifier.NO_MODIFIER 100,
        KOut_FormatToken.ordinary 124] (by decide)
      (TextWriter_create (RecordingTextStream [])) (va_list_of [5, 7]) []).trans rfl⟩
  rw [TextWriter_writeString_eq _ str hstr]
  simp only [RecordingTextStream_writeAll, TextWriter_padded]

/-- Witness of C29 on the string `ab` with width 4, right-aligned. -/
theorem C29_writeString_padded_witness :
    TextWriter_writeString
        { m_stream := RecordingTextStream [], m_isHexMode := false, m_width := 4,
          m_leftAlign := false } [97, 98] =
      { m_stream := RecordingTextStream ([] ++
          (if false then [97, 98] ++ List.replicate (4 - [97, 98].length) 32
           else List.replicate (4 - [97, 98].length) 32 ++ [97, 98])),
        m_isHexMode := false, m_width := 4, m_leftAlign := false } :=
  (C29_writeString_padded [] false false 4 [97, 98] (KOut_Env_const (List Nat) [])
    (by decide)).1

/-- C30. On a new writer, for every pointer-sized signed `n` (the argument
word read as a two's complement integer, the minimum value included), `%d`
sends a minus sign if `n` is negative and then a decimal numeral without
leading zero whose value is the absolute value of `n`, so that the minimum
value is written `-2147483648`; for every unsigned `n`, `%u` sends the
decimal numeral of `n`; `%x`, `%lx` and `%p` send `0x` and exactly 8
hexadecimal digits whose value is `n`, `%bx` 2 digits for the low byte and
`%hx` 4 digits for the low half (each followed by the null character that
ends a format operation). -/
theorem C30_format_roundtrip (env : KOut_Env (List Nat)) (sent : List Nat) (args : va_list) :
    (∃ ds : List Nat, KOut_isDecimalNumeral ds ∧
      KOut_decimalValue ds = (signedOfWord 32 (va_arg args)).natAbs ∧
      KOut_vWriteTo env (TextWriter_create (RecordingTextStream sent)) [37, 100] args =
        (true, TextWriter_create (RecordingTextStream
          (sent ++ ((if signedOfWord 32 (va_arg args) < 0 then [45] else []) ++ ds ++ [0]))))) ∧
    KOut_vWriteTo env (TextWriter_create (RecordingTextStream [])) [37, 100]
        (va_list_of [2147483648]) =
      (true, TextWriter_create (RecordingTextStream
        [45, 50, 49, 52, 55, 52, 56, 51, 54, 52, 56, 0])) ∧
    (∃ ds : List Nat, KOut_isDecimalNumeral ds ∧ KOut_decimalValue ds = va_arg args ∧
      KOut_vWriteTo env (TextWriter_create (RecordingTextStream sent)) [37, 117] args =
        (true, TextWriter_create (RecordingTextStream (sent ++ (ds ++ [0]))))) ∧
    (∀ formatString : List Nat,
      formatString = [37, 120] ∨ formatString = [37, 108, 120] ∨ formatString = [37, 112] →
      ∃ hs : List Nat, hs.length = 8 ∧ (∀ c ∈ hs, KOut_isHexDigit c = true) ∧
        KOut_hexValue hs = va_arg args ∧
        KOut_vWriteTo env (TextWriter_create (RecordingTextStream sent)) formatString args =
          (true, TextWriter_create (RecordingTextStream (sent ++ (48 :: 120 :: hs ++ [0]))))) ∧
    (∃ hs : List Nat, hs.length = 2 ∧ (∀ c ∈ hs, KOut_isHexDigit c = true) ∧
      KOut_hexValue hs = va_arg args % 256 ∧
      KOut_vWriteTo env (TextWriter_create (RecordingTextStream sent)) [37, 98, 120] args =
        (true, TextWriter_create (RecordingTextStream (sent ++ (48 :: 120 :: hs ++ [0]))))) ∧
    (∃ hs : List Nat, hs.length = 4 ∧ (∀ c ∈ hs, KOut_isHexDigit c = true) ∧
      KOut_hexValue hs = va_arg args % 65536 ∧
      KOut_vWriteTo env (TextWriter_create (RecordingTextStream sent)) [37, 104, 120] args =
        (true, TextWriter_create (RecordingTextStream (sent ++ (48 :: 120 :: hs ++ [0]))))) :=
  ⟨KOut_format_d env sent args,
    (KOut_vWriteToLoop_tokens env
      [KOut_FormatToken.specifier false false FormatSpecModifier.NO_MODIFIER 100] (by decide)
      (TextWriter_create (RecordingTextStream [])) (va_list_of [2147483648]) []).trans rfl,
    KOut_format_u env sent args,
    fun formatString hf => KOut_format_x env sent args formatString hf,
    KOut_format_bx env sent args, KOut_format_hx env sent args⟩

/-- C31 (counterexample). The specifier `x` writes the letters of a
hexadecimal number in upper case: for the argument 0xAB a new writer sends
`0x000000AB` and the null character, which is not the string `0x000000ab`
of the claim. -/
theorem C31_x_writes_upper_case :
    KOut_vWriteTo (KOut_Env_const (List Nat) []) (TextWriter_create (RecordingTextStream []))
        [37, 120] (va_list_of [0xAB]) =
      (true, TextWriter_create (RecordingTextStream
        [48, 120, 48, 48, 48, 48, 48, 48, 65, 66, 0])) ∧
    (KOut_vWriteTo (KOut_Env_const (List Nat) []) (TextWriter_create (RecordingTextStream []))
        [37, 120] (va_list_of [0xAB])).2.m_stream.obj ≠
      [48, 120, 48, 48, 48, 48, 48, 48, 97, 98, 0] := by
  have h : KOut_vWriteTo (KOut_Env_const (List Nat) [])
      (TextWriter_create (RecordingTextStream [])) [37, 120] (va_list_of [0xAB]) =
      (true, TextWriter_create (RecordingTextStream
        [48, 120, 48, 48, 48, 48, 48, 48, 65, 66, 0])) :=
    (KOut_vWriteToLoop_tokens (KOut_Env_const (List Nat) [])
      [KOut_FormatToken.specifier false false FormatSpecModifier.NO_MODIFIER 120] (by decide)
      (TextWriter_create (RecordingTextStream [])) (va_list_of [0xAB]) []).trans rfl
  refine ⟨h, ?_⟩
  rw [h]
  decide

/-- C31 (amended). The specifier `x` writes upper-case hexadecimal digits:
for every unsigned `n` a new writer sends `0x` and then exactly eight
characters, each one of `0`-`9` or `A`-`F` (so none of `a`-`f`), whose value
as a hexadecimal number is `n`, and then the null character that ends a
format operation; for 0xAB that is `0x000000AB`. -/
theorem C31_x_digits_upper_case (env : KOut_Env (List Nat)) (sent : List Nat) (args : va_list) :
    (∃ hs : List Nat, hs.length = 8 ∧
      (∀ c ∈ hs, (48 ≤ c ∧ c ≤ 57) ∨ (65 ≤ c ∧ c ≤ 70)) ∧
      (∀ c ∈ hs, ¬ (97 ≤ c ∧ c ≤ 102)) ∧
      KOut_hexValue hs = va_arg args ∧
      KOut_vWriteTo env (TextWriter_create (RecordingTextStream sent)) [37, 120] args =
        (true, TextWriter_create (RecordingTextStream (sent ++ (48 :: 120 :: hs ++ [0]))))) ∧
    KOut_vWriteTo env (TextWriter_create (RecordingTextStream [])) [37, 120]
        (va_list_of [0xAB]) =
      (true, TextWriter_create (RecordingTextStream
        [48, 120, 48, 48, 48, 48, 48, 48, 65, 66, 0])) := by
  refine ⟨?_, (KOut_vWriteToLoop_tokens env
      [KOut_FormatToken.specifier false false FormatSpecModifier.NO_MODIFIER 120] (by decide)
      (TextWriter_create (RecordingTextStream [])) (va_list_of [0xAB]) []).trans rfl⟩
  obtain ⟨hs, hlen, hdig, hval, hw⟩ := KOut_format_x env sent args [37, 120] (Or.inl rfl)
  have hrange : ∀ c ∈ hs, (48 ≤ c ∧ c ≤ 57) ∨ (65 ≤ c ∧ c ≤ 70) := by
    intro c hc
    have h := hdig c hc
    simp only [KOut_isHexDigit, Bool.or_eq_true, Bool.and_eq_true, decide_eq_true_eq] at h
    exact h
  refine ⟨hs, hlen, hrange, ?_, hval, hw⟩
  intro c hc
  have h := hrange c hc
  omega

/-- C32. For every display and every sequence of characters `cs` written to
the display text stream from its initial state: a flush would bring the
display to exactly what it is sent without buffering (a tab call at each tab,
a new-line call at each new line, a print of every other character but the
null character); what the display has received followed by what waits in the
buffer is `cs` without its null characters; the index is within
`0..BUFFER_SIZE` and the buffer keeps its size; no tab, new line or null
character waits in the buffer; a further character that finds the buffer full
has the whole buffer printed before it is stored, and is then the only one
that waits; after a further tab, new line or null character the buffer is
empty; and the buffer does get full: after `BUFFER_SIZE` ordinary characters
and one more, the display has received the first `BUFFER_SIZE` of them. -/
theorem C32_display_buffer_is_transparent (kdisplay : KernelDisplay) (cs : List Nat) :
    (DisplayTextStream_flush
        (DisplayTextStream_writeAll (DisplayTextStream_init kdisplay) cs)).m_kernelDisplay =
      KernelDisplay_unbuffered kdisplay cs ∧
    (DisplayTextStream_writeAll (DisplayTextStream_init kdisplay) cs).m_kernelDisplay.received ++
        DisplayTextStream_pending
          (DisplayTextStream_writeAll (DisplayTextStream_init kdisplay) cs) =
      kdisplay.received ++ cs.filter (fun c => c != 0) ∧
    (DisplayTextStream_writeAll (DisplayTextStream_init kdisplay) cs).m_currentBufferIndex ≤
      DisplayTextStream_consts.BUFFER_SIZE ∧
    (DisplayTextStream_writeAll (DisplayTextStream_init kdisplay) cs).m_buffer.length =
      DisplayTextStream_consts.BUFFER_SIZE ∧
    (∀ c ∈ DisplayTextStream_pending
        (DisplayTextStream_writeAll (DisplayTextStream_init kdisplay) cs),
      c ≠ 0 ∧ c ≠ 9 ∧ c ≠ 10) ∧
    (∀ c : Nat, c ≠ 0 ∧ c ≠ 9 ∧ c ≠ 10 →
      (DisplayTextStream_writeAll (DisplayTextStream_init kdisplay) cs).m_currentBufferIndex =
        DisplayTextStream_consts.BUFFER_SIZE →
      (DisplayTextStream_writeAll (DisplayTextStream_init kdisplay)
          (cs ++ [c])).m_kernelDisplay =
        KernelDisplay_print
          (DisplayTextStream_writeAll (DisplayTextStream_init kdisplay) cs).m_kernelDisplay
          (DisplayTextStream_writeAll (DisplayTextStream_init kdisplay) cs).m_buffer
          DisplayTextStream_consts.BUFFER_SIZE ∧
      DisplayTextStream_pending
          (DisplayTextStream_writeAll (DisplayTextStream_init kdisplay) (cs ++ [c])) = [c]) ∧
    (∀ c : Nat, c = 0 ∨ c = 9 ∨ c = 10 →
      (DisplayTextStream_writeAll (DisplayTextStream_init kdisplay)
          (cs ++ [c])).m_currentBufferIndex = 0 ∧
      DisplayTextStream_pending
          (DisplayTextStream_writeAll (DisplayTextStream_init kdisplay) (cs ++ [c])) = []) ∧
    (∀ c : Nat, cs.length = DisplayTextStream_consts.BUFFER_SIZE →
      (∀ d ∈ cs, d ≠ 0 ∧ d ≠ 9 ∧ d ≠ 10) → c ≠ 0 ∧ c ≠ 9 ∧ c ≠ 10 →
      (DisplayTextStream_writeAll (DisplayTextStream_init kdisplay) cs).m_kernelDisplay =
        kdisplay ∧
      (DisplayTextStream_writeAll (DisplayTextStream_init kdisplay)
          (cs ++ [c])).m_kernelDisplay.received = kdisplay.received ++ cs ∧
      DisplayTextStream_pending
          (DisplayTextStream_writeAll (DisplayTextStream_init kdisplay) (cs ++ [c])) = [c]) := by
  have hwf := DisplayTextStream_init_wellFormed kdisplay
  obtain ⟨⟨hbuf, hidx, hpend⟩, hrec⟩ :=
    DisplayTextStream_writeAll_spec cs (DisplayTextStream_init kdisplay) hwf
  have hinit : (DisplayTextStream_init kdisplay).m_kernelDisplay.received ++
      DisplayTextStream_pending (DisplayTextStream_init kdisplay) = kdisplay.received := by
    simp [DisplayTextStream_pending, DisplayTextStream_init]
  rw [hinit] at hrec
  have hlast : ∀ c : Nat, DisplayTextStream_writeAll (DisplayTextStream_init kdisplay)
      (cs ++ [c]) = DisplayTextStream_write
        (DisplayTextStream_writeAll (DisplayTextStream_init kdisplay) cs) c := by
    intro c
    rw [DisplayTextStream_writeAll_append]
    rfl
  refine ⟨?_, hrec, hidx, hbuf, hpend, ?_, ?_, ?_⟩
  · have h1 := (DisplayTextStream_flush_spec
      (DisplayTextStream_writeAll (DisplayTextStream_init kdisplay) cs)).1
    have h2 := KernelDisplay_unbuffered_received cs kdisplay
    rw [hrec, ← h2] at h1
    generalize (DisplayTextStream_flush
      (DisplayTextStream_writeAll (DisplayTextStream_init kdisplay) cs)).m_kernelDisplay = a at h1
    generalize KernelDisplay_unbuffered kdisplay cs = b at h1
    cases a
    cases b
    simpa using h1
  · intro c hc hfull
    rw [hlast]
    obtain ⟨h1, _, _, _, h5⟩ := DisplayTextStream_write_full _ c hc hbuf hfull
    exact ⟨h1, h5⟩
  · intro c hc
    rw [hlast]
    obtain ⟨_, h2, _, h4⟩ := DisplayTextStream_write_control
      (DisplayTextStream_writeAll (DisplayTextStream_init kdisplay) cs) c hc
    exact ⟨h2, h4⟩
  · intro c hlen hord hc
    obtain ⟨o1, o2, o3⟩ := DisplayTextStream_writeAll_ordinary cs
      (DisplayTextStream_init kdisplay) hord (List.length_replicate _ _)
      (by rw [hlen]; exact Nat.le_of_eq (Nat.zero_add _))
    rw [← DisplayTextStream_writeAll_eq] at o1 o2 o3
    have hfull : (DisplayTextStream_writeAll (DisplayTextStream_init kdisplay)
        cs).m_currentBufferIndex = DisplayTextStream_consts.BUFFER_SIZE := by
      rw [o2, hlen]
      exact Nat.zero_add _
    rw [hlast]
    obtain ⟨_, h2, _, _, h5⟩ := DisplayTextStream_write_full _ c hc hbuf hfull
    refine ⟨o1, ?_, h5⟩
    rw [h2, o1, o3]
    simp [DisplayTextStream_pending, DisplayTextStream_init]

/-- C33. For every sequence of actions of any processors on the `KShutdown`
object after `KShutdown_init` (entering `KShutdown_fail`, `KShutdown_halt` or
`KShutdown_reboot`, taking a step of them, calling an accessor or a
modifier): if `KShutdown_isInShutdownMode` is true after the sequence, it is
true after every continuation of the sequence, and the initiator field is
the same; one more action leaves the initiator field as it is, or changes it
from -1 to the ID of the acting processor, which is not the word of -1, at
the compare-and-swap of that processor, and shutdown mode is then on;
shutdown mode is on exactly when the field is not the word of -1; it is off
after `KShutdown_init`, and on after the first step of a processor (with an
ID other than -1) that enters any of the three functions. -/
theorem C33_shutdown_mode_is_monotonic (actions more : List (Int × KShutdown_Action))
    (action : Int × KShutdown_Action) :
    (KShutdown_isInShutdownMode
        (KShutdown_System_run KShutdown_System_init actions).s_instance = true →
      KShutdown_isInShutdownMode
          (KShutdown_System_run KShutdown_System_init (actions ++ more)).s_instance = true ∧
        (KShutdown_System_run KShutdown_System_init
            (actions ++ more)).s_instance.m_shutdownProcessorID =
          (KShutdown_System_run KShutdown_System_init
            actions).s_instance.m_shutdownProcessorID) ∧
    ((KShutdown_System_run KShutdown_System_init
          (actions ++ [action])).s_instance.m_shutdownProcessorID =
        (KShutdown_System_run KShutdown_System_init actions).s_instance.m_shutdownProcessorID ∨
      ((KShutdown_System_run KShutdown_System_init
            actions).s_instance.m_shutdownProcessorID = uintptrOfInt (-1) ∧
        KShutdown_isInShutdownMode
          (KShutdown_System_run KShutdown_System_init actions).s_instance = false ∧
        action.2 = KShutdown_Action.step ∧
        (∃ entry, (KShutdown_System_run KShutdown_System_init actions).pc action.1 =
          KShutdown_pc.initiate_compareAndSwap entry) ∧
        (KShutdown_System_run KShutdown_System_init
            (actions ++ [action])).s_instance.m_shutdownProcessorID = uintptrOfInt action.1 ∧
        uintptrOfInt action.1 ≠ uintptrOfInt (-1) ∧
        KShutdown_isInShutdownMode
          (KShutdown_System_run KShutdown_System_init (actions ++ [action])).s_instance =
            true)) ∧
    (KShutdown_isInShutdownMode
        (KShutdown_System_run KShutdown_System_init actions).s_instance = true ↔
      (KShutdown_System_run KShutdown_System_init actions).s_instance.m_shutdownProcessorID ≠
        uintptrOfInt (-1)) ∧
    KShutdown_isInShutdownMode KShutdown_System_init.s_instance = false ∧
    (∀ (p : Int) (entry : KShutdown_Entry), KShutdown_isProcessorID p →
      KShutdown_isInShutdownMode
        (KShutdown_System_run KShutdown_System_init
          [(p, KShutdown_Action.enter entry), (p, KShutdown_Action.step)]).s_instance = true ∧
      signedOfWord 32
        (KShutdown_System_run KShutdown_System_init
          [(p, KShutdown_Action.enter entry),
            (p, KShutdown_Action.step)]).s_instance.m_shutdownProcessorID = p) := by
  have hword : ∀ acts : List (Int × KShutdown_Action),
      (KShutdown_System_run KShutdown_System_init acts).s_instance.m_shutdownProcessorID <
        4294967296 :=
    fun acts => KShutdown_System_run_word acts KShutdown_System_init (by decide)
  rw [uintptrOfInt_neg_one]
  refine ⟨?_, ?_, KShutdown_isInShutdownMode_iff (hword actions), by decide, ?_⟩
  · intro h
    rw [KShutdown_System_run_append]
    exact KShutdown_System_run_monotonic more _ h
  · rw [KShutdown_System_run_snoc]
    rcases KShutdown_System_act_field (KShutdown_System_run KShutdown_System_init actions)
      action with h | ⟨h1, h2, h3, h4⟩
    · exact Or.inl h
    · by_cases hsame : uintptrOfInt action.1 = 4294967295
      · exact Or.inl (by rw [h4, h3, hsame])
      · refine Or.inr ⟨h3, ?_, h1, h2, h4, hsame, ?_⟩
        · cases hm : KShutdown_isInShutdownMode
            (KShutdown_System_run KShutdown_System_init actions).s_instance
          · rfl
          · exact absurd h3 ((KShutdown_isInShutdownMode_iff (hword actions)).mp hm)
        · have hw := hword (actions ++ [action])
          rw [KShutdown_System_run_snoc] at hw
          rw [KShutdown_isInShutdownMode_iff hw, h4]
          exact hsame
  · intro p entry hp
    rw [(KShutdown_System_first_swap p entry).1]
    refine ⟨?_, signedOfWord_uintptrOfInt hp.1 hp.2.1⟩
    rw [KShutdown_isInShutdownMode_iff (uintptrOfInt_lt p)]
    exact uintptrOfInt_processorID hp

/-- C34. For every processor `p`, every state of the `KShutdown` object and
each of the three functions that enter shutdown mode, the run of `p` from its
compare-and-swap has one of three outcomes, decided by the initiator field.
If the field is -1, it becomes the ID of `p`, and `p` asks the other
processors to halt, resets the display and is then at the first point of the
diagnostic path of the function. If the field is not -1 and holds the ID of
`p`, the object is left as it is and the only event, however long `p` runs,
is the hard reset: no output. If the field is not -1 and holds another ID,
the object is left as it is and `p` is in the loop that waits for interrupts,
however long it runs, with no event but these waits: no output. The
diagnostic paths are shown on the object of `KShutdown_init` (`KShutdown_fail`
writes the message, the line that announces the reboot and ten dots, then
reboots; `KShutdown_halt` writes its line and halts), and the second outcome
on the initiator that enters `KShutdown_fail` again after its message. -/
theorem C34_entering_shutdown_three_outcomes (p : Int) (kshutdown : KShutdown)
    (entry : KShutdown_Entry) (n : Nat) :
    (kshutdown.m_shutdownProcessorID = uintptrOfInt (-1) →
      KShutdown_solo p 3 kshutdown (KShutdown_pc.initiate_compareAndSwap entry) [] =
        ({ kshutdown with m_shutdownProcessorID := uintptrOfInt p },
          KShutdown_afterInitiate entry,
          [KShutdown_Event.ShutdownHardware_haltAllOtherProcessors,
            KShutdown_Event.DisplayTextStream_reset])) ∧
    (kshutdown.m_shutdownProcessorID ≠ uintptrOfInt (-1) →
      signedOfWord 32 kshutdown.m_shutdownProcessorID = p →
      KShutdown_solo p (n + 3) kshutdown (KShutdown_pc.initiate_compareAndSwap entry) [] =
        (kshutdown, KShutdown_pc.stopped, [KShutdown_Event.Processor_hardReset])) ∧
    (kshutdown.m_shutdownProcessorID ≠ uintptrOfInt (-1) →
      signedOfWord 32 kshutdown.m_shutdownProcessorID ≠ p →
      KShutdown_solo p (n + 2) kshutdown (KShutdown_pc.initiate_compareAndSwap entry) [] =
        (kshutdown, KShutdown_pc.initiate_waitForInterrupt,
          List.replicate n KShutdown_Event.Processor_waitForInterrupt)) ∧
    KShutdown_solo 0 19 KShutdown_init
        (KShutdown_pc.initiate_compareAndSwap KShutdown_Entry.fail) [] =
      ({ KShutdown_init with m_shutdownProcessorID := 0 }, KShutdown_pc.stopped,
        [KShutdown_Event.ShutdownHardware_haltAllOtherProcessors,
          KShutdown_Event.DisplayTextStream_reset, KShutdown_Event.KOut_vWrite,
          KShutdown_Event.KOut_writeLine] ++
        List.replicate 10 KShutdown_Event.KOut_write ++
        [KShutdown_Event.ShutdownHardware_reboot]) ∧
    KShutdown_solo 0 5 KShutdown_init
        (KShutdown_pc.initiate_compareAndSwap KShutdown_Entry.halt) [] =
      ({ KShutdown_init with m_shutdownProcessorID := 0 }, KShutdown_pc.stopped,
        [KShutdown_Event.ShutdownHardware_haltAllOtherProcessors,
          KShutdown_Event.DisplayTextStream_reset, KShutdown_Event.KOut_writeLine,
          KShutdown_Event.ShutdownHardware_halt]) ∧
    (KShutdown_System_run KShutdown_System_init
        [(0, KShutdown_Action.enter KShutdown_Entry.fail), (0, KShutdown_Action.step),
          (0, KShutdown_Action.step), (0, KShutdown_Action.step), (0, KShutdown_Action.step),
          (0, KShutdown_Action.enter KShutdown_Entry.fail), (0, KShutdown_Action.step),
          (0, KShutdown_Action.step), (0, KShutdown_Action.step)]).log =
      [(0, KShutdown_Event.ShutdownHardware_haltAllOtherProcessors),
        (0, KShutdown_Event.DisplayTextStream_reset), (0, KShutdown_Event.KOut_vWrite),
        (0, KShutdown_Event.Processor_hardReset)] := by
  rw [uintptrOfInt_neg_one]
  exact ⟨KShutdown_solo_initiator p kshutdown entry,
    KShutdown_solo_reentry p kshutdown entry n,
    KShutdown_solo_waiter p kshutdown entry n, by decide, by decide, by decide⟩

/-- C36. For every machine, every trap frame whose vector has an entry in
the dispatch table, and every handler method: `Processor_dispatchToHandler`
calls the method of the handler registered for the vector of the frame, on
that handler's object and on the frame; when the method does not return,
neither does the dispatcher; when it returns null the dispatcher returns the
frame itself, and otherwise the frame the handler returned; the memory and
the dispatch table are as the handler left them; and `ESP0` is set to the
address just past the end of the new frame (its address plus the 80 bytes of
a trap frame, in 32 bits) exactly when the handler returned a frame that is
not null and that describes a user-mode context, which is a frame in which
the privilege level held in the two low bits of the saved `cs` is not 0; in
every other case (a null frame, or a frame of privilege level 0, taken while
the kernel was running) the machine is as the handler left it. The vector is
the byte at the offset 52 of the trap frame and `cs` is at the offset 64,
which is what `TrapFrame_getInterruptVectorNumber` and
`TrapFrame_isKernelInterrupted` read. -/
theorem C36_dispatch_returns_frame_and_sets_esp0 {τ : Type}
    (handleInterrupt : τ → Nat → Nat → Processor_Machine τ → Option (Nat × Processor_Machine τ))
    (machine : Processor_Machine τ) (trapFrame : Nat)
    (hvector : Memory_read8 machine.mem (trapFrame + 52) < 49) :
    (handleInterrupt
        (machine.processor.m_dispatchTable
          ⟨Memory_read8 machine.mem (trapFrame + 52), hvector⟩).iptr
        (machine.processor.m_dispatchTable
          ⟨Memory_read8 machine.mem (trapFrame + 52), hvector⟩).obj
        trapFrame machine = none →
      Processor_dispatchToHandler handleInterrupt machine trapFrame = none) ∧
    (∀ (newFrame : Nat) (machine1 : Processor_Machine τ),
      handleInterrupt
        (machine.processor.m_dispatchTable
          ⟨Memory_read8 machine.mem (trapFrame + 52), hvector⟩).iptr
        (machine.processor.m_dispatchTable
          ⟨Memory_read8 machine.mem (trapFrame + 52), hvector⟩).obj
        trapFrame machine = some (newFrame, machine1) →
      ∃ machine2 : Processor_Machine τ,
        Processor_dispatchToHandler handleInterrupt machine trapFrame =
          some (if newFrame = 0 then trapFrame else newFrame, machine2) ∧
        machine2.mem = machine1.mem ∧
        machine2.processor.m_dispatchTable = machine1.processor.m_dispatchTable ∧
        machine2.processor.m_tss_ESP0 =
          (if newFrame ≠ 0 ∧ Memory_read8 machine1.mem (newFrame + 64) % 4 ≠ 0 then
            (newFrame + 80) % 4294967296
          else machine1.processor.m_tss_ESP0) ∧
        (newFrame ≠ 0 → Memory_read8 machine1.mem (newFrame + 64) % 4 = 0 →
          machine2 = machine1) ∧
        (newFrame = 0 → machine2 = machine1)) ∧
    (∀ (mem : Memory) (frame : Nat),
      TrapFrame_getInterruptVectorNumber mem frame = Memory_read8 mem (frame + 52) ∧
      (TrapFrame_isKernelInterrupted mem frame = true ↔
        Memory_read8 mem (frame + 64) % 4 = 0)) ∧
    TrapFrame_layout.sizeof = 80 ∧ Processor_consts.NUM_IDT_ENTRIES = 49 := by
  have hcpl : ∀ (mem : Memory) (frame : Nat),
      TrapFrame_isKernelInterrupted mem frame = true ↔
        Memory_read8 mem (frame + 64) % 4 = 0 := by
    intro mem frame
    unfold TrapFrame_isKernelInterrupted
    exact beq_iff_eq
  have hread : Processor_dispatchTableAt machine.processor
      (TrapFrame_getInterruptVectorNumber machine.mem trapFrame) =
      some (machine.processor.m_dispatchTable
        ⟨Memory_read8 machine.mem (trapFrame + 52), hvector⟩) := dif_pos hvector
  refine ⟨?_, ?_, fun mem frame => ⟨rfl, hcpl mem frame⟩, rfl, rfl⟩
  · intro hnone
    unfold Processor_dispatchToHandler
    simp only [hread, hnone]
  · intro newFrame machine1 hsome
    unfold Processor_dispatchToHandler
    simp only [hread, hsome]
    by_cases h0 : newFrame = 0
    · refine ⟨machine1, by rw [if_pos h0, if_pos h0], rfl, rfl, ?_, fun _ _ => rfl,
        fun _ => rfl⟩
      rw [if_neg (fun h => h.1 h0)]
    · by_cases hk : TrapFrame_isKernelInterrupted machine1.mem newFrame = true
      · refine ⟨machine1, by simp [h0, hk], rfl, rfl, ?_, fun _ _ => rfl, fun _ => rfl⟩
        rw [if_neg (fun h => h.2 ((hcpl _ _).1 hk))]
      · have hk1 : TrapFrame_isKernelInterrupted machine1.mem newFrame = false := by
          simpa using hk
        have hu : Memory_read8 machine1.mem (newFrame + 64) % 4 ≠ 0 :=
          fun h => hk ((hcpl _ _).2 h)
        refine ⟨{ machine1 with
            processor := { machine1.processor with
              m_tss_ESP0 := u32 (newFrame + TrapFrame_layout.sizeof) } },
          by simp only [if_neg h0, hk1, Bool.not_false, if_true], rfl, rfl, ?_,
          fun _ h => absurd h hu, fun h => absurd h h0⟩
        rw [if_pos ⟨h0, hu⟩]
        try rfl

/-- C36 on a machine whose handlers ask for a switch to the trap frame whose
address their object holds, for the trap frame of vector 32 at 0x1000 and
`ESP0` = 0x9000 on entry. With the user-mode frame at 0x2000 (`cs` = 0x1B,
privilege level 3) the dispatcher returns 0x2000 and `ESP0` is 0x2050. With
the kernel-mode frame at 0x3000 (`cs` = 0x08, privilege level 0) the
dispatcher returns 0x3000 and `ESP0` is still 0x9000. With a null frame the
dispatcher returns 0x1000 and `ESP0` is still 0x9000. -/
theorem C36_dispatch_returns_frame_and_sets_esp0_witness :
    Memory_read8 Processor_exampleMemory (0x1000 + 52) = 32 ∧
    Memory_read8 Processor_exampleMemory (0x2000 + 64) % 4 = 3 ∧
    Memory_read8 Processor_exampleMemory (0x3000 + 64) % 4 = 0 ∧
    (∃ machine2 : Processor_Machine Unit,
      Processor_dispatchToHandler (Processor_exampleSwitch Unit)
          ⟨Processor_filled ⟨(), 0x2000⟩ 0x9000, Processor_exampleMemory⟩ 0x1000 =
        some (0x2000, machine2) ∧
      machine2.processor.m_tss_ESP0 = 0x2050) ∧
    (∃ machine2 : Processor_Machine Unit,
      Processor_dispatchToHandler (Processor_exampleSwitch Unit)
          ⟨Processor_filled ⟨(), 0x3000⟩ 0x9000, Processor_exampleMemory⟩ 0x1000 =
        some (0x3000, machine2) ∧
      machine2.processor.m_tss_ESP0 = 0x9000) ∧
    (∃ machine2 : Processor_Machine Unit,
      Processor_dispatchToHandler (Processor_exampleSwitch Unit)
          ⟨Processor_filled ⟨(), 0⟩ 0x9000, Processor_exampleMemory⟩ 0x1000 =
        some (0x1000, machine2) ∧
      machine2.processor.m_tss_ESP0 = 0x9000) := by
  have hv : Memory_read8 Processor_exampleMemory (0x1000 + 52) = 32 := by decide
  have hu : Memory_read8 Processor_exampleMemory (0x2000 + 64) % 4 = 3 := by decide
  have hk : Memory_read8 Processor_exampleMemory (0x3000 + 64) % 4 = 0 := by decide
  refine ⟨hv, hu, hk, ?_, ?_, ?_⟩
  · obtain ⟨machine2, h1, _, _, h4, _⟩ :=
      (C36_dispatch_returns_frame_and_sets_esp0 (Processor_exampleSwitch Unit)
        ⟨Processor_filled ⟨(), 0x2000⟩ 0x9000, Processor_exampleMemory⟩ 0x1000
        (by rw [hv]; decide)).2.1 0x2000
        ⟨Processor_filled ⟨(), 0x2000⟩ 0x9000, Processor_exampleMemory⟩ rfl
    refine ⟨machine2, h1, ?_⟩
    rw [h4, if_pos ⟨by decide, by rw [hu]; decide⟩]
  · obtain ⟨machine2, h1, _, _, h4, _⟩ :=
      (C36_dispatch_returns_frame_and_sets_esp0 (Processor_exampleSwitch Unit)
        ⟨Processor_filled ⟨(), 0x3000⟩ 0x9000, Processor_exampleMemory⟩ 0x1000
        (by rw [hv]; decide)).2.1 0x3000
        ⟨Processor_filled ⟨(), 0x3000⟩ 0x9000, Processor_exampleMemory⟩ rfl
    refine ⟨machine2, h1, ?_⟩
    rw [h4, if_neg (fun h => h.2 hk)]
    rfl
  · obtain ⟨machine2, h1, _, _, h4, _⟩ :=
      (C36_dispatch_returns_frame_and_sets_esp0 (Processor_exampleSwitch Unit)
        ⟨Processor_filled ⟨(), 0⟩ 0x9000, Processor_exampleMemory⟩ 0x1000
        (by rw [hv]; decide)).2.1 0
        ⟨Processor_filled ⟨(), 0⟩ 0x9000, Processor_exampleMemory⟩ rfl
    refine ⟨machine2, h1, ?_⟩
    rw [h4, if_neg (fun h => h.1 rfl)]
    rfl

/-- C37. Whatever the dispatch table held before, after
`Processor_initDispatchTable` each of the 49 entries holds the default
handler, whose method resets the system; `Processor_registerHandler` for a
vector below 49 changes the entry of that vector only (and is not defined
for any other vector); and after the initialization of the exception
dispatcher and of the interrupt dispatcher the entries of the vectors 0, 3,
4, 5, 6, 7, 11, 12, 13, 14, 16, 17, 19 and 48 hold the handler of the
deliverable exceptions, those of 1, 2, 8, 9, 10, 15, 18 and 20 to 31 the
handler of the unrecoverable exceptions, that of 32 the timer handler and
those of 33 to 47 the device handler. The five handlers are pairwise
different, every vector below 49 is in exactly one of the four sets, and no
entry is left with the default handler. -/
theorem C37_dispatch_table_after_init (s_instance : Nat)
    (processor : Processor IInterruptHandler_itable) :
    (∀ v : Fin Processor_consts.NUM_IDT_ENTRIES,
      (Processor_initDispatchTable processor).m_dispatchTable v = DefaultHandler_getHandler) ∧
    (Processor_initDispatchTable processor).m_tss_ESP0 = processor.m_tss_ESP0 ∧
    (∀ (handler : IInterruptHandler IInterruptHandler_itable) (intrVector : Nat)
        (h : intrVector < Processor_consts.NUM_IDT_ENTRIES),
      ∃ processor1, Processor_registerHandler processor handler intrVector = some processor1 ∧
        processor1.m_dispatchTable ⟨intrVector, h⟩ = handler ∧
        (∀ w : Fin Processor_consts.NUM_IDT_ENTRIES, w.val ≠ intrVector →
          processor1.m_dispatchTable w = processor.m_dispatchTable w) ∧
        processor1.m_tss_ESP0 = processor.m_tss_ESP0) ∧
    (∀ (handler : IInterruptHandler IInterruptHandler_itable) (intrVector : Nat),
      Processor_consts.NUM_IDT_ENTRIES ≤ intrVector →
      Processor_registerHandler processor handler intrVector = none) ∧
    (∃ processor1, Processor_afterInit s_instance processor = some processor1 ∧
      processor1.m_tss_ESP0 = processor.m_tss_ESP0 ∧
      ∀ v : Fin Processor_consts.NUM_IDT_ENTRIES,
        processor1.m_dispatchTable v =
          (if v.val ∈ [0, 3, 4, 5, 6, 7, 11, 12, 13, 14, 16, 17, 19, 48] then
            ExceptionDispatcher.deliverableHandler
          else if v.val ∈ [1, 2, 8, 9, 10, 15, 18] ∨ (20 ≤ v.val ∧ v.val ≤ 31) then
            ExceptionDispatcher.unrecoverableHandler
          else if v.val = 32 then InterruptDispatcher.timerHandler s_instance
          else InterruptDispatcher.deliverableHandler s_instance) ∧
        processor1.m_dispatchTable v ≠ DefaultHandler_getHandler) ∧
    List.Pairwise (fun a b => a ≠ b)
      [DefaultHandler_getHandler, ExceptionDispatcher.deliverableHandler,
        ExceptionDispatcher.unrecoverableHandler, InterruptDispatcher.timerHandler s_instance,
        InterruptDispatcher.deliverableHandler s_instance] ∧
    (∀ v : Fin Processor_consts.NUM_IDT_ENTRIES,
      (v.val ∈ [0, 3, 4, 5, 6, 7, 11, 12, 13, 14, 16, 17, 19, 48] ∧
          ¬ (v.val ∈ [1, 2, 8, 9, 10, 15, 18] ∨ (20 ≤ v.val ∧ v.val ≤ 31)) ∧
          v.val ≠ 32 ∧ ¬ (33 ≤ v.val ∧ v.val ≤ 47)) ∨
        (v.val ∉ [0, 3, 4, 5, 6, 7, 11, 12, 13, 14, 16, 17, 19, 48] ∧
          (v.val ∈ [1, 2, 8, 9, 10, 15, 18] ∨ (20 ≤ v.val ∧ v.val ≤ 31)) ∧
          v.val ≠ 32 ∧ ¬ (33 ≤ v.val ∧ v.val ≤ 47)) ∨
        (v.val ∉ [0, 3, 4, 5, 6, 7, 11, 12, 13, 14, 16, 17, 19, 48] ∧
          ¬ (v.val ∈ [1, 2, 8, 9, 10, 15, 18] ∨ (20 ≤ v.val ∧ v.val ≤ 31)) ∧
          v.val = 32 ∧ ¬ (33 ≤ v.val ∧ v.val ≤ 47)) ∨
        (v.val ∉ [0, 3, 4, 5, 6, 7, 11, 12, 13, 14, 16, 17, 19, 48] ∧
          ¬ (v.val ∈ [1, 2, 8, 9, 10, 15, 18] ∨ (20 ≤ v.val ∧ v.val ≤ 31)) ∧
          v.val ≠ 32 ∧ (33 ≤ v.val ∧ v.val ≤ 47))) := by
  obtain ⟨i1, i2⟩ := Processor_initDispatchTableLoop_spec DefaultHandler_getHandler
    Processor_consts.NUM_IDT_ENTRIES 0 processor (Nat.zero_add _)
  obtain ⟨processor1, e1, a1, c1⟩ := Processor_afterInit_spec s_instance processor
  refine ⟨?_, i2, ?_, ?_, ⟨processor1, e1, c1, ?_⟩, ?_, by decide⟩
  · intro v
    have h := i1 v
    rw [if_pos (Nat.zero_le _)] at h
    exact h
  · intro handler intrVector h
    exact Processor_registerHandler_spec processor handler intrVector h
  · intro handler intrVector h
    exact dif_neg (Nat.not_lt.mpr h)
  · intro v
    rw [a1 v]
    have hlt := v.isLt
    generalize v.val = n at hlt
    simp only [Processor_consts.NUM_IDT_ENTRIES] at hlt
    interval_cases n <;> exact ⟨rfl, by
      simp [Processor_expectedHandler, DefaultHandler_getHandler,
        ExceptionDispatcher.deliverableHandler, ExceptionDispatcher.unrecoverableHandler,
        InterruptDispatcher.timerHandler, InterruptDispatcher.deliverableHandler]⟩
  · simp [DefaultHandler_getHandler, ExceptionDispatcher.deliverableHandler,
      ExceptionDispatcher.unrecoverableHandler, InterruptDispatcher.timerHandler,
      InterruptDispatcher.deliverableHandler]

set_option maxRecDepth 100000 in
/-- C38. For all RAM, reserved and module lists of valid regions. At
creation, `PhysicalMemoryManager_initStageOne` returns an allocator on the
window that starts at 0, over the RAM list and the reserved list followed by
the module list, whose bitmap marks the available frames of that window, and
in which the bit of frame 0 is clear. For every window `k` of the 256 (the
windows the advance of the current region goes through), whatever the bitmap
held before, `PmmWatermarkAllocator_initCurrentRegion` returns an allocator
whose bitmap marks the available frames of the window: the bit of a frame is
set exactly when the frame is not frame 0, lies in the page-aligned form of
some RAM region, and lies in the page-aligned form of no reserved and of no
module region. With the single RAM region `[0, PAGE_SIZE)` the bitmap of the
first window is empty and the allocator hands out no frame. -/
theorem C38_window_bitmap_marks_available_frames (ram reserved modules : List PmmRegion)
    (alloc : PmmBitmapAllocator) (k : Nat)
    (hram : ∀ r ∈ ram, PmmRegion_valid r) (hres : ∀ r ∈ reserved, PmmRegion_valid r)
    (hmod : ∀ r ∈ modules, PmmRegion_valid r) (hk : k < 256) :
    (∃ (numFrames : Nat) (alloc0 : PmmBitmapAllocator),
      PhysicalMemoryManager_initStageOne ram reserved modules =
        some (numFrames, ⟨alloc0, ⟨0, 16777215⟩, ram, reserved ++ modules⟩) ∧
      PmmWatermarkAllocator_marksAvailable alloc0 0 ram reserved modules ∧
      KMem_isBitSet (alloc0.m_bitmap.getD 0 0) 0 = false) ∧
    (∃ (moreFramesAvailable : Bool) (alloc1 : PmmBitmapAllocator),
      PmmWatermarkAllocator_initCurrentRegion
          ⟨alloc, ⟨k * REGION_SIZE_IN_BYTES, k * REGION_SIZE_IN_BYTES + 16777215⟩, ram,
            reserved ++ modules⟩ =
        some (moreFramesAvailable,
          ⟨alloc1, ⟨k * REGION_SIZE_IN_BYTES, k * REGION_SIZE_IN_BYTES + 16777215⟩, ram,
            reserved ++ modules⟩) ∧
      PmmWatermarkAllocator_marksAvailable alloc1 (k * REGION_SIZE_IN_BYTES) ram reserved
        modules) ∧
    PmmWatermarkAllocator_create [PmmRegion_create 0 PAGE_SIZE] [] =
      some ⟨PmmBitmapAllocator_create NUM_BLOCKS 0, ⟨0, 16777215⟩,
        [PmmRegion_create 0 PAGE_SIZE], []⟩ ∧
    (PmmWatermarkAllocator_allocate
        ⟨PmmBitmapAllocator_create NUM_BLOCKS 0, ⟨0, 16777215⟩,
          [PmmRegion_create 0 PAGE_SIZE], []⟩).map (fun r => r.1) = some PHYS_NULL := by
  have hboth : ∀ r ∈ reserved ++ modules, PmmRegion_valid r := by
    intro r hr
    rcases List.mem_append.mp hr with hr | hr
    · exact hres r hr
    · exact hmod r hr
  refine ⟨?_, ?_, by decide, by decide⟩
  · obtain ⟨alloc0, h1, h2, _, h4⟩ := PmmWatermarkAllocator_create_spec hram hboth
    have hstage : ∃ numFrames : Nat, PhysicalMemoryManager_initStageOne ram reserved modules =
        some (numFrames, ⟨alloc0, ⟨0, 16777215⟩, ram, reserved ++ modules⟩) := by
      unfold PhysicalMemoryManager_initStageOne
      simp only [h1, Option.map_some']
      exact ⟨_, rfl⟩
    obtain ⟨numFrames, hstage⟩ := hstage
    refine ⟨numFrames, alloc0, hstage, PmmWatermarkAllocator_marksAvailable_of_bits h2.2.1 ram
      reserved modules h4, ?_⟩
    · have hb := h4 0 0 (by decide) (by decide)
      rw [KMem_isBitSet_eq_testBit _ (by decide)]
      unfold bitAt at hb
      rw [hb]
      simp [frameAvailable, winAddr, PHYS_NULL]
  · have hB : k * REGION_SIZE_IN_BYTES % 16777216 = 0 := by
      simp only [REGION_SIZE_IN_BYTES, NUM_BLOCKS, BITS_PER_BLOCK, BITS_PER_BYTE, PAGE_SIZE]
      omega
    have hfit : k * REGION_SIZE_IN_BYTES + 16777216 ≤ 4294967296 := by
      simp only [REGION_SIZE_IN_BYTES, NUM_BLOCKS, BITS_PER_BLOCK, BITS_PER_BYTE, PAGE_SIZE]
      omega
    obtain ⟨alloc1, g1, g2, _, g4⟩ := initCurrentRegion_spec
      ⟨alloc, ⟨k * REGION_SIZE_IN_BYTES, k * REGION_SIZE_IN_BYTES + 16777215⟩, ram,
        reserved ++ modules⟩ rfl hB hfit hram hboth
    exact ⟨_, alloc1, g1, PmmWatermarkAllocator_marksAvailable_of_bits g2 ram reserved
      modules g4⟩

/-- C38 on the lists of scenario 1 and the first window. -/
theorem C38_window_bitmap_marks_available_frames_witness :
    ∃ (moreFramesAvailable : Bool) (alloc1 : PmmBitmapAllocator),
      PmmWatermarkAllocator_initCurrentRegion
          ⟨PmmBitmapAllocator_create NUM_BLOCKS 0,
            ⟨0 * REGION_SIZE_IN_BYTES, 0 * REGION_SIZE_IN_BYTES + 16777215⟩, scenario1Ram,
            scenario1Reserved ++ scenario1Modules⟩ =
        some (moreFramesAvailable,
          ⟨alloc1, ⟨0 * REGION_SIZE_IN_BYTES, 0 * REGION_SIZE_IN_BYTES + 16777215⟩,
            scenario1Ram, scenario1Reserved ++ scenario1Modules⟩) ∧
      PmmWatermarkAllocator_marksAvailable alloc1 (0 * REGION_SIZE_IN_BYTES) scenario1Ram
        scenario1Reserved scenario1Modules :=
  (C38_window_bitmap_marks_available_frames scenario1Ram scenario1Reserved scenario1Modules
    (PmmBitmapAllocator_create NUM_BLOCKS 0) 0 (by decide) (by decide) (by decide)
    (by decide)).2.1

set_option maxRecDepth 100000 in
/-- C39. `REGION_SIZE_IN_BYTES × 256 = 2^32`. For all RAM and reserved lists
of valid regions, the allocator is created on the window of index 0, and
every sequence of calls of `PmmWatermarkAllocator_allocate` on it returns,
with the allocator on the window of some index below 256.
`PmmRegion_advance` moves the window of index `k` to the window of index
`k + 1`, and fails exactly at `k = 255`; a turn of the retry loop with no
frame in hand returns at `k = 255`, and otherwise initialises the window of
index `k + 1` and goes on from there. For every valid region that overlaps
the window of index `k`, the loops of `PmmWatermarkAllocator_freeRegion` and
`PmmWatermarkAllocator_allocateRegion` take one turn for each frame of the
clipped region, in increasing order, each frame once, and none of them
beyond the end of the address space; in the region that ends at
`MAX_PHYS_ADDR` the walk stops after the frame at 0xFFFFF000, where
`PmmRegion_advance` fails. -/
theorem C39_allocate_terminates (ram res : List PmmRegion) (r : PmmRegion)
    (alloc : PmmBitmapAllocator) (k n : Nat)
    (hram : ∀ x ∈ ram, PmmRegion_valid x) (hres : ∀ x ∈ res, PmmRegion_valid x)
    (hr : PmmRegion_valid r) (hk : k < 256) :
    REGION_SIZE_IN_BYTES * 256 = 4294967296 ∧
    (∃ (st : PmmWatermarkAllocator) (results : List Nat) (st' : PmmWatermarkAllocator)
        (k' : Nat),
      PmmWatermarkAllocator_create ram res = some st ∧
      st.m_currentRegion = PmmWatermarkAllocator_window 0 ∧
      PmmWatermarkAllocator_allocateMany n st = some (results, st') ∧ results.length = n ∧
      k' < 256 ∧ st'.m_currentRegion = PmmWatermarkAllocator_window k') ∧
    PmmRegion_advance (PmmWatermarkAllocator_window k) =
      (if k = 255 then (false, PmmWatermarkAllocator_window k)
        else (true, PmmWatermarkAllocator_window (k + 1))) ∧
    (∀ (st : PmmWatermarkAllocator) (fuel : Nat),
      st.m_currentRegion = PmmWatermarkAllocator_window k →
      PmmWatermarkAllocator_allocateLoop (fuel + 1) PHYS_NULL st =
        if k = 255 then some (PHYS_NULL, st)
        else
          match PmmWatermarkAllocator_initCurrentRegion
              { st with m_currentRegion := PmmWatermarkAllocator_window (k + 1) } with
          | none => none
          | some (true, this1) =>
            match PmmBitmapAllocator_allocate this1.m_regionBitmapAllocator with
            | none => none
            | some (frameAddr1, alloc1) =>
              PmmWatermarkAllocator_allocateLoop fuel frameAddr1
                { this1 with m_regionBitmapAllocator := alloc1 }
          | some (false, this1) => some (PHYS_NULL, this1)) ∧
    (∀ region2 : PmmRegion,
      PmmRegion_clip (PmmRegion_makePageAligned r) (PmmWatermarkAllocator_window k) =
        (true, region2) →
      PmmWatermarkAllocator_frameWalk region2 FRAME_WALK_FUEL
          (PmmRegion_create (PmmRegion_base region2) PAGE_SIZE) =
        some (List.range' region2.m_base
          ((region2.m_last + 1 - region2.m_base) / 4096) 4096) ∧
      PmmWatermarkAllocator_freeRegion alloc (PmmWatermarkAllocator_window k) r =
        some (true, (List.range' region2.m_base
          ((region2.m_last + 1 - region2.m_base) / 4096) 4096).foldl
            PmmWatermarkAllocator_freeFrame alloc) ∧
      PmmWatermarkAllocator_allocateRegion alloc (PmmWatermarkAllocator_window k) r =
        some ((List.range' region2.m_base
          ((region2.m_last + 1 - region2.m_base) / 4096) 4096).foldl
            PmmWatermarkAllocator_allocateFrame alloc) ∧
      (List.range' region2.m_base
        ((region2.m_last + 1 - region2.m_base) / 4096) 4096).Nodup ∧
      (∀ a : Nat, a ∈ List.range' region2.m_base
          ((region2.m_last + 1 - region2.m_base) / 4096) 4096 ↔
        a % 4096 = 0 ∧ region2.m_base ≤ a ∧ a ≤ region2.m_last) ∧
      (List.range' region2.m_base
        ((region2.m_last + 1 - region2.m_base) / 4096) 4096).getLast? =
          some (region2.m_last - 4095) ∧
      region2.m_last ≤ MAX_PHYS_ADDR) ∧
    PmmRegion_clip (PmmRegion_makePageAligned ⟨0xFFFFE001, MAX_PHYS_ADDR⟩)
        (PmmWatermarkAllocator_window 255) = (true, ⟨0xFFFFE000, MAX_PHYS_ADDR⟩) ∧
    PmmWatermarkAllocator_frameWalk ⟨0xFFFFE000, MAX_PHYS_ADDR⟩ FRAME_WALK_FUEL
        (PmmRegion_create 0xFFFFE000 PAGE_SIZE) = some [0xFFFFE000, 0xFFFFF000] ∧
    PmmRegion_advance (PmmRegion_create 0xFFFFF000 PAGE_SIZE) =
      (false, PmmRegion_create 0xFFFFF000 PAGE_SIZE) := by
  have hB : k * 16777216 % 16777216 = 0 := by omega
  have hfit : k * 16777216 + 16777216 ≤ 4294967296 := by omega
  have hnext : PmmWatermarkAllocator_window (k + 1) =
      ⟨k * 16777216 + 16777216, k * 16777216 + 16777216 + 16777215⟩ := by
    rw [PmmWatermarkAllocator_window_eq]
    apply PmmRegion_mk_congr <;> omega
  have hadv : PmmRegion_advance (PmmWatermarkAllocator_window k) =
      (if k = 255 then (false, PmmWatermarkAllocator_window k)
        else (true, PmmWatermarkAllocator_window (k + 1))) := by
    rw [hnext, PmmWatermarkAllocator_window_eq, PmmRegion_advance_window hB hfit]
    by_cases h255 : k = 255
    · rw [if_pos h255, if_pos (by omega)]
    · rw [if_neg h255, if_neg (by omega)]
  refine ⟨by decide, ?_, hadv, ?_, ?_, by decide, by decide, by decide⟩
  · obtain ⟨alloc0, h1, h2, _, _⟩ := PmmWatermarkAllocator_create_spec hram hres
    obtain ⟨results, st', B', i1, i2, _, i4⟩ := allocateMany_shape n _ 0 h2
    have hB' := i2.2.1.2.2.2.1
    have hfit' := i2.2.1.2.2.2.2
    refine ⟨_, results, st', B' / 16777216, h1, ?_, i1, i4, by omega, ?_⟩
    · rw [PmmWatermarkAllocator_window_eq]
    · rw [i2.1, PmmWatermarkAllocator_window_eq]
      apply PmmRegion_mk_congr <;> omega
  · intro st fuel hcur
    rw [PmmWatermarkAllocator_allocateLoop_succ, if_pos rfl, hcur, hadv]
    by_cases h255 : k = 255
    · rw [if_pos h255, if_pos h255]
    · rw [if_neg h255, if_neg h255]
  · intro region2 hclip
    rw [PmmWatermarkAllocator_window_eq] at hclip ⊢
    obtain ⟨w1, w2, w3⟩ := PmmWatermarkAllocator_region_walk hB hfit hr hclip alloc
    obtain ⟨_, c2, c3, c4, c5, c6, _⟩ := PmmRegion_clip_aligned hB hr hclip
    obtain ⟨f1, f2, f3⟩ := PmmWatermarkAllocator_frameWalk_frames c2 c3 c5
    refine ⟨w1, w2, w3, f1, f2, f3, ?_⟩
    simp only [MAX_PHYS_ADDR]
    omega

/-- C39 on the lists of scenario 1, three calls, and the second RAM region
of the scenario in the window of index 1. -/
theorem C39_allocate_terminates_witness :
    ∃ (st : PmmWatermarkAllocator) (results : List Nat) (st' : PmmWatermarkAllocator)
        (k' : Nat),
      PmmWatermarkAllocator_create scenario1Ram scenario1Reserved = some st ∧
      st.m_currentRegion = PmmWatermarkAllocator_window 0 ∧
      PmmWatermarkAllocator_allocateMany 3 st = some (results, st') ∧ results.length = 3 ∧
      k' < 256 ∧ st'.m_currentRegion = PmmWatermarkAllocator_window k' :=
  (C39_allocate_terminates scenario1Ram scenario1Reserved ⟨0x00100000, 0x07FFFFFF⟩
    (PmmBitmapAllocator_create NUM_BLOCKS 0x1000000) 1 3 (by decide) (by decide) (by decide)
    (by decide)).2.1

set_option maxRecDepth 100000 in
/-- C40. For all RAM and reserved lists of valid regions in which no two
regions of the RAM list touch the same page frame, for every window `k` of the
256 and whatever the bitmap held before, the initialisation of the window in
a checked build runs through without a failing assertion of the bitmap
allocator and gives the result of `PmmWatermarkAllocator_initCurrentRegion`.
A result of the checked `PmmBitmapAllocator_free` means that the frame
address is not `PHYS_NULL`, is page-aligned, has a frame number not below the
base of the allocator and a block index below the number of blocks, which is
`NUM_BLOCKS` in the allocator of a window, and that the bit of the frame was
clear; the same, without the condition on the bit, for the checked
`PmmBitmapAllocator_allocateFrame`. With the RAM regions `[0x1000, 0x17FF]`
and `[0x1800, 0x1FFF]`, which touch the same page frame, the frame at 0x1000
is freed twice and the assertion fails, while the initialisation without
the assertions returns. -/
theorem C40_window_init_passes_bitmap_assertions (ram res : List PmmRegion)
    (alloc : PmmBitmapAllocator) (k : Nat)
    (hram : ∀ r ∈ ram, PmmRegion_valid r) (hres : ∀ r ∈ res, PmmRegion_valid r)
    (hk : k < 256) (hapart : PmmRegion_framesApart ram) :
    (∃ result : Bool × PmmWatermarkAllocator,
      PmmWatermarkAllocator_initCurrentRegion_checked
          ⟨alloc, PmmWatermarkAllocator_window k, ram, res⟩ = some result ∧
      PmmWatermarkAllocator_initCurrentRegion
          ⟨alloc, PmmWatermarkAllocator_window k, ram, res⟩ = some result) ∧
    (∀ (this this1 : PmmBitmapAllocator) (frameAddr : Nat),
      PmmBitmapAllocator_free_checked this frameAddr = some this1 →
      frameAddr ≠ PHYS_NULL ∧ MM_isFrameAligned frameAddr = true ∧
        MM_getFrameNumber frameAddr ≥ this.m_baseFrameNumber ∧
        PmmBitmapAllocator_getBlockNumberForFrameNumber this (MM_getFrameNumber frameAddr)
          < this.m_numBlocks ∧
        KMem_isBitSet
          (this.m_bitmap.getD
            (PmmBitmapAllocator_getBlockNumberForFrameNumber this
              (MM_getFrameNumber frameAddr)) 0)
          (PmmBitmapAllocator_getBitInBlockForFrameNumber (MM_getFrameNumber frameAddr))
            = false ∧
        this1 = PmmBitmapAllocator_free this frameAddr) ∧
    (∀ (this : PmmBitmapAllocator) (frameAddr : Nat) (result : Nat × PmmBitmapAllocator),
      PmmBitmapAllocator_allocateFrame_checked this frameAddr = some result →
      frameAddr ≠ PHYS_NULL ∧ MM_isFrameAligned frameAddr = true ∧
        MM_getFrameNumber frameAddr ≥ this.m_baseFrameNumber ∧
        PmmBitmapAllocator_getBlockNumberForFrameNumber this (MM_getFrameNumber frameAddr)
          < this.m_numBlocks ∧
        result = PmmBitmapAllocator_allocateFrame this frameAddr) ∧
    (PmmBitmapAllocator_create_checked NUM_BLOCKS
        (PmmRegion_base (PmmWatermarkAllocator_window k))).map (fun a => a.m_numBlocks) =
      some NUM_BLOCKS ∧
    PmmWatermarkAllocator_initCurrentRegion_checked
        ⟨PmmBitmapAllocator_create NUM_BLOCKS 0, PmmWatermarkAllocator_window 0,
          [⟨0x1000, 0x17FF⟩, ⟨0x1800, 0x1FFF⟩], []⟩ = none ∧
    (PmmWatermarkAllocator_initCurrentRegion
        ⟨PmmBitmapAllocator_create NUM_BLOCKS 0, PmmWatermarkAllocator_window 0,
          [⟨0x1000, 0x17FF⟩, ⟨0x1800, 0x1FFF⟩], []⟩).isSome = true ∧
    PmmBitmapAllocator_free_checked
        (PmmBitmapAllocator_free (PmmBitmapAllocator_create NUM_BLOCKS 0) 0x1000) 0x1000
      = none := by
  have hB : k * 16777216 % 16777216 = 0 := by omega
  have hfit : k * 16777216 + 16777216 ≤ 4294967296 := by omega
  have hcreate : PmmBitmapAllocator_create_checked NUM_BLOCKS (k * 16777216) =
      some (PmmBitmapAllocator_create NUM_BLOCKS (k * 16777216)) := by
    unfold PmmBitmapAllocator_create_checked
    rw [if_pos ⟨by decide, (MM_isFrameAligned_iff _).2 (by omega)⟩]
  refine ⟨?_, fun _ _ _ h => free_checked_some h, fun _ _ _ h => allocateFrame_checked_some h,
    ?_, by decide, by decide, by decide⟩
  · rw [PmmWatermarkAllocator_window_eq]
    obtain ⟨alloc1, h1, _⟩ := initCurrentRegion_spec
      ⟨alloc, ⟨k * 16777216, k * 16777216 + 16777215⟩, ram, res⟩ rfl hB hfit hram hres
    exact ⟨_, (initCurrentRegion_checked_eq _ rfl hB hfit hram hres hapart).trans h1, h1⟩
  · rw [PmmWatermarkAllocator_window_eq]
    simp only [PmmRegion_base]
    rw [hcreate]
    rfl

/-- C40 on the lists of scenario 1, in the window of index 0. -/
theorem C40_window_init_passes_bitmap_assertions_witness :
    ∃ result : Bool × PmmWatermarkAllocator,
      PmmWatermarkAllocator_initCurrentRegion_checked
          ⟨PmmBitmapAllocator_create NUM_BLOCKS 0, PmmWatermarkAllocator_window 0,
            scenario1Ram, scenario1Reserved⟩ = some result ∧
      PmmWatermarkAllocator_initCurrentRegion
          ⟨PmmBitmapAllocator_create NUM_BLOCKS 0, PmmWatermarkAllocator_window 0,
            scenario1Ram, scenario1Reserved⟩ = some result :=
  (C40_window_init_passes_bitmap_assertions scenario1Ram scenario1Reserved
    (PmmBitmapAllocator_create NUM_BLOCKS 0) 0 (by decide) (by decide) (by decide)
    (PmmRegion_framesApart_of_disjoint (by decide))).1

end Precursor
